import Mathlib

/-! # CoarseGrainSites: the coarse-graining engine `mythical::CoarseGrainSystem`

A shallow embedding of `src/libmythical/coarsegrainsystem.cpp`.

* `double` values are modelled by rationals (`ℚ`), an exact ordered field; the two
  quotients of `createCluster_`, whose divisors can be 0, are formed in `DoubleValue`,
  which has the infinities and NaN.
* `int` values are modelled by `Int`; the places where the sources do arithmetic on
  `int`s (`++iteration_`, `iteration_threshold_ *= 2`, the sum of two visit counts in
  `getVisitFrequencyOfSite`, the converter of the performance test) go through
  `wrapInt`, the 32-bit two's-complement wrap.
* `unordered_map<int, T>` is modelled by an association list `List (Int × T)`
  (see `Table`); statements never depend on the enumeration order beyond what
  the list itself fixes.
* Exceptions are modelled by `Except Exception`.
* Classes whose code is not part of the sources (`Site`, `Cluster`, the two
  containers, `BasinExplorer`, the graph library, `constants.hpp`) are modelled
  from the specification; each such definition says so in its doc comment.
-/

namespace mythical

/-! ## Machine integers, exceptions, tables -/

/-- The value of a 32-bit two's-complement `int` holding the mathematical integer `x`. -/
def wrapInt (x : Int) : Int := (x + 2147483648) % 4294967296 - 2147483648

/-- Largest value of a 32-bit `int`. -/
def INT_MAX : Int := 2147483647

/-- Smallest value of a 32-bit `int`. -/
def INT_MIN : Int := -2147483648

/-- The value of a 64-bit `unsigned long` holding the natural number `x`. -/
def wrapULong (x : Nat) : Nat := x % 18446744073709551616

/-- The quotient `a / b` of two `int`s, which truncates towards 0; `none` where the
division has no result and the program is stopped: a division by 0, or of the least
`int` by -1. -/
def intDiv (a b : Int) : Option Int :=
  if b = 0 ∨ (a = INT_MIN ∧ b = -1) then none else some (Int.tdiv a b)

/-- The remainder `a % b` of two `int`s, with the sign of `a`; `none` where the division
has no result. -/
def intMod (a b : Int) : Option Int :=
  if b = 0 ∨ (a = INT_MIN ∧ b = -1) then none else some (Int.tmod a b)

/-- A `double` as a division of two numbers leaves it: a number, `+inf` or `-inf`, or
NaN. -/
inductive DoubleValue where
  | number (value : ℚ)
  | infinity (positive : Bool)
  | nan
  deriving DecidableEq, Repr

namespace DoubleValue

/-- The quotient `a / b` of two doubles that are numbers. A divisor of 0 (it is `+0.0`
where the engine divides) gives the infinity with the sign of `a`, and NaN when `a` is 0
as well. -/
def divide (a b : ℚ) : DoubleValue :=
  if b = 0 then (if a = 0 then nan else infinity (decide (0 < a))) else number (a / b)

/-- The comparison `x < y` of two doubles; it is false when one of them is NaN. -/
def lt : DoubleValue → DoubleValue → Bool
  | number a, number b => decide (a < b)
  | number _, infinity positive => positive
  | infinity positive, number _ => !positive
  | infinity positive, infinity positive2 => !positive && positive2
  | nan, _ => false
  | _, nan => false

/-- The rational of a double that is a number. An infinity and NaN have no counterpart
among the rationals; they are given as 0. -/
def toRational : DoubleValue → ℚ
  | number value => value
  | infinity _ => 0
  | nan => 0

end DoubleValue

/-- The failures the engine can end in. The first two are the C++ exceptions the
sources throw; the last three are fatal accesses to a missing site, a missing
cluster, or a null `TopologyFeature*`. -/
inductive Exception where
  | runtime_error
  | invalid_argument
  | unknown_site
  | unknown_cluster
  | null_feature
  deriving DecidableEq, Repr

/-- The outcome of a call that may throw. -/
abbrev Result (α : Type) := Except Exception α

/-- Outcomes can be compared when their values can. -/
instance instDecidableEqResult {α : Type} [DecidableEq α] : DecidableEq (Result α)
  | .ok a, .ok b => if h : a = b then isTrue (by rw [h]) else isFalse (fun h2 => h (Except.ok.inj h2))
  | .error a, .error b =>
    if h : a = b then isTrue (by rw [h]) else isFalse (fun h2 => h (Except.error.inj h2))
  | .ok _, .error _ => isFalse (fun h => by cases h)
  | .error _, .ok _ => isFalse (fun h => by cases h)

namespace Table

/-- Lookup in an `unordered_map<int, T>`. -/
def find {β : Type} : List (Int × β) → Int → Option β
  | [], _ => none
  | (k, v) :: rest, key => if k = key then some v else find rest key

/-- The assignment `m[key] = v` (insert, or overwrite in place). -/
def assign {β : Type} : List (Int × β) → Int → β → List (Int × β)
  | [], key, v => [(key, v)]
  | (k, w) :: rest, key, v => if k = key then (key, v) :: rest else (k, w) :: assign rest key v

/-- The removal `m.erase(key)`. -/
def erase {β : Type} : List (Int × β) → Int → List (Int × β)
  | [], _ => []
  | (k, w) :: rest, key => if k = key then erase rest key else (k, w) :: erase rest key

/-- The keys of the map, in enumeration order. -/
def keys {β : Type} (m : List (Int × β)) : List Int := m.map Prod.fst

end Table

/-! ## Constants -/

namespace constants

/-- Modelled from the spec: `constants::unassignedId` of `mythical/constants.hpp`, which
is not among the sources. The spec names the value `UNASSIGNED`, "sentinel, e.g. -1". -/
def unassignedId : Int := -1

/-- Modelled from the spec: `constants::inf_iterations` of `mythical/constants.hpp`, which
is not among the sources. The spec calls it the `+∞` threshold; for an `int` that is the
largest representable value. -/
def inf_iterations : Int := INT_MAX

end constants

/-! ## Sites, clusters, walkers -/

/-- Modelled from the spec: the class `Site` (`topologyfeatures/site.hpp` is not among the
sources). A site has an id, outgoing rates to its neighbours, a cluster id, a visit
counter and an occupation flag; `seed` is the random seed handed to it, if any, and
`draws` counts the random numbers drawn from its generator so far. -/
structure Site where
  id : Int
  neighbors : List (Int × ℚ)
  cluster_id : Int
  visit_frequency : Int
  occupied : Bool
  seed : Option Nat
  draws : Nat
  deriving DecidableEq, Repr

/-- Modelled from the spec: the class `Cluster` (`topologyfeatures/cluster.hpp` is not among
the sources). A cluster has an id, its member sites, a resolution, the escape time
constant of the last master-equation solve, per-member visit counts, a seed and the
number of random draws made so far. -/
structure Cluster where
  id : Int
  members : List Int
  resolution : ℚ
  time_constant : ℚ
  visits : List (Int × Int)
  seed : Option Nat
  draws : Nat
  deriving DecidableEq, Repr

/-- What a `TopologyFeature*` of the dispatch table points to: the `Site` with the given
id inside the site container, or the `Cluster` with the given id inside the cluster
container. A null pointer is modelled by the absence of an entry. -/
inductive Feature where
  | site (id : Int)
  | cluster (id : Int)
  deriving DecidableEq, Repr

/-- The class `Walker` (`walker.cpp`). A dwell time of `none` stands for `+∞`. -/
structure Walker where
  current_site_ : Int
  potential_site_ : Int
  dwell_time_ : Option ℚ
  deriving DecidableEq, Repr

namespace Walker

/-- The constructor `Walker::Walker()`. -/
def new : Walker :=
  { current_site_ := constants.unassignedId
    potential_site_ := constants.unassignedId
    dwell_time_ := some (-1) }

/-- The getter `Walker::getIdOfSiteCurrentlyOccupying`. -/
def getIdOfSiteCurrentlyOccupying (w : Walker) : Result Int :=
  if w.current_site_ = constants.unassignedId then .error .runtime_error
  else .ok w.current_site_

/-- The getter `Walker::getPotentialSite`. -/
def getPotentialSite (w : Walker) : Result Int :=
  if w.potential_site_ = constants.unassignedId then .error .runtime_error
  else .ok w.potential_site_

/-- The setter `Walker::occupySite` (declared in `walker.hpp`). -/
def occupySite (w : Walker) (siteId : Int) : Walker := { w with current_site_ := siteId }

/-- The setter `Walker::setDwellTime` (declared in `walker.hpp`). -/
def setDwellTime (w : Walker) (t : Option ℚ) : Walker := { w with dwell_time_ := t }

/-- The setter `Walker::setPotentialSite` (declared in `walker.hpp`). -/
def setPotentialSite (w : Walker) (siteId : Int) : Walker := { w with potential_site_ := siteId }

end Walker

/-- Modelled from the spec: the collaborators of the engine whose code is not among the
sources, taken as parameters. `findBasin` is `BasinExplorer::findBasin`;
`maxMinimumDistanceBetweenEveryVertex` is the graph library's all-pairs computation on
the graph `getInternalTimeLimit_` builds from the candidate sites; `solveMasterEquation`
is the escape time constant `Cluster::updateProbabilitiesAndTimeConstant` computes
for a membership; the remaining four are the random draws of sites and clusters
(`getDwellTime`, `pickNewSiteId`), functions of the feature's current state. A cluster's
`pickNewSiteId` yields the interior member it picked and the site it returns. -/
structure Collaborators where
  findBasin : List (Int × Site) → List (Int × Cluster) → Int → List Int
  maxMinimumDistanceBetweenEveryVertex : List (Int × Site) → List Int → List ((Int × Int) × ℚ)
  solveMasterEquation : List (Int × Site) → List Int → ℚ
  siteDwellTime : Site → Int → Option ℚ
  sitePickNewSiteId : Site → Int → Int
  clusterDwellTime : Cluster → Int → Option ℚ
  clusterPickNewSiteId : Cluster → Int → Int × Int

/-! ## The engine state -/

/-- The data members of `CoarseGrainSystem`. `cluster_id_count_` is the counter from which
the `Cluster` constructor takes the id of a new cluster (modelled from the spec: cluster
ids are "engine-assigned, monotonically allocated"). `coarse_grain_calls_` is a history
variable, not a member of the class: for every call of `coarseGrain_` that `hop` has made
and that has returned, oldest first, the site it was called on and the flag it returned. -/
structure CoarseGrainSystem where
  performance_ratio_ : ℚ
  seed_set_ : Bool
  seed_ : Nat
  time_resolution_set_ : Bool
  time_resolution_ : ℚ
  minimum_coarse_graining_resolution_ : Int
  iteration_ : Int
  iteration_threshold_ : Int
  iteration_threshold_min_ : Int
  sites_ : List (Int × Site)
  clusters_ : List (Int × Cluster)
  topology_features_ : List (Int × Feature)
  cluster_id_count_ : Int
  coarse_grain_calls_ : List (Int × Bool)
  deriving DecidableEq, Repr

namespace CoarseGrainSystem

/-- The constructor `CoarseGrainSystem::CoarseGrainSystem()`. The time resolution is not
initialised by the constructor; the model starts it at 0 with `time_resolution_set_`
false. -/
def new : CoarseGrainSystem :=
  { performance_ratio_ := 1
    seed_set_ := false
    seed_ := 0
    time_resolution_set_ := false
    time_resolution_ := 0
    minimum_coarse_graining_resolution_ := 2
    iteration_ := 0
    iteration_threshold_ := 1000
    iteration_threshold_min_ := 1000
    sites_ := []
    clusters_ := []
    topology_features_ := []
    cluster_id_count_ := 0
    coarse_grain_calls_ := [] }

/-- The setter `CoarseGrainSystem::setMinCoarseGrainIterationThreshold`. -/
def setMinCoarseGrainIterationThreshold (s : CoarseGrainSystem) (threshold_min : Int) :
    CoarseGrainSystem :=
  { s with iteration_threshold_min_ := threshold_min, iteration_threshold_ := threshold_min }

/-! ### The site container -/

/-- Modelled from the spec: `Site_Container::getSite`; accessing a site that does not
exist is fatal. -/
def getSite (s : CoarseGrainSystem) (siteId : Int) : Result Site :=
  match Table.find s.sites_ siteId with
  | some site => .ok site
  | none => .error .unknown_site

/-- Modelled from the spec: `Site_Container::partOfCluster`. -/
def partOfCluster (s : CoarseGrainSystem) (siteId : Int) : Result Bool := do
  let site ← s.getSite siteId
  pure (decide (site.cluster_id ≠ constants.unassignedId))

/-- Modelled from the spec: `Site_Container::getClusterIdOfSite`. -/
def getClusterIdOfSite (s : CoarseGrainSystem) (siteId : Int) : Result Int := do
  let site ← s.getSite siteId
  pure site.cluster_id

/-- Modelled from the spec: `Site_Container::setClusterId`. -/
def setClusterId (s : CoarseGrainSystem) (siteId clusterId : Int) : Result CoarseGrainSystem := do
  let site ← s.getSite siteId
  pure { s with sites_ := Table.assign s.sites_ siteId { site with cluster_id := clusterId } }

/-! ### The equilibrium test -/

/-- The inner loop of `getTimeConstantFromSitesToNeighbors_` over the neighbours of one
site: the rates to neighbours outside `internalSiteIds` are added to `sumRates`. -/
def addRatesOffSite (internalSiteIds : List Int) (sumRates : ℚ) : List (Int × ℚ) → ℚ
  | [] => sumRates
  | (neighId, rate) :: rest =>
    if neighId ∈ internalSiteIds then addRatesOffSite internalSiteIds sumRates rest
    else addRatesOffSite internalSiteIds (sumRates + rate) rest

/-- The outer loop of `getTimeConstantFromSitesToNeighbors_` over the candidate sites. -/
def sumRatesOffSites (s : CoarseGrainSystem) (internalSiteIds : List Int) (sumRates : ℚ) :
    List Int → Result ℚ
  | [] => .ok sumRates
  | siteId :: rest => do
    let site ← s.getSite siteId
    sumRatesOffSites s internalSiteIds (addRatesOffSite internalSiteIds sumRates site.neighbors) rest

/-- The member `CoarseGrainSystem::getTimeConstantFromSitesToNeighbors_`. -/
def getTimeConstantFromSitesToNeighbors_ (s : CoarseGrainSystem) (siteIds : List Int) :
    Result ℚ := do
  let sumRates ← sumRatesOffSites s siteIds 0 siteIds
  if sumRates = 0 then pure 0 else pure (1 / sumRates)

/-- The member `CoarseGrainSystem::sitesSatisfyEquilibriumCondition_`. -/
def sitesSatisfyEquilibriumCondition_ (s : CoarseGrainSystem) (siteIds : List Int)
    (maxtime : ℚ) : Result Bool := do
  let timeConstant ← s.getTimeConstantFromSitesToNeighbors_ siteIds
  let time_to_traverse_cluster := maxtime * (s.minimum_coarse_graining_resolution_ : ℚ)
  pure (decide (timeConstant > time_to_traverse_cluster * s.performance_ratio_)
    && decide (time_to_traverse_cluster < s.time_resolution_))

/-- The member `CoarseGrainSystem::getInternalTimeLimit_`: the largest of the times the
graph library reports for the pairs of vertices, and 0 when there is none larger. -/
def getInternalTimeLimit_ (env : Collaborators) (s : CoarseGrainSystem) (siteIds : List Int) : ℚ :=
  (env.maxMinimumDistanceBetweenEveryVertex s.sites_ siteIds).foldl
    (fun maxtime verticesAndTime => if verticesAndTime.2 > maxtime then verticesAndTime.2 else maxtime) 0

/-! ### Clusters of the candidate sites -/

/-- The loop of `getClustersOfSites`, filling the map `sites_and_clusters`. -/
def getClustersOfSitesLoop (s : CoarseGrainSystem) (sites_and_clusters : List (Int × Int)) :
    List Int → Result (List (Int × Int))
  | [] => .ok sites_and_clusters
  | siteId :: rest => do
    if (← s.partOfCluster siteId) then
      let clusterId ← s.getClusterIdOfSite siteId
      getClustersOfSitesLoop s (Table.assign sites_and_clusters siteId clusterId) rest
    else
      getClustersOfSitesLoop s (Table.assign sites_and_clusters siteId constants.unassignedId) rest

/-- The member `CoarseGrainSystem::getClustersOfSites`: site id to cluster id. -/
def getClustersOfSites (s : CoarseGrainSystem) (siteIds : List Int) : Result (List (Int × Int)) :=
  getClustersOfSitesLoop s [] siteIds

end CoarseGrainSystem

/-- The free function `countUniqueClusters`: the size of the `set<int>` of the cluster ids
that occur in the map (the unassigned sentinel counts as one of them). -/
def countUniqueClusters (sites_and_clusters : List (Int × Int)) : Nat :=
  (sites_and_clusters.foldl
    (fun (clusters : Finset Int) site_and_cluster => insert site_and_cluster.2 clusters) ∅).card

/-- The free function `getFavoredClusterId`. -/
def getFavoredClusterId (sites_and_clusters : List (Int × Int)) : Int :=
  sites_and_clusters.foldl
    (fun clusterId site_and_cluster =>
      if site_and_cluster.2 ≠ constants.unassignedId then
        if clusterId = constants.unassignedId ∨ site_and_cluster.2 < clusterId then
          site_and_cluster.2
        else clusterId
      else clusterId)
    constants.unassignedId

namespace Site

/-- Modelled from the spec: the constructor `Site::Site()`: no neighbours, no cluster
(`cluster_id` is initially unassigned), no visits, not occupied, no seed. -/
def new : Site :=
  { id := constants.unassignedId, neighbors := [], cluster_id := constants.unassignedId,
    visit_frequency := 0, occupied := false, seed := none, draws := 0 }

/-- Modelled from the spec: `Site::setId`. -/
def setId (site : Site) (id : Int) : Site := { site with id := id }

/-- Modelled from the spec: `Site::setRatesToNeighbors` stores the outgoing rates. -/
def setRatesToNeighbors (site : Site) (rates : List (Int × ℚ)) : Site :=
  { site with neighbors := rates }

/-- Modelled from the spec: `Site::setRandomSeed` seeds the generator of the site. -/
def setRandomSeed (site : Site) (seed : Nat) : Site := { site with seed := some seed, draws := 0 }

end Site

namespace Cluster

/-- Modelled from the spec: the constructor `Cluster::Cluster()`, given the id the engine
allocates to it. -/
def new (id : Int) : Cluster :=
  { id := id, members := [], resolution := 20, time_constant := 0, visits := [], seed := none,
    draws := 0 }

/-- Modelled from the spec: `Cluster::addSites` extends the members by the given sites. -/
def addSites (c : Cluster) (sites : List Site) : Cluster :=
  { c with members := c.members ++ sites.map Site.id }

/-- Modelled from the spec: `Cluster::updateProbabilitiesAndTimeConstant` solves the master
equation for the current members; the model keeps the escape time constant. -/
def updateProbabilitiesAndTimeConstant (env : Collaborators) (sites : List (Int × Site))
    (c : Cluster) : Cluster :=
  { c with time_constant := env.solveMasterEquation sites c.members }

/-- Modelled from the spec: `Cluster::setResolution`. -/
def setResolution (c : Cluster) (resolution : ℚ) : Cluster := { c with resolution := resolution }

/-- Modelled from the spec: `Cluster::setRandomSeed`. -/
def setRandomSeed (c : Cluster) (seed : Nat) : Cluster := { c with seed := some seed, draws := 0 }

/-- Modelled from the spec: `Cluster::migrateSitesFrom` moves every member of `other` into
the cluster and then recomputes. The result is the cluster and what is left of `other`. -/
def migrateSitesFrom (env : Collaborators) (sites : List (Int × Site)) (c other : Cluster) :
    Cluster × Cluster :=
  (updateProbabilitiesAndTimeConstant env sites { c with members := c.members ++ other.members },
   { other with members := [] })

/-- Modelled from the spec: `Cluster::getVisitFrequency(siteId)`: the visit count the cluster
holds for the member; 0 when it holds none. -/
def getVisitFrequency (c : Cluster) (siteId : Int) : Int :=
  (Table.find c.visits siteId).getD 0

end Cluster

namespace CoarseGrainSystem

/-! ### The cluster container and the dispatch table -/

/-- Modelled from the spec: `Cluster_Container::getCluster`; a missing cluster is fatal. -/
def getCluster (s : CoarseGrainSystem) (clusterId : Int) : Result Cluster :=
  match Table.find s.clusters_ clusterId with
  | some cluster => .ok cluster
  | none => .error .unknown_cluster

/-- Modelled from the spec: `Cluster_Container::addCluster` stores the cluster under its id. -/
def addCluster (s : CoarseGrainSystem) (cluster : Cluster) : CoarseGrainSystem :=
  { s with clusters_ := Table.assign s.clusters_ cluster.id cluster }

/-- The write through the reference `clusters_->getCluster(clusterId)`: the cluster stored
under `clusterId` is replaced by `cluster`. -/
def setCluster (s : CoarseGrainSystem) (clusterId : Int) (cluster : Cluster) : CoarseGrainSystem :=
  { s with clusters_ := Table.assign s.clusters_ clusterId cluster }

/-- Modelled from the spec: `Cluster_Container::erase`. -/
def eraseCluster (s : CoarseGrainSystem) (clusterId : Int) : CoarseGrainSystem :=
  { s with clusters_ := Table.erase s.clusters_ clusterId }

/-- The assignment `topology_features_[siteId] = &(clusters_->getCluster(clusterId))`. -/
def dispatchToCluster (s : CoarseGrainSystem) (siteId clusterId : Int) :
    Result CoarseGrainSystem := do
  let _ ← s.getCluster clusterId
  pure { s with topology_features_ := Table.assign s.topology_features_ siteId (Feature.cluster clusterId) }

/-- The dereference of `topology_features_[siteId]`: a missing entry is a null pointer. -/
def getFeature (s : CoarseGrainSystem) (siteId : Int) : Result Feature :=
  match Table.find s.topology_features_ siteId with
  | some feature => .ok feature
  | none => .error .null_feature

/-! ### Creating and merging clusters -/

/-- The first loop of `createCluster_`: copies of the candidate sites. -/
def getSites (s : CoarseGrainSystem) : List Int → Result (List Site)
  | [] => .ok []
  | siteId :: rest => do
    let site ← s.getSite siteId
    let sites ← getSites s rest
    pure (site :: sites)

/-- The second loop of `createCluster_`: every candidate gets the cluster id and is
dispatched to the cluster. -/
def assignSitesToCluster (s : CoarseGrainSystem) (clusterId : Int) :
    List Int → Result CoarseGrainSystem
  | [] => .ok s
  | siteId :: rest => do
    let s1 ← s.setClusterId siteId clusterId
    let s2 ← s1.dispatchToCluster siteId clusterId
    assignSitesToCluster s2 clusterId rest

/-- The double `chosen_resolution` that `createCluster_` computes from the cluster's time
constant. With an internal time limit of 0 (a candidate list of one site) and a positive
time constant, `res` is `+inf` and the allowed resolution is chosen. -/
def chosenResolution (cluster_time_const internal_time_limit time_resolution : ℚ) :
    DoubleValue :=
  let res := DoubleValue.divide cluster_time_const (2 * internal_time_limit)
  let allowed_resolution := DoubleValue.divide cluster_time_const time_resolution
  let chosen_resolution := if allowed_resolution.lt res then allowed_resolution else res
  if chosen_resolution.lt (.number 2) then .number 2 else chosen_resolution

/-- The resolution `createCluster_` passes to `setResolution`, as a rational. It is not a
number only when the time constant and the internal time limit are both 0 (NaN) or when
the internal time limit and the time resolution are both 0 (`+inf`). -/
def chooseResolution (cluster_time_const internal_time_limit time_resolution : ℚ) : ℚ :=
  (chosenResolution cluster_time_const internal_time_limit time_resolution).toRational

/-- The member `CoarseGrainSystem::createCluster_`; the result is the id of the new
cluster and the new state. -/
def createCluster_ (env : Collaborators) (s : CoarseGrainSystem) (siteIds : List Int)
    (internal_time_limit : ℚ) : Result (Int × CoarseGrainSystem) := do
  let cluster := Cluster.new s.cluster_id_count_
  let s := { s with cluster_id_count_ := s.cluster_id_count_ + 1 }
  let sites ← s.getSites siteIds
  let cluster := cluster.addSites sites
  let cluster := cluster.updateProbabilitiesAndTimeConstant env s.sites_
  let cluster := cluster.setResolution
    (chooseResolution cluster.time_constant internal_time_limit s.time_resolution_)
  let (cluster, s) :=
    if s.seed_set_ then (cluster.setRandomSeed s.seed_, { s with seed_ := wrapULong (s.seed_ + 1) })
    else (cluster, s)
  let s := s.addCluster cluster
  let s ← s.assignSitesToCluster cluster.id siteIds
  pure (cluster.id, s)

/-- The first loop of `mergeSitesAndClusters_`: every candidate that is not in the favoured
cluster is dispatched to it and gets its id; the free ones are collected in
`isolated_sites`, the ids of the other clusters in `cluster_ids`. -/
def mergeLoop (s : CoarseGrainSystem) (favoredClusterId : Int) (isolated_sites : List Site)
    (cluster_ids : List Int) :
    List (Int × Int) → Result (CoarseGrainSystem × List Site × List Int)
  | [] => .ok (s, isolated_sites, cluster_ids)
  | (siteId, clusterId) :: rest =>
    if clusterId ≠ favoredClusterId then do
      let (isolated_sites, cluster_ids) ←
        (if clusterId = constants.unassignedId then do
          let site ← s.getSite siteId
          pure (isolated_sites ++ [site], cluster_ids)
        else pure (isolated_sites, if clusterId ∈ cluster_ids then cluster_ids else cluster_ids ++ [clusterId])
          : Result (List Site × List Int))
      let s1 ← s.dispatchToCluster siteId favoredClusterId
      let s2 ← s1.setClusterId siteId favoredClusterId
      mergeLoop s2 favoredClusterId isolated_sites cluster_ids rest
    else mergeLoop s favoredClusterId isolated_sites cluster_ids rest

/-- The last loop of `mergeSitesAndClusters_`: the members of every other cluster migrate
to the favoured one and the emptied cluster is erased. -/
def migrateLoop (env : Collaborators) (s : CoarseGrainSystem) (favoredClusterId : Int) :
    List Int → Result CoarseGrainSystem
  | [] => .ok s
  | clusterId :: rest => do
    let favored ← s.getCluster favoredClusterId
    let other ← s.getCluster clusterId
    let (favored, other) := favored.migrateSitesFrom env s.sites_ other
    let s := (s.setCluster favoredClusterId favored).setCluster clusterId other
    migrateLoop env (s.eraseCluster clusterId) favoredClusterId rest

/-- The member `CoarseGrainSystem::mergeSitesAndClusters_`. -/
def mergeSitesAndClusters_ (env : Collaborators) (s : CoarseGrainSystem)
    (sites_and_clusters : List (Int × Int)) (favoredClusterId : Int) :
    Result CoarseGrainSystem := do
  let (s, isolated_sites, cluster_ids) ← mergeLoop s favoredClusterId [] [] sites_and_clusters
  let favored ← s.getCluster favoredClusterId
  let s := s.setCluster favoredClusterId (favored.addSites isolated_sites)
  let favored ← s.getCluster favoredClusterId
  let s := s.setCluster favoredClusterId (favored.updateProbabilitiesAndTimeConstant env s.sites_)
  migrateLoop env s favoredClusterId cluster_ids

/-- The member `CoarseGrainSystem::coarseGrain_`; the result is the returned flag and the
new state. -/
def coarseGrain_ (env : Collaborators) (s : CoarseGrainSystem) (siteId : Int) :
    Result (Bool × CoarseGrainSystem) := do
  let basin_site_ids := env.findBasin s.sites_ s.clusters_ siteId
  let internal_time_limit := s.getInternalTimeLimit_ env basin_site_ids
  if (← s.sitesSatisfyEquilibriumCondition_ basin_site_ids internal_time_limit) then
    let sites_and_clusters ← s.getClustersOfSites basin_site_ids
    let number_clusters := countUniqueClusters sites_and_clusters
    if number_clusters = 1 ∧
        (sites_and_clusters.head?.map Prod.snd) = some constants.unassignedId then
      let (_, s) ← s.createCluster_ env basin_site_ids internal_time_limit
      pure (true, s)
    else if number_clusters ≠ 1 then
      let favored_clusterId := getFavoredClusterId sites_and_clusters
      let s ← s.mergeSitesAndClusters_ env sites_and_clusters favored_clusterId
      pure (true, s)
    else pure (false, s)
  else pure (false, s)

/-- A call of `coarseGrain_` that is recorded in the history `coarse_grain_calls_`. -/
def coarseGrainRecorded (env : Collaborators) (s : CoarseGrainSystem) (siteId : Int) :
    Result (Bool × CoarseGrainSystem) := do
  let (coarse_grained, s) ← s.coarseGrain_ env siteId
  pure (coarse_grained,
    { s with coarse_grain_calls_ := s.coarse_grain_calls_ ++ [(siteId, coarse_grained)] })

/-- The member `CoarseGrainSystem::getFavoredClusterId_`. -/
def getFavoredClusterId_ (s : CoarseGrainSystem) (siteIds : List Int) : Result Int :=
  go constants.unassignedId siteIds
where
  /-- The loop of `getFavoredClusterId_`. -/
  go (favoredClusterId : Int) : List Int → Result Int
    | [] => .ok favoredClusterId
    | siteId :: rest => do
      let clusterId ← s.getClusterIdOfSite siteId
      if favoredClusterId = constants.unassignedId then go clusterId rest
      else if clusterId ≠ constants.unassignedId ∧ clusterId < favoredClusterId then go clusterId rest
      else go favoredClusterId rest

/-! ### The uniform interface of sites and clusters

Modelled from the spec: sites and clusters answer the same calls (`isOccupied`, `vacate`,
`occupy`, `getDwellTime`, `pickNewSiteId`). A `Site` acts on itself; a `Cluster` acts on the
member site named in the call. Occupation is a flag of the site; `occupy` of a `Site`
also counts a visit; a cluster counts a visit of the interior member it picks in
`pickNewSiteId`. -/

/-- Applies `f` to the stored site `siteId`. -/
def modifySite (s : CoarseGrainSystem) (siteId : Int) (f : Site → Site) :
    Result CoarseGrainSystem := do
  let site ← s.getSite siteId
  pure { s with sites_ := Table.assign s.sites_ siteId (f site) }

/-- Modelled from the spec: `TopologyFeature::isOccupied(siteId)`. -/
def isOccupied (s : CoarseGrainSystem) (feature : Feature) (siteId : Int) : Result Bool :=
  match feature with
  | .site id => do
    let site ← s.getSite id
    pure site.occupied
  | .cluster id => do
    let _ ← s.getCluster id
    let site ← s.getSite siteId
    pure site.occupied

/-- Modelled from the spec: `TopologyFeature::vacate(siteId)`. -/
def vacate (s : CoarseGrainSystem) (feature : Feature) (siteId : Int) : Result CoarseGrainSystem :=
  match feature with
  | .site id => s.modifySite id (fun site => { site with occupied := false })
  | .cluster id => do
    let _ ← s.getCluster id
    s.modifySite siteId (fun site => { site with occupied := false })

/-- Modelled from the spec: `TopologyFeature::occupy(siteId)`. -/
def occupy (s : CoarseGrainSystem) (feature : Feature) (siteId : Int) : Result CoarseGrainSystem :=
  match feature with
  | .site id =>
    s.modifySite id
      (fun site => { site with occupied := true, visit_frequency := site.visit_frequency + 1 })
  | .cluster id => do
    let _ ← s.getCluster id
    s.modifySite siteId (fun site => { site with occupied := true })

/-- Modelled from the spec: `TopologyFeature::getDwellTime(walker_id)`: a draw from the
feature's generator. -/
def getDwellTime (env : Collaborators) (s : CoarseGrainSystem) (feature : Feature)
    (walker_id : Int) : Result (Option ℚ × CoarseGrainSystem) :=
  match feature with
  | .site id => do
    let site ← s.getSite id
    pure (env.siteDwellTime site walker_id,
      { s with sites_ := Table.assign s.sites_ id { site with draws := site.draws + 1 } })
  | .cluster id => do
    let cluster ← s.getCluster id
    pure (env.clusterDwellTime cluster walker_id,
      { s with clusters_ := Table.assign s.clusters_ id { cluster with draws := cluster.draws + 1 } })

/-- Modelled from the spec: `TopologyFeature::pickNewSiteId(walker_id)`: a draw from the
feature's generator. -/
def pickNewSiteId (env : Collaborators) (s : CoarseGrainSystem) (feature : Feature)
    (walker_id : Int) : Result (Int × CoarseGrainSystem) :=
  match feature with
  | .site id => do
    let site ← s.getSite id
    pure (env.sitePickNewSiteId site walker_id,
      { s with sites_ := Table.assign s.sites_ id { site with draws := site.draws + 1 } })
  | .cluster id => do
    let cluster ← s.getCluster id
    let picked := env.clusterPickNewSiteId cluster walker_id
    let count := (Table.find cluster.visits picked.1).getD 0
    let cluster := { cluster with draws := cluster.draws + 1,
                                  visits := Table.assign cluster.visits picked.1 (count + 1) }
    pure (picked.2, { s with clusters_ := Table.assign s.clusters_ id cluster })

/-! ### The walker scheduler -/

/-- The first part of `CoarseGrainSystem::hop` (up to the end of the `if`/`else` on the
occupation of the destination): the move of the walker. The result is the new state,
the walker and the local `siteToHopToId`. -/
def hopMove (env : Collaborators) (s : CoarseGrainSystem) (walker_id : Int) (walker : Walker) :
    Result (CoarseGrainSystem × Walker × Int) := do
  let siteId ← walker.getIdOfSiteCurrentlyOccupying
  let siteToHopToId ← walker.getPotentialSite
  let feature ← s.getFeature siteId
  let feature_to_hop_to ← s.getFeature siteToHopToId
  if !(← s.isOccupied feature_to_hop_to siteToHopToId) then
    let s ← s.vacate feature siteId
    let s ← s.occupy feature_to_hop_to siteToHopToId
    let walker := walker.occupySite siteToHopToId
    let (dwell, s) ← s.getDwellTime env feature_to_hop_to walker_id
    let walker := walker.setDwellTime dwell
    let (next, s) ← s.pickNewSiteId env feature_to_hop_to walker_id
    pure (s, walker.setPotentialSite next, siteToHopToId)
  else
    let s ← s.vacate feature siteId
    let s ← s.occupy feature siteId
    let (dwell, s) ← s.getDwellTime env feature walker_id
    let walker := walker.setDwellTime dwell
    let (next, s) ← s.pickNewSiteId env feature walker_id
    pure (s, walker.setPotentialSite next, siteToHopToId)

/-- The second part of `CoarseGrainSystem::hop`: the iteration counter, the call of the
coarse-grainer (`coarseGrain_`, recorded in the history) and the adaptive threshold. -/
def hopCount (env : Collaborators) (s : CoarseGrainSystem) (siteToHopToId : Int) :
    Result CoarseGrainSystem := do
  let s := { s with iteration_ := wrapInt (s.iteration_ + 1) }
  if s.iteration_ > s.iteration_threshold_ then
    let s ← (if s.iteration_threshold_min_ ≠ constants.inf_iterations then do
        let (coarse_grained, s) ← s.coarseGrainRecorded env siteToHopToId
        if coarse_grained then
          pure { s with iteration_threshold_ := s.iteration_threshold_min_ }
        else
          pure { s with iteration_threshold_ := wrapInt (s.iteration_threshold_ * 2) }
      else pure s : Result CoarseGrainSystem)
    pure { s with iteration_ := 0 }
  else pure s

/-- The member `CoarseGrainSystem::hop(int walker_id, shared_ptr<Walker> & walker)`. -/
def hop (env : Collaborators) (s : CoarseGrainSystem) (walker_id : Int) (walker : Walker) :
    Result (CoarseGrainSystem × Walker) := do
  let (s, walker, siteToHopToId) ← s.hopMove env walker_id walker
  let s ← s.hopCount env siteToHopToId
  pure (s, walker)

/-- A sequence of `hop` calls: each entry is a walker id and the walker as the caller
passes it. The result is the final state and the walkers as the calls leave them. -/
def hops (env : Collaborators) : CoarseGrainSystem → List (Int × Walker) →
    Result (CoarseGrainSystem × List Walker)
  | s, [] => .ok (s, [])
  | s, (walker_id, walker) :: rest => do
    let (s, walker) ← s.hop env walker_id walker
    let (s, walkers) ← hops env s rest
    pure (s, walker :: walkers)

/-! ### Vocabulary of the statements -/

/-- The members that only `hop` and the setters write: the settings, the iteration counter,
the two thresholds, and the history of `coarseGrain_` calls. -/
def control (s : CoarseGrainSystem) :
    ℚ × Bool × ℚ × Int × Int × Int × Int × List (Int × Bool) :=
  (s.performance_ratio_, s.time_resolution_set_, s.time_resolution_,
   s.minimum_coarse_graining_resolution_, s.iteration_, s.iteration_threshold_,
   s.iteration_threshold_min_, s.coarse_grain_calls_)

/-- The cluster id of every stored site, in the order of the container. -/
def clusterIdsOfSites (s : CoarseGrainSystem) : List (Int × Int) :=
  s.sites_.map (fun p => (p.1, p.2.cluster_id))

/-- The clusters with their members, in the order of the container. -/
def membersOfClusters (s : CoarseGrainSystem) : List (Int × List Int) :=
  s.clusters_.map (fun p => (p.1, p.2.members))

/-- The site container after `setClusterId(siteId, clusterId)` for every listed site that
is stored. -/
def setClusterIds (sites : List (Int × Site)) (clusterId : Int) : List Int → List (Int × Site)
  | [] => sites
  | siteId :: rest =>
    match Table.find sites siteId with
    | some site =>
      setClusterIds (Table.assign sites siteId { site with cluster_id := clusterId }) clusterId rest
    | none => setClusterIds sites clusterId rest

/-- The dispatch table after every listed site has been dispatched to the cluster. -/
def dispatchAll (features : List (Int × Feature)) (clusterId : Int) :
    List Int → List (Int × Feature)
  | [] => features
  | siteId :: rest =>
    dispatchAll (Table.assign features siteId (Feature.cluster clusterId)) clusterId rest

/-- The candidates that `mergeSitesAndClusters_` moves: those not in the favoured cluster. -/
def movedSites (sites_and_clusters : List (Int × Int)) (favoredClusterId : Int) : List Int :=
  (sites_and_clusters.filter (fun p => decide (p.2 ≠ favoredClusterId))).map Prod.fst

/-- The free candidates among those that `mergeSitesAndClusters_` moves. -/
def isolatedSites (sites_and_clusters : List (Int × Int)) (favoredClusterId : Int) : List Int :=
  (sites_and_clusters.filter
    (fun p => decide (p.2 ≠ favoredClusterId) && decide (p.2 = constants.unassignedId))).map
    Prod.fst

/-- The ids `mergeSitesAndClusters_` collects in `cluster_ids`, starting from `cluster_ids`:
the clusters of the candidates other than the favoured one, each once. -/
def otherClusterIds (favoredClusterId : Int) (cluster_ids : List Int) :
    List (Int × Int) → List Int
  | [] => cluster_ids
  | (_, clusterId) :: rest =>
    if clusterId ≠ favoredClusterId ∧ clusterId ≠ constants.unassignedId then
      otherClusterIds favoredClusterId
        (if clusterId ∈ cluster_ids then cluster_ids else cluster_ids ++ [clusterId]) rest
    else otherClusterIds favoredClusterId cluster_ids rest

/-- The members of the listed clusters, one cluster after the other. -/
def membersOfAll (clusters : List (Int × Cluster)) : List Int → List Int
  | [] => []
  | clusterId :: rest =>
    (match Table.find clusters clusterId with
      | some cluster => cluster.members
      | none => []) ++ membersOfAll clusters rest

/-- The cluster id of a site as the site container reports it; the sentinel for a site
that is not stored. -/
def clusterIdOf (s : CoarseGrainSystem) (siteId : Int) : Int :=
  match Table.find s.sites_ siteId with
  | some site => site.cluster_id
  | none => constants.unassignedId

/-- The cluster `createCluster_` stores for the members `siteIds`. -/
def createdCluster (env : Collaborators) (s : CoarseGrainSystem) (siteIds : List Int)
    (internal_time_limit : ℚ) : Cluster :=
  { id := s.cluster_id_count_
    members := siteIds
    resolution := chooseResolution (env.solveMasterEquation s.sites_ siteIds) internal_time_limit
      s.time_resolution_
    time_constant := env.solveMasterEquation s.sites_ siteIds
    visits := []
    seed := if s.seed_set_ then some s.seed_ else none
    draws := 0 }

/-- The state `createCluster_` leaves when all candidates are stored sites. -/
def afterCreateCluster (env : Collaborators) (s : CoarseGrainSystem) (siteIds : List Int)
    (internal_time_limit : ℚ) : CoarseGrainSystem :=
  { s with
    cluster_id_count_ := s.cluster_id_count_ + 1
    seed_ := if s.seed_set_ then wrapULong (s.seed_ + 1) else s.seed_
    clusters_ := Table.assign s.clusters_ s.cluster_id_count_
      (createdCluster env s siteIds internal_time_limit)
    sites_ := setClusterIds s.sites_ s.cluster_id_count_ siteIds
    topology_features_ := dispatchAll s.topology_features_ s.cluster_id_count_ siteIds }

/-- The cluster container after the last loop of `mergeSitesAndClusters_` has run over
`cluster_ids`: every listed cluster has migrated to the favoured one and is erased. The
loop stops at a cluster that is not stored. -/
def migrateAll (env : Collaborators) (sites : List (Int × Site)) (favoredClusterId : Int) :
    List (Int × Cluster) → List Int → List (Int × Cluster)
  | clusters, [] => clusters
  | clusters, clusterId :: rest =>
    match Table.find clusters favoredClusterId, Table.find clusters clusterId with
    | some favored, some other =>
      migrateAll env sites favoredClusterId
        (Table.erase
          (Table.assign
            (Table.assign clusters favoredClusterId (favored.migrateSitesFrom env sites other).1)
            clusterId (favored.migrateSitesFrom env sites other).2)
          clusterId)
        rest
    | _, _ => clusters

/-- The favoured cluster after the listed clusters, looked up in `clusters`, have migrated
to it one after the other. -/
def migratedFavored (env : Collaborators) (sites : List (Int × Site))
    (clusters : List (Int × Cluster)) : Cluster → List Int → Cluster
  | favored, [] => favored
  | favored, clusterId :: rest =>
    match Table.find clusters clusterId with
    | some other =>
      migratedFavored env sites clusters (favored.migrateSitesFrom env sites other).1 rest
    | none => favored

/-- The state `mergeSitesAndClusters_` leaves when the favoured cluster, the candidate
sites and the other clusters of the candidates are stored. -/
def afterMerge (env : Collaborators) (s : CoarseGrainSystem)
    (sites_and_clusters : List (Int × Int)) (favoredClusterId : Int) : CoarseGrainSystem :=
  match Table.find s.clusters_ favoredClusterId with
  | none => s
  | some favored =>
    { s with
      sites_ := setClusterIds s.sites_ favoredClusterId
        (movedSites sites_and_clusters favoredClusterId)
      topology_features_ := dispatchAll s.topology_features_ favoredClusterId
        (movedSites sites_and_clusters favoredClusterId)
      clusters_ := migrateAll env
        (setClusterIds s.sites_ favoredClusterId (movedSites sites_and_clusters favoredClusterId))
        favoredClusterId
        (Table.assign s.clusters_ favoredClusterId
          (Cluster.updateProbabilitiesAndTimeConstant env
            (setClusterIds s.sites_ favoredClusterId
              (movedSites sites_and_clusters favoredClusterId))
            { favored with
              members := favored.members ++ isolatedSites sites_and_clusters favoredClusterId }))
        (otherClusterIds favoredClusterId [] sites_and_clusters) }

/-- The feature a dispatch entry of `siteId` points to is there to be called: the site it
points to is stored, or the cluster it points to is stored together with the site. -/
def featureLive (s : CoarseGrainSystem) (feature : Feature) (siteId : Int) : Prop :=
  match feature with
  | .site id => (Table.find s.sites_ id).isSome
  | .cluster id => (Table.find s.clusters_ id).isSome ∧ (Table.find s.sites_ siteId).isSome

/-- The site is registered: the dispatch table has a live feature for it. -/
def registered (s : CoarseGrainSystem) (siteId : Int) : Prop :=
  match Table.find s.topology_features_ siteId with
  | some feature => featureLive s feature siteId
  | none => False

instance (s : CoarseGrainSystem) (feature : Feature) (siteId : Int) :
    Decidable (featureLive s feature siteId) := by
  unfold featureLive
  cases feature <;> infer_instance

instance (s : CoarseGrainSystem) (siteId : Int) : Decidable (registered s siteId) := by
  unfold registered
  cases Table.find s.topology_features_ siteId <;> infer_instance

/-- Every stored site carries the id it is stored under. -/
def SitesKeyed (s : CoarseGrainSystem) : Prop :=
  ∀ p ∈ s.sites_, p.2.id = p.1

instance (s : CoarseGrainSystem) : Decidable (SitesKeyed s) := by
  unfold SitesKeyed
  infer_instance

/-- The state `s1` differs from `s` at most in what the feature calls of a hop write:
occupation flags, visit counts and random draws. The control members, the dispatch table,
the cluster id of every site, the clusters with their members, the cluster id counter
and the seed are the same. -/
def SameTopology (s s1 : CoarseGrainSystem) : Prop :=
  control s1 = control s ∧ s1.topology_features_ = s.topology_features_ ∧
  clusterIdsOfSites s1 = clusterIdsOfSites s ∧ membersOfClusters s1 = membersOfClusters s ∧
  s1.cluster_id_count_ = s.cluster_id_count_ ∧ s1.seed_ = s.seed_ ∧ s1.seed_set_ = s.seed_set_

/-! ### Coarse-graining steps -/

/-- A coarse-graining step on a candidate list: `createCluster_` with an internal time
limit, or `mergeSitesAndClusters_`. -/
inductive CoarseGrainingStep where
  | create (siteIds : List Int) (internal_time_limit : ℚ)
  | merge (siteIds : List Int)
  deriving DecidableEq, Repr

/-- One step: `createCluster_` on the list, or `mergeSitesAndClusters_` on the map
`getClustersOfSites` builds for the list, with the favoured id `getFavoredClusterId`
gives for it, as `coarseGrain_` calls it. -/
def applyStep (env : Collaborators) (s : CoarseGrainSystem) :
    CoarseGrainingStep → Result CoarseGrainSystem
  | .create siteIds internal_time_limit => do
    let (_, s1) ← s.createCluster_ env siteIds internal_time_limit
    pure s1
  | .merge siteIds => do
    let sites_and_clusters ← s.getClustersOfSites siteIds
    s.mergeSitesAndClusters_ env sites_and_clusters (getFavoredClusterId sites_and_clusters)

/-- A sequence of steps. -/
def applySteps (env : Collaborators) : CoarseGrainSystem → List CoarseGrainingStep →
    Result CoarseGrainSystem
  | s, [] => .ok s
  | s, step :: rest => do
    let s1 ← applyStep env s step
    applySteps env s1 rest

/-- The candidate list holds, with every candidate that is in a stored cluster, all the
members of that cluster (the explorer pulls a cluster in as a single unit). -/
def clusterClosed (s : CoarseGrainSystem) (siteIds : List Int) : Prop :=
  ∀ y ∈ siteIds, ∀ C ∈ Table.find s.clusters_ (clusterIdOf s y), ∀ x ∈ C.members, x ∈ siteIds

instance (s : CoarseGrainSystem) (siteIds : List Int) : Decidable (clusterClosed s siteIds) := by
  unfold clusterClosed
  infer_instance

/-- The conditions under which `coarseGrain_` takes a step: the list is duplicate-free;
a cluster is created only from free sites; a merge is made on a list that holds whole
clusters. -/
def stepGuard (s : CoarseGrainSystem) : CoarseGrainingStep → Prop
  | .create siteIds _ =>
    siteIds.Nodup ∧ ∀ id ∈ siteIds, clusterIdOf s id = constants.unassignedId
  | .merge siteIds => siteIds.Nodup ∧ clusterClosed s siteIds

instance (s : CoarseGrainSystem) (step : CoarseGrainingStep) : Decidable (stepGuard s step) := by
  cases step <;> unfold stepGuard <;> infer_instance

/-- Every step of the sequence is taken under `stepGuard`, in the state the steps before it
have left. -/
def admissible (env : Collaborators) : CoarseGrainSystem → List CoarseGrainingStep → Bool
  | _, [] => true
  | s, step :: rest =>
    decide (stepGuard s step) &&
      (match applyStep env s step with
        | .ok s1 => admissible env s1 rest
        | .error _ => true)

/-- A state as `initializeSystem` leaves it: no cluster, every site stored under its id
and free, every dispatch entry pointing to the site itself. -/
def Initial (s : CoarseGrainSystem) : Prop :=
  s.clusters_ = [] ∧ SitesKeyed s ∧
  (∀ p ∈ s.sites_, p.2.cluster_id = constants.unassignedId) ∧
  (∀ d ∈ s.topology_features_, d.2 = Feature.site d.1) ∧
  0 ≤ s.cluster_id_count_

instance (s : CoarseGrainSystem) : Decidable (Initial s) := by
  unfold Initial
  infer_instance

/-- The consistency of sites, clusters and dispatch table: sites are stored under their
ids; cluster ids are allocated from 0 below the counter; the cluster id of a site is
unassigned or names a stored cluster that holds the site; a member of a stored cluster is
a stored site with that cluster's id; a dispatch entry that points to a cluster belongs
to a stored site with that cluster's id, and the cluster is stored. -/
def Consistent (s : CoarseGrainSystem) : Prop :=
  SitesKeyed s ∧
  (0 ≤ s.cluster_id_count_ ∧
    ∀ c C, Table.find s.clusters_ c = some C → 0 ≤ c ∧ c < s.cluster_id_count_) ∧
  (∀ x site, Table.find s.sites_ x = some site →
    site.cluster_id = constants.unassignedId ∨
    ∃ C, Table.find s.clusters_ site.cluster_id = some C ∧ x ∈ C.members) ∧
  (∀ c C x, Table.find s.clusters_ c = some C → x ∈ C.members →
    ∃ site, Table.find s.sites_ x = some site ∧ site.cluster_id = c) ∧
  (∀ x c, Table.find s.topology_features_ x = some (Feature.cluster c) →
    (∃ site, Table.find s.sites_ x = some site ∧ site.cluster_id = c) ∧
    (Table.find s.clusters_ c).isSome)

/-- The invariants of coarse-graining: the cluster id of a stored site is unassigned or
names a stored cluster that has the site among its members; a site is a member of at most
one stored cluster; no cluster id of a site and no dispatch entry names a cluster that is
not stored. -/
def ClusterInvariants (s : CoarseGrainSystem) : Prop :=
  (∀ x site, Table.find s.sites_ x = some site →
    site.cluster_id = constants.unassignedId ∨
    ∃ C, Table.find s.clusters_ site.cluster_id = some C ∧ x ∈ C.members) ∧
  (∀ x c1 c2 C1 C2, Table.find s.clusters_ c1 = some C1 → Table.find s.clusters_ c2 = some C2 →
    x ∈ C1.members → x ∈ C2.members → c1 = c2) ∧
  (∀ x site, Table.find s.sites_ x = some site → site.cluster_id ≠ constants.unassignedId →
    (Table.find s.clusters_ site.cluster_id).isSome) ∧
  (∀ x c, Table.find s.topology_features_ x = some (Feature.cluster c) →
    (Table.find s.clusters_ c).isSome)

/-! ### The rates out of a set of sites -/

/-- The neighbour map of a site: neighbour id to rate; empty for a site that is not
stored. -/
def neighborsOf (s : CoarseGrainSystem) (siteId : Int) : List (Int × ℚ) :=
  match Table.find s.sites_ siteId with
  | some site => site.neighbors
  | none => []

/-- The rate from site `i` to site `j`; 0 when there is no direct transition. -/
def rate (s : CoarseGrainSystem) (i j : Int) : ℚ :=
  (Table.find (neighborsOf s i) j).getD 0

/-- The sum of the specification: `rate(i,j)` over the members `i` and the neighbours `j`
of `i` that are not members. -/
def sumOfRatesOff (s : CoarseGrainSystem) (members : List Int) : ℚ :=
  ∑ i ∈ members.toFinset,
    ∑ j ∈ (Table.keys (neighborsOf s i)).toFinset.filter (fun j => j ∉ members), rate s i j

/-! ### Settings and initialisation -/

/-- What a call that may throw leaves behind: the exception it threw, if any, and the
state of the engine after the call. -/
abbrev Outcome := Option Exception × CoarseGrainSystem

/-- The member `CoarseGrainSystem::setTimeResolution`. -/
def setTimeResolution (s : CoarseGrainSystem) (time_resolution : ℚ) : Outcome :=
  if time_resolution ≤ 0 then (some .invalid_argument, s)
  else (none, { s with time_resolution_set_ := true, time_resolution_ := time_resolution })

/-- The member `CoarseGrainSystem::setRandomSeed`; `seed` is an `unsigned long`. -/
def setRandomSeed (s : CoarseGrainSystem) (seed : Nat) : Outcome :=
  if s.topology_features_.length ≠ 0 then (some .runtime_error, s)
  else (none, { s with seed_ := seed, seed_set_ := true })

/-- Modelled from the spec: `Site_Container::addSite` stores the site under its id. The
model rejects an id that is already stored; the statements below add sites under ids
that are not stored. -/
def addSite (s : CoarseGrainSystem) (site : Site) : Result CoarseGrainSystem :=
  match Table.find s.sites_ site.id with
  | some _ => .error .invalid_argument
  | none => .ok { s with sites_ := Table.assign s.sites_ site.id site }

/-- The first loop of `initializeSystem`, over the entries of `ratesOfAllSites`: a site is
built from the entry, seeded when a seed is set, stored and dispatched to itself. -/
def registerSites (s : CoarseGrainSystem) : List (Int × List (Int × ℚ)) → Outcome
  | [] => (none, s)
  | (id, rates) :: rest =>
    let site := (Site.new.setId id).setRatesToNeighbors rates
    let site := if s.seed_set_ then site.setRandomSeed s.seed_ else site
    let s := if s.seed_set_ then { s with seed_ := wrapULong (s.seed_ + 1) } else s
    match s.addSite site with
    | .error e => (some e, s)
    | .ok s =>
      match s.getSite id with
      | .error e => (some e, s)
      | .ok _ =>
        registerSites
          { s with topology_features_ := Table.assign s.topology_features_ id (Feature.site id) }
          rest

/-- The inner loop of the second loop of `initializeSystem`: the destinations of one site
that are not keys of `ratesOfAllSites` are inserted into the set `drain_sites`. -/
def collectDrainSitesOf (ratesOfAllSites : List (Int × List (Int × ℚ)))
    (drain_sites : List Int) : List (Int × ℚ) → List Int
  | [] => drain_sites
  | (id, _) :: rest =>
    if id ∉ Table.keys ratesOfAllSites then
      collectDrainSitesOf ratesOfAllSites
        (if id ∈ drain_sites then drain_sites else drain_sites ++ [id]) rest
    else collectDrainSitesOf ratesOfAllSites drain_sites rest

/-- The second loop of `initializeSystem`, over the entries of `ratesOfAllSites`. -/
def collectDrainSites (ratesOfAllSites : List (Int × List (Int × ℚ)))
    (drain_sites : List Int) : List (Int × List (Int × ℚ)) → List Int
  | [] => drain_sites
  | (_, rates) :: rest =>
    collectDrainSites ratesOfAllSites (collectDrainSitesOf ratesOfAllSites drain_sites rates)
      rest

/-- The third loop of `initializeSystem`, over the drain sites: a site with the id and no
rates is stored and dispatched to itself. -/
def registerDrainSites (s : CoarseGrainSystem) : List Int → Outcome
  | [] => (none, s)
  | drain_site_id :: rest =>
    match s.addSite (Site.new.setId drain_site_id) with
    | .error e => (some e, s)
    | .ok s =>
      match s.getSite drain_site_id with
      | .error e => (some e, s)
      | .ok _ =>
        registerDrainSites
          { s with topology_features_ :=
              Table.assign s.topology_features_ drain_site_id (Feature.site drain_site_id) }
          rest

/-- The member `CoarseGrainSystem::initializeSystem`; `ratesOfAllSites` is the map in its
enumeration order. -/
def initializeSystem (s : CoarseGrainSystem) (ratesOfAllSites : List (Int × List (Int × ℚ))) :
    Outcome :=
  if ¬ s.time_resolution_set_ then (some .runtime_error, s)
  else
    match registerSites s ratesOfAllSites with
    | (some e, s) => (some e, s)
    | (none, s) => registerDrainSites s (collectDrainSites ratesOfAllSites [] ratesOfAllSites)

/-- A sequence of calls of `setTimeResolution`; a call that throws is caught and the next
call is made. -/
def setTimeResolutions (s : CoarseGrainSystem) : List ℚ → CoarseGrainSystem
  | [] => s
  | time_resolution :: rest => setTimeResolutions (s.setTimeResolution time_resolution).2 rest

/-! ### Vocabulary of initialisation -/

/-- The seed counter after `n` sites have been built. -/
def seedAfter (seed_set : Bool) (seed : Nat) : Nat → Nat
  | 0 => seed
  | n + 1 => seedAfter seed_set (if seed_set then wrapULong (seed + 1) else seed) n

/-- The sites the first loop of `initializeSystem` builds from the entries of the rates
map, in the order of the entries. -/
def initialSites (seed_set : Bool) (seed : Nat) : List (Int × List (Int × ℚ)) → List (Int × Site)
  | [] => []
  | (id, rates) :: rest =>
    (id, { Site.new with
            id := id
            neighbors := rates
            seed := if seed_set then some seed else none }) ::
      initialSites seed_set (if seed_set then wrapULong (seed + 1) else seed) rest

/-- The dispatch table after every listed id has been dispatched to its own site. -/
def registerAll (features : List (Int × Feature)) : List Int → List (Int × Feature)
  | [] => features
  | id :: rest => registerAll (Table.assign features id (Feature.site id)) rest

/-- The state `initializeSystem` leaves when it returns. -/
def afterInitializeSystem (s : CoarseGrainSystem)
    (ratesOfAllSites : List (Int × List (Int × ℚ))) : CoarseGrainSystem :=
  { s with
    sites_ := (s.sites_ ++ initialSites s.seed_set_ s.seed_ ratesOfAllSites) ++
      (collectDrainSites ratesOfAllSites [] ratesOfAllSites).map
        (fun id => (id, Site.new.setId id))
    topology_features_ :=
      registerAll (registerAll s.topology_features_ (Table.keys ratesOfAllSites))
        (collectDrainSites ratesOfAllSites [] ratesOfAllSites)
    seed_ := seedAfter s.seed_set_ s.seed_ ratesOfAllSites.length }

/-- The engine has not been initialised: no site, no cluster and no dispatch entry. -/
def Uninitialized (s : CoarseGrainSystem) : Prop :=
  s.sites_ = [] ∧ s.clusters_ = [] ∧ s.topology_features_ = []

instance (s : CoarseGrainSystem) : Decidable (Uninitialized s) := by
  unfold Uninitialized
  infer_instance

/-- The ids that occur as a destination in the rate map of some site. -/
def isDestination (ratesOfAllSites : List (Int × List (Int × ℚ))) (x : Int) : Prop :=
  ∃ p ∈ ratesOfAllSites, x ∈ Table.keys p.2

instance (ratesOfAllSites : List (Int × List (Int × ℚ))) (x : Int) :
    Decidable (isDestination ratesOfAllSites x) := by
  unfold isDestination
  infer_instance

/-! ### Vocabulary of the seeds -/

/-- The seed of the site stored under `x`: `none` when no site is stored, `some none` for
a stored site without a seed. -/
def siteSeed (s : CoarseGrainSystem) (x : Int) : Option (Option Nat) :=
  (Table.find s.sites_ x).map Site.seed

/-- The seed of the cluster stored under `c`. -/
def clusterSeed (s : CoarseGrainSystem) (c : Int) : Option (Option Nat) :=
  (Table.find s.clusters_ c).map Cluster.seed

/-- No two of the stored sites and clusters have received the same seed. -/
def SeedsDistinct (s : CoarseGrainSystem) : Prop :=
  (∀ x y v, siteSeed s x = some (some v) → siteSeed s y = some (some v) → x = y) ∧
  (∀ c d v, clusterSeed s c = some (some v) → clusterSeed s d = some (some v) → c = d) ∧
  (∀ x c v, siteSeed s x = some (some v) → clusterSeed s c ≠ some (some v))

/-- Every seed a stored site or cluster has received is below the seed counter. -/
def SeedsBelowCounter (s : CoarseGrainSystem) : Prop :=
  (∀ x v, siteSeed s x = some (some v) → v < s.seed_) ∧
  (∀ c v, clusterSeed s c = some (some v) → v < s.seed_)

/-- Every stored cluster has received a seed. -/
def ClustersSeeded (s : CoarseGrainSystem) : Prop :=
  ∀ c, clusterSeed s c ≠ some none

/-! ### Visit frequencies -/

/-- The member `CoarseGrainSystem::getVisitFrequencyOfSite`. The sum `visits += ...` is
one of two `int`s in an `int`. -/
def getVisitFrequencyOfSite (s : CoarseGrainSystem) (siteId : Int) : Result Int :=
  if (Table.find s.sites_ siteId).isNone then .error .invalid_argument
  else do
    let site ← s.getSite siteId
    let visits := site.visit_frequency
    if (← s.partOfCluster siteId) then
      let cluster_id ← s.getClusterIdOfSite siteId
      let cluster ← s.getCluster cluster_id
      pure (wrapInt (visits + cluster.getVisitFrequency siteId))
    else pure visits

/-! ### Placing and removing walkers -/

/-- The body of the loop of `initializeWalkers` for one walker: whatever
`getIdOfSiteCurrentlyOccupying` throws is caught and `runtime_error` is thrown; a site
without a dispatch entry gives `runtime_error`; then the feature of the site is occupied
and the dwell time and the potential site are drawn from it. The call `occupy()` is made
without an argument; as the specification has it, it marks the walker's current site. -/
def initializeWalker (env : Collaborators) (s : CoarseGrainSystem) (walker_id : Int)
    (walker : Walker) : Result (CoarseGrainSystem × Walker) :=
  match walker.getIdOfSiteCurrentlyOccupying with
  | .error _ => .error .runtime_error
  | .ok siteId =>
    if (Table.find s.topology_features_ siteId).isNone then .error .runtime_error
    else do
      let feature ← s.getFeature siteId
      let s ← s.occupy feature siteId
      let (hopTime, s) ← s.getDwellTime env feature walker_id
      let (newId, s) ← s.pickNewSiteId env feature walker_id
      pure (s, (walker.setDwellTime hopTime).setPotentialSite newId)

/-- The loop of `initializeWalkers` over the walkers, in the order of the vector. -/
def initializeWalkersLoop (env : Collaborators) : CoarseGrainSystem → List (Int × Walker) →
    Result (CoarseGrainSystem × List (Int × Walker))
  | s, [] => .ok (s, [])
  | s, (walker_id, walker) :: rest => do
    let (s, walker) ← s.initializeWalker env walker_id walker
    let (s, walkers) ← initializeWalkersLoop env s rest
    pure (s, (walker_id, walker) :: walkers)

/-- The member `CoarseGrainSystem::initializeWalkers`; the result is the state and the
walkers as the call leaves them. -/
def initializeWalkers (env : Collaborators) (s : CoarseGrainSystem)
    (walkers : List (Int × Walker)) : Result (CoarseGrainSystem × List (Int × Walker)) :=
  if s.topology_features_.length = 0 then .error .runtime_error
  else initializeWalkersLoop env s walkers

/-- Modelled from the spec: `TopologyFeature::removeWalker(walker_id, siteId)` vacates the
site. -/
def removeWalker (s : CoarseGrainSystem) (feature : Feature) (_walker_id siteId : Int) :
    Result CoarseGrainSystem :=
  s.vacate feature siteId

/-- The member `CoarseGrainSystem::removeWalkerFromSystem(int walker_id,
shared_ptr<Walker> & walker)`. -/
def removeWalkerFromSystem (s : CoarseGrainSystem) (walker_id : Int) (walker : Walker) :
    Result CoarseGrainSystem := do
  let siteId ← walker.getIdOfSiteCurrentlyOccupying
  let feature ← s.getFeature siteId
  s.removeWalker feature walker_id siteId

/-! ### Vocabulary of the walkers -/

/-- The occupation flag of the stored site `x`; `none` when no site is stored under `x`. -/
def occupiedAt (s : CoarseGrainSystem) (x : Int) : Option Bool :=
  (Table.find s.sites_ x).map Site.occupied

/-- A dispatch entry of `siteId` that points to a site points to the site `siteId`. -/
def ownSite : Feature → Int → Prop
  | .site id, siteId => id = siteId
  | .cluster _, _ => True

instance (feature : Feature) (siteId : Int) : Decidable (ownSite feature siteId) := by
  cases feature <;> unfold ownSite <;> infer_instance

/-- Every entry of the dispatch table is live and, when it points to a site, points to the
site of its key. -/
def DispatchLive (s : CoarseGrainSystem) : Prop :=
  ∀ d ∈ s.topology_features_, featureLive s d.2 d.1 ∧ ownSite d.2 d.1

instance (s : CoarseGrainSystem) : Decidable (DispatchLive s) := by
  unfold DispatchLive
  infer_instance

/-- The walker cannot be placed: it has no current site, or its current site has no
dispatch entry. -/
def unplaceable (s : CoarseGrainSystem) (walker : Walker) : Prop :=
  walker.current_site_ = constants.unassignedId ∨
  Table.find s.topology_features_ walker.current_site_ = none

instance (s : CoarseGrainSystem) (walker : Walker) : Decidable (unplaceable s walker) := by
  unfold unplaceable
  infer_instance

/-- What `initializeWalkers` does to one entry `p` of the vector, leaving `p1`: the id and
the current site are kept, and the dwell time and then the potential site are drawn from
the feature the dispatch table holds for the current site. -/
def walkerInitialized (env : Collaborators) (s : CoarseGrainSystem) (p p1 : Int × Walker) :
    Prop :=
  p1.1 = p.1 ∧ p1.2.current_site_ = p.2.current_site_ ∧
  ∃ (feature : Feature) (sA sB sC : CoarseGrainSystem),
    Table.find s.topology_features_ p.2.current_site_ = some feature ∧
    SameTopology s sA ∧
    sA.getDwellTime env feature p.1 = .ok (p1.2.dwell_time_, sB) ∧
    sB.pickNewSiteId env feature p.1 = .ok (p1.2.potential_site_, sC)

/-! ### Vocabulary of visits and of the walkers in the system -/

/-- The visit count of the stored site `x`; `none` when no site is stored under `x`. -/
def visitsAt (s : CoarseGrainSystem) (x : Int) : Option Int :=
  (Table.find s.sites_ x).map Site.visit_frequency

/-- The total of the visit counts of the stored sites. -/
def totalVisits (s : CoarseGrainSystem) : Int :=
  (s.sites_.map (fun p => p.2.visit_frequency)).sum

/-- The features of the system are all Sites: every dispatch entry points to the site of
its key. -/
def SiteFeatures (s : CoarseGrainSystem) : Prop :=
  ∀ d ∈ s.topology_features_, d.2 = Feature.site d.1

instance (s : CoarseGrainSystem) : Decidable (SiteFeatures s) := by
  unfold SiteFeatures
  infer_instance

/-- Every dispatch entry that points to a site points to the site of its key. -/
def OwnDispatch (s : CoarseGrainSystem) : Prop :=
  ∀ d ∈ s.topology_features_, ownSite d.2 d.1

instance (s : CoarseGrainSystem) : Decidable (OwnDispatch s) := by
  unfold OwnDispatch
  infer_instance

/-- A call the caller makes for one of its walkers, named by the walker's id. -/
inductive WalkerCall where
  | hop (walker_id : Int)
  | remove (walker_id : Int)
  deriving DecidableEq, Repr

/-- One call of the caller, who holds the walkers of the system under their ids: `hop`
with the walker held under the id, which is then held as the call leaves it, or
`removeWalkerFromSystem` with that walker, which is then no longer held. No call is made
for an id under which no walker is held. -/
def walkerCall (env : Collaborators) (s : CoarseGrainSystem) (walkers : List (Int × Walker)) :
    WalkerCall → Result (CoarseGrainSystem × List (Int × Walker))
  | .hop walker_id =>
    match Table.find walkers walker_id with
    | none => .ok (s, walkers)
    | some walker => do
      let (s, walker) ← s.hop env walker_id walker
      pure (s, Table.assign walkers walker_id walker)
  | .remove walker_id =>
    match Table.find walkers walker_id with
    | none => .ok (s, walkers)
    | some walker => do
      let s ← s.removeWalkerFromSystem walker_id walker
      pure (s, Table.erase walkers walker_id)

/-- A sequence of calls of the caller. -/
def walkerCalls (env : Collaborators) :
    CoarseGrainSystem → List (Int × Walker) → List WalkerCall →
      Result (CoarseGrainSystem × List (Int × Walker))
  | s, walkers, [] => .ok (s, walkers)
  | s, walkers, call :: rest => do
    let (s, walkers) ← walkerCall env s walkers call
    walkerCalls env s walkers rest

/-- The occupied sites are the current sites of the walkers held, and no two walkers held
are on the same site. -/
def WalkersOnSites (s : CoarseGrainSystem) (walkers : List (Int × Walker)) : Prop :=
  (∀ y, occupiedAt s y = some true ↔
    ∃ i w, Table.find walkers i = some w ∧ w.current_site_ = y) ∧
  (∀ i j wi wj, Table.find walkers i = some wi → Table.find walkers j = some wj → i ≠ j →
    wi.current_site_ ≠ wj.current_site_)

end CoarseGrainSystem

/-! ## The rate container -/

/-- A `double*` of the rate container: the rate it points to, or `none` for the null
pointer. -/
abbrev RatePtr := Option ℚ

/-- The type `Rate_Map`, `unordered_map<int, unordered_map<int, double*>>`: site id to
neighbour id to rate, in enumeration order. -/
abbrev Rate_Map := List (Int × List (Int × RatePtr))

namespace Rate_Container

/-- The inner map `rates_[siteId]` refers to; an empty map when the site has no entry. -/
def inner (rates_ : Rate_Map) (siteId : Int) : List (Int × RatePtr) :=
  (Table.find rates_ siteId).getD []

/-- The table after the subscript `rates_[siteId]` has been evaluated: a site without an
entry gets an empty inner map. -/
def touch (rates_ : Rate_Map) (siteId : Int) : Rate_Map :=
  Table.assign rates_ siteId (inner rates_ siteId)

/-- The member `Rate_Container::addRate`; the result is the exception thrown, if any, and
the table after the call. -/
def addRate (rates_ : Rate_Map) (siteId neighId : Int) (rate : RatePtr) :
    Option Exception × Rate_Map :=
  if (Table.find rates_ siteId).isSome ∧ (Table.find (inner rates_ siteId) neighId).isSome then
    (some .invalid_argument, rates_)
  else
    (none, Table.assign rates_ siteId (Table.assign (inner rates_ siteId) neighId rate))

/-- The inner loop of `addRates`, over the rates of one site. -/
def addRatesOfSite (rates_ : Rate_Map) (siteId : Int) :
    List (Int × RatePtr) → Option Exception × Rate_Map
  | [] => (none, rates_)
  | (neighId, rate) :: rest =>
    match addRate rates_ siteId neighId rate with
    | (some e, rates_) => (some e, rates_)
    | (none, rates_) => addRatesOfSite rates_ siteId rest

/-- The outer loop of `addRates`, over the sites of the argument. -/
def addRatesLoop (rates_ : Rate_Map) : Rate_Map → Option Exception × Rate_Map
  | [] => (none, rates_)
  | (siteId, neighs) :: rest =>
    match addRatesOfSite rates_ siteId neighs with
    | (some e, rates_) => (some e, rates_)
    | (none, rates_) => addRatesLoop rates_ rest

/-- The member `Rate_Container::addRates`. -/
def addRates (rates_ : Rate_Map) (rates : Rate_Map) : Option Exception × Rate_Map :=
  if rates_.length = 0 then (none, rates) else addRatesLoop rates_ rates

/-- The member `Rate_Container::getRate`; the result is the returned pointer or the
exception, and the table after the call. -/
def getRate (rates_ : Rate_Map) (siteId neighId : Int) : Result RatePtr × Rate_Map :=
  if (Table.find rates_ siteId).isNone ∧
      (Table.find (inner (touch rates_ siteId) siteId) neighId).isNone then
    (.error .invalid_argument, touch rates_ siteId)
  else
    (.ok ((Table.find (inner rates_ siteId) neighId).getD none),
      Table.assign rates_ siteId
        (Table.assign (inner rates_ siteId) neighId
          ((Table.find (inner rates_ siteId) neighId).getD none)))

/-- The member `Rate_Container::incomingRateCount`. -/
def incomingRateCount (rates_ : Rate_Map) (siteId : Int) : Nat :=
  rates_.foldl (fun count site => if (Table.find site.2 siteId).isSome then count + 1 else count) 0

/-- The member `Rate_Container::outgoingRateCount`; the result is the count and the table
after the call. -/
def outgoingRateCount (rates_ : Rate_Map) (siteId : Int) : Nat × Rate_Map :=
  ((inner rates_ siteId).length, touch rates_ siteId)

/-- The member `Rate_Container::getIncomingRates`. -/
def getIncomingRates (rates_ : Rate_Map) (siteId : Int) : Rate_Map :=
  rates_.foldl
    (fun rates site =>
      site.2.foldl
        (fun rates neigh =>
          if neigh.1 = siteId then
            Table.assign rates site.1 (Table.assign (inner rates site.1) neigh.1 neigh.2)
          else rates)
        rates)
    []

/-- The member `Rate_Container::getOutgoingRates`. -/
def getOutgoingRates (rates_ : Rate_Map) (siteId : Int) : Rate_Map :=
  match Table.find rates_ siteId with
  | some neighs => [(siteId, neighs)]
  | none => []

/-- The statement `siteIds.insert(id)` on an `unordered_set<int>`. -/
def insertId (siteIds : List Int) (id : Int) : List Int :=
  if id ∈ siteIds then siteIds else siteIds ++ [id]

/-- The loop of `getSiteIdsWithOutgoingRates_`, filling `siteIds`. -/
def insertSiteIds (siteIds : List Int) : Rate_Map → List Int
  | [] => siteIds
  | site :: rest => insertSiteIds (insertId siteIds site.1) rest

/-- The member `Rate_Container::getSiteIdsWithOutgoingRates_`. -/
def getSiteIdsWithOutgoingRates_ (rates_ : Rate_Map) : List Int := insertSiteIds [] rates_

/-- The inner loop of `getSiteIdsWithIncomingRates_`, over the rates of one site. -/
def insertNeighIds (siteIds : List Int) : List (Int × RatePtr) → List Int
  | [] => siteIds
  | neigh :: rest => insertNeighIds (insertId siteIds neigh.1) rest

/-- The outer loop of `getSiteIdsWithIncomingRates_`. -/
def insertAllNeighIds (siteIds : List Int) : Rate_Map → List Int
  | [] => siteIds
  | site :: rest => insertAllNeighIds (insertNeighIds siteIds site.2) rest

/-- The member `Rate_Container::getSiteIdsWithIncomingRates_`. -/
def getSiteIdsWithIncomingRates_ (rates_ : Rate_Map) : List Int := insertAllNeighIds [] rates_

/-- The member `Rate_Container::getSourceSiteIds`. -/
def getSourceSiteIds (rates_ : Rate_Map) : List Int :=
  (getSiteIdsWithOutgoingRates_ rates_).filter
    (fun siteId => decide (siteId ∉ getSiteIdsWithIncomingRates_ rates_))

/-- The member `Rate_Container::getSinkSiteIds`. -/
def getSinkSiteIds (rates_ : Rate_Map) : List Int :=
  (getSiteIdsWithIncomingRates_ rates_).filter
    (fun siteId => decide (siteId ∉ getSiteIdsWithOutgoingRates_ rates_))

/-! ### Vocabulary of the rate container -/

/-- The pointer the table holds for the pair `(siteId, neighId)`, if the pair is in it. -/
def rateAt (rates_ : Rate_Map) (siteId neighId : Int) : Option RatePtr :=
  (Table.find rates_ siteId).bind (fun neighs => Table.find neighs neighId)

/-- The table has a rate from `siteId` to some site. -/
def hasOutgoing (rates_ : Rate_Map) (siteId : Int) : Prop :=
  ∃ p ∈ rates_, p.1 = siteId ∧ p.2 ≠ []

/-- The table has a rate from some site to `siteId`. -/
def hasIncoming (rates_ : Rate_Map) (siteId : Int) : Prop :=
  ∃ p ∈ rates_, siteId ∈ Table.keys p.2

instance (rates_ : Rate_Map) (siteId : Int) : Decidable (hasOutgoing rates_ siteId) := by
  unfold hasOutgoing
  infer_instance

instance (rates_ : Rate_Map) (siteId : Int) : Decidable (hasIncoming rates_ siteId) := by
  unfold hasIncoming
  infer_instance

/-- A sequence of `addRate` calls that all return: the table after the last call, or
`none` when one of the calls throws. -/
def addRateCalls (rates_ : Rate_Map) : List (Int × Int × RatePtr) → Option Rate_Map
  | [] => some rates_
  | (siteId, neighId, rate) :: rest =>
    match addRate rates_ siteId neighId rate with
    | (none, rates_) => addRateCalls rates_ rest
    | (some _, _) => none

/-- The entries `(from, to, rate)` of a rate map, in enumeration order. -/
def entriesOf : Rate_Map → List (Int × Int × RatePtr)
  | [] => []
  | (siteId, neighs) :: rest =>
    neighs.map (fun neigh => (siteId, neigh.1, neigh.2)) ++ entriesOf rest

/-- The specification of `addRates`: a call of `addRate` for every entry, in order, up to
the first one that throws; the result is the exception, if any, and the table after the
calls. -/
def addRateEach (rates_ : Rate_Map) : List (Int × Int × RatePtr) → Option Exception × Rate_Map
  | [] => (none, rates_)
  | (siteId, neighId, rate) :: rest =>
    match addRate rates_ siteId neighId rate with
    | (some e, rates_) => (some e, rates_)
    | (none, rates_) => addRateEach rates_ rest

/-- The argument is a map: no site occurs twice, and no neighbour occurs twice among the
rates of a site. -/
def isMap (rates : Rate_Map) : Prop :=
  (Table.keys rates).Nodup ∧ ∀ p ∈ rates, (Table.keys p.2).Nodup

instance (rates : Rate_Map) : Decidable (isMap rates) := by
  unfold isMap
  infer_instance

end Rate_Container

/-! ## The performance test

The class `Converter` and the rate-building loop of `main` in
`tests/performance/test_crude_vs_coursegrain2.cpp`. All values are `int`; the arithmetic
is taken modulo 2^32. An assertion that fails is modelled by the result `none`. -/

namespace Converter

/-- The member `Converter::to1D(int x, int y, int z)`; `none` when one of its three
assertions fails. -/
def to1D (distance_ x y z : Int) : Option Int :=
  if x < distance_ ∧ y < distance_ ∧ z < distance_ then
    some (wrapInt (wrapInt (wrapInt (wrapInt (z * distance_) * distance_)
      + wrapInt (y * distance_)) + x))
  else none

/-- The member `Converter::to3D(int index)`; the result is the vector `position`, or
`none` when one of the divisions has no result (`distance_` is 0, or
`distance_*distance_` is 0 in an `int`). -/
def to3D (distance_ index : Int) : Option (List Int) := do
  let position2 ← intDiv index (wrapInt (distance_ * distance_))
  let index := wrapInt (index - wrapInt (wrapInt (position2 * distance_) * distance_))
  let position1 ← intDiv index distance_
  let position0 ← intMod index distance_
  pure [position0, position1, position2]

/-- The lower end of the neighbour range of the coordinate `c`:
`int xlow = x; if(xlow-1>0) --xlow;`. -/
def low (c : Int) : Int := if wrapInt (c - 1) > 0 then wrapInt (c - 1) else c

/-- The upper end of the neighbour range of the coordinate `c`:
`int xhigh = x; if(xhigh+1<distance) ++xhigh;`. -/
def high (distance c : Int) : Int := if wrapInt (c + 1) < distance then wrapInt (c + 1) else c

/-- The values a loop `for(int c2 = clow; c2 <= chigh; ++c2)` runs through. -/
def span (clow chigh : Int) : List Int :=
  (List.range (chigh - clow + 1).toNat).map (fun k => clow + (k : Int))

/-- The coordinates `(x2, y2, z2)` the three inner loops run through for the site
`(x, y, z)`, in order. -/
def neighborCoordinates (distance x y z : Int) : List (Int × Int × Int) :=
  (span (low x) (high distance x)).flatMap (fun x2 =>
    (span (low y) (high distance y)).flatMap (fun y2 =>
      (span (low z) (high distance z)).map (fun z2 => (x2, y2, z2))))

/-- The six assertions on the coordinates at the head of the innermost loop body. -/
def inBox (distance : Int) (c : Int × Int × Int) : Prop :=
  0 ≤ c.1 ∧ c.1 < distance ∧ 0 ≤ c.2.1 ∧ c.2.1 < distance ∧ 0 ≤ c.2.2 ∧ c.2.2 < distance

instance (distance : Int) (c : Int × Int × Int) : Decidable (inBox distance c) := by
  unfold inBox
  infer_instance

/-- The body of the loops over `x`, `y` and `z` for one site, up to the last assertion: the
keys of `rates[siteId]`, in the order in which the inner loops insert them, or `none` when
an assertion fails. -/
def ratesOfSite (distance x y z : Int) : Option (List Int) :=
  match to1D distance x y z with
  | none => none
  | some siteId =>
    if ∀ c ∈ neighborCoordinates distance x y z,
        inBox distance c ∧ (to1D distance c.1 c.2.1 c.2.2).isSome then
      some (((neighborCoordinates distance x y z).filterMap
        (fun c => to1D distance c.1 c.2.1 c.2.2)).filter (fun neighId => decide (siteId ≠ neighId)))
    else none

/-- The body of the loops for one site keeps all its assertions, the last one,
`assert(rates[siteId].size()!=0)`, included. -/
def keepsAssertions (distance x y z : Int) : Bool :=
  match ratesOfSite distance x y z with
  | some neighIds => !neighIds.isEmpty
  | none => false

end Converter

/-! ## Example systems

Small concrete systems on which the theorems below are evaluated. -/

namespace Examples

/-- A site as `initializeSystem` creates it: no cluster, no visits, not occupied. -/
def freshSite (id : Int) (neighbors : List (Int × ℚ)) : Site :=
  { id := id, neighbors := neighbors, cluster_id := constants.unassignedId, visit_frequency := 0,
    occupied := false, seed := none, draws := 0 }

/-- Collaborators for the examples: the explorer proposes the seed site together with the
site next to it (`0,1` or `2,3`), every pair of vertices is a hundredth of a time unit
apart, every cluster escapes with time constant 1/2 and every draw is the site's first
neighbour after a dwell time of 1. -/
def env : Collaborators :=
  { findBasin := fun _ _ siteId => if siteId = 0 ∨ siteId = 1 then [0, 1] else [2, 3]
    maxMinimumDistanceBetweenEveryVertex := fun _ siteIds =>
      match siteIds with
      | a :: b :: _ => [((a, b), 1 / 100), ((b, a), 1 / 100)]
      | _ => []
    solveMasterEquation := fun _ _ => 1 / 2
    siteDwellTime := fun _ _ => some 1
    sitePickNewSiteId := fun site _ => (site.neighbors.head?.map Prod.fst).getD site.id
    clusterDwellTime := fun _ _ => some 1
    clusterPickNewSiteId := fun cluster _ => (cluster.members.headD 0, cluster.members.headD 0) }

/-- Two tight pairs `0,1` and `2,3` with weak rates between them and a drain site `4`; the
time resolution is 1/10 and coarse-graining is attempted on every second hop. -/
def pairs : CoarseGrainSystem :=
  { CoarseGrainSystem.new with
    time_resolution_set_ := true
    time_resolution_ := 1 / 10
    iteration_threshold_ := 1
    iteration_threshold_min_ := 1
    sites_ := [(0, freshSite 0 [(1, 100), (2, 1)]), (1, freshSite 1 [(0, 100), (2, 1)]),
               (2, freshSite 2 [(3, 100), (1, 1)]), (3, freshSite 3 [(2, 100), (4, 1)]),
               (4, freshSite 4 [])]
    topology_features_ := [(0, .site 0), (1, .site 1), (2, .site 2), (3, .site 3), (4, .site 4)] }

/-- The value of an outcome, or `d` when the call threw. -/
def valueOr {α : Type} (r : Result α) (d : α) : α :=
  match r with
  | .ok a => a
  | .error _ => d

/-- The system `pairs` with a time resolution of 1/1000, which no candidate list passes. -/
def strict : CoarseGrainSystem := { pairs with time_resolution_ := 1 / 1000 }

/-- The system `strict` with both thresholds and the counter at 2^30. -/
def strictHigh : CoarseGrainSystem :=
  { strict with
    iteration_ := 1073741824
    iteration_threshold_ := 1073741824
    iteration_threshold_min_ := 1073741824 }

/-- The system `strict` one hop before an attempt. -/
def strictDue : CoarseGrainSystem := { strict with iteration_ := 1 }

/-- The system `pairs` with coarse-graining switched off by the sentinel. -/
def crude : CoarseGrainSystem :=
  pairs.setMinCoarseGrainIterationThreshold constants.inf_iterations

/-- The system `crude` after 2^31 - 1 hops: the counter has reached the largest `int`. -/
def saturated : CoarseGrainSystem := { crude with iteration_ := INT_MAX }

/-- A walker on site 0 about to hop to site 1. -/
def walker01 : Walker := { current_site_ := 0, potential_site_ := 1, dwell_time_ := some 1 }

/-- A walker on site 1 about to hop to site 0. -/
def walker10 : Walker := { current_site_ := 1, potential_site_ := 0, dwell_time_ := some 1 }

/-- Five hops of walker 0 back and forth between the sites 0 and 1. -/
def fiveHops : List (Int × Walker) :=
  [(0, walker01), (0, walker10), (0, walker01), (0, walker10), (0, walker01)]

/-- The system `pairs` after the sites 0 and 1 have been coarse-grained. -/
def oneCluster : CoarseGrainSystem :=
  (valueOr (pairs.coarseGrain_ env 0) (false, pairs)).2

/-- The system `oneCluster` after the sites 2 and 3 have been coarse-grained as well. -/
def twoClusters : CoarseGrainSystem :=
  (valueOr (oneCluster.coarseGrain_ env 2) (false, oneCluster)).2

/-- Collaborators whose explorer proposes the four sites 0 to 3 for every seed site. -/
def envWide : Collaborators :=
  { env with findBasin := fun _ _ _ => [0, 1, 2, 3] }

/-- The two pairs are coarse-grained, then the two clusters are merged on the list of all
their members. -/
def wholeClusters : List CoarseGrainSystem.CoarseGrainingStep :=
  [.create [0, 1] (1 / 100), .create [2, 3] (1 / 100), .merge [0, 1, 2, 3]]

/-- The two pairs are coarse-grained, then a merge is made on the list `1, 2`, which holds
one member of each cluster. -/
def partialMerge : List CoarseGrainSystem.CoarseGrainingStep :=
  [.create [0, 1] (1 / 100), .create [2, 3] (1 / 100), .merge [1, 2]]

/-- The pair `0, 1` is coarse-grained, then a cluster is created on the list `1, 2`, whose
first site is in a cluster. -/
def overlapping : List CoarseGrainSystem.CoarseGrainingStep :=
  [.create [0, 1] (1 / 100), .create [1, 2] (1 / 100)]

/-- Collaborators whose explorer proposes the pair of the seed site (`0,1` or `2,3`) until
two clusters exist and the four sites 0 to 3 afterwards, and whose master equation gives
a cluster of `n` members the escape time constant `n / 4`. -/
def envGrowing : Collaborators :=
  { env with
    findBasin := fun _ clusters siteId =>
      if 2 ≤ clusters.length then [0, 1, 2, 3]
      else if siteId = 0 ∨ siteId = 1 then [0, 1] else [2, 3]
    solveMasterEquation := fun _ siteIds => (siteIds.length : ℚ) / 4 }

/-- The system `pairs` after `coarseGrain_` has been called on the sites 0 and 2 with the
collaborators `envGrowing`: the clusters 0 and 1 hold the two pairs. -/
def grownPairs : CoarseGrainSystem :=
  (valueOr
    ((valueOr (pairs.coarseGrain_ envGrowing 0) (false, pairs)).2.coarseGrain_ envGrowing 2)
    (false, pairs)).2

/-- Collaborators whose explorer proposes the seed site alone. -/
def envSingle : Collaborators :=
  { env with findBasin := fun _ _ siteId => [siteId] }

/-- The rates map of the system `pairs`: the keys are the sites 0 to 3; the site 4 occurs
as a destination only. -/
def pairRates : List (Int × List (Int × ℚ)) :=
  [(0, [(1, 100), (2, 1)]), (1, [(0, 100), (2, 1)]), (2, [(3, 100), (1, 1)]),
   (3, [(2, 100), (4, 1)])]

/-- A new engine after `setTimeResolution(1/10)` and
`setMinCoarseGrainIterationThreshold(1)`. -/
def configured : CoarseGrainSystem :=
  (CoarseGrainSystem.new.setTimeResolution (1 / 10)).2.setMinCoarseGrainIterationThreshold 1

/-- The engine `configured` after `setRandomSeed(7)` and `initializeSystem(pairRates)`. -/
def seeded : CoarseGrainSystem :=
  ((configured.setRandomSeed 7).2.initializeSystem pairRates).2

/-- The rates map `pairRates` with its first two entries enumerated in the other order. -/
def pairRatesReordered : List (Int × List (Int × ℚ)) :=
  [(1, [(0, 100), (2, 1)]), (0, [(1, 100), (2, 1)]), (2, [(3, 100), (1, 1)]),
   (3, [(2, 100), (4, 1)])]

/-- Two walkers as the caller places them before `initializeWalkers`: walker 0 on the
site 0 and walker 1 on the site 2. -/
def startingWalkers : List (Int × Walker) :=
  [(0, Walker.new.occupySite 0), (1, Walker.new.occupySite 2)]

/-- Two sites with rates to each other only: a basin without exits. -/
def closedPair : CoarseGrainSystem :=
  { pairs with
    sites_ := [(0, freshSite 0 [(1, 100)]), (1, freshSite 1 [(0, 100)])]
    topology_features_ := [(0, .site 0), (1, .site 1)] }

/-- Two walkers as the caller places them before `initializeWalkers`: walker 0 on the
site 0 and walker 1 on the site 1 next to it. -/
def neighbouringWalkers : List (Int × Walker) :=
  [(0, Walker.new.occupySite 0), (1, Walker.new.occupySite 1)]

/-- The system `pairs` and the walkers after `initializeWalkers` has placed
`neighbouringWalkers`: the sites 0 and 1 are occupied. -/
def placedNeighbours : CoarseGrainSystem × List (Int × Walker) :=
  valueOr (pairs.initializeWalkers env neighbouringWalkers) (pairs, [])

/-- The result of the hop of walker 0 from site 0 to the free site 1 in `pairs`. -/
def freeHop : CoarseGrainSystem × Walker :=
  valueOr (pairs.hop env 0 walker01) (pairs, walker01)

/-- The result of the hop of walker 0 from site 0 to the occupied site 1 in
`placedNeighbours`. -/
def blockedHop : CoarseGrainSystem × Walker :=
  valueOr (placedNeighbours.1.hop env 0 walker01) (pairs, walker01)

/-- The system `pairs` and the walkers after `initializeWalkers` has placed
`startingWalkers`. -/
def placedStarting : CoarseGrainSystem × List (Int × Walker) :=
  valueOr (pairs.initializeWalkers env startingWalkers) (pairs, [])

/-- Calls of the caller: walker 0 hops, walker 1 hops, walker 0 hops again, walker 0 is
removed, walker 1 hops twice. -/
def someCalls : List CoarseGrainSystem.WalkerCall :=
  [.hop 0, .hop 1, .hop 0, .remove 0, .hop 1, .hop 1]

/-- The system and the walkers held after the calls `someCalls` on `placedStarting`. -/
def afterSomeCalls : CoarseGrainSystem × List (Int × Walker) :=
  valueOr (CoarseGrainSystem.walkerCalls env placedStarting.1 placedStarting.2 someCalls)
    (pairs, [])

/-- The system `twoClusters` after many hops: the visit count of the site 2 is the largest
`int`, and its cluster holds one visit for it. -/
def manyVisits : CoarseGrainSystem :=
  { twoClusters with
    sites_ := twoClusters.sites_.map (fun p =>
      if p.1 = 2 then (p.1, { p.2 with visit_frequency := INT_MAX }) else p)
    clusters_ := twoClusters.clusters_.map (fun p =>
      if 2 ∈ p.2.members then (p.1, { p.2 with visits := [(2, 1)] }) else p) }

end Examples

/-! ## Lemmas on results and tables -/

namespace Result

@[simp] theorem ok_bind {α β : Type} (a : α) (f : α → Result β) :
    ((Except.ok a : Result α) >>= f) = f a := rfl

@[simp] theorem error_bind {α β : Type} (e : Exception) (f : α → Result β) :
    ((Except.error e : Result α) >>= f) = Except.error e := rfl

@[simp] theorem pure_eq {α : Type} (a : α) : (pure a : Result α) = Except.ok a := rfl

theorem bind_eq_ok {α β : Type} {x : Result α} {f : α → Result β} {b : β} :
    (x >>= f) = Except.ok b ↔ ∃ a, x = Except.ok a ∧ f a = Except.ok b := by
  cases x with
  | error e => simp
  | ok a => simp

end Result

namespace Table

theorem find_assign {β : Type} (m : List (Int × β)) (key : Int) (v : β) (k : Int) :
    find (assign m key v) k = if k = key then some v else find m k := by
  induction m with
  | nil =>
    by_cases h : k = key
    · simp [assign, find, h]
    · have h2 : ¬ key = k := fun e => h e.symm
      simp [assign, find, h, h2]
  | cons p rest ih =>
    obtain ⟨a, w⟩ := p
    by_cases h1 : a = key
    · by_cases h2 : k = key
      · simp [assign, find, h1, h2]
      · have h3 : ¬ key = k := fun e => h2 e.symm
        simp [assign, find, h1, h2, h3]
    · by_cases h2 : k = key
      · subst h2
        simp only [if_true] at ih
        simp [assign, find, h1, ih]
      · simp [assign, find, h1, h2, ih]

theorem find_assign_same {β : Type} (m : List (Int × β)) (key : Int) (v : β) :
    find (assign m key v) key = some v := by
  simp [find_assign]

theorem find_assign_ne {β : Type} (m : List (Int × β)) (key : Int) (v : β) (k : Int)
    (h : k ≠ key) : find (assign m key v) k = find m k := by
  simp [find_assign, h]

theorem find_erase {β : Type} (m : List (Int × β)) (key : Int) (k : Int) :
    find (erase m key) k = if k = key then none else find m k := by
  induction m with
  | nil => simp [erase, find]
  | cons p rest ih =>
    obtain ⟨a, w⟩ := p
    by_cases h2 : k = key
    · subst h2
      simp only [if_true] at ih
      by_cases h1 : a = k
      · simp [erase, h1, ih]
      · simp [erase, find, h1, ih]
    · have h3 : ¬ key = k := fun e => h2 e.symm
      simp only [h2, if_false] at ih
      by_cases h1 : a = key
      · simp [erase, find, h1, h2, h3, ih]
      · simp [erase, find, h1, h2, ih]

theorem find_some_mem {β : Type} (m : List (Int × β)) (k : Int) (v : β)
    (h : find m k = some v) : (k, v) ∈ m := by
  induction m with
  | nil => simp [find] at h
  | cons p rest ih =>
    obtain ⟨a, w⟩ := p
    by_cases h1 : a = k
    · simp [find, h1] at h
      simp [h1, h]
    · simp [find, h1] at h
      exact List.mem_cons_of_mem _ (ih h)

theorem find_isSome_iff {β : Type} (m : List (Int × β)) (k : Int) :
    (find m k).isSome ↔ k ∈ keys m := by
  induction m with
  | nil => simp [find, keys]
  | cons p rest ih =>
    obtain ⟨a, w⟩ := p
    by_cases h1 : a = k
    · simp [find, keys, h1]
    · have h2 : ¬ k = a := fun e => h1 e.symm
      simp only [find, h1, if_false, ih, keys, List.map_cons, List.mem_cons, h2, false_or]

theorem find_eq_none_iff {β : Type} (m : List (Int × β)) (k : Int) :
    find m k = none ↔ k ∉ keys m := by
  rw [← find_isSome_iff]
  cases find m k <;> simp

theorem mem_find_of_nodup {β : Type} (m : List (Int × β)) (hn : (keys m).Nodup) (k : Int) (v : β)
    (h : (k, v) ∈ m) : find m k = some v := by
  induction m with
  | nil => simp at h
  | cons p rest ih =>
    obtain ⟨a, w⟩ := p
    simp only [keys, List.map_cons, List.nodup_cons] at hn
    rcases List.mem_cons.mp h with h1 | h1
    · injection h1 with h2 h3
      simp [find, h2, h3]
    · have hk : k ∈ keys rest := List.mem_map.mpr ⟨(k, v), h1, rfl⟩
      have hne : ¬ a = k := fun e => hn.1 (e ▸ hk)
      simp only [find, hne, if_false]
      exact ih hn.2 h1

theorem keys_assign {β : Type} (m : List (Int × β)) (key : Int) (v : β) :
    keys (assign m key v) = if key ∈ keys m then keys m else keys m ++ [key] := by
  induction m with
  | nil => simp [assign, keys]
  | cons p rest ih =>
    obtain ⟨a, w⟩ := p
    by_cases h1 : a = key
    · simp [assign, keys, h1]
    · have h2 : ¬ key = a := fun e => h1 e.symm
      have ih2 := ih
      simp only [keys] at ih2
      by_cases h3 : key ∈ List.map Prod.fst rest
      · simp [assign, keys, h1, h2, h3, ih2]
      · simp [assign, keys, h1, h2, h3, ih2]

theorem nodup_keys_assign {β : Type} (m : List (Int × β)) (key : Int) (v : β)
    (hn : (keys m).Nodup) : (keys (assign m key v)).Nodup := by
  rw [keys_assign]
  by_cases h : key ∈ keys m
  · simp [h, hn]
  · simp only [h, if_false]
    exact List.Nodup.append hn (List.nodup_singleton _) (by simpa using h)

theorem mem_keys_assign {β : Type} (m : List (Int × β)) (key : Int) (v : β) (k : Int) :
    k ∈ keys (assign m key v) ↔ k = key ∨ k ∈ keys m := by
  rw [keys_assign]
  by_cases h : key ∈ keys m
  · simp only [h, if_true]
    constructor
    · intro hk; exact Or.inr hk
    · rintro (hk | hk)
      · rw [hk]; exact h
      · exact hk
  · simp only [h, if_false, List.mem_append, List.mem_singleton]
    tauto

theorem keys_erase {β : Type} (m : List (Int × β)) (key : Int) :
    keys (erase m key) = (keys m).filter (fun k => decide (k ≠ key)) := by
  induction m with
  | nil => simp [erase, keys]
  | cons p rest ih =>
    obtain ⟨a, w⟩ := p
    have ih2 := ih
    simp only [keys] at ih2
    by_cases h1 : a = key
    · simp [erase, keys, h1, ih2]
    · simp [erase, keys, h1, ih2]

theorem nodup_keys_erase {β : Type} (m : List (Int × β)) (key : Int)
    (hn : (keys m).Nodup) : (keys (erase m key)).Nodup := by
  rw [keys_erase]
  exact hn.filter _

theorem mem_keys_erase {β : Type} (m : List (Int × β)) (key : Int) (k : Int) :
    k ∈ keys (erase m key) ↔ k ≠ key ∧ k ∈ keys m := by
  rw [keys_erase]
  simp [List.mem_filter, and_comm]

theorem length_erase_of_mem {β : Type} (m : List (Int × β)) (key : Int)
    (hn : (keys m).Nodup) (hk : key ∈ keys m) : (erase m key).length + 1 = m.length := by
  induction m with
  | nil => simp [keys] at hk
  | cons p rest ih =>
    obtain ⟨a, w⟩ := p
    simp only [keys, List.map_cons, List.nodup_cons] at hn
    by_cases h1 : a = key
    · have hnot : key ∉ keys rest := by rw [← h1]; exact hn.1
      have hsame : erase rest key = rest := by
        clear ih hk
        induction rest with
        | nil => rfl
        | cons q rest2 ih2 =>
          obtain ⟨b, u⟩ := q
          simp only [keys, List.map_cons, List.mem_cons, not_or] at hnot
          have hb : ¬ b = key := fun e => hnot.1 e.symm
          simp only [keys, List.map_cons, List.nodup_cons, List.mem_cons, not_or] at hn
          simp only [erase, hb, if_false]
          rw [ih2 ⟨hn.1.2, hn.2.2⟩ hnot.2]
      simp [erase, h1, hsame]
    · have hk2 : key ∈ keys rest := by
        simp only [keys, List.map_cons, List.mem_cons] at hk
        rcases hk with hk | hk
        · exact absurd hk.symm h1
        · exact hk
      simp only [erase, h1, if_false, List.length_cons]
      rw [ih hn.2 hk2]

theorem length_assign_of_mem {β : Type} (m : List (Int × β)) (key : Int) (v : β)
    (hk : key ∈ keys m) : (assign m key v).length = m.length := by
  induction m with
  | nil => simp [keys] at hk
  | cons p rest ih =>
    obtain ⟨a, w⟩ := p
    by_cases h1 : a = key
    · simp [assign, h1]
    · have hk2 : key ∈ keys rest := by
        simp only [keys, List.map_cons, List.mem_cons] at hk
        rcases hk with hk | hk
        · exact absurd hk.symm h1
        · exact hk
      simp [assign, h1, ih hk2]

/-- Overwriting an entry by one with the same image under `g` leaves the image of the
table unchanged. -/
theorem map_assign_of_find {β γ : Type} (g : Int × β → γ) (m : List (Int × β)) (key : Int)
    (v w : β) (h : find m key = some w) (hg : g (key, v) = g (key, w)) :
    (assign m key v).map g = m.map g := by
  induction m with
  | nil => simp [find] at h
  | cons p rest ih =>
    obtain ⟨a, u⟩ := p
    by_cases h1 : a = key
    · simp only [find, h1, if_true, Option.some.injEq] at h
      simp [assign, h1, hg, h]
    · simp only [find, h1, if_false] at h
      simp [assign, h1, ih h]

end Table

namespace CoarseGrainSystem

/-- A site id is registered when the site container holds a site for it. -/
theorem getSite_ok_of_find {s : CoarseGrainSystem} {siteId : Int}
    (h : (Table.find s.sites_ siteId).isSome) : ∃ site, s.getSite siteId = .ok site := by
  unfold getSite
  cases hf : Table.find s.sites_ siteId with
  | none => simp [hf] at h
  | some site => exact ⟨site, rfl⟩

theorem sumRatesOffSites_ok (s : CoarseGrainSystem) (internalSiteIds : List Int) :
    ∀ (siteIds : List Int) (sumRates : ℚ),
      (∀ id ∈ siteIds, (Table.find s.sites_ id).isSome) →
      ∃ r, sumRatesOffSites s internalSiteIds sumRates siteIds = .ok r := by
  intro siteIds
  induction siteIds with
  | nil => intro sumRates _; exact ⟨sumRates, rfl⟩
  | cons siteId rest ih =>
    intro sumRates h
    obtain ⟨site, hsite⟩ := getSite_ok_of_find (h siteId (List.mem_cons_self _ _))
    obtain ⟨r, hr⟩ := ih (addRatesOffSite internalSiteIds sumRates site.neighbors)
      (fun id hid => h id (List.mem_cons_of_mem _ hid))
    exact ⟨r, by simp [sumRatesOffSites, hsite, hr]⟩

theorem getTimeConstantFromSitesToNeighbors_ok (s : CoarseGrainSystem) (siteIds : List Int)
    (h : ∀ id ∈ siteIds, (Table.find s.sites_ id).isSome) :
    ∃ T_ext, s.getTimeConstantFromSitesToNeighbors_ siteIds = .ok T_ext := by
  obtain ⟨r, hr⟩ := sumRatesOffSites_ok s siteIds siteIds 0 h
  unfold getTimeConstantFromSitesToNeighbors_
  by_cases h0 : r = 0
  · exact ⟨0, by simp [hr, h0]⟩
  · exact ⟨1 / r, by simp [hr, h0]⟩

theorem sitesSatisfyEquilibriumCondition_ok (s : CoarseGrainSystem) (siteIds : List Int)
    (maxtime : ℚ) (hreg : ∀ id ∈ siteIds, (Table.find s.sites_ id).isSome) :
    ∃ b, s.sitesSatisfyEquilibriumCondition_ siteIds maxtime = .ok b := by
  obtain ⟨T_ext, hT⟩ := getTimeConstantFromSitesToNeighbors_ok s siteIds hreg
  simp only [sitesSatisfyEquilibriumCondition_, hT, Result.ok_bind, Result.pure_eq]
  exact ⟨_, rfl⟩

/-- C1: for every list of registered candidate sites and every internal time limit,
`getTimeConstantFromSitesToNeighbors_` yields a value `T_ext` and
`sitesSatisfyEquilibriumCondition_` returns a flag that is true exactly when
`T_ext > (T_int * min_cg_resolution) * performance_ratio` and
`T_int * min_cg_resolution < time_resolution`, both comparisons strict. -/
theorem sitesSatisfyEquilibriumCondition_iff (s : CoarseGrainSystem) (siteIds : List Int)
    (T_int : ℚ) (hreg : ∀ id ∈ siteIds, (Table.find s.sites_ id).isSome) :
    ∃ (T_ext : ℚ) (b : Bool),
      s.getTimeConstantFromSitesToNeighbors_ siteIds = .ok T_ext ∧
      s.sitesSatisfyEquilibriumCondition_ siteIds T_int = .ok b ∧
      (b = true ↔
        T_ext > (T_int * (s.minimum_coarse_graining_resolution_ : ℚ)) * s.performance_ratio_ ∧
        T_int * (s.minimum_coarse_graining_resolution_ : ℚ) < s.time_resolution_) := by
  obtain ⟨T_ext, hT⟩ := getTimeConstantFromSitesToNeighbors_ok s siteIds hreg
  refine ⟨T_ext,
    decide (T_ext > (T_int * (s.minimum_coarse_graining_resolution_ : ℚ)) * s.performance_ratio_)
      && decide (T_int * (s.minimum_coarse_graining_resolution_ : ℚ) < s.time_resolution_),
    hT, ?_, ?_⟩
  · simp only [sitesSatisfyEquilibriumCondition_, hT, Result.ok_bind, Result.pure_eq]
  · simp

/-- C1 evaluated on the pair `0,1` of the example system with internal time limit 1/100. -/
theorem sitesSatisfyEquilibriumCondition_iff_witness :
    (∀ id ∈ [0, 1], (Table.find Examples.pairs.sites_ id).isSome) ∧
    ∃ (T_ext : ℚ) (b : Bool),
      Examples.pairs.getTimeConstantFromSitesToNeighbors_ [0, 1] = .ok T_ext ∧
      Examples.pairs.sitesSatisfyEquilibriumCondition_ [0, 1] (1 / 100) = .ok b ∧
      (b = true ↔
        T_ext > ((1 / 100 : ℚ) * (Examples.pairs.minimum_coarse_graining_resolution_ : ℚ))
            * Examples.pairs.performance_ratio_ ∧
        (1 / 100 : ℚ) * (Examples.pairs.minimum_coarse_graining_resolution_ : ℚ)
            < Examples.pairs.time_resolution_) :=
  ⟨by decide, sitesSatisfyEquilibriumCondition_iff Examples.pairs [0, 1] (1 / 100) (by decide)⟩

/-! ### What the feature calls leave unchanged -/

theorem getSite_eq_ok {s : CoarseGrainSystem} {siteId : Int} {site : Site}
    (h : s.getSite siteId = .ok site) : Table.find s.sites_ siteId = some site := by
  unfold getSite at h
  cases hf : Table.find s.sites_ siteId with
  | none => simp [hf] at h
  | some x => simp [hf] at h; rw [h]

theorem getCluster_eq_ok {s : CoarseGrainSystem} {clusterId : Int} {cluster : Cluster}
    (h : s.getCluster clusterId = .ok cluster) : Table.find s.clusters_ clusterId = some cluster := by
  unfold getCluster at h
  cases hf : Table.find s.clusters_ clusterId with
  | none => simp [hf] at h
  | some x => simp [hf] at h; rw [h]

theorem getSite_of_find {s : CoarseGrainSystem} {siteId : Int} {site : Site}
    (h : Table.find s.sites_ siteId = some site) : s.getSite siteId = .ok site := by
  simp [getSite, h]

theorem getCluster_of_find {s : CoarseGrainSystem} {clusterId : Int} {cluster : Cluster}
    (h : Table.find s.clusters_ clusterId = some cluster) : s.getCluster clusterId = .ok cluster := by
  simp [getCluster, h]

/-- The outcome of `modifySite` in closed form. -/
theorem modifySite_eq_ok {s s1 : CoarseGrainSystem} {siteId : Int} {f : Site → Site}
    (h : s.modifySite siteId f = .ok s1) :
    ∃ site, Table.find s.sites_ siteId = some site ∧
      s1 = { s with sites_ := Table.assign s.sites_ siteId (f site) } := by
  unfold modifySite at h
  obtain ⟨site, h1, h2⟩ := Result.bind_eq_ok.mp h
  simp only [Result.pure_eq, Except.ok.injEq] at h2
  exact ⟨site, getSite_eq_ok h1, h2.symm⟩

theorem setClusterId_eq_ok {s s1 : CoarseGrainSystem} {siteId clusterId : Int}
    (h : s.setClusterId siteId clusterId = .ok s1) :
    ∃ site, Table.find s.sites_ siteId = some site ∧
      s1 = { s with sites_ := Table.assign s.sites_ siteId { site with cluster_id := clusterId } } := by
  unfold setClusterId at h
  obtain ⟨site, h1, h2⟩ := Result.bind_eq_ok.mp h
  simp only [Result.pure_eq, Except.ok.injEq] at h2
  exact ⟨site, getSite_eq_ok h1, h2.symm⟩

theorem dispatchToCluster_eq_ok {s s1 : CoarseGrainSystem} {siteId clusterId : Int}
    (h : s.dispatchToCluster siteId clusterId = .ok s1) :
    ∃ cluster, Table.find s.clusters_ clusterId = some cluster ∧
      s1 = { s with topology_features_ :=
              Table.assign s.topology_features_ siteId (Feature.cluster clusterId) } := by
  unfold dispatchToCluster at h
  obtain ⟨cluster, h1, h2⟩ := Result.bind_eq_ok.mp h
  simp only [Result.pure_eq, Except.ok.injEq] at h2
  exact ⟨cluster, getCluster_eq_ok h1, h2.symm⟩

theorem SameTopology.refl (s : CoarseGrainSystem) : SameTopology s s :=
  ⟨rfl, rfl, rfl, rfl, rfl, rfl, rfl⟩

theorem SameTopology.trans {s s1 s2 : CoarseGrainSystem} (h1 : SameTopology s s1)
    (h2 : SameTopology s1 s2) : SameTopology s s2 :=
  ⟨h2.1.trans h1.1, h2.2.1.trans h1.2.1, h2.2.2.1.trans h1.2.2.1,
   h2.2.2.2.1.trans h1.2.2.2.1, h2.2.2.2.2.1.trans h1.2.2.2.2.1,
   h2.2.2.2.2.2.1.trans h1.2.2.2.2.2.1, h2.2.2.2.2.2.2.trans h1.2.2.2.2.2.2⟩

theorem modifySite_sameTopology {s s1 : CoarseGrainSystem} {siteId : Int} {f : Site → Site}
    (h : s.modifySite siteId f = .ok s1)
    (hf : ∀ site, (f site).cluster_id = site.cluster_id) : SameTopology s s1 := by
  obtain ⟨site, hfind, rfl⟩ := modifySite_eq_ok h
  refine ⟨rfl, rfl, ?_, rfl, rfl, rfl, rfl⟩
  simp only [clusterIdsOfSites]
  exact Table.map_assign_of_find _ _ _ _ _ hfind (by simp [hf])

theorem vacate_sameTopology {s s1 : CoarseGrainSystem} {feature : Feature} {siteId : Int}
    (h : s.vacate feature siteId = .ok s1) : SameTopology s s1 := by
  cases feature with
  | site id =>
    have h2 : s.modifySite id _ = .ok s1 := h
    exact modifySite_sameTopology h2 (fun _ => rfl)
  | cluster id =>
    simp only [vacate] at h
    obtain ⟨_, _, h2⟩ := Result.bind_eq_ok.mp h
    exact modifySite_sameTopology h2 (fun _ => rfl)

theorem occupy_sameTopology {s s1 : CoarseGrainSystem} {feature : Feature} {siteId : Int}
    (h : s.occupy feature siteId = .ok s1) : SameTopology s s1 := by
  cases feature with
  | site id =>
    have h2 : s.modifySite id _ = .ok s1 := h
    exact modifySite_sameTopology h2 (fun _ => rfl)
  | cluster id =>
    simp only [occupy] at h
    obtain ⟨_, _, h2⟩ := Result.bind_eq_ok.mp h
    exact modifySite_sameTopology h2 (fun _ => rfl)

theorem getDwellTime_sameTopology {env : Collaborators} {s s1 : CoarseGrainSystem}
    {feature : Feature} {walker_id : Int} {dwell : Option ℚ}
    (h : s.getDwellTime env feature walker_id = .ok (dwell, s1)) : SameTopology s s1 := by
  cases feature with
  | site id =>
    simp only [getDwellTime] at h
    obtain ⟨site, h1, h2⟩ := Result.bind_eq_ok.mp h
    simp only [Result.pure_eq, Except.ok.injEq, Prod.mk.injEq] at h2
    obtain ⟨_, rfl⟩ := h2
    refine ⟨rfl, rfl, ?_, rfl, rfl, rfl, rfl⟩
    simp only [clusterIdsOfSites]
    exact Table.map_assign_of_find _ _ _ _ _ (getSite_eq_ok h1) rfl
  | cluster id =>
    simp only [getDwellTime] at h
    obtain ⟨cluster, h1, h2⟩ := Result.bind_eq_ok.mp h
    simp only [Result.pure_eq, Except.ok.injEq, Prod.mk.injEq] at h2
    obtain ⟨_, rfl⟩ := h2
    refine ⟨rfl, rfl, rfl, ?_, rfl, rfl, rfl⟩
    simp only [membersOfClusters]
    exact Table.map_assign_of_find _ _ _ _ _ (getCluster_eq_ok h1) rfl

theorem pickNewSiteId_sameTopology {env : Collaborators} {s s1 : CoarseGrainSystem}
    {feature : Feature} {walker_id : Int} {next : Int}
    (h : s.pickNewSiteId env feature walker_id = .ok (next, s1)) : SameTopology s s1 := by
  cases feature with
  | site id =>
    simp only [pickNewSiteId] at h
    obtain ⟨site, h1, h2⟩ := Result.bind_eq_ok.mp h
    simp only [Result.pure_eq, Except.ok.injEq, Prod.mk.injEq] at h2
    obtain ⟨_, rfl⟩ := h2
    refine ⟨rfl, rfl, ?_, rfl, rfl, rfl, rfl⟩
    simp only [clusterIdsOfSites]
    exact Table.map_assign_of_find _ _ _ _ _ (getSite_eq_ok h1) rfl
  | cluster id =>
    simp only [pickNewSiteId] at h
    obtain ⟨cluster, h1, h2⟩ := Result.bind_eq_ok.mp h
    simp only [Result.pure_eq, Except.ok.injEq, Prod.mk.injEq] at h2
    obtain ⟨_, rfl⟩ := h2
    refine ⟨rfl, rfl, rfl, ?_, rfl, rfl, rfl⟩
    simp only [membersOfClusters]
    exact Table.map_assign_of_find _ _ _ _ _ (getCluster_eq_ok h1) rfl

/-- The value of `hopMove` in closed form: which branch is taken and what it computes. -/
theorem hopMove_eq_ok {env : Collaborators} {s s1 : CoarseGrainSystem} {walker_id : Int}
    {walker w1 : Walker} {d : Int} (h : s.hopMove env walker_id walker = .ok (s1, w1, d)) :
    ∃ (feature feature_to_hop_to : Feature) (occupied : Bool) (after : Feature)
      (s2 s3 s4 : CoarseGrainSystem) (dwell : Option ℚ) (next : Int),
      walker.current_site_ ≠ constants.unassignedId ∧
      walker.potential_site_ ≠ constants.unassignedId ∧
      d = walker.potential_site_ ∧
      s.getFeature walker.current_site_ = .ok feature ∧
      s.getFeature walker.potential_site_ = .ok feature_to_hop_to ∧
      s.isOccupied feature_to_hop_to walker.potential_site_ = .ok occupied ∧
      after = (if occupied then feature else feature_to_hop_to) ∧
      s.vacate feature walker.current_site_ = .ok s2 ∧
      s2.occupy after (if occupied then walker.current_site_ else walker.potential_site_)
        = .ok s3 ∧
      s3.getDwellTime env after walker_id = .ok (dwell, s4) ∧
      s4.pickNewSiteId env after walker_id = .ok (next, s1) ∧
      w1 = { current_site_ := if occupied then walker.current_site_ else walker.potential_site_
             potential_site_ := next
             dwell_time_ := dwell } := by
  unfold hopMove at h
  obtain ⟨c, hc, h⟩ := Result.bind_eq_ok.mp h
  obtain ⟨d0, hd, h⟩ := Result.bind_eq_ok.mp h
  obtain ⟨feature, hF, h⟩ := Result.bind_eq_ok.mp h
  obtain ⟨feature_to_hop_to, hF2, h⟩ := Result.bind_eq_ok.mp h
  obtain ⟨occupied, hocc, h⟩ := Result.bind_eq_ok.mp h
  have hc1 : walker.current_site_ ≠ constants.unassignedId ∧ c = walker.current_site_ := by
    unfold Walker.getIdOfSiteCurrentlyOccupying at hc
    by_cases hu : walker.current_site_ = constants.unassignedId
    · simp [hu] at hc
    · simp [hu] at hc; exact ⟨hu, hc.symm⟩
  have hd1 : walker.potential_site_ ≠ constants.unassignedId ∧ d0 = walker.potential_site_ := by
    unfold Walker.getPotentialSite at hd
    by_cases hu : walker.potential_site_ = constants.unassignedId
    · simp [hu] at hd
    · simp [hu] at hd; exact ⟨hu, hd.symm⟩
  obtain ⟨hcne, rfl⟩ := hc1
  obtain ⟨hdne, rfl⟩ := hd1
  cases occupied with
  | false =>
    simp only [Bool.not_false, if_true] at h
    obtain ⟨s2, hv, h⟩ := Result.bind_eq_ok.mp h
    obtain ⟨s3, ho, h⟩ := Result.bind_eq_ok.mp h
    obtain ⟨⟨dwell, s4⟩, hdw, h⟩ := Result.bind_eq_ok.mp h
    obtain ⟨⟨next, s5⟩, hp, h⟩ := Result.bind_eq_ok.mp h
    simp only [Result.pure_eq, Except.ok.injEq, Prod.mk.injEq] at h
    obtain ⟨rfl, rfl, rfl⟩ := h
    exact ⟨feature, feature_to_hop_to, false, feature_to_hop_to, s2, s3, s4, dwell, next,
      hcne, hdne, rfl, hF, hF2, hocc, by simp, hv, by simpa using ho, hdw, hp,
      by simp [Walker.setPotentialSite, Walker.setDwellTime, Walker.occupySite]⟩
  | true =>
    simp only [Bool.not_true] at h
    obtain ⟨s2, hv, h⟩ := Result.bind_eq_ok.mp h
    obtain ⟨s3, ho, h⟩ := Result.bind_eq_ok.mp h
    obtain ⟨⟨dwell, s4⟩, hdw, h⟩ := Result.bind_eq_ok.mp h
    obtain ⟨⟨next, s5⟩, hp, h⟩ := Result.bind_eq_ok.mp h
    simp only [Result.pure_eq, Except.ok.injEq, Prod.mk.injEq] at h
    obtain ⟨rfl, rfl, rfl⟩ := h
    exact ⟨feature, feature_to_hop_to, true, feature, s2, s3, s4, dwell, next,
      hcne, hdne, rfl, hF, hF2, hocc, by simp, hv, by simpa using ho, hdw, hp,
      by simp [Walker.setPotentialSite, Walker.setDwellTime]⟩

theorem hopMove_sameTopology {env : Collaborators} {s s1 : CoarseGrainSystem} {walker_id : Int}
    {walker w1 : Walker} {d : Int} (h : s.hopMove env walker_id walker = .ok (s1, w1, d)) :
    SameTopology s s1 ∧ d = walker.potential_site_ := by
  obtain ⟨_, _, _, _, s2, s3, s4, _, _, _, _, hd, _, _, _, _, hv, ho, hdw, hp, _⟩ :=
    hopMove_eq_ok h
  exact ⟨(vacate_sameTopology hv).trans ((occupy_sameTopology ho).trans
    ((getDwellTime_sameTopology hdw).trans (pickNewSiteId_sameTopology hp))), hd⟩

/-! ### Closed forms of the loops of `createCluster_` and `mergeSitesAndClusters_` -/

theorem find_setClusterIds (clusterId : Int) :
    ∀ (ids : List Int) (sites : List (Int × Site)) (x : Int),
      Table.find (setClusterIds sites clusterId ids) x =
        if x ∈ ids then (Table.find sites x).map (fun site => { site with cluster_id := clusterId })
        else Table.find sites x := by
  intro ids
  induction ids with
  | nil => intro sites x; simp [setClusterIds]
  | cons a rest ih =>
    intro sites x
    cases hf : Table.find sites a with
    | none =>
      simp only [setClusterIds, hf, ih]
      by_cases hx : x = a
      · subst hx
        by_cases hr : x ∈ rest
        · simp [hr]
        · simp [hr, hf]
      · simp [hx]
    | some site =>
      simp only [setClusterIds, hf, ih, Table.find_assign]
      by_cases hx : x = a
      · subst hx
        by_cases hr : x ∈ rest
        · simp [hr, hf]
        · simp [hr, hf]
      · simp [hx]

theorem keys_setClusterIds (clusterId : Int) :
    ∀ (ids : List Int) (sites : List (Int × Site)),
      Table.keys (setClusterIds sites clusterId ids) = Table.keys sites := by
  intro ids
  induction ids with
  | nil => intro sites; rfl
  | cons a rest ih =>
    intro sites
    cases hf : Table.find sites a with
    | none => simp only [setClusterIds, hf, ih]
    | some site =>
      simp only [setClusterIds, hf, ih, Table.keys_assign]
      have : a ∈ Table.keys sites := (Table.find_isSome_iff sites a).mp (by simp [hf])
      simp [this]

theorem find_dispatchAll (clusterId : Int) :
    ∀ (ids : List Int) (features : List (Int × Feature)) (x : Int),
      Table.find (dispatchAll features clusterId ids) x =
        if x ∈ ids then some (Feature.cluster clusterId) else Table.find features x := by
  intro ids
  induction ids with
  | nil => intro features x; simp [dispatchAll]
  | cons a rest ih =>
    intro features x
    simp only [dispatchAll, ih, Table.find_assign]
    by_cases hx : x = a
    · subst hx
      by_cases hr : x ∈ rest
      · simp [hr]
      · simp [hr]
    · simp [hx]

theorem assignSitesToCluster_eq_ok (clusterId : Int) :
    ∀ (ids : List Int) (s s1 : CoarseGrainSystem),
      s.assignSitesToCluster clusterId ids = .ok s1 →
      s1 = { s with sites_ := setClusterIds s.sites_ clusterId ids,
                    topology_features_ := dispatchAll s.topology_features_ clusterId ids } := by
  intro ids
  induction ids with
  | nil =>
    intro s s1 h
    simp only [assignSitesToCluster, Except.ok.injEq] at h
    subst h
    rfl
  | cons a rest ih =>
    intro s s1 h
    simp only [assignSitesToCluster] at h
    obtain ⟨s2, h2, h⟩ := Result.bind_eq_ok.mp h
    obtain ⟨s3, h3, h⟩ := Result.bind_eq_ok.mp h
    obtain ⟨site, hsite, rfl⟩ := setClusterId_eq_ok h2
    obtain ⟨_, _, rfl⟩ := dispatchToCluster_eq_ok h3
    rw [ih _ _ h]
    simp [setClusterIds, dispatchAll, hsite]

theorem assignSitesToCluster_ok (clusterId : Int) :
    ∀ (ids : List Int) (s : CoarseGrainSystem),
      (∀ id ∈ ids, (Table.find s.sites_ id).isSome) →
      (Table.find s.clusters_ clusterId).isSome →
      ∃ s1, s.assignSitesToCluster clusterId ids = .ok s1 := by
  intro ids
  induction ids with
  | nil => intro s _ _; exact ⟨s, rfl⟩
  | cons a rest ih =>
    intro s hreg hcl
    obtain ⟨site, hsite⟩ := getSite_ok_of_find (hreg a (List.mem_cons_self _ _))
    cases hc : Table.find s.clusters_ clusterId with
    | none => simp [hc] at hcl
    | some cluster =>
      have hreg2 : ∀ id ∈ rest, (Table.find
          (Table.assign s.sites_ a { site with cluster_id := clusterId }) id).isSome := by
        intro id hid
        rw [Table.find_assign]
        by_cases hx : id = a
        · simp [hx]
        · simpa [hx] using hreg id (List.mem_cons_of_mem _ hid)
      obtain ⟨s1, h1⟩ := ih
        { s with sites_ := Table.assign s.sites_ a { site with cluster_id := clusterId },
                 topology_features_ :=
                   Table.assign s.topology_features_ a (Feature.cluster clusterId) }
        hreg2 (by simp [hc])
      refine ⟨s1, ?_⟩
      simp only [assignSitesToCluster, setClusterId, hsite, Result.ok_bind, Result.pure_eq,
        dispatchToCluster, getCluster, hc]
      exact h1

end CoarseGrainSystem

/-! ### The favoured cluster id and the number of clusters -/

/-- One step of the loop of `getFavoredClusterId`, from any starting value. -/
theorem getFavoredClusterId_foldl (m : List (Int × Int)) :
    ∀ acc : Int,
      let r := m.foldl
        (fun clusterId (site_and_cluster : Int × Int) =>
          if site_and_cluster.2 ≠ constants.unassignedId then
            if clusterId = constants.unassignedId ∨ site_and_cluster.2 < clusterId then
              site_and_cluster.2
            else clusterId
          else clusterId) acc
      (r = acc ∨ ∃ p ∈ m, p.2 = r ∧ p.2 ≠ constants.unassignedId) ∧
      (∀ p ∈ m, p.2 ≠ constants.unassignedId → r ≠ constants.unassignedId ∧ r ≤ p.2) ∧
      (acc ≠ constants.unassignedId → r ≠ constants.unassignedId ∧ r ≤ acc) := by
  induction m with
  | nil => intro acc; simp
  | cons q rest ih =>
    intro acc
    simp only [List.foldl_cons]
    by_cases hq : q.2 ≠ constants.unassignedId
    · by_cases hacc : acc = constants.unassignedId ∨ q.2 < acc
      · simp only [hq, hacc, if_true, ne_eq, not_false_eq_true]
        obtain ⟨h1, h2, h3⟩ := ih q.2
        refine ⟨?_, ?_, ?_⟩
        · rcases h1 with h1 | ⟨p, hp, hp2⟩
          · exact Or.inr ⟨q, List.mem_cons_self _ _, h1.symm, hq⟩
          · exact Or.inr ⟨p, List.mem_cons_of_mem _ hp, hp2⟩
        · intro p hp hpne
          rcases List.mem_cons.mp hp with hp | hp
          · subst hp; exact h3 hq
          · exact h2 p hp hpne
        · intro hne
          have := h3 hq
          rcases hacc with hacc | hacc
          · exact absurd hacc hne
          · exact ⟨this.1, le_trans this.2 (le_of_lt hacc)⟩
      · simp only [hq, hacc, if_true, if_false, ne_eq, not_false_eq_true]
        obtain ⟨h1, h2, h3⟩ := ih acc
        have hacc2 : acc ≠ constants.unassignedId ∧ acc ≤ q.2 := by
          constructor
          · intro e; exact hacc (Or.inl e)
          · by_contra hlt; exact hacc (Or.inr (not_le.mp hlt))
        refine ⟨?_, ?_, ?_⟩
        · rcases h1 with h1 | ⟨p, hp, hp2⟩
          · exact Or.inl h1
          · exact Or.inr ⟨p, List.mem_cons_of_mem _ hp, hp2⟩
        · intro p hp hpne
          rcases List.mem_cons.mp hp with hp | hp
          · subst hp
            have := h3 hacc2.1
            exact ⟨this.1, le_trans this.2 hacc2.2⟩
          · exact h2 p hp hpne
        · exact h3
    · have hq2 : q.2 = constants.unassignedId := not_not.mp hq
      simp only [hq, if_false]
      obtain ⟨h1, h2, h3⟩ := ih acc
      refine ⟨?_, ?_, h3⟩
      · rcases h1 with h1 | ⟨p, hp, hp2⟩
        · exact Or.inl h1
        · exact Or.inr ⟨p, List.mem_cons_of_mem _ hp, hp2⟩
      · intro p hp hpne
        rcases List.mem_cons.mp hp with hp | hp
        · subst hp; exact absurd hq2 hpne
        · exact h2 p hp hpne

/-- The favoured id is the sentinel when no candidate is in a cluster, and otherwise the
least cluster id of the candidates that is not the sentinel. -/
theorem getFavoredClusterId_spec (m : List (Int × Int)) :
    (getFavoredClusterId m = constants.unassignedId ↔ ∀ p ∈ m, p.2 = constants.unassignedId) ∧
    (∀ p ∈ m, p.2 ≠ constants.unassignedId → getFavoredClusterId m ≤ p.2) ∧
    (getFavoredClusterId m ≠ constants.unassignedId →
      ∃ p ∈ m, p.2 = getFavoredClusterId m) := by
  obtain ⟨h1, h2, _⟩ := getFavoredClusterId_foldl m constants.unassignedId
  change (getFavoredClusterId m = constants.unassignedId ∨
    ∃ p ∈ m, p.2 = getFavoredClusterId m ∧ p.2 ≠ constants.unassignedId) at h1
  change (∀ p ∈ m, p.2 ≠ constants.unassignedId →
    getFavoredClusterId m ≠ constants.unassignedId ∧ getFavoredClusterId m ≤ p.2) at h2
  refine ⟨⟨?_, ?_⟩, ?_, ?_⟩
  · intro hr p hp
    by_contra hne
    exact (h2 p hp hne).1 hr
  · intro hall
    rcases h1 with h1 | ⟨p, hp, hp2, hp3⟩
    · exact h1
    · exact absurd (hall p hp) hp3
  · intro p hp hne
    exact (h2 p hp hne).2
  · intro hne
    rcases h1 with h1 | ⟨p, hp, hp2, _⟩
    · exact absurd h1 hne
    · exact ⟨p, hp, hp2⟩

theorem countUniqueClusters_eq (m : List (Int × Int)) :
    countUniqueClusters m = (m.map Prod.snd).toFinset.card := by
  have key : ∀ (l : List (Int × Int)) (acc : Finset Int),
      l.foldl (fun (clusters : Finset Int) site_and_cluster => insert site_and_cluster.2 clusters) acc
        = acc ∪ (l.map Prod.snd).toFinset := by
    intro l
    induction l with
    | nil => intro acc; simp
    | cons q rest ih =>
      intro acc
      simp only [List.foldl_cons, ih, List.map_cons, List.toFinset_cons]
      ext x
      simp only [Finset.mem_union, Finset.mem_insert, List.mem_toFinset]
      tauto
  unfold countUniqueClusters
  rw [key]
  simp

/-- The count is 1 exactly when the map is not empty and all its cluster ids are equal. -/
theorem countUniqueClusters_eq_one_iff (m : List (Int × Int)) :
    countUniqueClusters m = 1 ↔ ∃ c, (∃ p ∈ m, p.2 = c) ∧ ∀ p ∈ m, p.2 = c := by
  rw [countUniqueClusters_eq, Finset.card_eq_one]
  constructor
  · rintro ⟨c, hc⟩
    have hmem : ∀ x, x ∈ (m.map Prod.snd).toFinset ↔ x = c := by
      intro x; rw [hc]; simp
    refine ⟨c, ?_, ?_⟩
    · have := (hmem c).mpr rfl
      simp only [List.mem_toFinset, List.mem_map] at this
      obtain ⟨p, hp, hpc⟩ := this
      exact ⟨p, hp, hpc⟩
    · intro p hp
      exact (hmem p.2).mp (by simp only [List.mem_toFinset, List.mem_map]; exact ⟨p, hp, rfl⟩)
  · rintro ⟨c, ⟨p, hp, hpc⟩, hall⟩
    refine ⟨c, ?_⟩
    ext x
    simp only [List.mem_toFinset, List.mem_map, Finset.mem_singleton]
    constructor
    · rintro ⟨q, hq, rfl⟩; exact hall q hq
    · rintro rfl; exact ⟨p, hp, hpc⟩

theorem getFavoredClusterId_congr (m1 m2 : List (Int × Int))
    (h : ∀ c, (∃ p ∈ m1, p.2 = c) ↔ (∃ p ∈ m2, p.2 = c)) :
    getFavoredClusterId m1 = getFavoredClusterId m2 := by
  have key : ∀ a b : List (Int × Int), (∀ c, (∃ p ∈ a, p.2 = c) → (∃ p ∈ b, p.2 = c)) →
      getFavoredClusterId a ≠ constants.unassignedId →
      getFavoredClusterId b ≠ constants.unassignedId ∧
        getFavoredClusterId b ≤ getFavoredClusterId a := by
    intro a b hab hne
    obtain ⟨_, _, ha3⟩ := getFavoredClusterId_spec a
    obtain ⟨hb1, hb2, _⟩ := getFavoredClusterId_spec b
    obtain ⟨p, hp, hpr⟩ := ha3 hne
    obtain ⟨q, hq, hqr⟩ := hab _ ⟨p, hp, rfl⟩
    have hqne : q.2 ≠ constants.unassignedId := by rw [hqr, hpr]; exact hne
    refine ⟨fun e => hqne (hb1.mp e q hq), ?_⟩
    have := hb2 q hq hqne
    rw [hqr, hpr] at this
    exact this
  by_cases h1 : getFavoredClusterId m1 = constants.unassignedId
  · by_cases h2 : getFavoredClusterId m2 = constants.unassignedId
    · rw [h1, h2]
    · exact absurd h1 (key m2 m1 (fun c hc => (h c).mpr hc) h2).1
  · have a := key m1 m2 (fun c hc => (h c).mp hc) h1
    have b := key m2 m1 (fun c hc => (h c).mpr hc) a.1
    exact le_antisymm b.2 a.2

namespace CoarseGrainSystem

/-! ### The map from candidate sites to cluster ids -/

theorem clusterIdOf_of_find {s : CoarseGrainSystem} {siteId : Int} {site : Site}
    (h : Table.find s.sites_ siteId = some site) : clusterIdOf s siteId = site.cluster_id := by
  simp [clusterIdOf, h]

theorem getClustersOfSitesLoop_cons (s : CoarseGrainSystem) (acc : List (Int × Int)) (a : Int)
    (rest : List Int) :
    getClustersOfSitesLoop s acc (a :: rest) =
      (s.getSite a >>= fun site =>
        getClustersOfSitesLoop s (Table.assign acc a site.cluster_id) rest) := by
  cases hs : s.getSite a with
  | error e => simp [getClustersOfSitesLoop, partOfCluster, hs]
  | ok site =>
    by_cases hc : site.cluster_id = constants.unassignedId
    · simp [getClustersOfSitesLoop, partOfCluster, getClusterIdOfSite, hs, hc]
    · simp [getClustersOfSitesLoop, partOfCluster, getClusterIdOfSite, hs, hc]

theorem getClustersOfSitesLoop_ok (s : CoarseGrainSystem) :
    ∀ (ids : List Int) (acc : List (Int × Int)),
      (∀ id ∈ ids, (Table.find s.sites_ id).isSome) →
      ∃ m, getClustersOfSitesLoop s acc ids = .ok m := by
  intro ids
  induction ids with
  | nil => intro acc _; exact ⟨acc, rfl⟩
  | cons a rest ih =>
    intro acc hreg
    obtain ⟨site, hsite⟩ := getSite_ok_of_find (hreg a (List.mem_cons_self _ _))
    obtain ⟨m, hm⟩ := ih (Table.assign acc a site.cluster_id)
      (fun id hid => hreg id (List.mem_cons_of_mem _ hid))
    exact ⟨m, by rw [getClustersOfSitesLoop_cons, hsite]; exact hm⟩

theorem getClustersOfSitesLoop_spec (s : CoarseGrainSystem) :
    ∀ (ids : List Int) (acc m : List (Int × Int)),
      getClustersOfSitesLoop s acc ids = .ok m →
      (∀ id ∈ ids, (Table.find s.sites_ id).isSome) ∧
      (∀ x, Table.find m x = if x ∈ ids then some (clusterIdOf s x) else Table.find acc x) ∧
      (∀ x, x ∈ Table.keys m ↔ x ∈ Table.keys acc ∨ x ∈ ids) ∧
      ((Table.keys acc).Nodup → (Table.keys m).Nodup) := by
  intro ids
  induction ids with
  | nil =>
    intro acc m h
    simp only [getClustersOfSitesLoop, Except.ok.injEq] at h
    subst h
    simp
  | cons a rest ih =>
    intro acc m h
    rw [getClustersOfSitesLoop_cons] at h
    obtain ⟨site, hsite, h⟩ := Result.bind_eq_ok.mp h
    have hfind := getSite_eq_ok hsite
    obtain ⟨h1, h2, h3, h4⟩ := ih _ _ h
    refine ⟨?_, ?_, ?_, ?_⟩
    · intro id hid
      rcases List.mem_cons.mp hid with hid | hid
      · subst hid; simp [hfind]
      · exact h1 id hid
    · intro x
      rw [h2, Table.find_assign]
      by_cases hx : x = a
      · subst hx
        by_cases hr : x ∈ rest
        · simp [hr]
        · simp [hr, clusterIdOf_of_find hfind]
      · simp [hx]
    · intro x
      rw [h3, Table.mem_keys_assign]
      simp only [List.mem_cons]
      tauto
    · intro hn
      exact h4 (Table.nodup_keys_assign _ _ _ hn)

/-- The map `getClustersOfSites` builds: its keys are the candidates, without repetition,
and every candidate is mapped to its cluster id. -/
theorem getClustersOfSites_spec {s : CoarseGrainSystem} {ids : List Int} {m : List (Int × Int)}
    (h : s.getClustersOfSites ids = .ok m) :
    (∀ id ∈ ids, (Table.find s.sites_ id).isSome) ∧
    (Table.keys m).Nodup ∧
    (∀ x, x ∈ Table.keys m ↔ x ∈ ids) ∧
    (∀ p, p ∈ m ↔ p.1 ∈ ids ∧ p.2 = clusterIdOf s p.1) := by
  obtain ⟨h1, h2, h3, h4⟩ := getClustersOfSitesLoop_spec s ids [] m h
  have hn : (Table.keys m).Nodup := h4 (by simp [Table.keys])
  have hk : ∀ x, x ∈ Table.keys m ↔ x ∈ ids := by
    intro x; rw [h3]; simp [Table.keys]
  refine ⟨h1, hn, hk, ?_⟩
  intro p
  obtain ⟨x, c⟩ := p
  constructor
  · intro hp
    have hx : x ∈ ids := (hk x).mp (List.mem_map.mpr ⟨(x, c), hp, rfl⟩)
    have hf := Table.mem_find_of_nodup m hn x c hp
    rw [h2] at hf
    simp only [hx, if_true, Option.some.injEq] at hf
    exact ⟨hx, hf.symm⟩
  · rintro ⟨hx, hc⟩
    simp only at hx hc
    have hf := h2 x
    simp only [hx, if_true] at hf
    rw [hc]
    exact Table.find_some_mem m x _ hf

theorem getClustersOfSites_ok (s : CoarseGrainSystem) (ids : List Int)
    (hreg : ∀ id ∈ ids, (Table.find s.sites_ id).isSome) :
    ∃ m, s.getClustersOfSites ids = .ok m :=
  getClustersOfSitesLoop_ok s ids [] hreg

theorem getFavoredClusterId_go_eq (s : CoarseGrainSystem) :
    ∀ (ids : List Int) (favoredClusterId : Int),
      (∀ id ∈ ids, (Table.find s.sites_ id).isSome) →
      getFavoredClusterId_.go s favoredClusterId ids =
        .ok ((ids.map (fun id => (id, clusterIdOf s id))).foldl
          (fun clusterId (site_and_cluster : Int × Int) =>
            if site_and_cluster.2 ≠ constants.unassignedId then
              if clusterId = constants.unassignedId ∨ site_and_cluster.2 < clusterId then
                site_and_cluster.2
              else clusterId
            else clusterId) favoredClusterId) := by
  intro ids
  induction ids with
  | nil => intro f _; rfl
  | cons a rest ih =>
    intro f hreg
    obtain ⟨site, hsite⟩ := getSite_ok_of_find (hreg a (List.mem_cons_self _ _))
    have hfind := getSite_eq_ok hsite
    have hrest : ∀ id ∈ rest, (Table.find s.sites_ id).isSome :=
      fun id hid => hreg id (List.mem_cons_of_mem _ hid)
    simp only [getFavoredClusterId_.go, getClusterIdOfSite, hsite, Result.ok_bind, Result.pure_eq,
      List.map_cons, List.foldl_cons, clusterIdOf_of_find hfind]
    by_cases hf : f = constants.unassignedId
    · by_cases hc : site.cluster_id = constants.unassignedId
      · simp only [hf, hc, if_true, ne_eq, not_true_eq_false, if_false]
        rw [ih _ hrest]
      · simp only [hf, hc, if_true, ne_eq, not_false_eq_true, true_or]
        rw [ih _ hrest]
    · by_cases hc : site.cluster_id ≠ constants.unassignedId ∧ site.cluster_id < f
      · simp only [hf, hc, if_true, if_false, ne_eq, not_false_eq_true, false_or, and_self]
        rw [ih _ hrest]
      · simp only [hf, hc, if_false]
        rw [ih _ hrest]
        by_cases hc2 : site.cluster_id = constants.unassignedId
        · simp [hc2]
        · have hc3 : ¬ site.cluster_id < f := fun hlt => hc ⟨hc2, hlt⟩
          simp [hc2, hf, hc3]

/-- C8: `getFavoredClusterId` returns the sentinel exactly when no candidate of the map is in
a cluster, and otherwise a cluster id of the map that is not the sentinel and is at most
every other such id; and for registered candidate sites the member function
`getFavoredClusterId_` returns the value `getFavoredClusterId` returns on the map
`getClustersOfSites` builds for them. -/
theorem getFavoredClusterId_least (m : List (Int × Int)) (s : CoarseGrainSystem)
    (siteIds : List Int) (hreg : ∀ id ∈ siteIds, (Table.find s.sites_ id).isSome) :
    (getFavoredClusterId m = constants.unassignedId ↔ ∀ p ∈ m, p.2 = constants.unassignedId) ∧
    (∀ p ∈ m, p.2 ≠ constants.unassignedId → getFavoredClusterId m ≤ p.2) ∧
    (getFavoredClusterId m ≠ constants.unassignedId → ∃ p ∈ m, p.2 = getFavoredClusterId m) ∧
    ∃ sites_and_clusters,
      s.getClustersOfSites siteIds = .ok sites_and_clusters ∧
      s.getFavoredClusterId_ siteIds = .ok (getFavoredClusterId sites_and_clusters) := by
  obtain ⟨h1, h2, h3⟩ := getFavoredClusterId_spec m
  refine ⟨h1, h2, h3, ?_⟩
  obtain ⟨mm, hmm⟩ := getClustersOfSites_ok s siteIds hreg
  refine ⟨mm, hmm, ?_⟩
  obtain ⟨_, _, _, hmem⟩ := getClustersOfSites_spec hmm
  unfold getFavoredClusterId_
  rw [getFavoredClusterId_go_eq s siteIds _ hreg]
  congr 1
  apply getFavoredClusterId_congr
  intro c
  constructor
  · rintro ⟨p, hp, rfl⟩
    obtain ⟨x, hx, rfl⟩ := List.mem_map.mp hp
    exact ⟨(x, clusterIdOf s x), (hmem _).mpr ⟨hx, rfl⟩, rfl⟩
  · rintro ⟨p, hp, rfl⟩
    obtain ⟨hx, hc⟩ := (hmem p).mp hp
    exact ⟨(p.1, clusterIdOf s p.1), List.mem_map.mpr ⟨p.1, hx, rfl⟩, hc.symm⟩

/-! ### `createCluster_` in closed form -/

theorem getSites_ok (s : CoarseGrainSystem) :
    ∀ ids : List Int, (∀ id ∈ ids, (Table.find s.sites_ id).isSome) →
      ∃ sites, s.getSites ids = .ok sites := by
  intro ids
  induction ids with
  | nil => intro _; exact ⟨[], rfl⟩
  | cons a rest ih =>
    intro hreg
    obtain ⟨site, hsite⟩ := getSite_ok_of_find (hreg a (List.mem_cons_self _ _))
    obtain ⟨sites, hsites⟩ := ih (fun id hid => hreg id (List.mem_cons_of_mem _ hid))
    exact ⟨site :: sites, by simp [getSites, hsite, hsites]⟩

theorem getSites_ids (s : CoarseGrainSystem) (hkeyed : SitesKeyed s) :
    ∀ (ids : List Int) (sites : List Site), s.getSites ids = .ok sites →
      sites.map Site.id = ids ∧ ∀ id ∈ ids, (Table.find s.sites_ id).isSome := by
  intro ids
  induction ids with
  | nil =>
    intro sites h
    simp only [getSites, Except.ok.injEq] at h
    subst h
    simp
  | cons a rest ih =>
    intro sites h
    simp only [getSites] at h
    obtain ⟨site, hsite, h⟩ := Result.bind_eq_ok.mp h
    obtain ⟨sites1, hsites1, h⟩ := Result.bind_eq_ok.mp h
    simp only [Result.pure_eq, Except.ok.injEq] at h
    subst h
    have hfind := getSite_eq_ok hsite
    have hid : site.id = a := hkeyed (a, site) (Table.find_some_mem _ _ _ hfind)
    obtain ⟨h1, h2⟩ := ih sites1 hsites1
    refine ⟨by simp [hid, h1], ?_⟩
    intro id hmem
    rcases List.mem_cons.mp hmem with hmem | hmem
    · subst hmem; simp [hfind]
    · exact h2 id hmem

theorem Table.assign_of_find_none {β : Type} (m : List (Int × β)) (key : Int) (v : β)
    (h : Table.find m key = none) : Table.assign m key v = m ++ [(key, v)] := by
  induction m with
  | nil => rfl
  | cons p rest ih =>
    obtain ⟨a, w⟩ := p
    by_cases h1 : a = key
    · simp [Table.find, h1] at h
    · simp only [Table.find, h1, if_false] at h
      simp [Table.assign, h1, ih h]

/-- The outcome of `createCluster_` on candidate sites that are all stored. -/
theorem createCluster_eq (env : Collaborators) (s : CoarseGrainSystem) (siteIds : List Int)
    (internal_time_limit : ℚ) (hkeyed : SitesKeyed s)
    (hreg : ∀ id ∈ siteIds, (Table.find s.sites_ id).isSome) :
    s.createCluster_ env siteIds internal_time_limit = .ok (s.cluster_id_count_,
      afterCreateCluster env s siteIds internal_time_limit) := by
  unfold afterCreateCluster
  obtain ⟨sites, hsites⟩ := getSites_ok s siteIds hreg
  obtain ⟨hids, _⟩ := getSites_ids s hkeyed siteIds sites hsites
  have hsites2 : getSites { s with cluster_id_count_ := s.cluster_id_count_ + 1 } siteIds
      = .ok sites := by
    have : ∀ ids, getSites { s with cluster_id_count_ := s.cluster_id_count_ + 1 } ids
        = getSites s ids := by
      intro ids
      induction ids with
      | nil => rfl
      | cons a rest ih => simp only [getSites, ih]; rfl
    rw [this]; exact hsites
  unfold createCluster_
  simp only [hsites2, Result.ok_bind]
  cases hset : s.seed_set_ with
  | false =>
    simp only [Bool.false_eq_true, if_false]
    obtain ⟨s1, hs1⟩ := assignSitesToCluster_ok s.cluster_id_count_ siteIds
      (addCluster { s with cluster_id_count_ := s.cluster_id_count_ + 1 }
        (createdCluster env s siteIds internal_time_limit))
      hreg (by simp [addCluster, createdCluster, Table.find_assign])
    have hform := assignSitesToCluster_eq_ok _ _ _ _ hs1
    simp only [Cluster.new, Cluster.addSites, Cluster.updateProbabilitiesAndTimeConstant,
      Cluster.setResolution, hids, List.nil_append]
    simp only [createdCluster, hset] at hs1 hform
    simp only [Bool.false_eq_true, if_false] at hs1 hform
    rw [hs1]
    simp only [Result.ok_bind, Result.pure_eq, hform, addCluster, createdCluster, hset]
    simp
  | true =>
    simp only [if_true]
    obtain ⟨s1, hs1⟩ := assignSitesToCluster_ok s.cluster_id_count_ siteIds
      (addCluster { s with cluster_id_count_ := s.cluster_id_count_ + 1,
                           seed_ := wrapULong (s.seed_ + 1) }
        (createdCluster env s siteIds internal_time_limit))
      hreg (by simp [addCluster, createdCluster, Table.find_assign])
    have hform := assignSitesToCluster_eq_ok _ _ _ _ hs1
    simp only [Cluster.new, Cluster.addSites, Cluster.updateProbabilitiesAndTimeConstant,
      Cluster.setResolution, Cluster.setRandomSeed, hids, List.nil_append]
    simp only [createdCluster, hset] at hs1 hform
    simp only [if_true] at hs1 hform
    rw [hs1]
    simp only [Result.ok_bind, Result.pure_eq, hform, addCluster, createdCluster, hset]
    simp

/-! ### The three outcomes of `coarseGrain_` -/

/-- When all candidates have the same cluster id `c`, the map has exactly one cluster id
and its first entry carries `c`. -/
theorem uniform_map {s : CoarseGrainSystem} {ids : List Int} {m : List (Int × Int)} {c x : Int}
    (hm : s.getClustersOfSites ids = .ok m) (hx : x ∈ ids)
    (hall : ∀ id ∈ ids, clusterIdOf s id = c) :
    countUniqueClusters m = 1 ∧ m.head?.map Prod.snd = some c := by
  obtain ⟨_, _, _, hmem⟩ := getClustersOfSites_spec hm
  have hval : ∀ p ∈ m, p.2 = c := by
    intro p hp
    obtain ⟨h1, h2⟩ := (hmem p).mp hp
    rw [h2]; exact hall _ h1
  have hin : (x, clusterIdOf s x) ∈ m := (hmem _).mpr ⟨hx, rfl⟩
  constructor
  · exact (countUniqueClusters_eq_one_iff m).mpr ⟨c, ⟨_, hin, hval _ hin⟩, hval⟩
  · cases m with
    | nil => simp at hin
    | cons q rest => simp [hval q (List.mem_cons_self _ _)]

/-- C9: when every candidate the explorer proposes for `siteId` (the site itself among them)
is a stored site of one and the same cluster, `coarseGrain_` returns false and the state
it leaves is the state it was called in: dispatch table, cluster ids of the sites and the
clusters with their members are unchanged. -/
theorem coarseGrain_same_cluster_skips (env : Collaborators) (s : CoarseGrainSystem)
    (siteId c : Int)
    (hseed : siteId ∈ env.findBasin s.sites_ s.clusters_ siteId)
    (hcluster : c ≠ constants.unassignedId)
    (hall : ∀ id ∈ env.findBasin s.sites_ s.clusters_ siteId,
      ∃ site, Table.find s.sites_ id = some site ∧ site.cluster_id = c) :
    s.coarseGrain_ env siteId = .ok (false, s) := by
  have hreg : ∀ id ∈ env.findBasin s.sites_ s.clusters_ siteId,
      (Table.find s.sites_ id).isSome := by
    intro id hid
    obtain ⟨site, hsite, _⟩ := hall id hid
    simp [hsite]
  have hcid : ∀ id ∈ env.findBasin s.sites_ s.clusters_ siteId, clusterIdOf s id = c := by
    intro id hid
    obtain ⟨site, hsite, hc⟩ := hall id hid
    rw [clusterIdOf_of_find hsite, hc]
  obtain ⟨b, hsat⟩ := sitesSatisfyEquilibriumCondition_ok s _
    (s.getInternalTimeLimit_ env (env.findBasin s.sites_ s.clusters_ siteId)) hreg
  obtain ⟨m, hm⟩ := getClustersOfSites_ok s _ hreg
  obtain ⟨hcount, hhead⟩ := uniform_map hm hseed hcid
  unfold coarseGrain_
  simp only [hsat, Result.ok_bind]
  cases b with
  | false => simp
  | true =>
    simp only [if_true, hm, Result.ok_bind, hcount, hhead, Option.some.injEq, hcluster,
      and_false, if_false, ne_eq, not_true_eq_false, Result.pure_eq]

/-- C6: when the candidates the explorer proposes for `siteId` (the site itself among them)
are stored sites, none of them in a cluster, and they pass the equilibrium test, then
`coarseGrain_` returns true; the cluster container gains exactly one cluster, stored under
the next cluster id, whose members are the candidates; every candidate then has this
cluster id and is dispatched to this cluster; every other site and every other dispatch
entry is unchanged. -/
theorem coarseGrain_creates_cluster (env : Collaborators) (s : CoarseGrainSystem) (siteId : Int)
    (hkeyed : SitesKeyed s)
    (hfresh : Table.find s.clusters_ s.cluster_id_count_ = none)
    (hseed : siteId ∈ env.findBasin s.sites_ s.clusters_ siteId)
    (hfree : ∀ id ∈ env.findBasin s.sites_ s.clusters_ siteId,
      ∃ site, Table.find s.sites_ id = some site ∧ site.cluster_id = constants.unassignedId)
    (hpass : s.sitesSatisfyEquilibriumCondition_ (env.findBasin s.sites_ s.clusters_ siteId)
      (s.getInternalTimeLimit_ env (env.findBasin s.sites_ s.clusters_ siteId)) = .ok true) :
    ∃ (s1 : CoarseGrainSystem) (cluster : Cluster),
      s.coarseGrain_ env siteId = .ok (true, s1) ∧
      s1.clusters_ = s.clusters_ ++ [(s.cluster_id_count_, cluster)] ∧
      cluster.id = s.cluster_id_count_ ∧
      cluster.members = env.findBasin s.sites_ s.clusters_ siteId ∧
      (∀ id ∈ env.findBasin s.sites_ s.clusters_ siteId,
        clusterIdOf s1 id = s.cluster_id_count_ ∧
        Table.find s1.topology_features_ id = some (Feature.cluster s.cluster_id_count_)) ∧
      (∀ id, id ∉ env.findBasin s.sites_ s.clusters_ siteId →
        Table.find s1.sites_ id = Table.find s.sites_ id ∧
        Table.find s1.topology_features_ id = Table.find s.topology_features_ id) := by
  have hreg : ∀ id ∈ env.findBasin s.sites_ s.clusters_ siteId,
      (Table.find s.sites_ id).isSome := by
    intro id hid
    obtain ⟨site, hsite, _⟩ := hfree id hid
    simp [hsite]
  have hcid : ∀ id ∈ env.findBasin s.sites_ s.clusters_ siteId,
      clusterIdOf s id = constants.unassignedId := by
    intro id hid
    obtain ⟨site, hsite, hc⟩ := hfree id hid
    rw [clusterIdOf_of_find hsite, hc]
  obtain ⟨m, hm⟩ := getClustersOfSites_ok s _ hreg
  obtain ⟨hcount, hhead⟩ := uniform_map hm hseed hcid
  have hcreate := createCluster_eq env s (env.findBasin s.sites_ s.clusters_ siteId)
    (s.getInternalTimeLimit_ env (env.findBasin s.sites_ s.clusters_ siteId)) hkeyed hreg
  refine ⟨afterCreateCluster env s (env.findBasin s.sites_ s.clusters_ siteId)
      (s.getInternalTimeLimit_ env (env.findBasin s.sites_ s.clusters_ siteId)),
    createdCluster env s (env.findBasin s.sites_ s.clusters_ siteId)
      (s.getInternalTimeLimit_ env (env.findBasin s.sites_ s.clusters_ siteId)), ?_, ?_, rfl, rfl,
    ?_, ?_⟩
  · unfold coarseGrain_
    simp only [hpass, Result.ok_bind, if_true, hm, hcount, hhead, and_self, hcreate,
      Result.pure_eq]
  · exact Table.assign_of_find_none _ _ _ hfresh
  · intro id hid
    obtain ⟨site, hsite, _⟩ := hfree id hid
    constructor
    · simp [afterCreateCluster, clusterIdOf, find_setClusterIds, hid, hsite]
    · simp [afterCreateCluster, find_dispatchAll, hid]
  · intro id hid
    simp [afterCreateCluster, find_setClusterIds, find_dispatchAll, hid]

/-! ### `mergeSitesAndClusters_` in closed form -/

theorem Table.mem_assign {β : Type} (m : List (Int × β)) (key : Int) (v : β) (p : Int × β)
    (h : p ∈ Table.assign m key v) : p = (key, v) ∨ p ∈ m := by
  induction m with
  | nil => simp [Table.assign] at h; exact Or.inl h
  | cons q rest ih =>
    obtain ⟨a, w⟩ := q
    by_cases h1 : a = key
    · simp only [Table.assign, h1, if_true, List.mem_cons] at h
      rcases h with h | h
      · exact Or.inl h
      · exact Or.inr (List.mem_cons_of_mem _ h)
    · simp only [Table.assign, h1, if_false, List.mem_cons] at h
      rcases h with h | h
      · exact Or.inr (by rw [h]; exact List.mem_cons_self _ _)
      · rcases ih h with h2 | h2
        · exact Or.inl h2
        · exact Or.inr (List.mem_cons_of_mem _ h2)

theorem sitesKeyed_assign {s : CoarseGrainSystem} (hkeyed : SitesKeyed s) {a : Int} {site : Site}
    (hfind : Table.find s.sites_ a = some site) (f : Site → Site) (hf : (f site).id = site.id)
    (s1 : CoarseGrainSystem) (hs1 : s1.sites_ = Table.assign s.sites_ a (f site)) :
    SitesKeyed s1 := by
  intro p hp
  rw [hs1] at hp
  rcases Table.mem_assign _ _ _ _ hp with h | h
  · rw [h]
    simp only
    rw [hf]
    exact hkeyed (a, site) (Table.find_some_mem _ _ _ hfind)
  · exact hkeyed p h

theorem sitesKeyed_setClusterIds (clusterId : Int) :
    ∀ (ids : List Int) (sites : List (Int × Site)), (∀ p ∈ sites, p.2.id = p.1) →
      ∀ p ∈ setClusterIds sites clusterId ids, p.2.id = p.1 := by
  intro ids
  induction ids with
  | nil => intro sites h; exact h
  | cons a rest ih =>
    intro sites h
    cases hf : Table.find sites a with
    | none => simp only [setClusterIds, hf]; exact ih sites h
    | some site =>
      simp only [setClusterIds, hf]
      apply ih
      intro p hp
      rcases Table.mem_assign _ _ _ _ hp with h2 | h2
      · rw [h2]
        exact h (a, site) (Table.find_some_mem _ _ _ hf)
      · exact h p h2

/-- The outcome of the first loop of `mergeSitesAndClusters_`. -/
theorem mergeLoop_eq_ok (favoredClusterId : Int) :
    ∀ (m : List (Int × Int)) (s s1 : CoarseGrainSystem) (isolated isolated1 : List Site)
      (cluster_ids cluster_ids1 : List Int),
      mergeLoop s favoredClusterId isolated cluster_ids m = .ok (s1, isolated1, cluster_ids1) →
      s1 = { s with
              sites_ := setClusterIds s.sites_ favoredClusterId (movedSites m favoredClusterId),
              topology_features_ :=
                dispatchAll s.topology_features_ favoredClusterId (movedSites m favoredClusterId) } ∧
      cluster_ids1 = otherClusterIds favoredClusterId cluster_ids m ∧
      (SitesKeyed s →
        isolated1.map Site.id = isolated.map Site.id ++ isolatedSites m favoredClusterId) := by
  intro m
  induction m with
  | nil =>
    intro s s1 iso iso1 cids cids1 h
    simp only [mergeLoop, Except.ok.injEq, Prod.mk.injEq] at h
    obtain ⟨rfl, rfl, rfl⟩ := h
    exact ⟨rfl, rfl, fun _ => by simp [isolatedSites]⟩
  | cons q rest ih =>
    intro s s1 iso iso1 cids cids1 h
    obtain ⟨x, c⟩ := q
    by_cases hc : c ≠ favoredClusterId
    · simp only [mergeLoop, hc, ne_eq, not_false_eq_true, if_true] at h
      obtain ⟨⟨iso2, cids2⟩, hcollect, h⟩ := Result.bind_eq_ok.mp h
      obtain ⟨s2, h2, h⟩ := Result.bind_eq_ok.mp h
      obtain ⟨s3, h3, h⟩ := Result.bind_eq_ok.mp h
      obtain ⟨_, _, rfl⟩ := dispatchToCluster_eq_ok h2
      obtain ⟨site, hsite, rfl⟩ := setClusterId_eq_ok h3
      simp only at hsite
      obtain ⟨ih1, ih2, ih3⟩ := ih _ _ _ _ _ _ h
      have hmoved : movedSites ((x, c) :: rest) favoredClusterId
          = x :: movedSites rest favoredClusterId := by
        simp [movedSites, hc]
      refine ⟨?_, ?_, ?_⟩
      · rw [ih1, hmoved]
        simp [setClusterIds, dispatchAll, hsite]
      · by_cases hu : c = constants.unassignedId
        · simp only [hu, if_true] at hcollect
          obtain ⟨site0, _, hcollect⟩ := Result.bind_eq_ok.mp hcollect
          simp only [Result.pure_eq, Except.ok.injEq, Prod.mk.injEq] at hcollect
          rw [ih2, ← hcollect.2]
          simp [otherClusterIds, hu]
        · simp only [hu, if_false, Result.pure_eq, Except.ok.injEq, Prod.mk.injEq] at hcollect
          rw [ih2, ← hcollect.2]
          simp [otherClusterIds, hu, hc]
      · intro hkeyed
        have hkeyed2 := sitesKeyed_assign hkeyed hsite
          (fun st => { st with cluster_id := favoredClusterId }) rfl
          { s with
            topology_features_ :=
              Table.assign s.topology_features_ x (Feature.cluster favoredClusterId),
            sites_ := Table.assign s.sites_ x { site with cluster_id := favoredClusterId } } rfl
        rw [ih3 hkeyed2]
        by_cases hu : c = constants.unassignedId
        · simp only [hu, if_true] at hcollect
          obtain ⟨site0, hsite0, hcollect⟩ := Result.bind_eq_ok.mp hcollect
          simp only [Result.pure_eq, Except.ok.injEq, Prod.mk.injEq] at hcollect
          have hid : site0.id = x :=
            hkeyed (x, site0) (Table.find_some_mem _ _ _ (getSite_eq_ok hsite0))
          have hne : ¬ constants.unassignedId = favoredClusterId := by rw [← hu]; exact hc
          rw [← hcollect.1]
          simp [isolatedSites, hu, hid, hne]
        · simp only [hu, if_false, Result.pure_eq, Except.ok.injEq, Prod.mk.injEq] at hcollect
          rw [← hcollect.1]
          simp [isolatedSites, hu]
    · have hc2 : c = favoredClusterId := not_not.mp hc
      simp only [mergeLoop, hc2, ne_eq, not_true_eq_false, if_false] at h
      obtain ⟨ih1, ih2, ih3⟩ := ih _ _ _ _ _ _ h
      refine ⟨?_, ?_, ?_⟩
      · rw [ih1]; simp [movedSites, hc2]
      · rw [ih2]; simp [otherClusterIds, hc2]
      · intro hkeyed; rw [ih3 hkeyed]; simp [isolatedSites, hc2]

/-- The first loop of `mergeSitesAndClusters_` returns when the favoured cluster and the
sites to move are stored. -/
theorem mergeLoop_ok (favoredClusterId : Int) :
    ∀ (m : List (Int × Int)) (s : CoarseGrainSystem) (isolated : List Site)
      (cluster_ids : List Int),
      (∀ p ∈ m, (Table.find s.sites_ p.1).isSome) →
      (Table.find s.clusters_ favoredClusterId).isSome →
      ∃ r, mergeLoop s favoredClusterId isolated cluster_ids m = .ok r := by
  intro m
  induction m with
  | nil => intro s iso cids _ _; exact ⟨_, rfl⟩
  | cons q rest ih =>
    intro s iso cids hreg hfav
    obtain ⟨x, c⟩ := q
    obtain ⟨site, hsite⟩ := getSite_ok_of_find (hreg (x, c) (List.mem_cons_self _ _))
    have hfind := getSite_eq_ok hsite
    cases hF : Table.find s.clusters_ favoredClusterId with
    | none => simp [hF] at hfav
    | some F =>
      by_cases hc : c ≠ favoredClusterId
      · have hreg2 : ∀ p ∈ rest, (Table.find
            (Table.assign s.sites_ x { site with cluster_id := favoredClusterId }) p.1).isSome := by
          intro p hp
          rw [Table.find_assign]
          by_cases hx : p.1 = x
          · simp [hx]
          · simpa [hx] using hreg p (List.mem_cons_of_mem _ hp)
        by_cases hu : c = constants.unassignedId
        · obtain ⟨r, hr⟩ := ih
            { s with
              topology_features_ :=
                Table.assign s.topology_features_ x (Feature.cluster favoredClusterId),
              sites_ := Table.assign s.sites_ x { site with cluster_id := favoredClusterId } }
            (iso ++ [site]) cids hreg2 (by simp [hF])
          refine ⟨r, ?_⟩
          subst hu
          simp only [mergeLoop, hc, ne_eq, not_false_eq_true, if_true, hsite, Result.ok_bind,
            Result.pure_eq, dispatchToCluster, getCluster, hF, setClusterId, getSite, hfind]
          exact hr
        · obtain ⟨r, hr⟩ := ih
            { s with
              topology_features_ :=
                Table.assign s.topology_features_ x (Feature.cluster favoredClusterId),
              sites_ := Table.assign s.sites_ x { site with cluster_id := favoredClusterId } }
            iso (if c ∈ cids then cids else cids ++ [c]) hreg2 (by simp [hF])
          refine ⟨r, ?_⟩
          simp only [mergeLoop, hc, ne_eq, not_false_eq_true, if_true, hu, if_false, Result.ok_bind,
            Result.pure_eq, dispatchToCluster, getCluster, hF, setClusterId, getSite, hfind]
          exact hr
      · have hc2 : c = favoredClusterId := not_not.mp hc
        obtain ⟨r, hr⟩ := ih s iso cids
          (fun p hp => hreg p (List.mem_cons_of_mem _ hp)) hfav
        refine ⟨r, ?_⟩
        simp only [mergeLoop, hc2, ne_eq, not_true_eq_false, if_false]
        exact hr

theorem migrateLoop_eq_ok (env : Collaborators) (favoredClusterId : Int) :
    ∀ (cluster_ids : List Int) (s s1 : CoarseGrainSystem),
      migrateLoop env s favoredClusterId cluster_ids = .ok s1 →
      s1 = { s with clusters_ :=
              migrateAll env s.sites_ favoredClusterId s.clusters_ cluster_ids } := by
  intro cids
  induction cids with
  | nil =>
    intro s s1 h
    simp only [migrateLoop, Except.ok.injEq] at h
    subst h
    rfl
  | cons c rest ih =>
    intro s s1 h
    simp only [migrateLoop] at h
    obtain ⟨F, hF, h⟩ := Result.bind_eq_ok.mp h
    obtain ⟨O, hO, h⟩ := Result.bind_eq_ok.mp h
    rw [ih _ _ h]
    simp [migrateAll, getCluster_eq_ok hF, getCluster_eq_ok hO, setCluster, eraseCluster]

theorem migratedFavored_congr (env : Collaborators) (sites : List (Int × Site))
    (A B : List (Int × Cluster)) :
    ∀ (cids : List Int) (F : Cluster), (∀ c ∈ cids, Table.find A c = Table.find B c) →
      migratedFavored env sites A F cids = migratedFavored env sites B F cids := by
  intro cids
  induction cids with
  | nil => intro F _; rfl
  | cons c rest ih =>
    intro F h
    have hc := h c (List.mem_cons_self _ _)
    simp only [migratedFavored, hc]
    cases Table.find B c with
    | none => rfl
    | some O => exact ih _ (fun c2 hc2 => h c2 (List.mem_cons_of_mem _ hc2))

/-- The favoured cluster after the migrations: its members are its previous members
followed by the members of the migrated clusters; id and resolution are unchanged. -/
theorem migratedFavored_spec (env : Collaborators) (sites : List (Int × Site))
    (clusters : List (Int × Cluster)) :
    ∀ (cids : List Int) (F : Cluster), (∀ c ∈ cids, (Table.find clusters c).isSome) →
      (migratedFavored env sites clusters F cids).members
        = F.members ++ membersOfAll clusters cids ∧
      (migratedFavored env sites clusters F cids).id = F.id ∧
      (migratedFavored env sites clusters F cids).resolution = F.resolution := by
  intro cids
  induction cids with
  | nil => intro F _; simp [migratedFavored, membersOfAll]
  | cons c rest ih =>
    intro F h
    cases hO : Table.find clusters c with
    | none =>
      have := h c (List.mem_cons_self _ _)
      simp [hO] at this
    | some O =>
      obtain ⟨h1, h2, h3⟩ := ih (F.migrateSitesFrom env sites O).1
        (fun c2 hc2 => h c2 (List.mem_cons_of_mem _ hc2))
      simp only [migratedFavored, hO, membersOfAll]
      refine ⟨?_, ?_, ?_⟩
      · rw [h1]
        simp [Cluster.migrateSitesFrom, Cluster.updateProbabilitiesAndTimeConstant]
      · rw [h2]; rfl
      · rw [h3]; rfl

/-- The cluster container after the migrations: the migrated clusters are gone, the
favoured cluster has absorbed them, every other cluster is untouched. -/
theorem migrateAll_spec (env : Collaborators) (sites : List (Int × Site))
    (favoredClusterId : Int) :
    ∀ (cids : List Int) (clusters : List (Int × Cluster)) (F : Cluster),
      cids.Nodup → favoredClusterId ∉ cids →
      Table.find clusters favoredClusterId = some F →
      (∀ c ∈ cids, (Table.find clusters c).isSome) →
      (∀ k, Table.find (migrateAll env sites favoredClusterId clusters cids) k =
        if k ∈ cids then none
        else if k = favoredClusterId then some (migratedFavored env sites clusters F cids)
        else Table.find clusters k) ∧
      ((Table.keys clusters).Nodup →
        (Table.keys (migrateAll env sites favoredClusterId clusters cids)).Nodup ∧
        (migrateAll env sites favoredClusterId clusters cids).length + cids.length
          = clusters.length) := by
  intro cids
  induction cids with
  | nil =>
    intro clusters F _ _ hF _
    refine ⟨?_, fun hn => ⟨hn, rfl⟩⟩
    intro k
    by_cases hk : k = favoredClusterId
    · simp [migrateAll, migratedFavored, hk, hF]
    · simp [migrateAll, hk]
  | cons c rest ih =>
    intro clusters F hnodup hfav hF hex
    have hcfav : c ≠ favoredClusterId := fun e => hfav (e ▸ List.mem_cons_self _ _)
    have hfavc : favoredClusterId ≠ c := fun e => hcfav e.symm
    have hfavrest : favoredClusterId ∉ rest := fun e => hfav (List.mem_cons_of_mem _ e)
    obtain ⟨hcrest, hnrest⟩ := List.nodup_cons.mp hnodup
    cases hO : Table.find clusters c with
    | none =>
      have := hex c (List.mem_cons_self _ _)
      simp [hO] at this
    | some O =>
      have hfind1 : ∀ k, Table.find
          (Table.erase
            (Table.assign
              (Table.assign clusters favoredClusterId (F.migrateSitesFrom env sites O).1)
              c (F.migrateSitesFrom env sites O).2) c) k
          = if k = c then none
            else if k = favoredClusterId then some (F.migrateSitesFrom env sites O).1
            else Table.find clusters k := by
        intro k
        rw [Table.find_erase]
        by_cases hk : k = c
        · simp [hk]
        · simp [hk, Table.find_assign]
      have hF1 := hfind1 favoredClusterId
      simp only [hfavc, if_false, if_true] at hF1
      have hex1 : ∀ c2 ∈ rest, (Table.find
          (Table.erase
            (Table.assign
              (Table.assign clusters favoredClusterId (F.migrateSitesFrom env sites O).1)
              c (F.migrateSitesFrom env sites O).2) c) c2).isSome := by
        intro c2 hc2
        have h1 : c2 ≠ c := fun e => hcrest (e ▸ hc2)
        have h2 : c2 ≠ favoredClusterId := fun e => hfavrest (e ▸ hc2)
        rw [hfind1]
        simp only [h1, h2, if_false]
        exact hex c2 (List.mem_cons_of_mem _ hc2)
      obtain ⟨ih1, ih2⟩ := ih _ _ hnrest hfavrest hF1 hex1
      have hcongr := migratedFavored_congr env sites
        (Table.erase
            (Table.assign
              (Table.assign clusters favoredClusterId (F.migrateSitesFrom env sites O).1)
              c (F.migrateSitesFrom env sites O).2) c)
        clusters rest (F.migrateSitesFrom env sites O).1
        (by
          intro c2 hc2
          have h1 : c2 ≠ c := fun e => hcrest (e ▸ hc2)
          have h2 : c2 ≠ favoredClusterId := fun e => hfavrest (e ▸ hc2)
          rw [hfind1]
          simp only [h1, h2, if_false])
      constructor
      · intro k
        simp only [migrateAll, hF, hO, ih1, hcongr, migratedFavored, hfind1]
        by_cases hk : k = c
        · subst hk
          simp [hcrest, hcfav]
        · by_cases hk2 : k ∈ rest
          · simp [hk, hk2]
          · by_cases hk3 : k = favoredClusterId
            · subst hk3
              simp [hfavc, hfavrest]
            · simp [hk, hk2, hk3]
      · intro hn
        have hmemfav : favoredClusterId ∈ Table.keys clusters :=
          (Table.find_isSome_iff _ _).mp (by simp [hF])
        have hmemc : c ∈ Table.keys clusters :=
          (Table.find_isSome_iff _ _).mp (by simp [hO])
        have hn1 := Table.nodup_keys_assign clusters favoredClusterId
          (F.migrateSitesFrom env sites O).1 hn
        have hmemc1 : c ∈ Table.keys
            (Table.assign clusters favoredClusterId (F.migrateSitesFrom env sites O).1) :=
          (Table.mem_keys_assign _ _ _ _).mpr (Or.inr hmemc)
        have hn2 := Table.nodup_keys_assign _ c (F.migrateSitesFrom env sites O).2 hn1
        have hmemc2 : c ∈ Table.keys (Table.assign
            (Table.assign clusters favoredClusterId (F.migrateSitesFrom env sites O).1)
            c (F.migrateSitesFrom env sites O).2) :=
          (Table.mem_keys_assign _ _ _ _).mpr (Or.inl rfl)
        have hn3 := Table.nodup_keys_erase _ c hn2
        have hlen := Table.length_erase_of_mem _ c hn2 hmemc2
        rw [Table.length_assign_of_mem _ _ _ hmemc1,
          Table.length_assign_of_mem _ _ _ hmemfav] at hlen
        obtain ⟨ih2a, ih2b⟩ := ih2 hn3
        simp only [migrateAll, hF, hO]
        refine ⟨ih2a, ?_⟩
        simp only [List.length_cons]
        omega

theorem Table.assign_assign {β : Type} (m : List (Int × β)) (key : Int) (v w : β) :
    Table.assign (Table.assign m key v) key w = Table.assign m key w := by
  induction m with
  | nil => simp [Table.assign]
  | cons p rest ih =>
    obtain ⟨a, u⟩ := p
    by_cases h1 : a = key
    · simp [Table.assign, h1]
    · simp [Table.assign, h1, ih]

theorem otherClusterIds_spec (favoredClusterId : Int) :
    ∀ (m : List (Int × Int)) (cids : List Int), cids.Nodup →
      (otherClusterIds favoredClusterId cids m).Nodup ∧
      ∀ c, c ∈ otherClusterIds favoredClusterId cids m ↔
        c ∈ cids ∨ ∃ p ∈ m, p.2 = c ∧ c ≠ favoredClusterId ∧ c ≠ constants.unassignedId := by
  intro m
  induction m with
  | nil => intro cids hn; simp [otherClusterIds, hn]
  | cons q rest ih =>
    intro cids hn
    obtain ⟨x, d⟩ := q
    by_cases hd : d ≠ favoredClusterId ∧ d ≠ constants.unassignedId
    · by_cases hmem : d ∈ cids
      · simp only [otherClusterIds, hd, ne_eq, not_false_eq_true, and_self, if_true, hmem]
        obtain ⟨h1, h2⟩ := ih cids hn
        refine ⟨h1, ?_⟩
        intro c
        rw [h2]
        constructor
        · rintro (h | ⟨p, hp, hp2⟩)
          · exact Or.inl h
          · exact Or.inr ⟨p, List.mem_cons_of_mem _ hp, hp2⟩
        · rintro (h | ⟨p, hp, hp2⟩)
          · exact Or.inl h
          · rcases List.mem_cons.mp hp with hp | hp
            · subst hp
              simp only at hp2
              exact Or.inl (hp2.1 ▸ hmem)
            · exact Or.inr ⟨p, hp, hp2⟩
      · simp only [otherClusterIds, hd, ne_eq, not_false_eq_true, and_self, if_true, hmem,
          if_false]
        have hn2 : (cids ++ [d]).Nodup :=
          List.Nodup.append hn (List.nodup_singleton _) (by simpa using hmem)
        obtain ⟨h1, h2⟩ := ih (cids ++ [d]) hn2
        refine ⟨h1, ?_⟩
        intro c
        rw [h2]
        simp only [List.mem_append, List.mem_singleton]
        constructor
        · rintro ((h | h) | ⟨p, hp, hp2⟩)
          · exact Or.inl h
          · exact Or.inr ⟨(x, d), List.mem_cons_self _ _, h.symm, h ▸ hd.1, h ▸ hd.2⟩
          · exact Or.inr ⟨p, List.mem_cons_of_mem _ hp, hp2⟩
        · rintro (h | ⟨p, hp, hp2⟩)
          · exact Or.inl (Or.inl h)
          · rcases List.mem_cons.mp hp with hp | hp
            · subst hp
              simp only at hp2
              exact Or.inl (Or.inr hp2.1.symm)
            · exact Or.inr ⟨p, hp, hp2⟩
    · simp only [otherClusterIds, hd, if_false]
      obtain ⟨h1, h2⟩ := ih cids hn
      refine ⟨h1, ?_⟩
      intro c
      rw [h2]
      constructor
      · rintro (h | ⟨p, hp, hp2⟩)
        · exact Or.inl h
        · exact Or.inr ⟨p, List.mem_cons_of_mem _ hp, hp2⟩
      · rintro (h | ⟨p, hp, hp2⟩)
        · exact Or.inl h
        · rcases List.mem_cons.mp hp with hp | hp
          · subst hp
            simp only at hp2
            exact absurd ⟨hp2.1 ▸ hp2.2.1, hp2.1 ▸ hp2.2.2⟩ hd
          · exact Or.inr ⟨p, hp, hp2⟩

/-- The last loop of `mergeSitesAndClusters_` returns when the favoured cluster and the
listed clusters are stored, the list has no repetition and does not hold the favoured id. -/
theorem migrateLoop_eq (env : Collaborators) (favoredClusterId : Int) :
    ∀ (cids : List Int) (s : CoarseGrainSystem),
      cids.Nodup → favoredClusterId ∉ cids →
      (Table.find s.clusters_ favoredClusterId).isSome →
      (∀ c ∈ cids, (Table.find s.clusters_ c).isSome) →
      migrateLoop env s favoredClusterId cids =
        .ok { s with clusters_ := migrateAll env s.sites_ favoredClusterId s.clusters_ cids } := by
  intro cids
  induction cids with
  | nil => intro s _ _ _ _; rfl
  | cons c rest ih =>
    intro s hnodup hfav hFex hex
    have hcfav : c ≠ favoredClusterId := fun e => hfav (e ▸ List.mem_cons_self _ _)
    have hfavc : favoredClusterId ≠ c := fun e => hcfav e.symm
    have hfavrest : favoredClusterId ∉ rest := fun e => hfav (List.mem_cons_of_mem _ e)
    obtain ⟨hcrest, hnrest⟩ := List.nodup_cons.mp hnodup
    cases hF : Table.find s.clusters_ favoredClusterId with
    | none => simp [hF] at hFex
    | some F =>
      cases hO : Table.find s.clusters_ c with
      | none =>
        have := hex c (List.mem_cons_self _ _)
        simp [hO] at this
      | some O =>
        have hstep := ih
          (eraseCluster
            (setCluster (setCluster s favoredClusterId (F.migrateSitesFrom env s.sites_ O).1) c
              (F.migrateSitesFrom env s.sites_ O).2) c)
          hnrest hfavrest
          (by simp [eraseCluster, setCluster, Table.find_erase, Table.find_assign, hfavc])
          (by
            intro c2 hc2
            have h1 : c2 ≠ c := fun e => hcrest (e ▸ hc2)
            have h2 : c2 ≠ favoredClusterId := fun e => hfavrest (e ▸ hc2)
            simp only [eraseCluster, setCluster, Table.find_erase, Table.find_assign, h1, h2,
              if_false]
            exact hex c2 (List.mem_cons_of_mem _ hc2))
        simp only [migrateLoop, getCluster, hF, hO, Result.ok_bind]
        rw [hstep]
        simp [migrateAll, hF, hO, eraseCluster, setCluster]

/-- The outcome of `mergeSitesAndClusters_` when the favoured cluster, the candidate sites
and the other clusters of the candidates are stored. -/
theorem mergeSitesAndClusters_eq (env : Collaborators) (s : CoarseGrainSystem)
    (m : List (Int × Int)) (favoredClusterId : Int) (hkeyed : SitesKeyed s)
    (hreg : ∀ p ∈ m, (Table.find s.sites_ p.1).isSome)
    (hfav : (Table.find s.clusters_ favoredClusterId).isSome)
    (hothers : ∀ p ∈ m, p.2 ≠ favoredClusterId → p.2 ≠ constants.unassignedId →
      (Table.find s.clusters_ p.2).isSome) :
    s.mergeSitesAndClusters_ env m favoredClusterId = .ok (afterMerge env s m favoredClusterId) := by
  cases hF : Table.find s.clusters_ favoredClusterId with
  | none => simp [hF] at hfav
  | some F =>
    obtain ⟨⟨s1, iso1, cids1⟩, hloop⟩ := mergeLoop_ok favoredClusterId m s [] [] hreg hfav
    obtain ⟨hs1, hcids, hiso⟩ := mergeLoop_eq_ok favoredClusterId m s s1 [] iso1 [] cids1 hloop
    have hiso2 := hiso hkeyed
    simp only [List.map_nil, List.nil_append] at hiso2
    obtain ⟨hnodup, hmem⟩ := otherClusterIds_spec favoredClusterId m [] List.nodup_nil
    have hfavnot : favoredClusterId ∉ otherClusterIds favoredClusterId [] m := by
      intro h
      rcases (hmem _).mp h with h | ⟨_, _, _, h, _⟩
      · simp at h
      · exact h rfl
    have hex : ∀ c ∈ otherClusterIds favoredClusterId [] m,
        (Table.find s.clusters_ c).isSome := by
      intro c hc
      rcases (hmem _).mp hc with h | ⟨p, hp, hpc, h1, h2⟩
      · simp at h
      · have := hothers p hp (hpc ▸ h1) (hpc ▸ h2)
        rw [hpc] at this
        exact this
    unfold mergeSitesAndClusters_
    simp only [hloop, Result.ok_bind]
    subst hs1 hcids
    simp only [getCluster, hF, Result.ok_bind, setCluster, Table.find_assign_same,
      Table.assign_assign]
    rw [migrateLoop_eq env favoredClusterId _ _ hnodup hfavnot]
    · simp only [afterMerge, hF, Cluster.addSites, hiso2]
    · simp [Table.find_assign]
    · intro c hc
      have hne : c ≠ favoredClusterId := fun e => hfavnot (e ▸ hc)
      simp only [Table.find_assign, hne, if_false]
      exact hex c hc

/-! ### What `coarseGrain_` leaves unchanged -/

theorem createCluster_control {env : Collaborators} {s s1 : CoarseGrainSystem} {ids : List Int}
    {T : ℚ} {cid : Int} (h : s.createCluster_ env ids T = .ok (cid, s1)) :
    control s1 = control s := by
  unfold createCluster_ at h
  obtain ⟨sites, _, h⟩ := Result.bind_eq_ok.mp h
  cases hset : s.seed_set_ with
  | false =>
    simp only [hset, Bool.false_eq_true, if_false] at h
    obtain ⟨s2, h2, h⟩ := Result.bind_eq_ok.mp h
    simp only [Result.pure_eq, Except.ok.injEq, Prod.mk.injEq] at h
    rw [← h.2, assignSitesToCluster_eq_ok _ _ _ _ h2]
    rfl
  | true =>
    simp only [hset, if_true] at h
    obtain ⟨s2, h2, h⟩ := Result.bind_eq_ok.mp h
    simp only [Result.pure_eq, Except.ok.injEq, Prod.mk.injEq] at h
    rw [← h.2, assignSitesToCluster_eq_ok _ _ _ _ h2]
    rfl

theorem mergeSitesAndClusters_control {env : Collaborators} {s s1 : CoarseGrainSystem}
    {m : List (Int × Int)} {fav : Int} (h : s.mergeSitesAndClusters_ env m fav = .ok s1) :
    control s1 = control s := by
  unfold mergeSitesAndClusters_ at h
  obtain ⟨⟨s2, iso, cids⟩, hloop, h⟩ := Result.bind_eq_ok.mp h
  obtain ⟨F, _, h⟩ := Result.bind_eq_ok.mp h
  obtain ⟨F2, _, h⟩ := Result.bind_eq_ok.mp h
  obtain ⟨hs2, _, _⟩ := mergeLoop_eq_ok fav m s s2 [] iso [] cids hloop
  rw [migrateLoop_eq_ok env fav _ _ _ h, hs2]
  rfl

theorem coarseGrain_control {env : Collaborators} {s s1 : CoarseGrainSystem} {siteId : Int}
    {b : Bool} (h : s.coarseGrain_ env siteId = .ok (b, s1)) : control s1 = control s := by
  unfold coarseGrain_ at h
  obtain ⟨pass, _, h⟩ := Result.bind_eq_ok.mp h
  cases pass with
  | false =>
    simp only [Bool.false_eq_true, if_false, Result.pure_eq, Except.ok.injEq, Prod.mk.injEq] at h
    rw [← h.2]
  | true =>
    simp only [if_true] at h
    obtain ⟨m, _, h⟩ := Result.bind_eq_ok.mp h
    split at h
    · obtain ⟨⟨cid, s2⟩, hc, h⟩ := Result.bind_eq_ok.mp h
      simp only [Result.pure_eq, Except.ok.injEq, Prod.mk.injEq] at h
      rw [← h.2]
      exact createCluster_control hc
    · split at h
      · obtain ⟨s2, hm, h⟩ := Result.bind_eq_ok.mp h
        simp only [Result.pure_eq, Except.ok.injEq, Prod.mk.injEq] at h
        rw [← h.2]
        exact mergeSitesAndClusters_control hm
      · simp only [Result.pure_eq, Except.ok.injEq, Prod.mk.injEq] at h
        rw [← h.2]

/-! ### The counter, the threshold and the history across a hop -/

/-- The second part of `hop` in closed form. `c` is the incremented counter. -/
theorem hopCount_spec {env : Collaborators} {s s1 : CoarseGrainSystem} {d : Int}
    (h : s.hopCount env d = .ok s1) :
    s1.iteration_threshold_min_ = s.iteration_threshold_min_ ∧
    s1.iteration_ = (if wrapInt (s.iteration_ + 1) > s.iteration_threshold_ then 0
      else wrapInt (s.iteration_ + 1)) ∧
    ((wrapInt (s.iteration_ + 1) > s.iteration_threshold_ ∧
        s.iteration_threshold_min_ ≠ constants.inf_iterations) →
      ∃ (b : Bool) (s2 : CoarseGrainSystem),
        coarseGrain_ env { s with iteration_ := wrapInt (s.iteration_ + 1) } d = .ok (b, s2) ∧
        s1.coarse_grain_calls_ = s.coarse_grain_calls_ ++ [(d, b)] ∧
        s1.iteration_threshold_ =
          (if b then s.iteration_threshold_min_ else wrapInt (s.iteration_threshold_ * 2)) ∧
        s1.sites_ = s2.sites_ ∧ s1.clusters_ = s2.clusters_ ∧
        s1.topology_features_ = s2.topology_features_) ∧
    (¬ (wrapInt (s.iteration_ + 1) > s.iteration_threshold_ ∧
        s.iteration_threshold_min_ ≠ constants.inf_iterations) →
      s1.coarse_grain_calls_ = s.coarse_grain_calls_ ∧
      s1.iteration_threshold_ = s.iteration_threshold_ ∧
      s1.sites_ = s.sites_ ∧ s1.clusters_ = s.clusters_ ∧
      s1.topology_features_ = s.topology_features_ ∧
      s1.cluster_id_count_ = s.cluster_id_count_) := by
  unfold hopCount at h
  by_cases hc : wrapInt (s.iteration_ + 1) > s.iteration_threshold_
  · simp only [hc, if_true] at h
    by_cases hmin : s.iteration_threshold_min_ ≠ constants.inf_iterations
    · simp only [hmin, ne_eq, not_false_eq_true, if_true] at h
      obtain ⟨s3, h3, h⟩ := Result.bind_eq_ok.mp h
      obtain ⟨⟨b, s2⟩, h2, h3⟩ := Result.bind_eq_ok.mp h3
      unfold coarseGrainRecorded at h2
      obtain ⟨⟨b0, s0⟩, h0, h2⟩ := Result.bind_eq_ok.mp h2
      simp only [Result.pure_eq, Except.ok.injEq, Prod.mk.injEq] at h2 h
      obtain ⟨rfl, rfl⟩ := h2
      have hctl := coarseGrain_control h0
      simp only [control, Prod.mk.injEq] at hctl
      obtain ⟨_, _, _, _, _, hthr, hmin2, hlog⟩ := hctl
      subst h
      cases b0 with
      | false =>
        simp only [Bool.false_eq_true, if_false, Result.pure_eq, Except.ok.injEq] at h3
        subst h3
        refine ⟨hmin2, by simp [hc], ?_, ?_⟩
        · intro _
          exact ⟨false, s0, h0, by simp [hlog], by simp [hthr], rfl, rfl, rfl⟩
        · intro hneg
          exact absurd ⟨hc, hmin⟩ hneg
      | true =>
        simp only [if_true, Result.pure_eq, Except.ok.injEq] at h3
        subst h3
        refine ⟨hmin2, by simp [hc], ?_, ?_⟩
        · intro _
          exact ⟨true, s0, h0, by simp [hlog], by simp [hmin2], rfl, rfl, rfl⟩
        · intro hneg
          exact absurd ⟨hc, hmin⟩ hneg
    · have hmin2 : s.iteration_threshold_min_ = constants.inf_iterations := not_not.mp hmin
      simp only [hmin2, ne_eq, not_true_eq_false, if_false, Result.ok_bind, Result.pure_eq,
        Except.ok.injEq] at h
      subst h
      refine ⟨hmin2.symm, by simp [hc], ?_, ?_⟩
      · intro hpos
        exact absurd hmin2 hpos.2
      · intro _
        exact ⟨rfl, rfl, rfl, rfl, rfl, rfl⟩
  · simp only [hc, if_false, Result.pure_eq, Except.ok.injEq] at h
    subst h
    refine ⟨rfl, by simp [hc], ?_, ?_⟩
    · intro hpos
      exact absurd hpos.1 hc
    · intro _
      exact ⟨rfl, rfl, rfl, rfl, rfl, rfl⟩

/-- The two parts of `hop`. -/
theorem hop_eq_ok {env : Collaborators} {s s1 : CoarseGrainSystem} {walker_id : Int}
    {walker w1 : Walker} (h : s.hop env walker_id walker = .ok (s1, w1)) :
    ∃ s2, s.hopMove env walker_id walker = .ok (s2, w1, walker.potential_site_) ∧
      s2.hopCount env walker.potential_site_ = .ok s1 := by
  unfold hop at h
  obtain ⟨⟨s2, w2, d⟩, hmove, h⟩ := Result.bind_eq_ok.mp h
  obtain ⟨s3, hcount, h⟩ := Result.bind_eq_ok.mp h
  simp only [Result.pure_eq, Except.ok.injEq, Prod.mk.injEq] at h
  obtain ⟨rfl, rfl⟩ := h
  obtain ⟨_, hd⟩ := hopMove_sameTopology hmove
  subst hd
  exact ⟨s2, hmove, hcount⟩

end CoarseGrainSystem

/-! ### The 32-bit wrap -/

theorem wrapInt_of_range (x : Int) (h1 : INT_MIN ≤ x) (h2 : x ≤ INT_MAX) : wrapInt x = x := by
  unfold wrapInt
  unfold INT_MIN at h1
  unfold INT_MAX at h2
  omega

theorem wrapInt_range (x : Int) : INT_MIN ≤ wrapInt x ∧ wrapInt x ≤ INT_MAX := by
  unfold wrapInt INT_MIN INT_MAX
  omega

theorem wrapInt_add_mul (x k : Int) : wrapInt (x + 4294967296 * k) = wrapInt x := by
  unfold wrapInt
  rw [show x + 4294967296 * k + 2147483648 = (x + 2147483648) + 4294967296 * k by ring,
    Int.add_mul_emod_self_left]

theorem wrapInt_mul_wrapInt (a b : Int) : wrapInt (wrapInt a * b) = wrapInt (a * b) := by
  have hq : ∃ q : Int, wrapInt a = a + 4294967296 * q :=
    ⟨-((a + 2147483648) / 4294967296), by unfold wrapInt; omega⟩
  obtain ⟨q, hq⟩ := hq
  rw [hq, show (a + 4294967296 * q) * b = a * b + 4294967296 * (q * b) by ring, wrapInt_add_mul]

namespace CoarseGrainSystem

/-- What one `hop` does to the counter, the thresholds, the history and the topology.
`c` is the incremented counter `wrapInt (s.iteration_ + 1)`. -/
theorem hop_spec {env : Collaborators} {s s1 : CoarseGrainSystem} {walker_id : Int}
    {walker w1 : Walker} (h : s.hop env walker_id walker = .ok (s1, w1)) :
    s1.iteration_threshold_min_ = s.iteration_threshold_min_ ∧
    s1.iteration_ = (if wrapInt (s.iteration_ + 1) > s.iteration_threshold_ then 0
      else wrapInt (s.iteration_ + 1)) ∧
    ((wrapInt (s.iteration_ + 1) > s.iteration_threshold_ ∧
        s.iteration_threshold_min_ ≠ constants.inf_iterations) →
      ∃ (b : Bool) (s2 s3 : CoarseGrainSystem),
        s.hopMove env walker_id walker = .ok (s2, w1, walker.potential_site_) ∧
        coarseGrain_ env { s2 with iteration_ := wrapInt (s.iteration_ + 1) }
          walker.potential_site_ = .ok (b, s3) ∧
        s1.coarse_grain_calls_ = s.coarse_grain_calls_ ++ [(walker.potential_site_, b)] ∧
        s1.iteration_threshold_ =
          (if b then s.iteration_threshold_min_ else wrapInt (s.iteration_threshold_ * 2))) ∧
    (¬ (wrapInt (s.iteration_ + 1) > s.iteration_threshold_ ∧
        s.iteration_threshold_min_ ≠ constants.inf_iterations) →
      s1.coarse_grain_calls_ = s.coarse_grain_calls_ ∧
      s1.iteration_threshold_ = s.iteration_threshold_ ∧
      s1.topology_features_ = s.topology_features_ ∧
      clusterIdsOfSites s1 = clusterIdsOfSites s ∧
      membersOfClusters s1 = membersOfClusters s ∧
      s1.cluster_id_count_ = s.cluster_id_count_) := by
  obtain ⟨s2, hmove, hcount⟩ := hop_eq_ok h
  obtain ⟨⟨hctl, htf, hcids, hmem, hcnt, _, _⟩, _⟩ := hopMove_sameTopology hmove
  simp only [control, Prod.mk.injEq] at hctl
  obtain ⟨_, _, _, _, hit, hthr, hmin, hlog⟩ := hctl
  obtain ⟨c1, c2, c3, c4⟩ := hopCount_spec hcount
  rw [← hit, ← hthr, ← hmin, ← hlog]
  refine ⟨c1, c2, ?_, ?_⟩
  · intro hpos
    obtain ⟨b, s3, hcg, hl, ht, _⟩ := c3 hpos
    exact ⟨b, s2, s3, hmove, hcg, hl, ht⟩
  · intro hneg
    obtain ⟨hl, ht, hs, hc, hf, hn⟩ := c4 hneg
    refine ⟨hl, ht, hf.trans htf, ?_, ?_, hn.trans hcnt⟩
    · simp only [clusterIdsOfSites] at hcids ⊢
      rw [hs]; exact hcids
    · simp only [membersOfClusters] at hmem ⊢
      rw [hc]; exact hmem

/-- A run of hops, one step unfolded. -/
theorem hops_cons_eq_ok {env : Collaborators} {s s2 : CoarseGrainSystem} {walker_id : Int}
    {walker : Walker} {rest : List (Int × Walker)} {ws2 : List Walker}
    (h : hops env s ((walker_id, walker) :: rest) = .ok (s2, ws2)) :
    ∃ s1 w1 ws1, s.hop env walker_id walker = .ok (s1, w1) ∧
      hops env s1 rest = .ok (s2, ws1) ∧ ws2 = w1 :: ws1 := by
  simp only [hops] at h
  obtain ⟨⟨s1, w1⟩, h1, h⟩ := Result.bind_eq_ok.mp h
  obtain ⟨⟨s3, ws1⟩, h3, h⟩ := Result.bind_eq_ok.mp h
  simp only [Result.pure_eq, Except.ok.injEq, Prod.mk.injEq] at h
  obtain ⟨rfl, rfl⟩ := h
  exact ⟨s1, w1, ws1, h1, h3, rfl⟩

/-- With the sentinel as minimum threshold no run of hops calls the coarse-grainer or
changes the topology or the threshold. -/
theorem hops_sentinel (env : Collaborators) :
    ∀ (ws : List (Int × Walker)) (s s2 : CoarseGrainSystem) (ws2 : List Walker),
      hops env s ws = .ok (s2, ws2) →
      s.iteration_threshold_min_ = constants.inf_iterations →
      s2.coarse_grain_calls_ = s.coarse_grain_calls_ ∧
      s2.iteration_threshold_ = s.iteration_threshold_ ∧
      s2.iteration_threshold_min_ = s.iteration_threshold_min_ ∧
      s2.topology_features_ = s.topology_features_ ∧
      clusterIdsOfSites s2 = clusterIdsOfSites s ∧
      membersOfClusters s2 = membersOfClusters s ∧
      s2.cluster_id_count_ = s.cluster_id_count_ := by
  intro ws
  induction ws with
  | nil =>
    intro s s2 ws2 h _
    simp only [hops, Except.ok.injEq, Prod.mk.injEq] at h
    obtain ⟨rfl, _⟩ := h
    exact ⟨rfl, rfl, rfl, rfl, rfl, rfl, rfl⟩
  | cons x rest ih =>
    intro s s2 ws2 h hinf
    obtain ⟨walker_id, walker⟩ := x
    obtain ⟨s1, w1, ws1, h1, hrest, _⟩ := hops_cons_eq_ok h
    obtain ⟨a1, _, _, a4⟩ := hop_spec h1
    obtain ⟨b1, b2, b3, b4, b5, b6⟩ := a4 (fun hpos => hpos.2 hinf)
    obtain ⟨c1, c2, c3, c4, c5, c6, c7⟩ := ih s1 s2 ws1 hrest (a1.trans hinf)
    exact ⟨c1.trans b1, c2.trans b2, c3.trans a1, c4.trans b3, c5.trans b4, c6.trans b5,
      c7.trans b6⟩

/-- While the counter stays at or below the threshold, a run of hops only counts. -/
theorem hops_quiet (env : Collaborators) :
    ∀ (ws : List (Int × Walker)) (s s2 : CoarseGrainSystem) (ws2 : List Walker),
      hops env s ws = .ok (s2, ws2) →
      0 ≤ s.iteration_ → s.iteration_ + ws.length ≤ s.iteration_threshold_ →
      s.iteration_threshold_ ≤ INT_MAX →
      s2.iteration_ = s.iteration_ + ws.length ∧
      s2.coarse_grain_calls_ = s.coarse_grain_calls_ ∧
      s2.iteration_threshold_ = s.iteration_threshold_ ∧
      s2.iteration_threshold_min_ = s.iteration_threshold_min_ := by
  intro ws
  induction ws with
  | nil =>
    intro s s2 ws2 h _ _ _
    simp only [hops, Except.ok.injEq, Prod.mk.injEq] at h
    obtain ⟨rfl, _⟩ := h
    simp
  | cons x rest ih =>
    intro s s2 ws2 h h0 hle hmax
    obtain ⟨walker_id, walker⟩ := x
    obtain ⟨s1, w1, ws1, h1, hrest, _⟩ := hops_cons_eq_ok h
    obtain ⟨a1, a2, _, a4⟩ := hop_spec h1
    simp only [List.length_cons, Nat.cast_add, Nat.cast_one] at hle
    have hlen : (0 : Int) ≤ (rest.length : Int) := Int.natCast_nonneg _
    have hw : wrapInt (s.iteration_ + 1) = s.iteration_ + 1 := by
      apply wrapInt_of_range
      · unfold INT_MIN; omega
      · omega
    have hnot : ¬ (wrapInt (s.iteration_ + 1) > s.iteration_threshold_ ∧
        s.iteration_threshold_min_ ≠ constants.inf_iterations) := by
      rw [hw]; intro hpos; omega
    have hnot2 : ¬ (wrapInt (s.iteration_ + 1) > s.iteration_threshold_) := by
      rw [hw]; omega
    obtain ⟨b1, b2, _⟩ := a4 hnot
    rw [if_neg hnot2, hw] at a2
    obtain ⟨c1, c2, c3, c4⟩ := ih s1 s2 ws1 hrest (by omega) (by rw [a2, b2]; omega)
      (by rw [b2]; exact hmax)
    refine ⟨?_, c2.trans b1, c3.trans b2, c4.trans a1⟩
    rw [c1, a2]
    simp only [List.length_cons, Nat.cast_add, Nat.cast_one]
    ring

/-- The threshold after a run of hops in which every call of the coarse-grainer returned
false: one doubling, in 32-bit arithmetic, for each call. -/
theorem hops_all_failed (env : Collaborators) :
    ∀ (ws : List (Int × Walker)) (s s2 : CoarseGrainSystem) (ws2 : List Walker)
      (calls : List (Int × Bool)),
      hops env s ws = .ok (s2, ws2) →
      s2.coarse_grain_calls_ = s.coarse_grain_calls_ ++ calls →
      (∀ e ∈ calls, e.2 = false) →
      INT_MIN ≤ s.iteration_threshold_ → s.iteration_threshold_ ≤ INT_MAX →
      s2.iteration_threshold_ = wrapInt (s.iteration_threshold_ * 2 ^ calls.length) ∧
      s2.iteration_threshold_min_ = s.iteration_threshold_min_ := by
  intro ws
  induction ws with
  | nil =>
    intro s s2 ws2 calls h hlog _ hlo hhi
    simp only [hops, Except.ok.injEq, Prod.mk.injEq] at h
    obtain ⟨rfl, _⟩ := h
    have : calls = [] := by
      have := congrArg List.length hlog
      simp only [List.length_append] at this
      exact List.length_eq_zero.mp (by omega)
    subst this
    simp [wrapInt_of_range _ hlo hhi]
  | cons x rest ih =>
    intro s s2 ws2 calls h hlog hfail hlo hhi
    obtain ⟨walker_id, walker⟩ := x
    obtain ⟨s1, w1, ws1, h1, hrest, _⟩ := hops_cons_eq_ok h
    obtain ⟨a1, _, a3, a4⟩ := hop_spec h1
    by_cases hpos : wrapInt (s.iteration_ + 1) > s.iteration_threshold_ ∧
        s.iteration_threshold_min_ ≠ constants.inf_iterations
    · obtain ⟨b, _, _, _, _, hl, ht⟩ := a3 hpos
      -- the history of the rest of the run
      have hsplit : ∃ calls2, calls = (walker.potential_site_, b) :: calls2 ∧
          s2.coarse_grain_calls_ = s1.coarse_grain_calls_ ++ calls2 := by
        have hmono : ∀ (l : List (Int × Walker)) (t t2 : CoarseGrainSystem) (v : List Walker),
            hops env t l = .ok (t2, v) →
            ∃ more, t2.coarse_grain_calls_ = t.coarse_grain_calls_ ++ more := by
          intro l
          induction l with
          | nil =>
            intro t t2 v ht
            simp only [hops, Except.ok.injEq, Prod.mk.injEq] at ht
            obtain ⟨rfl, _⟩ := ht
            exact ⟨[], by simp⟩
          | cons y l ihl =>
            intro t t2 v ht
            obtain ⟨wid, wk⟩ := y
            obtain ⟨t1, _, v1, g1, grest, _⟩ := hops_cons_eq_ok ht
            obtain ⟨_, _, g3, g4⟩ := hop_spec g1
            obtain ⟨more, hmore⟩ := ihl t1 t2 v1 grest
            by_cases gpos : wrapInt (t.iteration_ + 1) > t.iteration_threshold_ ∧
                t.iteration_threshold_min_ ≠ constants.inf_iterations
            · obtain ⟨b', _, _, _, _, gl, _⟩ := g3 gpos
              exact ⟨(wk.potential_site_, b') :: more, by rw [hmore, gl]; simp⟩
            · obtain ⟨gl, _⟩ := g4 gpos
              exact ⟨more, by rw [hmore, gl]⟩
        obtain ⟨more, hmore⟩ := hmono rest s1 s2 ws1 hrest
        refine ⟨more, ?_, hmore⟩
        rw [hmore, hl, List.append_assoc] at hlog
        exact (List.append_cancel_left hlog).symm
      obtain ⟨calls2, hcalls, hlog2⟩ := hsplit
      subst hcalls
      have hb : b = false := hfail (walker.potential_site_, b) (List.mem_cons_self _ _)
      subst hb
      simp only [Bool.false_eq_true, if_false] at ht
      have hr := wrapInt_range (s.iteration_threshold_ * 2)
      obtain ⟨c1, c2⟩ := ih s1 s2 ws1 calls2 hrest hlog2
        (fun e he => hfail e (List.mem_cons_of_mem _ he)) (by rw [ht]; exact hr.1)
        (by rw [ht]; exact hr.2)
      refine ⟨?_, c2.trans a1⟩
      rw [c1, ht, wrapInt_mul_wrapInt]
      simp only [List.length_cons, pow_succ]
      congr 1
      ring
    · obtain ⟨hl, ht, _⟩ := a4 hpos
      rw [← hl] at hlog
      obtain ⟨c1, c2⟩ := ih s1 s2 ws1 calls hrest hlog hfail (by rw [ht]; exact hlo)
        (by rw [ht]; exact hhi)
      exact ⟨by rw [c1, ht], c2.trans a1⟩

/-! ### The move of the walker -/

theorem keys_sites_of_sameTopology {s s1 : CoarseGrainSystem} (h : SameTopology s s1) :
    Table.keys s1.sites_ = Table.keys s.sites_ ∧ Table.keys s1.clusters_ = Table.keys s.clusters_ := by
  obtain ⟨_, _, h3, h4, _⟩ := h
  constructor
  · have := congrArg (List.map Prod.fst) h3
    simpa [clusterIdsOfSites, Table.keys, List.map_map, Function.comp] using this
  · have := congrArg (List.map Prod.fst) h4
    simpa [membersOfClusters, Table.keys, List.map_map, Function.comp] using this

theorem featureLive_of_sameTopology {s s1 : CoarseGrainSystem} (h : SameTopology s s1)
    {feature : Feature} {siteId : Int} (hl : featureLive s feature siteId) :
    featureLive s1 feature siteId := by
  obtain ⟨hs, hc⟩ := keys_sites_of_sameTopology h
  cases feature with
  | site id =>
    simp only [featureLive, Table.find_isSome_iff] at hl ⊢
    rw [hs]; exact hl
  | cluster id =>
    simp only [featureLive, Table.find_isSome_iff] at hl ⊢
    rw [hs, hc]; exact hl

theorem modifySite_ok {s : CoarseGrainSystem} {siteId : Int} (f : Site → Site)
    (h : (Table.find s.sites_ siteId).isSome) : ∃ s1, s.modifySite siteId f = .ok s1 := by
  obtain ⟨site, hsite⟩ := getSite_ok_of_find h
  simp only [modifySite, hsite, Result.ok_bind, Result.pure_eq]
  exact ⟨_, rfl⟩

theorem getCluster_ok_of_find {s : CoarseGrainSystem} {clusterId : Int}
    (h : (Table.find s.clusters_ clusterId).isSome) :
    ∃ cluster, s.getCluster clusterId = .ok cluster := by
  unfold getCluster
  cases hf : Table.find s.clusters_ clusterId with
  | none => simp [hf] at h
  | some cluster => exact ⟨cluster, rfl⟩

theorem isOccupied_ok {s : CoarseGrainSystem} {feature : Feature} {siteId : Int}
    (h : featureLive s feature siteId) : ∃ b, s.isOccupied feature siteId = .ok b := by
  cases feature with
  | site id =>
    obtain ⟨site, hsite⟩ := getSite_ok_of_find h
    simp only [isOccupied, hsite, Result.ok_bind, Result.pure_eq]
    exact ⟨_, rfl⟩
  | cluster id =>
    obtain ⟨cluster, hcluster⟩ := getCluster_ok_of_find h.1
    obtain ⟨site, hsite⟩ := getSite_ok_of_find h.2
    simp only [isOccupied, hcluster, hsite, Result.ok_bind, Result.pure_eq]
    exact ⟨_, rfl⟩

theorem vacate_ok {s : CoarseGrainSystem} {feature : Feature} {siteId : Int}
    (h : featureLive s feature siteId) : ∃ s1, s.vacate feature siteId = .ok s1 := by
  cases feature with
  | site id => exact modifySite_ok _ h
  | cluster id =>
    obtain ⟨cluster, hcluster⟩ := getCluster_ok_of_find h.1
    obtain ⟨s1, hs1⟩ := modifySite_ok
      (fun site : Site => { site with occupied := false }) h.2
    exact ⟨s1, by simp only [vacate, hcluster, Result.ok_bind]; exact hs1⟩

theorem occupy_ok {s : CoarseGrainSystem} {feature : Feature} {siteId : Int}
    (h : featureLive s feature siteId) : ∃ s1, s.occupy feature siteId = .ok s1 := by
  cases feature with
  | site id => exact modifySite_ok _ h
  | cluster id =>
    obtain ⟨cluster, hcluster⟩ := getCluster_ok_of_find h.1
    obtain ⟨s1, hs1⟩ := modifySite_ok
      (fun site : Site => { site with occupied := true }) h.2
    exact ⟨s1, by simp only [occupy, hcluster, Result.ok_bind]; exact hs1⟩

theorem getDwellTime_ok (env : Collaborators) {s : CoarseGrainSystem} {feature : Feature}
    {siteId : Int} (walker_id : Int) (h : featureLive s feature siteId) :
    ∃ r, s.getDwellTime env feature walker_id = .ok r := by
  cases feature with
  | site id =>
    obtain ⟨site, hsite⟩ := getSite_ok_of_find h
    simp only [getDwellTime, hsite, Result.ok_bind, Result.pure_eq]
    exact ⟨_, rfl⟩
  | cluster id =>
    obtain ⟨cluster, hcluster⟩ := getCluster_ok_of_find h.1
    simp only [getDwellTime, hcluster, Result.ok_bind, Result.pure_eq]
    exact ⟨_, rfl⟩

theorem pickNewSiteId_ok (env : Collaborators) {s : CoarseGrainSystem} {feature : Feature}
    {siteId : Int} (walker_id : Int) (h : featureLive s feature siteId) :
    ∃ r, s.pickNewSiteId env feature walker_id = .ok r := by
  cases feature with
  | site id =>
    obtain ⟨site, hsite⟩ := getSite_ok_of_find h
    simp only [pickNewSiteId, hsite, Result.ok_bind, Result.pure_eq]
    exact ⟨_, rfl⟩
  | cluster id =>
    obtain ⟨cluster, hcluster⟩ := getCluster_ok_of_find h.1
    simp only [pickNewSiteId, hcluster, Result.ok_bind, Result.pure_eq]
    exact ⟨_, rfl⟩

theorem getFeature_of_find {s : CoarseGrainSystem} {siteId : Int} {feature : Feature}
    (h : Table.find s.topology_features_ siteId = some feature) :
    s.getFeature siteId = .ok feature := by
  simp [getFeature, h]

/-- The move of the walker returns when its current and its potential site are
registered; the branch is decided by the occupation of the destination. -/
theorem hopMove_ok (env : Collaborators) (s : CoarseGrainSystem) (walker_id : Int)
    (walker : Walker) (feature feature_to_hop_to : Feature)
    (hc : walker.current_site_ ≠ constants.unassignedId)
    (hd : walker.potential_site_ ≠ constants.unassignedId)
    (hF : Table.find s.topology_features_ walker.current_site_ = some feature)
    (hF2 : Table.find s.topology_features_ walker.potential_site_ = some feature_to_hop_to)
    (hlive : featureLive s feature walker.current_site_)
    (hlive2 : featureLive s feature_to_hop_to walker.potential_site_) :
    ∃ (occupied : Bool) (s2 s3 s4 s1 : CoarseGrainSystem) (dwell : Option ℚ) (next : Int),
      s.isOccupied feature_to_hop_to walker.potential_site_ = .ok occupied ∧
      s.vacate feature walker.current_site_ = .ok s2 ∧
      s2.occupy (if occupied then feature else feature_to_hop_to)
        (if occupied then walker.current_site_ else walker.potential_site_) = .ok s3 ∧
      s3.getDwellTime env (if occupied then feature else feature_to_hop_to) walker_id
        = .ok (dwell, s4) ∧
      s4.pickNewSiteId env (if occupied then feature else feature_to_hop_to) walker_id
        = .ok (next, s1) ∧
      s.hopMove env walker_id walker = .ok (s1,
        { current_site_ := if occupied then walker.current_site_ else walker.potential_site_
          potential_site_ := next
          dwell_time_ := dwell }, walker.potential_site_) := by
  obtain ⟨occupied, hocc⟩ := isOccupied_ok hlive2
  obtain ⟨s2, hs2⟩ := vacate_ok hlive
  have t2 := vacate_sameTopology hs2
  have hliveA : featureLive s2 (if occupied then feature else feature_to_hop_to)
      (if occupied then walker.current_site_ else walker.potential_site_) := by
    cases occupied with
    | true => exact featureLive_of_sameTopology t2 hlive
    | false => exact featureLive_of_sameTopology t2 hlive2
  obtain ⟨s3, hs3⟩ := occupy_ok hliveA
  have t3 := occupy_sameTopology hs3
  obtain ⟨⟨dwell, s4⟩, hs4⟩ := getDwellTime_ok env walker_id
    (featureLive_of_sameTopology t3 hliveA)
  have t4 := getDwellTime_sameTopology hs4
  obtain ⟨⟨next, s1⟩, hs1⟩ := pickNewSiteId_ok env walker_id
    (featureLive_of_sameTopology t4 (featureLive_of_sameTopology t3 hliveA))
  refine ⟨occupied, s2, s3, s4, s1, dwell, next, hocc, hs2, hs3, hs4, hs1, ?_⟩
  unfold hopMove
  simp only [Walker.getIdOfSiteCurrentlyOccupying, hc, if_false, Walker.getPotentialSite, hd,
    Result.ok_bind, getFeature_of_find hF, getFeature_of_find hF2, hocc, hs2]
  cases occupied with
  | false =>
    simp only [Bool.false_eq_true, if_false] at hs3 hs4 hs1
    simp only [Bool.not_false, if_true, hs3, hs4, hs1, Result.ok_bind, Result.pure_eq,
      Walker.occupySite, Walker.setDwellTime, Walker.setPotentialSite, Bool.false_eq_true,
      if_false]
  | true =>
    simp only [if_true] at hs3 hs4 hs1
    simp only [Bool.not_true, Bool.false_eq_true, if_false, hs3, hs4, hs1, Result.ok_bind,
      Result.pure_eq, Walker.setDwellTime, Walker.setPotentialSite, if_true]

/-- The state `mergeSitesAndClusters_` leaves, read off `afterMerge`. -/
theorem afterMerge_spec (env : Collaborators) (s : CoarseGrainSystem) (m : List (Int × Int))
    (fav : Int) (F : Cluster) (hF : Table.find s.clusters_ fav = some F)
    (hex : ∀ c ∈ otherClusterIds fav [] m, (Table.find s.clusters_ c).isSome) :
    (afterMerge env s m fav).sites_ = setClusterIds s.sites_ fav (movedSites m fav) ∧
    (afterMerge env s m fav).topology_features_
      = dispatchAll s.topology_features_ fav (movedSites m fav) ∧
    (∃ F1, Table.find (afterMerge env s m fav).clusters_ fav = some F1 ∧
      F1.members = F.members ++ isolatedSites m fav
        ++ membersOfAll s.clusters_ (otherClusterIds fav [] m) ∧
      F1.id = F.id ∧ F1.resolution = F.resolution) ∧
    (∀ c ∈ otherClusterIds fav [] m, Table.find (afterMerge env s m fav).clusters_ c = none) ∧
    (∀ c, c ∉ otherClusterIds fav [] m → c ≠ fav →
      Table.find (afterMerge env s m fav).clusters_ c = Table.find s.clusters_ c) ∧
    ((Table.keys s.clusters_).Nodup →
      (Table.keys (afterMerge env s m fav).clusters_).Nodup ∧
      (afterMerge env s m fav).clusters_.length + (otherClusterIds fav [] m).length
        = s.clusters_.length) ∧
    control (afterMerge env s m fav) = control s ∧
    (afterMerge env s m fav).cluster_id_count_ = s.cluster_id_count_ := by
  obtain ⟨hnodup, hmem⟩ := otherClusterIds_spec fav m [] List.nodup_nil
  have hfavnot : fav ∉ otherClusterIds fav [] m := by
    intro h
    rcases (hmem _).mp h with h | ⟨_, _, _, h, _⟩
    · simp at h
    · exact h rfl
  have hfavmem : fav ∈ Table.keys s.clusters_ := (Table.find_isSome_iff _ _).mp (by simp [hF])
  have hex2 : ∀ c ∈ otherClusterIds fav [] m, (Table.find (Table.assign s.clusters_ fav
      (Cluster.updateProbabilitiesAndTimeConstant env
        (setClusterIds s.sites_ fav (movedSites m fav))
        { F with members := F.members ++ isolatedSites m fav })) c).isSome := by
    intro c hc
    have hne : c ≠ fav := fun e => hfavnot (e ▸ hc)
    simp only [Table.find_assign, hne, if_false]
    exact hex c hc
  obtain ⟨g1, g2⟩ := migrateAll_spec env (setClusterIds s.sites_ fav (movedSites m fav)) fav
    (otherClusterIds fav [] m)
    (Table.assign s.clusters_ fav
      (Cluster.updateProbabilitiesAndTimeConstant env
        (setClusterIds s.sites_ fav (movedSites m fav))
        { F with members := F.members ++ isolatedSites m fav }))
    _ hnodup hfavnot (Table.find_assign_same _ _ _) hex2
  have hcongr := migratedFavored_congr env (setClusterIds s.sites_ fav (movedSites m fav))
    (Table.assign s.clusters_ fav
      (Cluster.updateProbabilitiesAndTimeConstant env
        (setClusterIds s.sites_ fav (movedSites m fav))
        { F with members := F.members ++ isolatedSites m fav }))
    s.clusters_ (otherClusterIds fav [] m)
    (Cluster.updateProbabilitiesAndTimeConstant env
        (setClusterIds s.sites_ fav (movedSites m fav))
        { F with members := F.members ++ isolatedSites m fav })
    (by
      intro c hc
      have hne : c ≠ fav := fun e => hfavnot (e ▸ hc)
      simp only [Table.find_assign, hne, if_false])
  obtain ⟨k1, k2, k3⟩ := migratedFavored_spec env (setClusterIds s.sites_ fav (movedSites m fav))
    s.clusters_ (otherClusterIds fav [] m)
    (Cluster.updateProbabilitiesAndTimeConstant env
        (setClusterIds s.sites_ fav (movedSites m fav))
        { F with members := F.members ++ isolatedSites m fav }) hex
  simp only [afterMerge, hF]
  refine ⟨trivial, trivial, ?_, ?_, ?_, ?_, rfl, trivial⟩
  · refine ⟨migratedFavored env (setClusterIds s.sites_ fav (movedSites m fav)) s.clusters_
      (Cluster.updateProbabilitiesAndTimeConstant env
        (setClusterIds s.sites_ fav (movedSites m fav))
        { F with members := F.members ++ isolatedSites m fav })
      (otherClusterIds fav [] m), ?_, ?_, ?_, ?_⟩
    · rw [g1, hcongr]
      simp only [hfavnot, if_false, if_true]
    · rw [k1]; rfl
    · rw [k2]; rfl
    · rw [k3]; rfl
  · intro c hc
    rw [g1]
    simp [hc]
  · intro c hc hne
    rw [g1]
    simp [hc, hne, Table.find_assign]
  · intro hn
    obtain ⟨q1, q2⟩ := g2 (Table.nodup_keys_assign _ _ _ hn)
    refine ⟨q1, ?_⟩
    rw [q2, Table.length_assign_of_mem _ _ _ hfavmem]

theorem length_membersOfAll (clusters : List (Int × Cluster)) :
    ∀ cids : List Int, (membersOfAll clusters cids).length
      = (cids.map (fun c => match Table.find clusters c with
          | some cluster => cluster.members.length
          | none => 0)).sum := by
  intro cids
  induction cids with
  | nil => rfl
  | cons c rest ih =>
    simp only [membersOfAll, List.length_append, ih, List.map_cons, List.sum_cons]
    cases Table.find clusters c <;> simp

theorem mem_isolatedSites {s : CoarseGrainSystem} {ids : List Int} {m : List (Int × Int)}
    (hm : s.getClustersOfSites ids = .ok m) (fav : Int) (hfav : fav ≠ constants.unassignedId)
    (x : Int) :
    x ∈ isolatedSites m fav ↔ x ∈ ids ∧ clusterIdOf s x = constants.unassignedId := by
  obtain ⟨_, _, _, hmem⟩ := getClustersOfSites_spec hm
  simp only [isolatedSites, List.mem_map, List.mem_filter, Bool.and_eq_true, decide_eq_true_eq]
  constructor
  · rintro ⟨p, ⟨hp, _, hp2⟩, rfl⟩
    obtain ⟨h1, h2⟩ := (hmem p).mp hp
    exact ⟨h1, h2 ▸ hp2⟩
  · rintro ⟨hx, hc⟩
    refine ⟨(x, clusterIdOf s x), ⟨(hmem _).mpr ⟨hx, rfl⟩, ?_, hc⟩, rfl⟩
    simp only [hc]
    exact fun e => hfav e.symm

theorem mem_movedSites {s : CoarseGrainSystem} {ids : List Int} {m : List (Int × Int)}
    (hm : s.getClustersOfSites ids = .ok m) (fav : Int) (x : Int) :
    x ∈ movedSites m fav ↔ x ∈ ids ∧ clusterIdOf s x ≠ fav := by
  obtain ⟨_, _, _, hmem⟩ := getClustersOfSites_spec hm
  simp only [movedSites, List.mem_map, List.mem_filter, decide_eq_true_eq]
  constructor
  · rintro ⟨p, ⟨hp, hp2⟩, rfl⟩
    obtain ⟨h1, h2⟩ := (hmem p).mp hp
    exact ⟨h1, h2 ▸ hp2⟩
  · rintro ⟨hx, hc⟩
    exact ⟨(x, clusterIdOf s x), ⟨(hmem _).mpr ⟨hx, rfl⟩, hc⟩, rfl⟩

theorem mem_otherClusterIds {s : CoarseGrainSystem} {ids : List Int} {m : List (Int × Int)}
    (hm : s.getClustersOfSites ids = .ok m) (fav : Int) (c : Int) :
    c ∈ otherClusterIds fav [] m ↔
      c ≠ fav ∧ c ≠ constants.unassignedId ∧ ∃ id ∈ ids, clusterIdOf s id = c := by
  obtain ⟨_, _, _, hmem⟩ := getClustersOfSites_spec hm
  obtain ⟨_, h2⟩ := otherClusterIds_spec fav m [] List.nodup_nil
  rw [h2]
  constructor
  · rintro (h | ⟨p, hp, hpc, h3, h4⟩)
    · simp at h
    · obtain ⟨q1, q2⟩ := (hmem p).mp hp
      exact ⟨h3, h4, p.1, q1, by rw [← q2, hpc]⟩
  · rintro ⟨h3, h4, id, hid, hc⟩
    exact Or.inr ⟨(id, clusterIdOf s id), (hmem _).mpr ⟨hid, rfl⟩, hc, h3, h4⟩

/-- What `coarseGrain_` does when the candidates pass the test and do not all have the same
cluster id: it merges. -/
theorem coarseGrain_merge_eq (env : Collaborators) (s : CoarseGrainSystem) (siteId : Int)
    (hkeyed : SitesKeyed s)
    (hreg : ∀ id ∈ env.findBasin s.sites_ s.clusters_ siteId, (Table.find s.sites_ id).isSome)
    (hpass : s.sitesSatisfyEquilibriumCondition_ (env.findBasin s.sites_ s.clusters_ siteId)
      (s.getInternalTimeLimit_ env (env.findBasin s.sites_ s.clusters_ siteId)) = .ok true)
    (hdiff : ∃ a ∈ env.findBasin s.sites_ s.clusters_ siteId,
      ∃ b ∈ env.findBasin s.sites_ s.clusters_ siteId, clusterIdOf s a ≠ clusterIdOf s b)
    (hexist : ∀ id ∈ env.findBasin s.sites_ s.clusters_ siteId,
      clusterIdOf s id ≠ constants.unassignedId →
      (Table.find s.clusters_ (clusterIdOf s id)).isSome) :
    ∃ (m : List (Int × Int)) (F : Cluster),
      s.getClustersOfSites (env.findBasin s.sites_ s.clusters_ siteId) = .ok m ∧
      getFavoredClusterId m ≠ constants.unassignedId ∧
      (∃ id ∈ env.findBasin s.sites_ s.clusters_ siteId,
        clusterIdOf s id = getFavoredClusterId m) ∧
      (∀ id ∈ env.findBasin s.sites_ s.clusters_ siteId,
        clusterIdOf s id ≠ constants.unassignedId → getFavoredClusterId m ≤ clusterIdOf s id) ∧
      Table.find s.clusters_ (getFavoredClusterId m) = some F ∧
      (∀ c ∈ otherClusterIds (getFavoredClusterId m) [] m, (Table.find s.clusters_ c).isSome) ∧
      s.coarseGrain_ env siteId = .ok (true, afterMerge env s m (getFavoredClusterId m)) := by
  obtain ⟨m, hm⟩ := getClustersOfSites_ok s _ hreg
  obtain ⟨_, _, _, hmem⟩ := getClustersOfSites_spec hm
  obtain ⟨a, ha, b, hb, hab⟩ := hdiff
  have hcount : countUniqueClusters m ≠ 1 := by
    intro h1
    obtain ⟨c, _, hall⟩ := (countUniqueClusters_eq_one_iff m).mp h1
    have h2 := hall (a, clusterIdOf s a) ((hmem _).mpr ⟨ha, rfl⟩)
    have h3 := hall (b, clusterIdOf s b) ((hmem _).mpr ⟨hb, rfl⟩)
    simp only at h2 h3
    exact hab (h2.trans h3.symm)
  obtain ⟨f1, f2, f3⟩ := getFavoredClusterId_spec m
  have hfav : getFavoredClusterId m ≠ constants.unassignedId := by
    intro hu
    have hall := f1.mp hu
    have h2 := hall (a, clusterIdOf s a) ((hmem _).mpr ⟨ha, rfl⟩)
    have h3 := hall (b, clusterIdOf s b) ((hmem _).mpr ⟨hb, rfl⟩)
    simp only at h2 h3
    exact hab (h2.trans h3.symm)
  obtain ⟨p, hp, hpfav⟩ := f3 hfav
  obtain ⟨hp1, hp2⟩ := (hmem p).mp hp
  have hfavcid : clusterIdOf s p.1 = getFavoredClusterId m := by rw [← hp2, hpfav]
  have hfavex : (Table.find s.clusters_ (getFavoredClusterId m)).isSome := by
    have := hexist p.1 hp1 (by rw [hfavcid]; exact hfav)
    rw [hfavcid] at this
    exact this
  have hothers : ∀ q ∈ m, q.2 ≠ getFavoredClusterId m → q.2 ≠ constants.unassignedId →
      (Table.find s.clusters_ q.2).isSome := by
    intro q hq _ hne
    obtain ⟨hq1, hq2⟩ := (hmem q).mp hq
    have := hexist q.1 hq1 (by rw [← hq2]; exact hne)
    rw [← hq2] at this
    exact this
  have hregm : ∀ q ∈ m, (Table.find s.sites_ q.1).isSome :=
    fun q hq => hreg q.1 ((hmem q).mp hq).1
  have hmerge := mergeSitesAndClusters_eq env s m (getFavoredClusterId m) hkeyed hregm hfavex
    hothers
  cases hF : Table.find s.clusters_ (getFavoredClusterId m) with
  | none => simp [hF] at hfavex
  | some F =>
    refine ⟨m, F, hm, hfav, ⟨p.1, hp1, hfavcid⟩, ?_, hF, ?_, ?_⟩
    · intro id hid hne
      have := f2 (id, clusterIdOf s id) ((hmem _).mpr ⟨hid, rfl⟩) hne
      exact this
    · intro c hc
      obtain ⟨_, hne, id, hid, hcid⟩ := (mem_otherClusterIds hm _ c).mp hc
      have := hexist id hid (by rw [hcid]; exact hne)
      rw [hcid] at this
      exact this
    · unfold coarseGrain_
      simp only [hpass, Result.ok_bind, if_true, hm, hcount, false_and, if_false, ne_eq,
        not_false_eq_true, hmerge, Result.pure_eq]

theorem mem_membersOfAll (clusters : List (Int × Cluster)) (x : Int) :
    ∀ cids : List Int, x ∈ membersOfAll clusters cids ↔
      ∃ c ∈ cids, ∃ C, Table.find clusters c = some C ∧ x ∈ C.members := by
  intro cids
  induction cids with
  | nil => simp [membersOfAll]
  | cons c rest ih =>
    simp only [membersOfAll, List.mem_append, ih, List.mem_cons]
    constructor
    · rintro (h | ⟨c2, hc2, C, hC, hx⟩)
      · cases hf : Table.find clusters c with
        | none => simp [hf] at h
        | some C0 =>
          simp only [hf] at h
          exact ⟨c, Or.inl rfl, C0, hf, h⟩
      · exact ⟨c2, Or.inr hc2, C, hC, hx⟩
    · rintro ⟨c2, hc2 | hc2, C, hC, hx⟩
      · subst hc2
        left
        simp only [hC]
        exact hx
      · exact Or.inr ⟨c2, hc2, C, hC, hx⟩

/-- C7: when the candidates the explorer proposes are stored sites that pass the
equilibrium test and do not all have the same cluster id (every cluster id among them
naming a stored cluster), `coarseGrain_` returns true. The favoured cluster is the one
with the least cluster id among the candidates. Afterwards its members are its previous
members, the free candidates and the members of every other cluster among the
candidates; those other clusters are no longer stored and every remaining cluster is
untouched, so the number of clusters drops by the number of those other clusters; and
when no candidate is free, the favoured cluster has as many members as the merged
clusters had together. -/
theorem coarseGrain_merges (env : Collaborators) (s : CoarseGrainSystem) (siteId : Int)
    (hkeyed : SitesKeyed s)
    (hnodup : (Table.keys s.clusters_).Nodup)
    (hreg : ∀ id ∈ env.findBasin s.sites_ s.clusters_ siteId, (Table.find s.sites_ id).isSome)
    (hpass : s.sitesSatisfyEquilibriumCondition_ (env.findBasin s.sites_ s.clusters_ siteId)
      (s.getInternalTimeLimit_ env (env.findBasin s.sites_ s.clusters_ siteId)) = .ok true)
    (hdiff : ∃ a ∈ env.findBasin s.sites_ s.clusters_ siteId,
      ∃ b ∈ env.findBasin s.sites_ s.clusters_ siteId, clusterIdOf s a ≠ clusterIdOf s b)
    (hexist : ∀ id ∈ env.findBasin s.sites_ s.clusters_ siteId,
      clusterIdOf s id ≠ constants.unassignedId →
      (Table.find s.clusters_ (clusterIdOf s id)).isSome) :
    ∃ (s1 : CoarseGrainSystem) (fav : Int) (others : List Int) (F F1 : Cluster),
      s.coarseGrain_ env siteId = .ok (true, s1) ∧
      fav ≠ constants.unassignedId ∧
      (∃ id ∈ env.findBasin s.sites_ s.clusters_ siteId, clusterIdOf s id = fav) ∧
      (∀ id ∈ env.findBasin s.sites_ s.clusters_ siteId,
        clusterIdOf s id ≠ constants.unassignedId → fav ≤ clusterIdOf s id) ∧
      others.Nodup ∧
      (∀ c, c ∈ others ↔ c ≠ fav ∧ c ≠ constants.unassignedId ∧
        ∃ id ∈ env.findBasin s.sites_ s.clusters_ siteId, clusterIdOf s id = c) ∧
      Table.find s.clusters_ fav = some F ∧
      Table.find s1.clusters_ fav = some F1 ∧
      (∀ x, x ∈ F1.members ↔
        x ∈ F.members ∨
        (x ∈ env.findBasin s.sites_ s.clusters_ siteId ∧
          clusterIdOf s x = constants.unassignedId) ∨
        ∃ c ∈ others, ∃ C, Table.find s.clusters_ c = some C ∧ x ∈ C.members) ∧
      (∀ c ∈ others, Table.find s1.clusters_ c = none) ∧
      (∀ c, c ∉ others → c ≠ fav → Table.find s1.clusters_ c = Table.find s.clusters_ c) ∧
      s1.clusters_.length + others.length = s.clusters_.length ∧
      ((∀ id ∈ env.findBasin s.sites_ s.clusters_ siteId,
          clusterIdOf s id ≠ constants.unassignedId) →
        F1.members.length = F.members.length +
          (others.map (fun c => match Table.find s.clusters_ c with
            | some C => C.members.length
            | none => 0)).sum) := by
  obtain ⟨m, F, hm, hfav, hfavmem, hfavleast, hF, hex, hcg⟩ :=
    coarseGrain_merge_eq env s siteId hkeyed hreg hpass hdiff hexist
  obtain ⟨_, _, ⟨F1, hF1, hmembers, _, _⟩, hgone, hkept, hlen, _, _⟩ :=
    afterMerge_spec env s m (getFavoredClusterId m) F hF hex
  obtain ⟨hnd, _⟩ := otherClusterIds_spec (getFavoredClusterId m) m [] List.nodup_nil
  refine ⟨afterMerge env s m (getFavoredClusterId m), getFavoredClusterId m,
    otherClusterIds (getFavoredClusterId m) [] m, F, F1, hcg, hfav, hfavmem, hfavleast, hnd,
    mem_otherClusterIds hm _, hF, hF1, ?_, hgone, hkept, (hlen hnodup).2, ?_⟩
  · intro x
    rw [hmembers]
    simp only [List.mem_append, mem_isolatedSites hm _ hfav, mem_membersOfAll]
    tauto
  · intro hall
    have hiso : isolatedSites m (getFavoredClusterId m) = [] := by
      apply List.eq_nil_iff_forall_not_mem.mpr
      intro x hx
      obtain ⟨h1, h2⟩ := (mem_isolatedSites hm _ hfav x).mp hx
      exact hall x h1 h2
    rw [hmembers, hiso]
    simp only [List.append_nil, List.length_append, length_membersOfAll]

/-- C7 on the example system with the clusters `0,1` and `2,3`: the explorer proposes the
four sites and the two clusters merge into cluster 0. -/
theorem coarseGrain_merges_witness :
    (SitesKeyed Examples.twoClusters ∧
      (Table.keys Examples.twoClusters.clusters_).Nodup ∧
      (∀ id ∈ Examples.envWide.findBasin Examples.twoClusters.sites_
          Examples.twoClusters.clusters_ 1,
        (Table.find Examples.twoClusters.sites_ id).isSome) ∧
      Examples.twoClusters.sitesSatisfyEquilibriumCondition_
        (Examples.envWide.findBasin Examples.twoClusters.sites_ Examples.twoClusters.clusters_ 1)
        (Examples.twoClusters.getInternalTimeLimit_ Examples.envWide
          (Examples.envWide.findBasin Examples.twoClusters.sites_
            Examples.twoClusters.clusters_ 1)) = .ok true) ∧
    ∃ (s1 : CoarseGrainSystem) (fav : Int) (others : List Int) (F F1 : Cluster),
      Examples.twoClusters.coarseGrain_ Examples.envWide 1 = .ok (true, s1) ∧
      fav ≠ constants.unassignedId ∧
      (∃ id ∈ Examples.envWide.findBasin Examples.twoClusters.sites_
          Examples.twoClusters.clusters_ 1, clusterIdOf Examples.twoClusters id = fav) ∧
      (∀ id ∈ Examples.envWide.findBasin Examples.twoClusters.sites_
          Examples.twoClusters.clusters_ 1,
        clusterIdOf Examples.twoClusters id ≠ constants.unassignedId →
        fav ≤ clusterIdOf Examples.twoClusters id) ∧
      others.Nodup ∧
      (∀ c, c ∈ others ↔ c ≠ fav ∧ c ≠ constants.unassignedId ∧
        ∃ id ∈ Examples.envWide.findBasin Examples.twoClusters.sites_
          Examples.twoClusters.clusters_ 1, clusterIdOf Examples.twoClusters id = c) ∧
      Table.find Examples.twoClusters.clusters_ fav = some F ∧
      Table.find s1.clusters_ fav = some F1 ∧
      (∀ x, x ∈ F1.members ↔
        x ∈ F.members ∨
        (x ∈ Examples.envWide.findBasin Examples.twoClusters.sites_
            Examples.twoClusters.clusters_ 1 ∧
          clusterIdOf Examples.twoClusters x = constants.unassignedId) ∨
        ∃ c ∈ others, ∃ C, Table.find Examples.twoClusters.clusters_ c = some C ∧
          x ∈ C.members) ∧
      (∀ c ∈ others, Table.find s1.clusters_ c = none) ∧
      (∀ c, c ∉ others → c ≠ fav →
        Table.find s1.clusters_ c = Table.find Examples.twoClusters.clusters_ c) ∧
      s1.clusters_.length + others.length = Examples.twoClusters.clusters_.length ∧
      ((∀ id ∈ Examples.envWide.findBasin Examples.twoClusters.sites_
          Examples.twoClusters.clusters_ 1,
          clusterIdOf Examples.twoClusters id ≠ constants.unassignedId) →
        F1.members.length = F.members.length +
          (others.map (fun c => match Table.find Examples.twoClusters.clusters_ c with
            | some C => C.members.length
            | none => 0)).sum) :=
  ⟨⟨by decide!, by decide!, by decide!, by decide!⟩,
    coarseGrain_merges Examples.envWide Examples.twoClusters 1 (by decide!) (by decide!)
      (by decide!) (by decide!) ⟨0, by decide!, 2, by decide!, by decide!⟩ (by decide!)⟩

/-! ### The claims on `hop` -/

/-- C2, as stated, fails: with both thresholds at 2^30 a hop triggers an attempt, the
coarse-grainer returns false, and the threshold becomes -2^31, not twice its previous
value. -/
theorem hop_threshold_doubling_overflows :
    ∃ (s1 : CoarseGrainSystem) (w1 : Walker),
      Examples.strictHigh.hop Examples.env 0 Examples.walker01 = .ok (s1, w1) ∧
      s1.coarse_grain_calls_ = [(1, false)] ∧
      s1.iteration_threshold_ = -2147483648 ∧
      s1.iteration_threshold_ ≠ Examples.strictHigh.iteration_threshold_min_ * 2 ^ 1 :=
  ⟨(Examples.valueOr (Examples.strictHigh.hop Examples.env 0 Examples.walker01)
      (Examples.strictHigh, Examples.walker01)).1,
   (Examples.valueOr (Examples.strictHigh.hop Examples.env 0 Examples.walker01)
      (Examples.strictHigh, Examples.walker01)).2,
   by decide!, by decide!, by decide!, by decide!⟩

/-- C2, amended: when a hop triggers an attempt (the incremented counter exceeds the
threshold and `threshold_min` is not the sentinel), the threshold becomes `threshold_min`
if `coarseGrain_` returns true, and otherwise twice its previous value provided the double
fits a 32-bit `int`; and after a run of hops that starts with the threshold at
`threshold_min` and in which `k` attempts were made, all returning false, the threshold is
`threshold_min * 2^k`, provided this value fits a 32-bit `int`. -/
theorem hop_threshold_backoff (env : Collaborators) (s s1 : CoarseGrainSystem) (walker_id : Int)
    (walker w1 : Walker) (ws : List (Int × Walker)) (s2 : CoarseGrainSystem) (ws2 : List Walker)
    (calls : List (Int × Bool)) :
    (s.hop env walker_id walker = .ok (s1, w1) →
      wrapInt (s.iteration_ + 1) > s.iteration_threshold_ →
      s.iteration_threshold_min_ ≠ constants.inf_iterations →
      ∃ (b : Bool) (sA sB : CoarseGrainSystem),
        s.hopMove env walker_id walker = .ok (sA, w1, walker.potential_site_) ∧
        coarseGrain_ env { sA with iteration_ := wrapInt (s.iteration_ + 1) }
          walker.potential_site_ = .ok (b, sB) ∧
        s1.iteration_threshold_min_ = s.iteration_threshold_min_ ∧
        (b = true → s1.iteration_threshold_ = s.iteration_threshold_min_) ∧
        (b = false → INT_MIN ≤ s.iteration_threshold_ * 2 →
          s.iteration_threshold_ * 2 ≤ INT_MAX →
          s1.iteration_threshold_ = s.iteration_threshold_ * 2)) ∧
    (hops env s ws = .ok (s2, ws2) →
      s.iteration_threshold_ = s.iteration_threshold_min_ →
      s2.coarse_grain_calls_ = s.coarse_grain_calls_ ++ calls →
      (∀ e ∈ calls, e.2 = false) →
      INT_MIN ≤ s.iteration_threshold_min_ * 2 ^ calls.length →
      s.iteration_threshold_min_ * 2 ^ calls.length ≤ INT_MAX →
      s2.iteration_threshold_ = s.iteration_threshold_min_ * 2 ^ calls.length) := by
  constructor
  · intro h hc hmin
    obtain ⟨a1, _, a3, _⟩ := hop_spec h
    obtain ⟨b, sA, sB, hmove, hcg, _, ht⟩ := a3 ⟨hc, hmin⟩
    refine ⟨b, sA, sB, hmove, hcg, a1, ?_, ?_⟩
    · intro hb; rw [ht, hb]; simp
    · intro hb hlo hhi
      rw [ht, hb]
      simp only [Bool.false_eq_true, if_false]
      exact wrapInt_of_range _ hlo hhi
  · intro h hreset hlog hfail hlo hhi
    have hpow : (1 : Int) ≤ 2 ^ calls.length := one_le_pow₀ (by norm_num)
    have hrange : INT_MIN ≤ s.iteration_threshold_ ∧ s.iteration_threshold_ ≤ INT_MAX := by
      rw [hreset]
      unfold INT_MIN at hlo ⊢
      unfold INT_MAX at hhi ⊢
      constructor
      · by_contra hneg
        have hneg2 : s.iteration_threshold_min_ < -2147483648 := not_le.mp hneg
        have : s.iteration_threshold_min_ * 2 ^ calls.length ≤ s.iteration_threshold_min_ * 1 :=
          mul_le_mul_of_nonpos_left hpow (by omega)
        omega
      · by_contra hneg
        have hneg2 : 2147483647 < s.iteration_threshold_min_ := not_le.mp hneg
        have : s.iteration_threshold_min_ * 1 ≤ s.iteration_threshold_min_ * 2 ^ calls.length :=
          mul_le_mul_of_nonneg_left hpow (by omega)
        omega
    obtain ⟨c1, _⟩ := hops_all_failed env ws s s2 ws2 calls h hlog hfail hrange.1 hrange.2
    rw [c1, hreset]
    exact wrapInt_of_range _ hlo hhi

/-- C2, amended, on the example system: a hop that triggers a failing attempt doubles the
threshold from 1 to 2, and five hops from the reset state make two failing attempts and
leave the threshold at 4. -/
theorem hop_threshold_backoff_witness :
    ((Examples.strictDue.hop Examples.env 0 Examples.walker01
        = .ok (Examples.valueOr (Examples.strictDue.hop Examples.env 0 Examples.walker01)
            (Examples.strictDue, Examples.walker01)) ∧
      wrapInt (Examples.strictDue.iteration_ + 1) > Examples.strictDue.iteration_threshold_ ∧
      Examples.strictDue.iteration_threshold_min_ ≠ constants.inf_iterations) ∧
      ∃ (b : Bool) (sA sB : CoarseGrainSystem),
        Examples.strictDue.hopMove Examples.env 0 Examples.walker01
          = .ok (sA, (Examples.valueOr (Examples.strictDue.hop Examples.env 0 Examples.walker01)
            (Examples.strictDue, Examples.walker01)).2, Examples.walker01.potential_site_) ∧
        coarseGrain_ Examples.env
          { sA with iteration_ := wrapInt (Examples.strictDue.iteration_ + 1) }
          Examples.walker01.potential_site_ = .ok (b, sB) ∧
        (Examples.valueOr (Examples.strictDue.hop Examples.env 0 Examples.walker01)
            (Examples.strictDue, Examples.walker01)).1.iteration_threshold_min_
          = Examples.strictDue.iteration_threshold_min_ ∧
        (b = true →
          (Examples.valueOr (Examples.strictDue.hop Examples.env 0 Examples.walker01)
            (Examples.strictDue, Examples.walker01)).1.iteration_threshold_
          = Examples.strictDue.iteration_threshold_min_) ∧
        (b = false → INT_MIN ≤ Examples.strictDue.iteration_threshold_ * 2 →
          Examples.strictDue.iteration_threshold_ * 2 ≤ INT_MAX →
          (Examples.valueOr (Examples.strictDue.hop Examples.env 0 Examples.walker01)
            (Examples.strictDue, Examples.walker01)).1.iteration_threshold_
          = Examples.strictDue.iteration_threshold_ * 2)) ∧
    (hops Examples.env Examples.strict Examples.fiveHops
        = .ok (Examples.valueOr (hops Examples.env Examples.strict Examples.fiveHops)
            (Examples.strict, [])) ∧
      Examples.strict.iteration_threshold_ = Examples.strict.iteration_threshold_min_ ∧
      (Examples.valueOr (hops Examples.env Examples.strict Examples.fiveHops)
        (Examples.strict, [])).1.coarse_grain_calls_
        = Examples.strict.coarse_grain_calls_ ++ [(0, false), (1, false)]) ∧
    (Examples.valueOr (hops Examples.env Examples.strict Examples.fiveHops)
        (Examples.strict, [])).1.iteration_threshold_
      = Examples.strict.iteration_threshold_min_
        * 2 ^ [((0 : Int), false), ((1 : Int), false)].length :=
  ⟨⟨⟨by decide!, by decide!, by decide!⟩,
    (hop_threshold_backoff Examples.env Examples.strictDue
      (Examples.valueOr (Examples.strictDue.hop Examples.env 0 Examples.walker01)
        (Examples.strictDue, Examples.walker01)).1 0 Examples.walker01
      (Examples.valueOr (Examples.strictDue.hop Examples.env 0 Examples.walker01)
        (Examples.strictDue, Examples.walker01)).2
      [] Examples.strictDue [] []).1 (by decide!) (by decide!) (by decide!)⟩,
   ⟨by decide!, by decide!, by decide!⟩,
    (hop_threshold_backoff Examples.env Examples.strict
      Examples.strict 0 Examples.walker01 Examples.walker01
      Examples.fiveHops
      (Examples.valueOr (hops Examples.env Examples.strict Examples.fiveHops)
        (Examples.strict, [])).1
      (Examples.valueOr (hops Examples.env Examples.strict Examples.fiveHops)
        (Examples.strict, [])).2
      [(0, false), (1, false)]).2
      (by decide!) (by decide!) (by decide!) (by decide!) (by decide!) (by decide!)⟩

/-- C3, as stated, fails: with the counter at the largest `int` (reached after 2^31 - 1
hops while the sentinel disables coarse-graining) a hop leaves the counter at -2^31: it
is neither incremented by one nor reset to 0. -/
theorem hop_counter_overflows :
    ∃ (s1 : CoarseGrainSystem) (w1 : Walker),
      Examples.saturated.hop Examples.env 0 Examples.walker01 = .ok (s1, w1) ∧
      s1.iteration_ = -2147483648 ∧
      s1.iteration_ ≠ Examples.saturated.iteration_ + 1 ∧
      s1.iteration_ ≠ 0 :=
  ⟨(Examples.valueOr (Examples.saturated.hop Examples.env 0 Examples.walker01)
      (Examples.saturated, Examples.walker01)).1,
   (Examples.valueOr (Examples.saturated.hop Examples.env 0 Examples.walker01)
      (Examples.saturated, Examples.walker01)).2,
   by decide!, by decide!, by decide!, by decide!⟩

/-- C3, amended: a call of `hop`, blocked or not, made while the counter is a 32-bit `int`
below the largest one, sets the counter to its value plus one, or to 0 when that exceeds
the threshold; `coarseGrain_` is called in it, on the walker's potential site before the
call, exactly when the incremented counter exceeds the threshold and `threshold_min` is
not the sentinel. So from a counter of 0 and a threshold `t` with `0 ≤ t < 2^31 - 1`,
`t` hops make no call and leave the counter at `t`, and the next hop resets the counter
and, unless the sentinel is set, makes exactly one call. -/
theorem hop_counter (env : Collaborators) (s s1 : CoarseGrainSystem) (walker_id : Int)
    (walker w1 : Walker) (ws : List (Int × Walker)) (s2 : CoarseGrainSystem) (ws2 : List Walker)
    (s3 : CoarseGrainSystem) (w3 : Walker) :
    (s.hop env walker_id walker = .ok (s1, w1) →
      INT_MIN ≤ s.iteration_ → s.iteration_ < INT_MAX →
      s1.iteration_ = (if s.iteration_ + 1 > s.iteration_threshold_ then 0
        else s.iteration_ + 1) ∧
      ((s.iteration_ + 1 > s.iteration_threshold_ ∧
          s.iteration_threshold_min_ ≠ constants.inf_iterations) →
        ∃ (b : Bool) (sA sB : CoarseGrainSystem),
          s.hopMove env walker_id walker = .ok (sA, w1, walker.potential_site_) ∧
          coarseGrain_ env { sA with iteration_ := s.iteration_ + 1 }
            walker.potential_site_ = .ok (b, sB) ∧
          s1.coarse_grain_calls_ = s.coarse_grain_calls_ ++ [(walker.potential_site_, b)]) ∧
      (¬ (s.iteration_ + 1 > s.iteration_threshold_ ∧
          s.iteration_threshold_min_ ≠ constants.inf_iterations) →
        s1.coarse_grain_calls_ = s.coarse_grain_calls_)) ∧
    (hops env s ws = .ok (s2, ws2) →
      s.iteration_ = 0 → 0 ≤ s.iteration_threshold_ → s.iteration_threshold_ < INT_MAX →
      (ws.length : Int) = s.iteration_threshold_ →
      s2.hop env walker_id walker = .ok (s3, w3) →
      s2.iteration_ = s.iteration_threshold_ ∧
      s2.coarse_grain_calls_ = s.coarse_grain_calls_ ∧
      s3.iteration_ = 0 ∧
      (s.iteration_threshold_min_ ≠ constants.inf_iterations →
        ∃ b, s3.coarse_grain_calls_ = s.coarse_grain_calls_ ++ [(walker.potential_site_, b)]) ∧
      (s.iteration_threshold_min_ = constants.inf_iterations →
        s3.coarse_grain_calls_ = s.coarse_grain_calls_)) := by
  constructor
  · intro h hlo hhi
    have hw : wrapInt (s.iteration_ + 1) = s.iteration_ + 1 := by
      apply wrapInt_of_range
      · unfold INT_MIN at hlo ⊢; omega
      · unfold INT_MAX at hhi ⊢; omega
    obtain ⟨_, a2, a3, a4⟩ := hop_spec h
    rw [hw] at a2 a3 a4
    refine ⟨a2, ?_, ?_⟩
    · intro hpos
      obtain ⟨b, sA, sB, hmove, hcg, hl, _⟩ := a3 hpos
      exact ⟨b, sA, sB, hmove, hcg, hl⟩
    · intro hneg
      exact (a4 hneg).1
  · intro h h0 hthr0 hthr hlen hlast
    obtain ⟨q1, q2, q3, q4⟩ := hops_quiet env ws s s2 ws2 h (by omega) (by omega) (by omega)
    rw [h0, hlen, zero_add] at q1
    have hw : wrapInt (s2.iteration_ + 1) = s.iteration_threshold_ + 1 := by
      rw [q1]
      apply wrapInt_of_range
      · unfold INT_MIN; omega
      · unfold INT_MAX at hthr ⊢; omega
    obtain ⟨_, a2, a3, a4⟩ := hop_spec hlast
    rw [hw, q3, q2, q4] at a3 a4
    rw [hw, q3] at a2
    refine ⟨q1, q2, ?_, ?_, ?_⟩
    · rw [a2]; simp
    · intro hmin
      obtain ⟨b, _, _, _, _, hl, _⟩ := a3 ⟨by omega, hmin⟩
      exact ⟨b, hl⟩
    · intro hmin
      exact (a4 (fun hpos => hpos.2 hmin)).1

/-- C3, amended, on the example system: with the threshold at 1, the second hop from a
fresh counter calls the coarse-grainer on the walker's destination and resets the
counter. -/
theorem hop_counter_witness :
    (Examples.strictDue.hop Examples.env 0 Examples.walker10
        = .ok (Examples.valueOr (Examples.strictDue.hop Examples.env 0 Examples.walker10)
            (Examples.strictDue, Examples.walker10)) ∧
      INT_MIN ≤ Examples.strictDue.iteration_ ∧ Examples.strictDue.iteration_ < INT_MAX) ∧
    (hops Examples.env Examples.strict [(0, Examples.walker01)]
        = .ok (Examples.valueOr (hops Examples.env Examples.strict [(0, Examples.walker01)])
            (Examples.strict, [])) ∧
      Examples.strict.iteration_ = 0 ∧ 0 ≤ Examples.strict.iteration_threshold_ ∧
      Examples.strict.iteration_threshold_ < INT_MAX ∧
      (([(0, Examples.walker01)] : List (Int × Walker)).length : Int)
        = Examples.strict.iteration_threshold_ ∧
      (Examples.valueOr (hops Examples.env Examples.strict [(0, Examples.walker01)])
          (Examples.strict, [])).1.hop Examples.env 0 Examples.walker10
        = .ok (Examples.valueOr
            ((Examples.valueOr (hops Examples.env Examples.strict [(0, Examples.walker01)])
              (Examples.strict, [])).1.hop Examples.env 0 Examples.walker10)
            (Examples.strict, Examples.walker10))) ∧
    (Examples.valueOr (Examples.strictDue.hop Examples.env 0 Examples.walker10)
        (Examples.strictDue, Examples.walker10)).1.iteration_
      = (if Examples.strictDue.iteration_ + 1 > Examples.strictDue.iteration_threshold_ then 0
          else Examples.strictDue.iteration_ + 1) ∧
    (Examples.valueOr
        ((Examples.valueOr (hops Examples.env Examples.strict [(0, Examples.walker01)])
          (Examples.strict, [])).1.hop Examples.env 0 Examples.walker10)
        (Examples.strict, Examples.walker10)).1.iteration_ = 0 :=
  ⟨⟨by decide!, by decide!, by decide!⟩,
   ⟨by decide!, by decide!, by decide!, by decide!, by decide!, by decide!⟩,
   ((hop_counter Examples.env Examples.strictDue
      (Examples.valueOr (Examples.strictDue.hop Examples.env 0 Examples.walker10)
        (Examples.strictDue, Examples.walker10)).1 0 Examples.walker10
      (Examples.valueOr (Examples.strictDue.hop Examples.env 0 Examples.walker10)
        (Examples.strictDue, Examples.walker10)).2
      [] Examples.strictDue [] Examples.strictDue Examples.walker10).1
      (by decide!) (by decide!) (by decide!)).1,
   ((hop_counter Examples.env Examples.strict Examples.strict 0 Examples.walker10
      Examples.walker10 [(0, Examples.walker01)]
      (Examples.valueOr (hops Examples.env Examples.strict [(0, Examples.walker01)])
        (Examples.strict, [])).1
      (Examples.valueOr (hops Examples.env Examples.strict [(0, Examples.walker01)])
        (Examples.strict, [])).2
      (Examples.valueOr
        ((Examples.valueOr (hops Examples.env Examples.strict [(0, Examples.walker01)])
          (Examples.strict, [])).1.hop Examples.env 0 Examples.walker10)
        (Examples.strict, Examples.walker10)).1
      (Examples.valueOr
        ((Examples.valueOr (hops Examples.env Examples.strict [(0, Examples.walker01)])
          (Examples.strict, [])).1.hop Examples.env 0 Examples.walker10)
        (Examples.strict, Examples.walker10)).2).2
      (by decide!) (by decide!) (by decide!) (by decide!) (by decide!) (by decide!)).2.2.1⟩

/-- C4: when `threshold_min` is the sentinel `constants::inf_iterations`, no run of `hop`
calls makes a call of `coarseGrain_`, and after the run the clusters with their members,
the cluster id of every site, the dispatch table and the threshold are what they were
before it. -/
theorem hops_sentinel_never_coarse_grains (env : Collaborators) (s s2 : CoarseGrainSystem)
    (ws : List (Int × Walker)) (ws2 : List Walker)
    (hinf : s.iteration_threshold_min_ = constants.inf_iterations)
    (h : hops env s ws = .ok (s2, ws2)) :
    s2.coarse_grain_calls_ = s.coarse_grain_calls_ ∧
    membersOfClusters s2 = membersOfClusters s ∧
    clusterIdsOfSites s2 = clusterIdsOfSites s ∧
    s2.topology_features_ = s.topology_features_ ∧
    s2.iteration_threshold_ = s.iteration_threshold_ := by
  obtain ⟨c1, c2, _, c4, c5, c6, _⟩ := hops_sentinel env ws s s2 ws2 h hinf
  exact ⟨c1, c6, c5, c4, c2⟩

/-- C4 on the example system with the sentinel set: five hops leave no trace in the
history, the clusters, the cluster ids, the dispatch table or the threshold. -/
theorem hops_sentinel_never_coarse_grains_witness :
    (Examples.crude.iteration_threshold_min_ = constants.inf_iterations ∧
      hops Examples.env Examples.crude Examples.fiveHops
        = .ok (Examples.valueOr (hops Examples.env Examples.crude Examples.fiveHops)
            (Examples.crude, []))) ∧
    (Examples.valueOr (hops Examples.env Examples.crude Examples.fiveHops)
        (Examples.crude, [])).1.coarse_grain_calls_ = Examples.crude.coarse_grain_calls_ ∧
    membersOfClusters (Examples.valueOr (hops Examples.env Examples.crude Examples.fiveHops)
        (Examples.crude, [])).1 = membersOfClusters Examples.crude ∧
    clusterIdsOfSites (Examples.valueOr (hops Examples.env Examples.crude Examples.fiveHops)
        (Examples.crude, [])).1 = clusterIdsOfSites Examples.crude ∧
    (Examples.valueOr (hops Examples.env Examples.crude Examples.fiveHops)
        (Examples.crude, [])).1.topology_features_ = Examples.crude.topology_features_ ∧
    (Examples.valueOr (hops Examples.env Examples.crude Examples.fiveHops)
        (Examples.crude, [])).1.iteration_threshold_ = Examples.crude.iteration_threshold_ :=
  ⟨⟨by decide!, by decide!⟩,
    hops_sentinel_never_coarse_grains Examples.env Examples.crude
      (Examples.valueOr (hops Examples.env Examples.crude Examples.fiveHops)
        (Examples.crude, [])).1 Examples.fiveHops
      (Examples.valueOr (hops Examples.env Examples.crude Examples.fiveHops)
        (Examples.crude, [])).2 (by decide!) (by decide!)⟩

/-- C5: for a walker whose current site `c` and potential site `d` are registered (and
are not the unassigned sentinel), the move of `hop` returns; the occupation of `d` at the
call decides the walker's site afterwards, `d` when it was free and `c` when it was
occupied; the walker's dwell time and potential site are then drawn, in this order, from
the feature the dispatch table holds for the site the walker occupies afterwards; and
`hop` returns this walker whenever it returns. -/
theorem hop_walker (env : Collaborators) (s : CoarseGrainSystem) (walker_id : Int)
    (walker : Walker)
    (hc : walker.current_site_ ≠ constants.unassignedId)
    (hd : walker.potential_site_ ≠ constants.unassignedId)
    (hreg : registered s walker.current_site_)
    (hreg2 : registered s walker.potential_site_) :
    ∃ (feature_to_hop_to feature_after : Feature) (occupied : Bool)
      (s1 sA sB : CoarseGrainSystem) (w1 : Walker),
      Table.find s.topology_features_ walker.potential_site_ = some feature_to_hop_to ∧
      s.isOccupied feature_to_hop_to walker.potential_site_ = .ok occupied ∧
      s.hopMove env walker_id walker = .ok (s1, w1, walker.potential_site_) ∧
      s.hop env walker_id walker
        = (s1.hopCount env walker.potential_site_ >>= fun s2 => pure (s2, w1)) ∧
      w1.current_site_ = (if occupied then walker.current_site_ else walker.potential_site_) ∧
      Table.find s.topology_features_ w1.current_site_ = some feature_after ∧
      sA.getDwellTime env feature_after walker_id = .ok (w1.dwell_time_, sB) ∧
      sB.pickNewSiteId env feature_after walker_id = .ok (w1.potential_site_, s1) := by
  unfold registered at hreg hreg2
  cases hF : Table.find s.topology_features_ walker.current_site_ with
  | none => simp [hF] at hreg
  | some feature =>
    cases hF2 : Table.find s.topology_features_ walker.potential_site_ with
    | none => simp [hF2] at hreg2
    | some feature_to_hop_to =>
      simp only [hF] at hreg
      simp only [hF2] at hreg2
      obtain ⟨occupied, s2, s3, s4, s1, dwell, next, hocc, _, _, hdw, hpick, hmove⟩ :=
        hopMove_ok env s walker_id walker feature feature_to_hop_to hc hd hF hF2 hreg hreg2
      refine ⟨feature_to_hop_to, if occupied then feature else feature_to_hop_to, occupied,
        s1, s3, s4, _, rfl, hocc, hmove, ?_, rfl, ?_, hdw, hpick⟩
      · unfold hop
        rw [hmove]
        rfl
      · cases occupied with
        | true => simpa using hF
        | false => simpa using hF2

/-- C5 on the example system: walker 0 hops from site 0 to the free site 1. -/
theorem hop_walker_witness :
    (Examples.walker01.current_site_ ≠ constants.unassignedId ∧
      Examples.walker01.potential_site_ ≠ constants.unassignedId ∧
      registered Examples.pairs Examples.walker01.current_site_ ∧
      registered Examples.pairs Examples.walker01.potential_site_) ∧
    ∃ (feature_to_hop_to feature_after : Feature) (occupied : Bool)
      (s1 sA sB : CoarseGrainSystem) (w1 : Walker),
      Table.find Examples.pairs.topology_features_ Examples.walker01.potential_site_
        = some feature_to_hop_to ∧
      Examples.pairs.isOccupied feature_to_hop_to Examples.walker01.potential_site_
        = .ok occupied ∧
      Examples.pairs.hopMove Examples.env 0 Examples.walker01
        = .ok (s1, w1, Examples.walker01.potential_site_) ∧
      Examples.pairs.hop Examples.env 0 Examples.walker01
        = (s1.hopCount Examples.env Examples.walker01.potential_site_
            >>= fun s2 => pure (s2, w1)) ∧
      w1.current_site_ = (if occupied then Examples.walker01.current_site_
        else Examples.walker01.potential_site_) ∧
      Table.find Examples.pairs.topology_features_ w1.current_site_ = some feature_after ∧
      sA.getDwellTime Examples.env feature_after 0 = .ok (w1.dwell_time_, sB) ∧
      sB.pickNewSiteId Examples.env feature_after 0 = .ok (w1.potential_site_, s1) :=
  ⟨⟨by decide, by decide, by decide, by decide⟩,
    hop_walker Examples.env Examples.pairs 0 Examples.walker01 (by decide) (by decide)
      (by decide) (by decide)⟩

/-- C6 on the example system: coarse-graining on site 0 creates the cluster of the sites
0 and 1. -/
theorem coarseGrain_creates_cluster_witness :
    (SitesKeyed Examples.pairs ∧
      Table.find Examples.pairs.clusters_ Examples.pairs.cluster_id_count_ = none ∧
      (0 : Int) ∈ Examples.env.findBasin Examples.pairs.sites_ Examples.pairs.clusters_ 0 ∧
      (∀ id ∈ Examples.env.findBasin Examples.pairs.sites_ Examples.pairs.clusters_ 0,
        ∃ site, Table.find Examples.pairs.sites_ id = some site ∧
          site.cluster_id = constants.unassignedId) ∧
      Examples.pairs.sitesSatisfyEquilibriumCondition_
        (Examples.env.findBasin Examples.pairs.sites_ Examples.pairs.clusters_ 0)
        (Examples.pairs.getInternalTimeLimit_ Examples.env
          (Examples.env.findBasin Examples.pairs.sites_ Examples.pairs.clusters_ 0))
        = .ok true) ∧
    ∃ (s1 : CoarseGrainSystem) (cluster : Cluster),
      Examples.pairs.coarseGrain_ Examples.env 0 = .ok (true, s1) ∧
      s1.clusters_ = Examples.pairs.clusters_ ++ [(Examples.pairs.cluster_id_count_, cluster)] ∧
      cluster.id = Examples.pairs.cluster_id_count_ ∧
      cluster.members
        = Examples.env.findBasin Examples.pairs.sites_ Examples.pairs.clusters_ 0 ∧
      (∀ id ∈ Examples.env.findBasin Examples.pairs.sites_ Examples.pairs.clusters_ 0,
        clusterIdOf s1 id = Examples.pairs.cluster_id_count_ ∧
        Table.find s1.topology_features_ id
          = some (Feature.cluster Examples.pairs.cluster_id_count_)) ∧
      (∀ id, id ∉ Examples.env.findBasin Examples.pairs.sites_ Examples.pairs.clusters_ 0 →
        Table.find s1.sites_ id = Table.find Examples.pairs.sites_ id ∧
        Table.find s1.topology_features_ id
          = Table.find Examples.pairs.topology_features_ id) :=
  have hfree : ∀ id ∈ Examples.env.findBasin Examples.pairs.sites_ Examples.pairs.clusters_ 0,
      ∃ site, Table.find Examples.pairs.sites_ id = some site ∧
        site.cluster_id = constants.unassignedId := by
    intro id hid
    have hid2 : id = 0 ∨ id = 1 := by
      simpa [Examples.env] using hid
    rcases hid2 with rfl | rfl
    · exact ⟨_, rfl, rfl⟩
    · exact ⟨_, rfl, rfl⟩
  have hkeyed : SitesKeyed Examples.pairs := by
    intro p hp
    simp only [Examples.pairs, CoarseGrainSystem.new, List.mem_cons, List.mem_singleton,
      List.not_mem_nil, or_false] at hp
    rcases hp with rfl | rfl | rfl | rfl | rfl <;> rfl
  ⟨⟨hkeyed, by decide, by decide, hfree, by decide!⟩,
    coarseGrain_creates_cluster Examples.env Examples.pairs 0 hkeyed (by decide) (by decide)
      hfree (by decide!)⟩

/-! ### Consistency of sites, clusters and dispatch table -/

theorem consistent_of_initial {s : CoarseGrainSystem} (h : Initial s) : Consistent s := by
  obtain ⟨hcl, hkeyed, hfree, hdisp, hcount⟩ := h
  refine ⟨hkeyed, ⟨hcount, ?_⟩, ?_, ?_, ?_⟩
  · intro c C hC
    simp [hcl, Table.find] at hC
  · intro x site hx
    exact Or.inl (hfree (x, site) (Table.find_some_mem _ _ _ hx))
  · intro c C x hC
    simp [hcl, Table.find] at hC
  · intro x c hx
    have := hdisp (x, Feature.cluster c) (Table.find_some_mem _ _ _ hx)
    simp at this

theorem createCluster_registered {env : Collaborators} {s : CoarseGrainSystem}
    {siteIds : List Int} {internal_time_limit : ℚ} {r : Int × CoarseGrainSystem}
    (hkeyed : SitesKeyed s) (h : s.createCluster_ env siteIds internal_time_limit = .ok r) :
    ∀ id ∈ siteIds, (Table.find s.sites_ id).isSome := by
  unfold createCluster_ at h
  obtain ⟨sites, hsites, _⟩ := Result.bind_eq_ok.mp h
  exact (getSites_ids { s with cluster_id_count_ := s.cluster_id_count_ + 1 } hkeyed
    siteIds sites hsites).2

/-- A cluster id that is stored is not the sentinel, and the counter is not stored. -/
theorem consistent_ids {s : CoarseGrainSystem} (h : Consistent s) :
    Table.find s.clusters_ s.cluster_id_count_ = none ∧
    s.cluster_id_count_ ≠ constants.unassignedId ∧
    ∀ c C, Table.find s.clusters_ c = some C → c ≠ constants.unassignedId := by
  obtain ⟨_, ⟨hcount, hrange⟩, _⟩ := h
  refine ⟨?_, ?_, ?_⟩
  · cases hC : Table.find s.clusters_ s.cluster_id_count_ with
    | none => rfl
    | some C => exact absurd (hrange _ C hC).2 (lt_irrefl _)
  · intro e
    rw [e] at hcount
    simp [constants.unassignedId] at hcount
  · intro c C hC e
    have := (hrange c C hC).1
    rw [e] at this
    simp [constants.unassignedId] at this

/-- The step `createCluster_` on free, stored sites keeps the state consistent. -/
theorem consistent_afterCreateCluster (env : Collaborators) {s : CoarseGrainSystem}
    (siteIds : List Int) (internal_time_limit : ℚ) (h : Consistent s)
    (hreg : ∀ id ∈ siteIds, (Table.find s.sites_ id).isSome)
    (hfree : ∀ id ∈ siteIds, clusterIdOf s id = constants.unassignedId) :
    Consistent (afterCreateCluster env s siteIds internal_time_limit) := by
  obtain ⟨hfresh, hcne, hstored⟩ := consistent_ids h
  obtain ⟨hkeyed, ⟨hcount, hrange⟩, hA, hB, hD⟩ := h
  have hsites : ∀ x, Table.find (afterCreateCluster env s siteIds internal_time_limit).sites_ x
      = if x ∈ siteIds then
          (Table.find s.sites_ x).map (fun site => { site with cluster_id := s.cluster_id_count_ })
        else Table.find s.sites_ x := fun x => find_setClusterIds _ _ _ x
  have hcl : ∀ c, Table.find (afterCreateCluster env s siteIds internal_time_limit).clusters_ c
      = if c = s.cluster_id_count_ then some (createdCluster env s siteIds internal_time_limit)
        else Table.find s.clusters_ c := by
    intro c
    simp only [afterCreateCluster, Table.find_assign]
  have htf : ∀ x, Table.find
      (afterCreateCluster env s siteIds internal_time_limit).topology_features_ x
      = if x ∈ siteIds then some (Feature.cluster s.cluster_id_count_)
        else Table.find s.topology_features_ x := fun x => find_dispatchAll _ _ _ x
  refine ⟨?_, ⟨?_, ?_⟩, ?_, ?_, ?_⟩
  · exact sitesKeyed_setClusterIds _ _ _ hkeyed
  · show 0 ≤ s.cluster_id_count_ + 1
    omega
  · intro c C hC
    show 0 ≤ c ∧ c < s.cluster_id_count_ + 1
    rw [hcl] at hC
    by_cases hc : c = s.cluster_id_count_
    · subst hc; omega
    · simp only [hc, if_false] at hC
      have := hrange c C hC
      omega
  · intro x site hx
    rw [hsites] at hx
    by_cases hmem : x ∈ siteIds
    · simp only [hmem, if_true, Option.map_eq_some'] at hx
      obtain ⟨site0, _, rfl⟩ := hx
      refine Or.inr ⟨createdCluster env s siteIds internal_time_limit, ?_, ?_⟩
      · rw [hcl]; simp
      · exact hmem
    · simp only [hmem, if_false] at hx
      rcases hA x site hx with hun | ⟨C, hC, hxC⟩
      · exact Or.inl hun
      · refine Or.inr ⟨C, ?_, hxC⟩
        rw [hcl]
        have hne : site.cluster_id ≠ s.cluster_id_count_ := by
          intro e
          rw [e, hfresh] at hC
          simp at hC
        simp only [hne, if_false]
        exact hC
  · intro c C x hC hxC
    rw [hcl] at hC
    by_cases hc : c = s.cluster_id_count_
    · simp only [hc, if_true, Option.some.injEq] at hC
      subst hC
      have hmem : x ∈ siteIds := hxC
      cases hsite : Table.find s.sites_ x with
      | none => have := hreg x hmem; simp [hsite] at this
      | some site0 =>
        refine ⟨{ site0 with cluster_id := s.cluster_id_count_ }, ?_, hc.symm⟩
        rw [hsites]; simp [hmem, hsite]
    · simp only [hc, if_false] at hC
      obtain ⟨site, hsite, hcid⟩ := hB c C x hC hxC
      have hnot : x ∉ siteIds := by
        intro hmem
        have h1 := hfree x hmem
        rw [clusterIdOf_of_find hsite, hcid] at h1
        exact hstored c C hC h1
      refine ⟨site, ?_, hcid⟩
      rw [hsites]; simp [hnot, hsite]
  · intro x c hx
    rw [htf] at hx
    by_cases hmem : x ∈ siteIds
    · simp only [hmem, if_true, Option.some.injEq, Feature.cluster.injEq] at hx
      subst hx
      cases hsite : Table.find s.sites_ x with
      | none => have := hreg x hmem; simp [hsite] at this
      | some site0 =>
        refine ⟨⟨{ site0 with cluster_id := s.cluster_id_count_ }, ?_, rfl⟩, ?_⟩
        · rw [hsites]; simp [hmem, hsite]
        · rw [hcl]; simp
    · simp only [hmem, if_false] at hx
      obtain ⟨⟨site, hsite, hcid⟩, hst⟩ := hD x c hx
      refine ⟨⟨site, ?_, hcid⟩, ?_⟩
      · rw [hsites]; simp [hmem, hsite]
      · rw [hcl]
        have hne : c ≠ s.cluster_id_count_ := by
          intro e
          rw [e, hfresh] at hst
          simp at hst
        simp only [hne, if_false]
        exact hst

/-- The step `mergeSitesAndClusters_` on a candidate list that holds whole clusters keeps
the state consistent. -/
theorem consistent_afterMerge (env : Collaborators) {s : CoarseGrainSystem} {ids : List Int}
    {m : List (Int × Int)} (hm : s.getClustersOfSites ids = .ok m) (fav : Int) (F : Cluster)
    (hF : Table.find s.clusters_ fav = some F) (h : Consistent s)
    (hclosed : clusterClosed s ids) : Consistent (afterMerge env s m fav) := by
  obtain ⟨_, _, hstored⟩ := consistent_ids h
  obtain ⟨hkeyed, ⟨hcount, hrange⟩, hA, hB, hD⟩ := h
  have hfavne : fav ≠ constants.unassignedId := hstored fav F hF
  have hregs := (getClustersOfSites_spec hm).1
  have hmoved := mem_movedSites hm fav
  have hother := mem_otherClusterIds hm fav
  have hex : ∀ c ∈ otherClusterIds fav [] m, (Table.find s.clusters_ c).isSome := by
    intro c hc
    obtain ⟨_, hcun, y, hy, hyc⟩ := (hother c).mp hc
    cases hsite : Table.find s.sites_ y with
    | none => simp [clusterIdOf, hsite] at hyc; exact absurd hyc.symm hcun
    | some site =>
      rw [clusterIdOf_of_find hsite] at hyc
      rcases hA y site hsite with hun | ⟨C, hC, _⟩
      · exact absurd (hyc ▸ hun) hcun
      · rw [← hyc, hC]; rfl
  obtain ⟨e1, e2, ⟨F1, hF1, hF1m, _, _⟩, hgone, hkept, _, _, ecount⟩ :=
    afterMerge_spec env s m fav F hF hex
  have hsites : ∀ x, Table.find (afterMerge env s m fav).sites_ x
      = if x ∈ movedSites m fav then
          (Table.find s.sites_ x).map (fun site => { site with cluster_id := fav })
        else Table.find s.sites_ x := fun x => by rw [e1]; exact find_setClusterIds _ _ _ x
  have htf : ∀ x, Table.find (afterMerge env s m fav).topology_features_ x
      = if x ∈ movedSites m fav then some (Feature.cluster fav)
        else Table.find s.topology_features_ x := fun x => by
    rw [e2]; exact find_dispatchAll _ _ _ x
  -- a member of a cluster that is erased has been moved
  have hK1 : ∀ c ∈ otherClusterIds fav [] m, ∀ C, Table.find s.clusters_ c = some C →
      ∀ x ∈ C.members, x ∈ movedSites m fav := by
    intro c hc C hC x hx
    obtain ⟨hcf, _, y, hy, hyc⟩ := (hother c).mp hc
    have hxi : x ∈ ids := hclosed y hy C (by rw [hyc]; exact hC) x hx
    obtain ⟨site, hsite, hcid⟩ := hB c C x hC hx
    refine (hmoved x).mpr ⟨hxi, ?_⟩
    rw [clusterIdOf_of_find hsite, hcid]
    exact hcf
  -- the cluster of a site that stays is not erased
  have hK2 : ∀ x site, x ∉ movedSites m fav → Table.find s.sites_ x = some site →
      site.cluster_id ≠ constants.unassignedId → site.cluster_id ∉ otherClusterIds fav [] m := by
    intro x site hx hsite hne hc
    rcases hA x site hsite with hun | ⟨C, hC, hxC⟩
    · exact hne hun
    · exact hx (hK1 _ hc C hC x hxC)
  refine ⟨?_, ⟨?_, ?_⟩, ?_, ?_, ?_⟩
  · show ∀ p ∈ (afterMerge env s m fav).sites_, p.2.id = p.1
    rw [e1]
    exact sitesKeyed_setClusterIds _ _ _ hkeyed
  · rw [ecount]; exact hcount
  · intro c C hC
    rw [ecount]
    by_cases hc : c = fav
    · rw [hc]; exact hrange fav F hF
    · by_cases hco : c ∈ otherClusterIds fav [] m
      · rw [hgone c hco] at hC; simp at hC
      · rw [hkept c hco hc] at hC; exact hrange c C hC
  · intro x site hx
    rw [hsites] at hx
    by_cases hmv : x ∈ movedSites m fav
    · simp only [hmv, if_true, Option.map_eq_some'] at hx
      obtain ⟨site0, hsite0, rfl⟩ := hx
      refine Or.inr ⟨F1, hF1, ?_⟩
      rw [hF1m]
      obtain ⟨hxi, hxf⟩ := (hmoved x).mp hmv
      by_cases hun : clusterIdOf s x = constants.unassignedId
      · exact List.mem_append_left _
          (List.mem_append_right _ ((mem_isolatedSites hm fav hfavne x).mpr ⟨hxi, hun⟩))
      · refine List.mem_append_right _ ((mem_membersOfAll _ _ _).mpr
          ⟨clusterIdOf s x, (hother _).mpr ⟨hxf, hun, x, hxi, rfl⟩, ?_⟩)
        rw [clusterIdOf_of_find hsite0] at hun ⊢
        rcases hA x site0 hsite0 with hun2 | hC
        · exact absurd hun2 hun
        · exact hC
    · simp only [hmv, if_false] at hx
      rcases hA x site hx with hun | ⟨C, hC, hxC⟩
      · exact Or.inl hun
      · by_cases hc : site.cluster_id = fav
        · refine Or.inr ⟨F1, hc ▸ hF1, ?_⟩
          rw [hc, hF] at hC
          simp only [Option.some.injEq] at hC
          rw [hF1m, hC]
          exact List.mem_append_left _ (List.mem_append_left _ hxC)
        · refine Or.inr ⟨C, ?_, hxC⟩
          rw [hkept _ (hK2 x site hmv hx (hstored _ C hC)) hc]
          exact hC
  · intro c C x hC hxC
    by_cases hc : c = fav
    · subst hc
      rw [hF1] at hC
      simp only [Option.some.injEq] at hC
      subst hC
      rw [hF1m] at hxC
      have hset : ∀ site0, Table.find s.sites_ x = some site0 → x ∈ movedSites m c →
          ∃ site, Table.find (afterMerge env s m c).sites_ x = some site ∧
            site.cluster_id = c := by
        intro site0 hsite0 hmv
        refine ⟨{ site0 with cluster_id := c }, ?_, rfl⟩
        rw [hsites]; simp [hmv, hsite0]
      rcases List.mem_append.mp hxC with hxC | hxC
      · rcases List.mem_append.mp hxC with hxC | hxC
        · obtain ⟨site, hsite, hcid⟩ := hB c F x hF hxC
          have hmv : x ∉ movedSites m c := by
            intro hmv
            have := ((hmoved x).mp hmv).2
            rw [clusterIdOf_of_find hsite] at this
            exact this hcid
          refine ⟨site, ?_, hcid⟩
          rw [hsites]; simp [hmv, hsite]
        · obtain ⟨hxi, hun⟩ := (mem_isolatedSites hm c hfavne x).mp hxC
          have hmv : x ∈ movedSites m c :=
            (hmoved x).mpr ⟨hxi, by rw [hun]; exact fun e => hfavne e.symm⟩
          cases hsite0 : Table.find s.sites_ x with
          | none => have := hregs x hxi; simp [hsite0] at this
          | some site0 => exact hset site0 hsite0 hmv
      · obtain ⟨c2, hc2, C2, hC2, hx2⟩ := (mem_membersOfAll _ _ _).mp hxC
        obtain ⟨site0, hsite0, _⟩ := hB c2 C2 x hC2 hx2
        exact hset site0 hsite0 (hK1 c2 hc2 C2 hC2 x hx2)
    · have hco : c ∉ otherClusterIds fav [] m := by
        intro hco
        rw [hgone c hco] at hC; simp at hC
      rw [hkept c hco hc] at hC
      obtain ⟨site, hsite, hcid⟩ := hB c C x hC hxC
      have hmv : x ∉ movedSites m fav := by
        intro hmv
        obtain ⟨hxi, _⟩ := (hmoved x).mp hmv
        exact hco ((hother c).mpr ⟨hc, hstored c C hC, x, hxi,
          by rw [clusterIdOf_of_find hsite, hcid]⟩)
      refine ⟨site, ?_, hcid⟩
      rw [hsites]; simp [hmv, hsite]
  · intro x c hx
    rw [htf] at hx
    by_cases hmv : x ∈ movedSites m fav
    · simp only [hmv, if_true, Option.some.injEq, Feature.cluster.injEq] at hx
      subst hx
      obtain ⟨hxi, _⟩ := (hmoved x).mp hmv
      cases hsite0 : Table.find s.sites_ x with
      | none => have := hregs x hxi; simp [hsite0] at this
      | some site0 =>
        refine ⟨⟨{ site0 with cluster_id := fav }, ?_, rfl⟩, ?_⟩
        · rw [hsites]; simp [hmv, hsite0]
        · rw [hF1]; rfl
    · simp only [hmv, if_false] at hx
      obtain ⟨⟨site, hsite, hcid⟩, hst⟩ := hD x c hx
      refine ⟨⟨site, ?_, hcid⟩, ?_⟩
      · rw [hsites]; simp [hmv, hsite]
      · by_cases hc : c = fav
        · rw [hc, hF1]; rfl
        · cases hC : Table.find s.clusters_ c with
          | none => simp [hC] at hst
          | some C =>
            have hco : c ∉ otherClusterIds fav [] m := by
              have := hK2 x site hmv hsite (by rw [hcid]; exact hstored c C hC)
              rw [hcid] at this
              exact this
            rw [hkept c hco hc, hC]; rfl

theorem mergeSitesAndClusters_favored_stored {env : Collaborators} {s s1 : CoarseGrainSystem}
    {m : List (Int × Int)} {fav : Int} (h : s.mergeSitesAndClusters_ env m fav = .ok s1) :
    (Table.find s.clusters_ fav).isSome := by
  unfold mergeSitesAndClusters_ at h
  obtain ⟨⟨s2, iso, cids⟩, hloop, h2⟩ := Result.bind_eq_ok.mp h
  obtain ⟨hs2, _, _⟩ := mergeLoop_eq_ok fav m s s2 [] iso [] cids hloop
  obtain ⟨F, hF, _⟩ := Result.bind_eq_ok.mp h2
  have := getCluster_eq_ok hF
  rw [hs2] at this
  simp only at this
  rw [this]; rfl

/-- A step taken under its guard keeps the state consistent. -/
theorem consistent_applyStep (env : Collaborators) {s s1 : CoarseGrainSystem}
    {step : CoarseGrainingStep} (h : Consistent s) (hguard : stepGuard s step)
    (hstep : applyStep env s step = .ok s1) : Consistent s1 := by
  cases step with
  | create siteIds internal_time_limit =>
    simp only [applyStep] at hstep
    obtain ⟨r, hr, hs1⟩ := Result.bind_eq_ok.mp hstep
    have hreg := createCluster_registered h.1 hr
    rw [createCluster_eq env s siteIds internal_time_limit h.1 hreg] at hr
    simp only [Except.ok.injEq] at hr
    subst hr
    simp only [Result.pure_eq, Except.ok.injEq] at hs1
    subst hs1
    exact consistent_afterCreateCluster env siteIds internal_time_limit h hreg hguard.2
  | merge siteIds =>
    simp only [applyStep] at hstep
    obtain ⟨m, hm, hmerge⟩ := Result.bind_eq_ok.mp hstep
    have hfav := mergeSitesAndClusters_favored_stored hmerge
    obtain ⟨hregs, _, _, hmem⟩ := getClustersOfSites_spec hm
    have hreg : ∀ p ∈ m, (Table.find s.sites_ p.1).isSome :=
      fun p hp => hregs p.1 ((hmem p).mp hp).1
    have hothers : ∀ p ∈ m, p.2 ≠ getFavoredClusterId m → p.2 ≠ constants.unassignedId →
        (Table.find s.clusters_ p.2).isSome := by
      intro p hp _ hun
      have hcid := ((hmem p).mp hp).2
      cases hsite : Table.find s.sites_ p.1 with
      | none => have := hreg p hp; simp [hsite] at this
      | some site =>
        rw [clusterIdOf_of_find hsite] at hcid
        rcases h.2.2.1 p.1 site hsite with h1 | ⟨C, hC, _⟩
        · exact absurd (hcid ▸ h1) hun
        · rw [hcid, hC]; rfl
    rw [mergeSitesAndClusters_eq env s m _ h.1 hreg hfav hothers] at hmerge
    simp only [Except.ok.injEq] at hmerge
    subst hmerge
    cases hF : Table.find s.clusters_ (getFavoredClusterId m) with
    | none => simp [hF] at hfav
    | some F => exact consistent_afterMerge env hm _ F hF h hguard.2

/-- A sequence of steps, each taken under its guard, keeps the state consistent. -/
theorem consistent_applySteps (env : Collaborators) :
    ∀ (steps : List CoarseGrainingStep) (s s1 : CoarseGrainSystem), Consistent s →
      admissible env s steps = true → applySteps env s steps = .ok s1 → Consistent s1 := by
  intro steps
  induction steps with
  | nil =>
    intro s s1 h _ hrun
    simp only [applySteps, Except.ok.injEq] at hrun
    exact hrun ▸ h
  | cons step rest ih =>
    intro s s1 h hadm hrun
    simp only [applySteps] at hrun
    obtain ⟨s2, hs2, hrest⟩ := Result.bind_eq_ok.mp hrun
    simp only [admissible, hs2, Bool.and_eq_true, decide_eq_true_eq] at hadm
    exact ih s2 s1 (consistent_applyStep env h hadm.1 hs2) hadm.2 hrest

/-! ### The invariants of coarse-graining -/

/-- C10, as stated, fails. From the initialised system `pairs`, with every candidate list
duplicate-free: after the pairs `0,1` and `2,3` have become the clusters 0 and 1, the
merge on the list `1,2` erases cluster 1 while site 3 keeps the cluster id 1 and a
dispatch entry to cluster 1; and after the pair `0,1` has become cluster 0, creating a
cluster on the list `1,2` leaves site 1 a member of the clusters 0 and 1. -/
theorem coarse_graining_arbitrary_list_breaks_invariants :
    Initial Examples.pairs ∧
    (∃ s, applySteps Examples.env Examples.pairs Examples.partialMerge = .ok s ∧
      (Table.find s.sites_ 3).map Site.cluster_id = some 1 ∧
      Table.find s.topology_features_ 3 = some (Feature.cluster 1) ∧
      Table.find s.clusters_ 1 = none ∧
      ¬ ClusterInvariants s) ∧
    (∃ s, applySteps Examples.env Examples.pairs Examples.overlapping = .ok s ∧
      (Table.find s.clusters_ 0).map Cluster.members = some [0, 1] ∧
      (Table.find s.clusters_ 1).map Cluster.members = some [1, 2] ∧
      ¬ ClusterInvariants s) := by
  refine ⟨by decide!,
    ⟨Examples.valueOr (applySteps Examples.env Examples.pairs Examples.partialMerge)
      Examples.pairs, by decide!, by decide!, by decide!, by decide!, ?_⟩,
    ⟨Examples.valueOr (applySteps Examples.env Examples.pairs Examples.overlapping)
      Examples.pairs, by decide!, by decide!, by decide!, ?_⟩⟩
  · intro h
    have h3 := h.2.2.2 3 1 (by decide!)
    revert h3
    decide!
  · have e0 : (Table.find (Examples.valueOr
        (applySteps Examples.env Examples.pairs Examples.overlapping) Examples.pairs).clusters_
        0).map Cluster.members = some [0, 1] := by decide!
    have e1 : (Table.find (Examples.valueOr
        (applySteps Examples.env Examples.pairs Examples.overlapping) Examples.pairs).clusters_
        1).map Cluster.members = some [1, 2] := by decide!
    intro h
    cases hC0 : Table.find (Examples.valueOr
        (applySteps Examples.env Examples.pairs Examples.overlapping) Examples.pairs).clusters_
        0 with
    | none => rw [hC0] at e0; simp at e0
    | some C0 =>
      cases hC1 : Table.find (Examples.valueOr
          (applySteps Examples.env Examples.pairs Examples.overlapping) Examples.pairs).clusters_
          1 with
      | none => rw [hC1] at e1; simp at e1
      | some C1 =>
        rw [hC0] at e0
        rw [hC1] at e1
        simp only [Option.map_some', Option.some.injEq] at e0 e1
        have := h.2.1 1 0 1 C0 C1 hC0 hC1 (by rw [e0]; decide) (by rw [e1]; decide)
        exact absurd this (by decide)

/-- C10 (amended): in every state reached from an initialised system by coarse-graining
steps taken as `coarseGrain_` takes them (`createCluster_` on a duplicate-free list of free
sites, `mergeSitesAndClusters_` on a duplicate-free list that holds, with every clustered
candidate, all members of its cluster), each site's cluster id is unassigned or names a
stored cluster that has the site among its members, each site is a member of at most one
cluster, and no site cluster id or dispatch entry names a cluster that is not stored. -/
theorem coarse_graining_keeps_invariants (env : Collaborators) (s0 s : CoarseGrainSystem)
    (steps : List CoarseGrainingStep) (hinit : Initial s0)
    (hadm : admissible env s0 steps = true) (hrun : applySteps env s0 steps = .ok s) :
    ClusterInvariants s := by
  obtain ⟨_, _, hA, hB, hD⟩ :=
    consistent_applySteps env steps s0 s (consistent_of_initial hinit) hadm hrun
  refine ⟨hA, ?_, ?_, ?_⟩
  · intro x c1 c2 C1 C2 h1 h2 hx1 hx2
    obtain ⟨site1, hs1, e1⟩ := hB c1 C1 x h1 hx1
    obtain ⟨site2, hs2, e2⟩ := hB c2 C2 x h2 hx2
    rw [hs1] at hs2
    simp only [Option.some.injEq] at hs2
    rw [← e1, ← e2, hs2]
  · intro x site hx hne
    rcases hA x site hx with hun | ⟨C, hC, _⟩
    · exact absurd hun hne
    · rw [hC]; rfl
  · intro x c hx
    exact (hD x c hx).2

theorem coarse_graining_keeps_invariants_witness :
    Initial Examples.pairs ∧
    admissible Examples.env Examples.pairs Examples.wholeClusters = true ∧
    applySteps Examples.env Examples.pairs Examples.wholeClusters
      = .ok (Examples.valueOr
          (applySteps Examples.env Examples.pairs Examples.wholeClusters) Examples.pairs) ∧
    (Table.find (Examples.valueOr
      (applySteps Examples.env Examples.pairs Examples.wholeClusters) Examples.pairs).clusters_
      0).map Cluster.members = some [0, 1, 2, 3] ∧
    ClusterInvariants (Examples.valueOr
      (applySteps Examples.env Examples.pairs Examples.wholeClusters) Examples.pairs) :=
  ⟨by decide!, by decide!, by decide!, by decide!,
    coarse_graining_keeps_invariants Examples.env Examples.pairs _ Examples.wholeClusters
      (by decide!) (by decide!) (by decide!)⟩

/-! ### The favoured cluster and the skipped attempt at concrete inputs -/

theorem exists_site_of_cluster_id {s : CoarseGrainSystem} {id c : Int}
    (h : (Table.find s.sites_ id).map Site.cluster_id = some c) :
    ∃ site, Table.find s.sites_ id = some site ∧ site.cluster_id = c := by
  cases hsite : Table.find s.sites_ id with
  | none => rw [hsite] at h; simp at h
  | some site =>
    rw [hsite] at h
    simp only [Option.map_some', Option.some.injEq] at h
    exact ⟨site, rfl, h⟩

theorem getFavoredClusterId_least_witness :
    (∀ id ∈ [0, 1, 2, 3, 4], (Table.find Examples.twoClusters.sites_ id).isSome) ∧
    getFavoredClusterId [(0, 3), (1, -1), (2, 1)] = 1 ∧
    Examples.twoClusters.getFavoredClusterId_ [0, 1, 2, 3, 4] = .ok 0 ∧
    Examples.pairs.getFavoredClusterId_ [0, 1, 2, 3, 4] = .ok constants.unassignedId ∧
    ((getFavoredClusterId [(0, 3), (1, -1), (2, 1)] = constants.unassignedId ↔
        ∀ p ∈ [((0 : Int), (3 : Int)), (1, -1), (2, 1)], p.2 = constants.unassignedId) ∧
      (∀ p ∈ [((0 : Int), (3 : Int)), (1, -1), (2, 1)], p.2 ≠ constants.unassignedId →
        getFavoredClusterId [(0, 3), (1, -1), (2, 1)] ≤ p.2) ∧
      (getFavoredClusterId [(0, 3), (1, -1), (2, 1)] ≠ constants.unassignedId →
        ∃ p ∈ [((0 : Int), (3 : Int)), (1, -1), (2, 1)],
          p.2 = getFavoredClusterId [(0, 3), (1, -1), (2, 1)]) ∧
      ∃ sites_and_clusters,
        Examples.twoClusters.getClustersOfSites [0, 1, 2, 3, 4] = .ok sites_and_clusters ∧
        Examples.twoClusters.getFavoredClusterId_ [0, 1, 2, 3, 4]
          = .ok (getFavoredClusterId sites_and_clusters)) :=
  ⟨by decide!, by decide!, by decide!, by decide!,
    getFavoredClusterId_least [(0, 3), (1, -1), (2, 1)] Examples.twoClusters [0, 1, 2, 3, 4]
      (by decide!)⟩

theorem coarseGrain_same_cluster_skips_witness :
    Examples.pairs.coarseGrain_ Examples.env 0 = .ok (true, Examples.oneCluster) ∧
    (0 : Int) ∈ Examples.env.findBasin Examples.oneCluster.sites_ Examples.oneCluster.clusters_ 0 ∧
    (0 : Int) ≠ constants.unassignedId ∧
    (∀ id ∈ Examples.env.findBasin Examples.oneCluster.sites_ Examples.oneCluster.clusters_ 0,
      ∃ site, Table.find Examples.oneCluster.sites_ id = some site ∧ site.cluster_id = 0) ∧
    Examples.oneCluster.coarseGrain_ Examples.env 0 = .ok (false, Examples.oneCluster) :=
  have hall : ∀ id ∈ Examples.env.findBasin Examples.oneCluster.sites_
      Examples.oneCluster.clusters_ 0,
      ∃ site, Table.find Examples.oneCluster.sites_ id = some site ∧ site.cluster_id = 0 := by
    intro id hid
    have hid2 : id ∈ ([0, 1] : List Int) := hid
    simp only [List.mem_cons, List.mem_singleton, List.not_mem_nil, or_false] at hid2
    rcases hid2 with rfl | rfl
    · exact exists_site_of_cluster_id (by decide!)
    · exact exists_site_of_cluster_id (by decide!)
  ⟨by decide!, by decide!, by decide!, hall,
    coarseGrain_same_cluster_skips Examples.env Examples.oneCluster 0 0 (by decide!)
      (by decide!) hall⟩

/-! ### The resolution of a cluster -/

/-- With an internal time limit and a time resolution other than 0 both quotients are
numbers. -/
theorem chooseResolution_eq (tau T t : ℚ) (hT : T ≠ 0) (ht : t ≠ 0) :
    chooseResolution tau T t = max 2 (min (tau / (2 * T)) (tau / t)) := by
  have hT2 : 2 * T ≠ 0 := mul_ne_zero two_ne_zero hT
  unfold chooseResolution chosenResolution DoubleValue.divide
  simp only [hT2, ht, if_false, DoubleValue.lt, decide_eq_true_eq]
  by_cases h1 : tau / t < tau / (2 * T)
  · simp only [h1, if_true, DoubleValue.lt, decide_eq_true_eq]
    rw [min_eq_right (le_of_lt h1)]
    by_cases h2 : tau / t < 2
    · simp only [h2, if_true, DoubleValue.toRational]
      rw [max_eq_left (le_of_lt h2)]
    · simp only [h2, if_false, DoubleValue.toRational]
      rw [max_eq_right (not_lt.mp h2)]
  · simp only [h1, if_false, DoubleValue.lt, decide_eq_true_eq]
    rw [min_eq_left (not_lt.mp h1)]
    by_cases h2 : tau / (2 * T) < 2
    · simp only [h2, if_true, DoubleValue.toRational]
      rw [max_eq_left (le_of_lt h2)]
    · simp only [h2, if_false, DoubleValue.toRational]
      rw [max_eq_right (not_lt.mp h2)]

/-- With an internal time limit of 0 and a positive time constant, `res` is `+inf` and the
resolution is the allowed one, raised to 2. -/
theorem chooseResolution_zero_limit (tau t : ℚ) (htau : 0 < tau) (ht : t ≠ 0) :
    chooseResolution tau 0 t = max 2 (tau / t) := by
  have htau0 : tau ≠ 0 := ne_of_gt htau
  unfold chooseResolution chosenResolution DoubleValue.divide
  simp only [mul_zero, if_true, htau0, if_false, ht, htau, decide_True, DoubleValue.lt]
  by_cases h2 : tau / t < 2
  · simp only [h2, decide_True, if_true, DoubleValue.toRational]
    rw [max_eq_left (le_of_lt h2)]
  · simp only [h2, decide_False, Bool.false_eq_true, if_false, DoubleValue.toRational]
    rw [max_eq_right (not_lt.mp h2)]

/-- C11: for stored candidate sites, a positive internal time limit and a positive time
resolution, `createCluster_` returns and stores the new cluster with the resolution
`max(2, min(tau / (2 * T_internal), tau / time_resolution))`, where `tau` is the time
constant of the stored cluster (the solution of the master equation for the candidates);
the resolution is at least 2. -/
theorem createCluster_resolution (env : Collaborators) (s : CoarseGrainSystem)
    (siteIds : List Int) (internal_time_limit : ℚ) (hkeyed : SitesKeyed s)
    (hreg : ∀ id ∈ siteIds, (Table.find s.sites_ id).isSome)
    (hlimit : 0 < internal_time_limit) (hresolution : 0 < s.time_resolution_) :
    ∃ (s1 : CoarseGrainSystem) (C : Cluster),
      s.createCluster_ env siteIds internal_time_limit = .ok (s.cluster_id_count_, s1) ∧
      Table.find s1.clusters_ s.cluster_id_count_ = some C ∧
      C.members = siteIds ∧
      C.time_constant = env.solveMasterEquation s.sites_ siteIds ∧
      C.resolution = max 2 (min (C.time_constant / (2 * internal_time_limit))
        (C.time_constant / s.time_resolution_)) ∧
      2 ≤ C.resolution := by
  refine ⟨afterCreateCluster env s siteIds internal_time_limit,
    createdCluster env s siteIds internal_time_limit,
    createCluster_eq env s siteIds internal_time_limit hkeyed hreg, ?_, rfl, rfl, ?_, ?_⟩
  · simp [afterCreateCluster, Table.find_assign]
  · exact chooseResolution_eq _ _ _ (ne_of_gt hlimit) (ne_of_gt hresolution)
  · show 2 ≤ chooseResolution _ _ _
    rw [chooseResolution_eq _ _ _ (ne_of_gt hlimit) (ne_of_gt hresolution)]
    exact le_max_left _ _

theorem createCluster_resolution_witness :
    SitesKeyed Examples.pairs ∧
    (∀ id ∈ [0, 1], (Table.find Examples.pairs.sites_ id).isSome) ∧
    (0 : ℚ) < 1 / 100 ∧ 0 < Examples.pairs.time_resolution_ ∧
    (Table.find (Examples.valueOr (Examples.pairs.createCluster_ Examples.env [0, 1] (1 / 100))
      (0, Examples.pairs)).2.clusters_ 0).map Cluster.resolution = some 5 ∧
    ∃ (s1 : CoarseGrainSystem) (C : Cluster),
      Examples.pairs.createCluster_ Examples.env [0, 1] (1 / 100)
        = .ok (Examples.pairs.cluster_id_count_, s1) ∧
      Table.find s1.clusters_ Examples.pairs.cluster_id_count_ = some C ∧
      C.members = [0, 1] ∧
      C.time_constant = Examples.env.solveMasterEquation Examples.pairs.sites_ [0, 1] ∧
      C.resolution = max 2 (min (C.time_constant / (2 * (1 / 100)))
        (C.time_constant / Examples.pairs.time_resolution_)) ∧
      2 ≤ C.resolution :=
  ⟨by decide!, by decide!, by decide!, by decide!, by decide!,
    createCluster_resolution Examples.env Examples.pairs [0, 1] (1 / 100) (by decide!)
      (by decide!) (by decide!) (by decide!)⟩

/-! ### The favoured cluster after a merge -/

/-- The migrations leave the favoured cluster with the master equation solved for its
members, and with the seed it had. -/
theorem migratedFavored_solved (env : Collaborators) (sites : List (Int × Site))
    (clusters : List (Int × Cluster)) :
    ∀ (cids : List Int) (F : Cluster),
      F.time_constant = env.solveMasterEquation sites F.members →
      (migratedFavored env sites clusters F cids).time_constant
        = env.solveMasterEquation sites (migratedFavored env sites clusters F cids).members ∧
      (migratedFavored env sites clusters F cids).seed = F.seed := by
  intro cids
  induction cids with
  | nil => intro F h; exact ⟨h, rfl⟩
  | cons c rest ih =>
    intro F h
    cases hO : Table.find clusters c with
    | none => simp only [migratedFavored, hO]; exact ⟨h, trivial⟩
    | some O =>
      simp only [migratedFavored, hO]
      exact ih (F.migrateSitesFrom env sites O).1 rfl

/-- The favoured cluster in the state `mergeSitesAndClusters_` leaves: the master equation
is solved for its final members over the final site container; resolution and seed are
those it had before. -/
theorem afterMerge_favored (env : Collaborators) (s : CoarseGrainSystem) (m : List (Int × Int))
    (fav : Int) (F : Cluster) (hF : Table.find s.clusters_ fav = some F)
    (hex : ∀ c ∈ otherClusterIds fav [] m, (Table.find s.clusters_ c).isSome) :
    ∃ F1, Table.find (afterMerge env s m fav).clusters_ fav = some F1 ∧
      F1.time_constant = env.solveMasterEquation (afterMerge env s m fav).sites_ F1.members ∧
      F1.resolution = F.resolution ∧ F1.seed = F.seed := by
  obtain ⟨hnodup, hmem⟩ := otherClusterIds_spec fav m [] List.nodup_nil
  have hfavnot : fav ∉ otherClusterIds fav [] m := by
    intro h
    rcases (hmem _).mp h with h | ⟨_, _, _, h, _⟩
    · simp at h
    · exact h rfl
  have hex2 : ∀ c ∈ otherClusterIds fav [] m, (Table.find (Table.assign s.clusters_ fav
      (Cluster.updateProbabilitiesAndTimeConstant env
        (setClusterIds s.sites_ fav (movedSites m fav))
        { F with members := F.members ++ isolatedSites m fav })) c).isSome := by
    intro c hc
    have hne : c ≠ fav := fun e => hfavnot (e ▸ hc)
    simp only [Table.find_assign, hne, if_false]
    exact hex c hc
  obtain ⟨g1, _⟩ := migrateAll_spec env (setClusterIds s.sites_ fav (movedSites m fav)) fav
    (otherClusterIds fav [] m)
    (Table.assign s.clusters_ fav
      (Cluster.updateProbabilitiesAndTimeConstant env
        (setClusterIds s.sites_ fav (movedSites m fav))
        { F with members := F.members ++ isolatedSites m fav }))
    _ hnodup hfavnot (Table.find_assign_same _ _ _) hex2
  obtain ⟨k1, k2⟩ := migratedFavored_solved env (setClusterIds s.sites_ fav (movedSites m fav))
    (Table.assign s.clusters_ fav
      (Cluster.updateProbabilitiesAndTimeConstant env
        (setClusterIds s.sites_ fav (movedSites m fav))
        { F with members := F.members ++ isolatedSites m fav }))
    (otherClusterIds fav [] m)
    (Cluster.updateProbabilitiesAndTimeConstant env
        (setClusterIds s.sites_ fav (movedSites m fav))
        { F with members := F.members ++ isolatedSites m fav }) rfl
  obtain ⟨_, _, ⟨F1, hF1, _, _, hres⟩, _⟩ := afterMerge_spec env s m fav F hF hex
  refine ⟨F1, hF1, ?_, hres, ?_⟩
  · have hfind := hF1
    simp only [afterMerge, hF] at hfind ⊢
    rw [g1] at hfind
    simp only [hfavnot, if_false, if_true, Option.some.injEq] at hfind
    rw [← hfind]
    exact k1
  · have hfind := hF1
    simp only [afterMerge, hF] at hfind
    rw [g1] at hfind
    simp only [hfavnot, if_false, if_true, Option.some.injEq] at hfind
    rw [← hfind, k2]
    rfl

/-- C12, evaluated on a merge: the clusters 0 and 1 hold the pairs `0,1` and `2,3`, each
with time constant 1/2 and resolution 5, so that a step inside them takes 1/10, the time
resolution. `coarseGrain_` merges them into cluster 0, whose master equation is re-solved
(time constant 1), but its resolution is still 5, while the formula of `createCluster_`
gives 10 for the new time constant: a step inside the merged cluster takes 1/5, more than
the time resolution. -/
theorem coarseGrain_merge_keeps_resolution :
    ∃ s1, Examples.grownPairs.coarseGrain_ Examples.envGrowing 1 = .ok (true, s1) ∧
      (Table.find Examples.grownPairs.clusters_ 0).map Cluster.members = some [0, 1] ∧
      (Table.find Examples.grownPairs.clusters_ 1).map Cluster.members = some [2, 3] ∧
      (Table.find Examples.grownPairs.clusters_ 0).map Cluster.resolution = some 5 ∧
      (Table.find Examples.grownPairs.clusters_ 0).map
        (fun c => c.time_constant / c.resolution) = some Examples.grownPairs.time_resolution_ ∧
      (Table.find s1.clusters_ 0).map Cluster.members = some [0, 1, 2, 3] ∧
      (Table.find s1.clusters_ 0).map Cluster.time_constant = some 1 ∧
      (Table.find s1.clusters_ 0).map Cluster.resolution = some 5 ∧
      chooseResolution 1
        (Examples.grownPairs.getInternalTimeLimit_ Examples.envGrowing [0, 1, 2, 3])
        Examples.grownPairs.time_resolution_ = 10 ∧
      s1.time_resolution_ = 1 / 10 ∧
      (Table.find s1.clusters_ 0).map (fun c => c.time_constant / c.resolution)
        = some (1 / 5) :=
  ⟨(Examples.valueOr (Examples.grownPairs.coarseGrain_ Examples.envGrowing 1)
      (false, Examples.grownPairs)).2,
    by decide!, by decide!, by decide!, by decide!, by decide!, by decide!, by decide!,
    by decide!, by decide!, by decide!, by decide!⟩

/-- What `coarseGrain_` does on every merge: when the candidates are stored, pass the
equilibrium test and do not all have the same cluster id, it returns true and the
favoured cluster it leaves has the master equation solved for its final members, while
its resolution is the one it had before the call. -/
theorem coarseGrain_merge_solves (env : Collaborators) (s : CoarseGrainSystem) (siteId : Int)
    (hkeyed : SitesKeyed s)
    (hreg : ∀ id ∈ env.findBasin s.sites_ s.clusters_ siteId, (Table.find s.sites_ id).isSome)
    (hpass : s.sitesSatisfyEquilibriumCondition_ (env.findBasin s.sites_ s.clusters_ siteId)
      (s.getInternalTimeLimit_ env (env.findBasin s.sites_ s.clusters_ siteId)) = .ok true)
    (hdiff : ∃ a ∈ env.findBasin s.sites_ s.clusters_ siteId,
      ∃ b ∈ env.findBasin s.sites_ s.clusters_ siteId, clusterIdOf s a ≠ clusterIdOf s b)
    (hexist : ∀ id ∈ env.findBasin s.sites_ s.clusters_ siteId,
      clusterIdOf s id ≠ constants.unassignedId →
      (Table.find s.clusters_ (clusterIdOf s id)).isSome) :
    ∃ (s1 : CoarseGrainSystem) (m : List (Int × Int)) (F F1 : Cluster),
      s.coarseGrain_ env siteId = .ok (true, s1) ∧
      s.getClustersOfSites (env.findBasin s.sites_ s.clusters_ siteId) = .ok m ∧
      Table.find s.clusters_ (getFavoredClusterId m) = some F ∧
      Table.find s1.clusters_ (getFavoredClusterId m) = some F1 ∧
      F1.time_constant = env.solveMasterEquation s1.sites_ F1.members ∧
      F1.resolution = F.resolution := by
  obtain ⟨m, F, hm, _, _, _, hF, hex, hcg⟩ :=
    coarseGrain_merge_eq env s siteId hkeyed hreg hpass hdiff hexist
  obtain ⟨F1, hF1, htau, hres, _⟩ := afterMerge_favored env s m _ F hF hex
  exact ⟨_, m, F, F1, hcg, hm, hF, hF1, htau, hres⟩

/-- The merge of the clusters 0 and 1 of the example system. -/
theorem coarseGrain_merge_solves_witness :
    (SitesKeyed Examples.grownPairs ∧
      (∀ id ∈ Examples.envGrowing.findBasin Examples.grownPairs.sites_
          Examples.grownPairs.clusters_ 1,
        (Table.find Examples.grownPairs.sites_ id).isSome) ∧
      Examples.grownPairs.sitesSatisfyEquilibriumCondition_
        (Examples.envGrowing.findBasin Examples.grownPairs.sites_
          Examples.grownPairs.clusters_ 1)
        (Examples.grownPairs.getInternalTimeLimit_ Examples.envGrowing
          (Examples.envGrowing.findBasin Examples.grownPairs.sites_
            Examples.grownPairs.clusters_ 1)) = .ok true) ∧
    ∃ (s1 : CoarseGrainSystem) (m : List (Int × Int)) (F F1 : Cluster),
      Examples.grownPairs.coarseGrain_ Examples.envGrowing 1 = .ok (true, s1) ∧
      Examples.grownPairs.getClustersOfSites
        (Examples.envGrowing.findBasin Examples.grownPairs.sites_
          Examples.grownPairs.clusters_ 1) = .ok m ∧
      Table.find Examples.grownPairs.clusters_ (getFavoredClusterId m) = some F ∧
      Table.find s1.clusters_ (getFavoredClusterId m) = some F1 ∧
      F1.time_constant = Examples.envGrowing.solveMasterEquation s1.sites_ F1.members ∧
      F1.resolution = F.resolution :=
  ⟨⟨by decide!, by decide!, by decide!⟩,
    coarseGrain_merge_solves Examples.envGrowing Examples.grownPairs 1 (by decide!) (by decide!)
      (by decide!) ⟨0, by decide!, 2, by decide!, by decide!⟩ (by decide!)⟩

/-! ### The time constant for leaving the candidates -/

theorem addRatesOffSite_eq (internalSiteIds : List Int) :
    ∀ (neighbors : List (Int × ℚ)) (sumRates : ℚ),
      addRatesOffSite internalSiteIds sumRates neighbors
        = sumRates + ((neighbors.filter (fun p => decide (p.1 ∉ internalSiteIds))).map
            Prod.snd).sum := by
  intro neighbors
  induction neighbors with
  | nil => intro acc; simp [addRatesOffSite]
  | cons p rest ih =>
    intro acc
    obtain ⟨j, r⟩ := p
    by_cases hj : j ∈ internalSiteIds
    · simp [addRatesOffSite, hj, ih]
    · simp [addRatesOffSite, hj, ih, add_assoc]

/-- The rates of a neighbour map to the keys outside `members`, summed over the entries,
are the sum of the looked-up rates over those keys. -/
theorem sum_filter_eq_sum_keys (members : List Int) :
    ∀ neighbors : List (Int × ℚ), (Table.keys neighbors).Nodup →
      ((neighbors.filter (fun p => decide (p.1 ∉ members))).map Prod.snd).sum
        = ∑ j ∈ (Table.keys neighbors).toFinset.filter (fun j => j ∉ members),
            (Table.find neighbors j).getD 0 := by
  intro neighbors
  induction neighbors with
  | nil => intro _; simp [Table.keys]
  | cons p rest ih =>
    intro hn
    obtain ⟨a, r⟩ := p
    have hn2 : a ∉ Table.keys rest ∧ (Table.keys rest).Nodup := by
      simpa [Table.keys] using hn
    have hrest : ∑ j ∈ (Table.keys rest).toFinset.filter (fun j => j ∉ members),
        (Table.find ((a, r) :: rest) j).getD 0
        = ∑ j ∈ (Table.keys rest).toFinset.filter (fun j => j ∉ members),
            (Table.find rest j).getD 0 := by
      apply Finset.sum_congr rfl
      intro j hj
      have hjk : j ∈ Table.keys rest := by
        have := (Finset.mem_filter.mp hj).1
        simpa using this
      have hne : a ≠ j := fun e => hn2.1 (e ▸ hjk)
      simp [Table.find, hne]
    have hkeys : (Table.keys ((a, r) :: rest)).toFinset
        = insert a (Table.keys rest).toFinset := by
      simp [Table.keys]
    rw [hkeys, Finset.filter_insert]
    by_cases ha : a ∈ members
    · simp only [ha, not_true_eq_false, if_false, hrest]
      rw [← ih hn2.2]
      simp [ha]
    · have hnot : a ∉ (Table.keys rest).toFinset.filter (fun j => j ∉ members) := by
        intro h
        have := (Finset.mem_filter.mp h).1
        exact hn2.1 (by simpa using this)
      simp only [ha, not_false_eq_true, if_true]
      rw [Finset.sum_insert hnot, hrest, ← ih hn2.2]
      simp [ha, Table.find]

theorem sumRatesOffSites_eq (s : CoarseGrainSystem) (internalSiteIds : List Int) :
    ∀ (siteIds : List Int) (sumRates : ℚ),
      (∀ id ∈ siteIds, (Table.find s.sites_ id).isSome) →
      sumRatesOffSites s internalSiteIds sumRates siteIds
        = .ok (sumRates + (siteIds.map (fun i =>
            (((neighborsOf s i).filter (fun p => decide (p.1 ∉ internalSiteIds))).map
              Prod.snd).sum)).sum) := by
  intro siteIds
  induction siteIds with
  | nil => intro acc _; simp [sumRatesOffSites]
  | cons a rest ih =>
    intro acc hreg
    cases hsite : Table.find s.sites_ a with
    | none => have := hreg a (List.mem_cons_self _ _); simp [hsite] at this
    | some site =>
      simp only [sumRatesOffSites, getSite_of_find hsite, Result.ok_bind]
      rw [ih _ (fun id hid => hreg id (List.mem_cons_of_mem _ hid)), addRatesOffSite_eq]
      simp [neighborsOf, hsite, add_assoc]

/-- C13: for a duplicate-free list of stored candidate sites whose rates to non-members
are positive and that has at least one such rate, `getTimeConstantFromSitesToNeighbors_`
returns `1 / (sum of rate(i,j) over members i and non-members j)`; the sum is that of the
specification, so rates between two members do not enter and every rate from a member to
a non-member enters once. -/
theorem getTimeConstantFromSitesToNeighbors_eq (s : CoarseGrainSystem) (siteIds : List Int)
    (hnodup : siteIds.Nodup)
    (hreg : ∀ id ∈ siteIds, (Table.find s.sites_ id).isSome)
    (hmaps : ∀ i ∈ siteIds, (Table.keys (neighborsOf s i)).Nodup)
    (hpos : ∀ i ∈ siteIds, ∀ j ∈ Table.keys (neighborsOf s i), j ∉ siteIds → 0 < rate s i j)
    (hex : ∃ i ∈ siteIds, ∃ j ∈ Table.keys (neighborsOf s i), j ∉ siteIds) :
    0 < sumOfRatesOff s siteIds ∧
    s.getTimeConstantFromSitesToNeighbors_ siteIds = .ok (1 / sumOfRatesOff s siteIds) := by
  have hsum : sumRatesOffSites s siteIds 0 siteIds = .ok (sumOfRatesOff s siteIds) := by
    rw [sumRatesOffSites_eq s siteIds siteIds 0 hreg, zero_add, ← List.sum_toFinset _ hnodup]
    unfold sumOfRatesOff
    congr 1
    apply Finset.sum_congr rfl
    intro i hi
    rw [sum_filter_eq_sum_keys siteIds _ (hmaps i (by simpa using hi))]
    rfl
  have hinner : ∀ i ∈ siteIds.toFinset,
      0 ≤ ∑ j ∈ (Table.keys (neighborsOf s i)).toFinset.filter (fun j => j ∉ siteIds),
        rate s i j := by
    intro i hi
    apply Finset.sum_nonneg
    intro j hj
    obtain ⟨hj1, hj2⟩ := Finset.mem_filter.mp hj
    exact le_of_lt (hpos i (by simpa using hi) j (by simpa using hj1) hj2)
  have hpositive : 0 < sumOfRatesOff s siteIds := by
    obtain ⟨i, hi, j, hj, hjn⟩ := hex
    unfold sumOfRatesOff
    refine Finset.sum_pos' hinner ⟨i, by simpa using hi, ?_⟩
    refine Finset.sum_pos' ?_ ⟨j, ?_, hpos i hi j hj hjn⟩
    · intro k hk
      obtain ⟨hk1, hk2⟩ := Finset.mem_filter.mp hk
      exact le_of_lt (hpos i hi k (by simpa using hk1) hk2)
    · exact Finset.mem_filter.mpr ⟨by simpa using hj, hjn⟩
  refine ⟨hpositive, ?_⟩
  unfold getTimeConstantFromSitesToNeighbors_
  simp only [hsum, Result.ok_bind, ne_of_gt hpositive, if_false, Result.pure_eq]

theorem getTimeConstantFromSitesToNeighbors_eq_witness :
    ([0, 1] : List Int).Nodup ∧
    (∀ id ∈ [0, 1], (Table.find Examples.pairs.sites_ id).isSome) ∧
    (∀ i ∈ [0, 1], (Table.keys (neighborsOf Examples.pairs i)).Nodup) ∧
    (∀ i ∈ [0, 1], ∀ j ∈ Table.keys (neighborsOf Examples.pairs i), j ∉ [0, 1] →
      0 < rate Examples.pairs i j) ∧
    sumOfRatesOff Examples.pairs [0, 1] = 2 ∧
    (0 < sumOfRatesOff Examples.pairs [0, 1] ∧
      Examples.pairs.getTimeConstantFromSitesToNeighbors_ [0, 1]
        = .ok (1 / sumOfRatesOff Examples.pairs [0, 1])) :=
  ⟨by decide, by decide!, by decide!, by decide!, by decide!,
    getTimeConstantFromSitesToNeighbors_eq Examples.pairs [0, 1] (by decide) (by decide!)
      (by decide!) (by decide!) ⟨0, by decide, 2, by decide!, by decide⟩⟩

/-! ### A time resolution below every internal time limit -/

theorem foldr_min_pos : ∀ l : List ℚ, (∀ x ∈ l, 0 < x) →
    0 < l.foldr min 1 ∧ ∀ x ∈ l, l.foldr min 1 ≤ x := by
  intro l
  induction l with
  | nil => intro _; simp
  | cons a rest ih =>
    intro h
    obtain ⟨h1, h2⟩ := ih (fun x hx => h x (List.mem_cons_of_mem _ hx))
    refine ⟨lt_min (h a (List.mem_cons_self _ _)) h1, ?_⟩
    intro x hx
    rcases List.mem_cons.mp hx with rfl | hx
    · exact min_le_left _ _
    · exact le_trans (min_le_right _ _) (h2 x hx)

/-- The equilibrium test fails when the time resolution is at most the time to traverse
the candidates. -/
theorem sitesSatisfyEquilibriumCondition_false (s : CoarseGrainSystem) (siteIds : List Int)
    (maxtime : ℚ) (hreg : ∀ id ∈ siteIds, (Table.find s.sites_ id).isSome)
    (h : s.time_resolution_ ≤ maxtime * (s.minimum_coarse_graining_resolution_ : ℚ)) :
    s.sitesSatisfyEquilibriumCondition_ siteIds maxtime = .ok false := by
  obtain ⟨T_ext, hT⟩ := getTimeConstantFromSitesToNeighbors_ok s siteIds hreg
  unfold sitesSatisfyEquilibriumCondition_
  simp only [hT, Result.ok_bind, Result.pure_eq, Except.ok.injEq, Bool.and_eq_false_imp,
    decide_eq_true_eq, decide_eq_false_iff_not, not_lt]
  intro _
  exact h

/-- A failed equilibrium test makes `coarseGrain_` return false in the state it was
called in. -/
theorem coarseGrain_of_test_false (env : Collaborators) (s : CoarseGrainSystem) (siteId : Int)
    (h : s.sitesSatisfyEquilibriumCondition_ (env.findBasin s.sites_ s.clusters_ siteId)
      (s.getInternalTimeLimit_ env (env.findBasin s.sites_ s.clusters_ siteId)) = .ok false) :
    s.coarseGrain_ env siteId = .ok (false, s) := by
  unfold coarseGrain_
  simp only [h, Result.ok_bind, Bool.false_eq_true, if_false, Result.pure_eq]

/-- C14, as stated, fails: the candidate list `0` of the system `pairs` has the internal
time limit 0 (it has no pair of vertices), so it passes the equilibrium test for every
positive time resolution; with a time resolution of 1/1000 and an explorer that proposes
the seed site alone, `coarseGrain_` creates a cluster of the site 0 (its resolution is
the allowed one, 500, the other quotient being `+inf`). -/
theorem singleton_candidate_passes_every_resolution :
    (∀ t : ℚ, 0 < t →
      sitesSatisfyEquilibriumCondition_ { Examples.pairs with time_resolution_ := t } [0]
        (getInternalTimeLimit_ Examples.env { Examples.pairs with time_resolution_ := t } [0])
        = .ok true) ∧
    ∃ s1, Examples.strict.coarseGrain_ Examples.envSingle 0 = .ok (true, s1) ∧
      (Table.find s1.clusters_ 0).map Cluster.members = some [0] ∧
      (Table.find s1.clusters_ 0).map Cluster.resolution = some 500 := by
  refine ⟨?_, (Examples.valueOr (Examples.strict.coarseGrain_ Examples.envSingle 0)
    (false, Examples.strict)).2, by decide!, by decide!, by decide!⟩
  intro t ht
  have hlimit : getInternalTimeLimit_ Examples.env
      { Examples.pairs with time_resolution_ := t } [0] = 0 := rfl
  have htc0 : getTimeConstantFromSitesToNeighbors_ Examples.pairs [0] = .ok (1 / 101) := by
    decide!
  have htc : getTimeConstantFromSitesToNeighbors_
      { Examples.pairs with time_resolution_ := t } [0] = .ok (1 / 101) := htc0
  rw [hlimit]
  unfold sitesSatisfyEquilibriumCondition_
  rw [htc]
  simp [Examples.pairs, CoarseGrainSystem.new, ht]

/-- C14 (amended): for every system with a positive minimum coarse-graining resolution and
every finite family of candidate lists whose internal time limits are positive there is a
positive bound such that, with the time resolution below it, the equilibrium test
returns false for every list of the family that consists of stored sites (with its
internal time limit), and `coarseGrain_` returns false and leaves the state unchanged
whenever the explorer proposes such a list. -/
theorem small_time_resolution_blocks (env : Collaborators) (s : CoarseGrainSystem)
    (candidates : List (List Int))
    (hres : 0 < s.minimum_coarse_graining_resolution_)
    (hlimits : ∀ ids ∈ candidates, 0 < s.getInternalTimeLimit_ env ids) :
    ∃ bound : ℚ, 0 < bound ∧ ∀ t : ℚ, t < bound →
      (∀ ids ∈ candidates, (∀ id ∈ ids, (Table.find s.sites_ id).isSome) →
        sitesSatisfyEquilibriumCondition_ { s with time_resolution_ := t } ids
          (getInternalTimeLimit_ env { s with time_resolution_ := t } ids) = .ok false) ∧
      (∀ siteId, env.findBasin s.sites_ s.clusters_ siteId ∈ candidates →
        (∀ id ∈ env.findBasin s.sites_ s.clusters_ siteId, (Table.find s.sites_ id).isSome) →
        coarseGrain_ env { s with time_resolution_ := t } siteId
          = .ok (false, { s with time_resolution_ := t })) := by
  have hpos : ∀ x ∈ candidates.map (fun ids =>
      s.getInternalTimeLimit_ env ids * (s.minimum_coarse_graining_resolution_ : ℚ)),
      0 < x := by
    intro x hx
    obtain ⟨ids, hids, rfl⟩ := List.mem_map.mp hx
    exact mul_pos (hlimits ids hids) (by exact_mod_cast hres)
  obtain ⟨hb1, hb2⟩ := foldr_min_pos _ hpos
  have hfalse : ∀ t : ℚ, t < (candidates.map (fun ids =>
      s.getInternalTimeLimit_ env ids * (s.minimum_coarse_graining_resolution_ : ℚ))).foldr
        min 1 →
      ∀ ids ∈ candidates, (∀ id ∈ ids, (Table.find s.sites_ id).isSome) →
        sitesSatisfyEquilibriumCondition_ { s with time_resolution_ := t } ids
          (getInternalTimeLimit_ env { s with time_resolution_ := t } ids) = .ok false := by
    intro t ht ids hids hreg
    have := hb2 _ (List.mem_map.mpr ⟨ids, hids, rfl⟩)
    exact sitesSatisfyEquilibriumCondition_false { s with time_resolution_ := t } ids _ hreg
      (le_of_lt (lt_of_lt_of_le ht this))
  refine ⟨_, hb1, fun t ht => ⟨hfalse t ht, ?_⟩⟩
  intro siteId hmem hreg
  exact coarseGrain_of_test_false env { s with time_resolution_ := t } siteId
    (hfalse t ht _ hmem hreg)

theorem small_time_resolution_blocks_witness :
    0 < Examples.pairs.minimum_coarse_graining_resolution_ ∧
    (∀ ids ∈ [[0, 1], [2, 3]], 0 < Examples.pairs.getInternalTimeLimit_ Examples.env ids) ∧
    Examples.strict.coarseGrain_ Examples.env 0 = .ok (false, Examples.strict) ∧
    ∃ bound : ℚ, 0 < bound ∧ ∀ t : ℚ, t < bound →
      (∀ ids ∈ [[0, 1], [2, 3]],
        (∀ id ∈ ids, (Table.find Examples.pairs.sites_ id).isSome) →
        sitesSatisfyEquilibriumCondition_ { Examples.pairs with time_resolution_ := t } ids
          (getInternalTimeLimit_ Examples.env { Examples.pairs with time_resolution_ := t } ids)
          = .ok false) ∧
      (∀ siteId,
        Examples.env.findBasin Examples.pairs.sites_ Examples.pairs.clusters_ siteId
          ∈ [[0, 1], [2, 3]] →
        (∀ id ∈ Examples.env.findBasin Examples.pairs.sites_ Examples.pairs.clusters_ siteId,
          (Table.find Examples.pairs.sites_ id).isSome) →
        coarseGrain_ Examples.env { Examples.pairs with time_resolution_ := t } siteId
          = .ok (false, { Examples.pairs with time_resolution_ := t })) :=
  ⟨by decide, by decide!, by decide!,
    small_time_resolution_blocks Examples.env Examples.pairs [[0, 1], [2, 3]] (by decide)
      (by decide!)⟩

/-! ### Cluster ids of the sites across a coarse-graining step -/

theorem createCluster_sites {env : Collaborators} {s s1 : CoarseGrainSystem} {ids : List Int}
    {T : ℚ} {cid : Int} (h : s.createCluster_ env ids T = .ok (cid, s1)) :
    s1.sites_ = setClusterIds s.sites_ s.cluster_id_count_ ids := by
  unfold createCluster_ at h
  obtain ⟨sites, _, h⟩ := Result.bind_eq_ok.mp h
  cases hset : s.seed_set_ with
  | false =>
    simp only [hset, Bool.false_eq_true, if_false] at h
    obtain ⟨s2, h2, h⟩ := Result.bind_eq_ok.mp h
    simp only [Result.pure_eq, Except.ok.injEq, Prod.mk.injEq] at h
    rw [← h.2, assignSitesToCluster_eq_ok _ _ _ _ h2]
    rfl
  | true =>
    simp only [hset, if_true] at h
    obtain ⟨s2, h2, h⟩ := Result.bind_eq_ok.mp h
    simp only [Result.pure_eq, Except.ok.injEq, Prod.mk.injEq] at h
    rw [← h.2, assignSitesToCluster_eq_ok _ _ _ _ h2]
    rfl

theorem mergeSitesAndClusters_sites {env : Collaborators} {s s1 : CoarseGrainSystem}
    {m : List (Int × Int)} {fav : Int} (h : s.mergeSitesAndClusters_ env m fav = .ok s1) :
    s1.sites_ = setClusterIds s.sites_ fav (movedSites m fav) := by
  unfold mergeSitesAndClusters_ at h
  obtain ⟨⟨s2, iso, cids⟩, hloop, h⟩ := Result.bind_eq_ok.mp h
  obtain ⟨F, _, h⟩ := Result.bind_eq_ok.mp h
  obtain ⟨F2, _, h⟩ := Result.bind_eq_ok.mp h
  obtain ⟨hs2, _, _⟩ := mergeLoop_eq_ok fav m s s2 [] iso [] cids hloop
  rw [migrateLoop_eq_ok env fav _ _ _ h, hs2]
  rfl

theorem clusterIdOf_setClusterIds (s s1 : CoarseGrainSystem) (c : Int) (ids : List Int)
    (h : s1.sites_ = setClusterIds s.sites_ c ids) (x : Int) :
    clusterIdOf s1 x = if x ∈ ids ∧ (Table.find s.sites_ x).isSome then c
      else clusterIdOf s x := by
  unfold clusterIdOf
  rw [h, find_setClusterIds]
  by_cases hx : x ∈ ids
  · cases hsite : Table.find s.sites_ x with
    | none => simp [hx]
    | some site => simp [hx]
  · simp [hx]

/-- The sites `mergeSitesAndClusters_` moves to the favoured cluster `getFavoredClusterId`
names are moved to a cluster id that is not the sentinel. -/
theorem movedSites_favored (m : List (Int × Int)) (x : Int)
    (h : x ∈ movedSites m (getFavoredClusterId m)) :
    getFavoredClusterId m ≠ constants.unassignedId := by
  intro hu
  obtain ⟨p, hp, _⟩ := List.mem_map.mp h
  have hp2 := List.mem_filter.mp hp
  have hall := (getFavoredClusterId_spec m).1.mp hu p hp2.1
  have hne := hp2.2
  simp only [decide_eq_true_eq] at hne
  exact hne (hall.trans hu.symm)

theorem createCluster_keeps_assigned {env : Collaborators} {s s1 : CoarseGrainSystem}
    {ids : List Int} {T : ℚ} {cid : Int} (h : s.createCluster_ env ids T = .ok (cid, s1))
    (hcount : 0 ≤ s.cluster_id_count_) (x : Int)
    (hx : clusterIdOf s x ≠ constants.unassignedId) :
    clusterIdOf s1 x ≠ constants.unassignedId := by
  rw [clusterIdOf_setClusterIds s s1 _ _ (createCluster_sites h)]
  split
  · intro e
    rw [e] at hcount
    simp [constants.unassignedId] at hcount
  · exact hx

theorem mergeSitesAndClusters_keeps_assigned {env : Collaborators} {s s1 : CoarseGrainSystem}
    {m : List (Int × Int)}
    (h : s.mergeSitesAndClusters_ env m (getFavoredClusterId m) = .ok s1) (x : Int)
    (hx : clusterIdOf s x ≠ constants.unassignedId) :
    clusterIdOf s1 x ≠ constants.unassignedId := by
  rw [clusterIdOf_setClusterIds s s1 _ _ (mergeSitesAndClusters_sites h)]
  split
  · next hmv => exact movedSites_favored m x hmv.1
  · exact hx

/-- C15: a coarse-graining step (a call of `coarseGrain_` that returns, or `createCluster_`
or `mergeSitesAndClusters_` applied to a candidate list), taken while the cluster id
counter is not negative, leaves every site that had an assigned cluster id with an
assigned cluster id. -/
theorem cluster_id_stays_assigned (env : Collaborators) (s s1 : CoarseGrainSystem)
    (siteId : Int) (b : Bool) (step : CoarseGrainingStep)
    (hcount : 0 ≤ s.cluster_id_count_)
    (hstep : s.coarseGrain_ env siteId = .ok (b, s1) ∨ applyStep env s step = .ok s1)
    (x : Int) (hx : clusterIdOf s x ≠ constants.unassignedId) :
    clusterIdOf s1 x ≠ constants.unassignedId := by
  rcases hstep with h | h
  · unfold coarseGrain_ at h
    obtain ⟨pass, _, h⟩ := Result.bind_eq_ok.mp h
    cases pass with
    | false =>
      simp only [Bool.false_eq_true, if_false, Result.pure_eq, Except.ok.injEq,
        Prod.mk.injEq] at h
      rw [← h.2]; exact hx
    | true =>
      simp only [if_true] at h
      obtain ⟨m, _, h⟩ := Result.bind_eq_ok.mp h
      split at h
      · obtain ⟨⟨cid, s2⟩, hc, h⟩ := Result.bind_eq_ok.mp h
        simp only [Result.pure_eq, Except.ok.injEq, Prod.mk.injEq] at h
        rw [← h.2]
        exact createCluster_keeps_assigned hc hcount x hx
      · split at h
        · obtain ⟨s2, hm, h⟩ := Result.bind_eq_ok.mp h
          simp only [Result.pure_eq, Except.ok.injEq, Prod.mk.injEq] at h
          rw [← h.2]
          exact mergeSitesAndClusters_keeps_assigned hm x hx
        · simp only [Result.pure_eq, Except.ok.injEq, Prod.mk.injEq] at h
          rw [← h.2]; exact hx
  · cases step with
    | create siteIds internal_time_limit =>
      simp only [applyStep] at h
      obtain ⟨⟨cid, s2⟩, hc, h⟩ := Result.bind_eq_ok.mp h
      simp only [Result.pure_eq, Except.ok.injEq] at h
      rw [← h]
      exact createCluster_keeps_assigned hc hcount x hx
    | merge siteIds =>
      simp only [applyStep] at h
      obtain ⟨m, _, hmerge⟩ := Result.bind_eq_ok.mp h
      exact mergeSitesAndClusters_keeps_assigned hmerge x hx

theorem cluster_id_stays_assigned_witness :
    0 ≤ Examples.twoClusters.cluster_id_count_ ∧
    Examples.twoClusters.coarseGrain_ Examples.envWide 1
      = .ok (true, (Examples.valueOr (Examples.twoClusters.coarseGrain_ Examples.envWide 1)
          (false, Examples.twoClusters)).2) ∧
    clusterIdOf Examples.twoClusters 3 = 1 ∧
    clusterIdOf (Examples.valueOr (Examples.twoClusters.coarseGrain_ Examples.envWide 1)
      (false, Examples.twoClusters)).2 3 = 0 ∧
    clusterIdOf (Examples.valueOr (Examples.twoClusters.coarseGrain_ Examples.envWide 1)
      (false, Examples.twoClusters)).2 3 ≠ constants.unassignedId :=
  ⟨by decide!, by decide!, by decide!, by decide!,
    cluster_id_stays_assigned Examples.envWide Examples.twoClusters _ 1 true (.merge [])
      (by decide!) (Or.inl (by decide!)) 3 (by decide!)⟩

/-! ### `initializeSystem` in closed form -/

theorem Table.find_append {β : Type} (a b : List (Int × β)) (k : Int) :
    Table.find (a ++ b) k = match Table.find a k with
      | some v => some v
      | none => Table.find b k := by
  induction a with
  | nil => rfl
  | cons p rest ih =>
    obtain ⟨q, v⟩ := p
    by_cases h : q = k
    · simp [Table.find, h]
    · simp [Table.find, h, ih]

theorem find_registerAll :
    ∀ (ids : List Int) (features : List (Int × Feature)) (x : Int),
      Table.find (registerAll features ids) x =
        if x ∈ ids then some (Feature.site x) else Table.find features x := by
  intro ids
  induction ids with
  | nil => intro features x; simp [registerAll]
  | cons a rest ih =>
    intro features x
    simp only [registerAll, ih, Table.find_assign]
    by_cases hx : x = a
    · subst hx
      by_cases hr : x ∈ rest
      · simp [hr]
      · simp [hr]
    · have hx2 : ¬ a = x := fun e => hx e.symm
      simp [hx, hx2]

theorem registerSites_eq :
    ∀ (rates : List (Int × List (Int × ℚ))) (s : CoarseGrainSystem),
      (Table.keys rates).Nodup → (∀ id ∈ Table.keys rates, Table.find s.sites_ id = none) →
      registerSites s rates = (none,
        { s with
          sites_ := s.sites_ ++ initialSites s.seed_set_ s.seed_ rates
          topology_features_ := registerAll s.topology_features_ (Table.keys rates)
          seed_ := seedAfter s.seed_set_ s.seed_ rates.length }) := by
  intro rates
  induction rates with
  | nil => intro s _ _; simp [registerSites, initialSites, registerAll, seedAfter, Table.keys]
  | cons p rest ih =>
    intro s hn hfresh
    obtain ⟨id, r⟩ := p
    have hn2 : id ∉ Table.keys rest ∧ (Table.keys rest).Nodup := by
      simpa [Table.keys] using hn
    have hid : Table.find s.sites_ id = none := hfresh id (by simp [Table.keys])
    have hrest : ∀ (site : Site) (x : Int), x ∈ Table.keys rest →
        Table.find (Table.assign s.sites_ id site) x = none := by
      intro site x hx
      have hne : ¬ x = id := fun e => hn2.1 (e ▸ hx)
      rw [Table.find_assign]
      simp only [hne, if_false]
      exact hfresh x (by simp [Table.keys] at hx ⊢; exact Or.inr hx)
    cases hset : s.seed_set_ with
    | false =>
      simp only [registerSites, hset, Bool.false_eq_true, if_false, addSite, Site.setId,
        Site.setRatesToNeighbors, hid, getSite, Table.find_assign_same]
      rw [ih _ hn2.2 (hrest _)]
      simp [initialSites, registerAll, seedAfter, Table.keys, hset,
        Table.assign_of_find_none _ _ _ hid, Site.new]
    | true =>
      simp only [registerSites, hset, if_true, addSite, Site.setId, Site.setRandomSeed,
        Site.setRatesToNeighbors, hid, getSite, Table.find_assign_same]
      rw [ih _ hn2.2 (hrest _)]
      simp [initialSites, registerAll, seedAfter, Table.keys, hset,
        Table.assign_of_find_none _ _ _ hid, Site.new]

theorem registerDrainSites_eq :
    ∀ (ids : List Int) (s : CoarseGrainSystem),
      ids.Nodup → (∀ id ∈ ids, Table.find s.sites_ id = none) →
      registerDrainSites s ids = (none,
        { s with
          sites_ := s.sites_ ++ ids.map (fun id => (id, Site.new.setId id))
          topology_features_ := registerAll s.topology_features_ ids }) := by
  intro ids
  induction ids with
  | nil => intro s _ _; simp [registerDrainSites, registerAll]
  | cons id rest ih =>
    intro s hn hfresh
    have hn2 : id ∉ rest ∧ rest.Nodup := by simpa using hn
    have hid : Table.find s.sites_ id = none := hfresh id (List.mem_cons_self _ _)
    have hrest : ∀ (site : Site) (x : Int), x ∈ rest →
        Table.find (Table.assign s.sites_ id site) x = none := by
      intro site x hx
      have hne : ¬ x = id := fun e => hn2.1 (e ▸ hx)
      rw [Table.find_assign]
      simp only [hne, if_false]
      exact hfresh x (List.mem_cons_of_mem _ hx)
    simp only [registerDrainSites, addSite, Site.setId, hid, getSite, Table.find_assign_same]
    rw [ih _ hn2.2 (hrest _)]
    simp [registerAll, Table.assign_of_find_none _ _ _ hid, Site.setId]

theorem collectDrainSitesOf_spec (all : List (Int × List (Int × ℚ))) :
    ∀ (rates : List (Int × ℚ)) (drain_sites : List Int), drain_sites.Nodup →
      (collectDrainSitesOf all drain_sites rates).Nodup ∧
      ∀ x, x ∈ collectDrainSitesOf all drain_sites rates ↔
        x ∈ drain_sites ∨ (x ∉ Table.keys all ∧ x ∈ Table.keys rates) := by
  intro rates
  induction rates with
  | nil => intro acc h; simp [collectDrainSitesOf, Table.keys, h]
  | cons p rest ih =>
    intro acc h
    obtain ⟨id, r⟩ := p
    by_cases hkey : id ∈ Table.keys all
    · obtain ⟨h1, h2⟩ := ih acc h
      simp only [collectDrainSitesOf, hkey, not_true_eq_false, if_false]
      refine ⟨h1, fun x => ?_⟩
      rw [h2]
      constructor
      · rintro (hx | ⟨hx1, hx2⟩)
        · exact Or.inl hx
        · exact Or.inr ⟨hx1, by simp [Table.keys] at hx2 ⊢; exact Or.inr hx2⟩
      · rintro (hx | ⟨hx1, hx2⟩)
        · exact Or.inl hx
        · simp only [Table.keys, List.map_cons, List.mem_cons] at hx2
          rcases hx2 with rfl | hx2
          · exact absurd hkey hx1
          · exact Or.inr ⟨hx1, hx2⟩
    · by_cases hacc : id ∈ acc
      · obtain ⟨h1, h2⟩ := ih acc h
        simp only [collectDrainSitesOf, hkey, not_false_eq_true, if_true, hacc]
        refine ⟨h1, fun x => ?_⟩
        rw [h2]
        constructor
        · rintro (hx | ⟨hx1, hx2⟩)
          · exact Or.inl hx
          · exact Or.inr ⟨hx1, by simp [Table.keys] at hx2 ⊢; exact Or.inr hx2⟩
        · rintro (hx | ⟨hx1, hx2⟩)
          · exact Or.inl hx
          · simp only [Table.keys, List.map_cons, List.mem_cons] at hx2
            rcases hx2 with rfl | hx2
            · exact Or.inl hacc
            · exact Or.inr ⟨hx1, hx2⟩
      · have hn : (acc ++ [id]).Nodup := by
          rw [List.nodup_append]
          refine ⟨h, List.nodup_singleton _, ?_⟩
          intro a ha hb
          simp only [List.mem_singleton] at hb
          exact hacc (hb ▸ ha)
        obtain ⟨h1, h2⟩ := ih (acc ++ [id]) hn
        simp only [collectDrainSitesOf, hkey, not_false_eq_true, if_true, hacc, if_false]
        refine ⟨h1, fun x => ?_⟩
        rw [h2]
        constructor
        · rintro (hx | ⟨hx1, hx2⟩)
          · rcases List.mem_append.mp hx with hx | hx
            · exact Or.inl hx
            · simp only [List.mem_singleton] at hx
              subst hx
              exact Or.inr ⟨hkey, by simp [Table.keys]⟩
          · exact Or.inr ⟨hx1, by simp [Table.keys] at hx2 ⊢; exact Or.inr hx2⟩
        · rintro (hx | ⟨hx1, hx2⟩)
          · exact Or.inl (List.mem_append_left _ hx)
          · simp only [Table.keys, List.map_cons, List.mem_cons] at hx2
            rcases hx2 with rfl | hx2
            · exact Or.inl (List.mem_append_right _ (List.mem_singleton.mpr rfl))
            · exact Or.inr ⟨hx1, hx2⟩

/-- The set `drain_sites` of `initializeSystem`: each id once, and exactly the
destinations that are not keys of the rates map. -/
theorem collectDrainSites_spec (all : List (Int × List (Int × ℚ))) :
    ∀ (entries : List (Int × List (Int × ℚ))) (drain_sites : List Int), drain_sites.Nodup →
      (collectDrainSites all drain_sites entries).Nodup ∧
      ∀ x, x ∈ collectDrainSites all drain_sites entries ↔
        x ∈ drain_sites ∨ (x ∉ Table.keys all ∧ isDestination entries x) := by
  intro entries
  induction entries with
  | nil => intro acc h; simp [collectDrainSites, isDestination, h]
  | cons p rest ih =>
    intro acc h
    obtain ⟨id, r⟩ := p
    obtain ⟨g1, g2⟩ := collectDrainSitesOf_spec all r acc h
    obtain ⟨h1, h2⟩ := ih _ g1
    simp only [collectDrainSites]
    refine ⟨h1, fun x => ?_⟩
    rw [h2, g2]
    simp only [isDestination, List.mem_cons, exists_eq_or_imp]
    tauto

theorem keys_initialSites (seed_set : Bool) :
    ∀ (rates : List (Int × List (Int × ℚ))) (seed : Nat),
      Table.keys (initialSites seed_set seed rates) = Table.keys rates := by
  intro rates
  induction rates with
  | nil => intro _; rfl
  | cons p rest ih =>
    intro seed
    obtain ⟨id, r⟩ := p
    simp only [initialSites, Table.keys, List.map_cons]
    congr 1
    exact ih _

/-- The outcome of `initializeSystem` on an engine with a time resolution and no stored
site, for a rates map with distinct keys. -/
theorem initializeSystem_eq (s : CoarseGrainSystem) (rates : List (Int × List (Int × ℚ)))
    (hset : s.time_resolution_set_ = true) (hkeys : (Table.keys rates).Nodup)
    (hfresh : s.sites_ = []) :
    s.initializeSystem rates = (none, afterInitializeSystem s rates) := by
  obtain ⟨d1, d2⟩ := collectDrainSites_spec rates rates [] List.nodup_nil
  unfold initializeSystem
  simp only [hset, not_true_eq_false, if_false]
  rw [registerSites_eq rates s hkeys (by intro id _; simp [hfresh, Table.find])]
  simp only
  rw [registerDrainSites_eq _ _ d1]
  · rfl
  · intro id hid
    have hnot : id ∉ Table.keys rates := by
      rcases (d2 id).mp hid with h | h
      · simp at h
      · exact h.1
    simp only [hfresh, List.nil_append]
    rw [Table.find_eq_none_iff, keys_initialSites]
    exact hnot

theorem find_initialSites (seed_set : Bool) :
    ∀ (rates : List (Int × List (Int × ℚ))) (seed : Nat) (x : Int) (r : List (Int × ℚ)),
      Table.find rates x = some r →
      ∃ site, Table.find (initialSites seed_set seed rates) x = some site ∧
        site.id = x ∧ site.neighbors = r ∧ site.cluster_id = constants.unassignedId := by
  intro rates
  induction rates with
  | nil => intro _ x r h; simp [Table.find] at h
  | cons p rest ih =>
    intro seed x r h
    obtain ⟨id, r0⟩ := p
    by_cases hx : id = x
    · simp only [Table.find, hx, if_true, Option.some.injEq] at h
      subst h
      subst hx
      refine ⟨{ Site.new with
                id := id
                neighbors := r0
                seed := if seed_set then some seed else none }, ?_, rfl, rfl, rfl⟩
      simp [initialSites, Table.find]
    · simp only [Table.find, hx, if_false] at h
      obtain ⟨site, h1, h2⟩ := ih (if seed_set then wrapULong (seed + 1) else seed) x r h
      exact ⟨site, by simp [initialSites, Table.find, hx, h1], h2⟩

theorem find_map_sites (f : Int → Site) :
    ∀ (ids : List Int) (x : Int),
      Table.find (ids.map (fun id => (id, f id))) x = if x ∈ ids then some (f x) else none := by
  intro ids
  induction ids with
  | nil => intro x; simp [Table.find]
  | cons a rest ih =>
    intro x
    by_cases hx : a = x
    · simp [Table.find, hx]
    · have hx2 : ¬ x = a := fun e => hx e.symm
      simp [Table.find, hx, hx2, ih]

/-- The site container and the dispatch table `initializeSystem` leaves on an engine that
had no site and no dispatch entry. -/
theorem afterInitializeSystem_find (s : CoarseGrainSystem)
    (rates : List (Int × List (Int × ℚ))) (hsites : s.sites_ = [])
    (hfeatures : s.topology_features_ = []) (x : Int) :
    (∀ r, Table.find rates x = some r →
      ∃ site, Table.find (afterInitializeSystem s rates).sites_ x = some site ∧
        site.id = x ∧ site.neighbors = r ∧ site.cluster_id = constants.unassignedId) ∧
    (x ∉ Table.keys rates → isDestination rates x →
      Table.find (afterInitializeSystem s rates).sites_ x = some (Site.new.setId x)) ∧
    (x ∉ Table.keys rates → ¬ isDestination rates x →
      Table.find (afterInitializeSystem s rates).sites_ x = none) ∧
    Table.find (afterInitializeSystem s rates).topology_features_ x
      = if x ∈ Table.keys rates ∨ isDestination rates x then some (Feature.site x) else none := by
  obtain ⟨_, d2⟩ := collectDrainSites_spec rates rates [] List.nodup_nil
  have hdrain : x ∈ collectDrainSites rates [] rates ↔
      x ∉ Table.keys rates ∧ isDestination rates x := by
    rw [d2]; simp
  have hsome : ∀ v, Table.find (initialSites s.seed_set_ s.seed_ rates) x = some v →
      Table.find (afterInitializeSystem s rates).sites_ x = some v := by
    intro v hv
    simp only [afterInitializeSystem, hsites, List.nil_append]
    rw [Table.find_append, hv]
  have hnone : x ∉ Table.keys rates →
      Table.find (afterInitializeSystem s rates).sites_ x
        = if x ∈ collectDrainSites rates [] rates then some (Site.new.setId x) else none := by
    intro hx
    have hv : Table.find (initialSites s.seed_set_ s.seed_ rates) x = none := by
      rw [Table.find_eq_none_iff, keys_initialSites]; exact hx
    simp only [afterInitializeSystem, hsites, List.nil_append]
    rw [Table.find_append, hv]
    exact find_map_sites _ _ _
  refine ⟨?_, ?_, ?_, ?_⟩
  · intro r hr
    obtain ⟨site, h1, h2⟩ := find_initialSites s.seed_set_ rates s.seed_ x r hr
    exact ⟨site, hsome site h1, h2⟩
  · intro hx hd
    rw [hnone hx]
    simp [hdrain.mpr ⟨hx, hd⟩]
  · intro hx hd
    have hnot : x ∉ collectDrainSites rates [] rates := fun h => hd (hdrain.mp h).2
    rw [hnone hx]
    simp [hnot]
  · simp only [afterInitializeSystem, hfeatures]
    rw [find_registerAll, find_registerAll]
    by_cases hk : x ∈ Table.keys rates
    · simp [hk]
    · by_cases hd : isDestination rates x
      · simp [hdrain.mpr ⟨hk, hd⟩, hd]
      · have hnot : x ∉ collectDrainSites rates [] rates := fun h => hd (hdrain.mp h).2
        simp [hk, hd, hnot, Table.find]

/-- C16: on an engine with a time resolution and nothing registered, `initializeSystem`
over a rates map (distinct keys) returns; afterwards the registered ids, and the stored
sites, are exactly the keys of the map and the ids that occur as a destination; each of
them is dispatched to its own site, which carries its id, the rates of its entry, or no
rates when it occurs only as a destination, and no cluster id; there is no cluster. -/
theorem initializeSystem_registers (s : CoarseGrainSystem)
    (rates : List (Int × List (Int × ℚ))) (hset : s.time_resolution_set_ = true)
    (hkeys : (Table.keys rates).Nodup) (hfresh : Uninitialized s) :
    ∃ s1, s.initializeSystem rates = (none, s1) ∧
      (∀ x, registered s1 x ↔ x ∈ Table.keys rates ∨ isDestination rates x) ∧
      (∀ x, (Table.find s1.sites_ x).isSome ↔ x ∈ Table.keys rates ∨ isDestination rates x) ∧
      (∀ x, x ∈ Table.keys rates ∨ isDestination rates x →
        Table.find s1.topology_features_ x = some (Feature.site x)) ∧
      (∀ x r, Table.find rates x = some r →
        ∃ site, Table.find s1.sites_ x = some site ∧ site.id = x ∧ site.neighbors = r) ∧
      (∀ x, x ∉ Table.keys rates → isDestination rates x →
        ∃ site, Table.find s1.sites_ x = some site ∧ site.id = x ∧ site.neighbors = []) ∧
      (∀ x site, Table.find s1.sites_ x = some site →
        site.cluster_id = constants.unassignedId) ∧
      s1.clusters_ = [] := by
  obtain ⟨hsites, hclusters, hfeatures⟩ := hfresh
  have hfind := afterInitializeSystem_find s rates hsites hfeatures
  have hkey : ∀ x, x ∈ Table.keys rates → ∃ r, Table.find rates x = some r := by
    intro x hx
    have := (Table.find_isSome_iff rates x).mpr hx
    cases hr : Table.find rates x with
    | none => simp [hr] at this
    | some r => exact ⟨r, rfl⟩
  have hstored : ∀ x, (Table.find (afterInitializeSystem s rates).sites_ x).isSome ↔
      x ∈ Table.keys rates ∨ isDestination rates x := by
    intro x
    obtain ⟨f1, f2, f3, _⟩ := hfind x
    by_cases hk : x ∈ Table.keys rates
    · obtain ⟨r, hr⟩ := hkey x hk
      obtain ⟨site, h1, _⟩ := f1 r hr
      simp [h1, hk]
    · by_cases hd : isDestination rates x
      · simp [f2 hk hd, hd]
      · simp [f3 hk hd, hk, hd]
  refine ⟨afterInitializeSystem s rates, initializeSystem_eq s rates hset hkeys hsites,
    ?_, hstored, ?_, ?_, ?_, ?_, hclusters⟩
  · intro x
    obtain ⟨_, _, _, f4⟩ := hfind x
    unfold registered
    rw [f4]
    by_cases hc : x ∈ Table.keys rates ∨ isDestination rates x
    · simp only [hc, if_true, featureLive]
      exact ⟨fun _ => trivial, fun _ => (hstored x).mpr hc⟩
    · simp only [hc, if_false]
  · intro x hx
    rw [(hfind x).2.2.2]
    simp [hx]
  · intro x r hr
    obtain ⟨site, h1, h2, h3, _⟩ := (hfind x).1 r hr
    exact ⟨site, h1, h2, h3⟩
  · intro x hk hd
    exact ⟨_, (hfind x).2.1 hk hd, rfl, rfl⟩
  · intro x site hx
    obtain ⟨f1, f2, f3, _⟩ := hfind x
    by_cases hk : x ∈ Table.keys rates
    · obtain ⟨r, hr⟩ := hkey x hk
      obtain ⟨site1, h1, _, _, h4⟩ := f1 r hr
      rw [h1] at hx
      simp only [Option.some.injEq] at hx
      rw [← hx]; exact h4
    · by_cases hd : isDestination rates x
      · rw [f2 hk hd] at hx
        simp only [Option.some.injEq] at hx
        rw [← hx]; rfl
      · rw [f3 hk hd] at hx
        simp at hx

theorem initializeSystem_registers_witness :
    Examples.configured.time_resolution_set_ = true ∧
    (Table.keys Examples.pairRates).Nodup ∧
    Uninitialized Examples.configured ∧
    Examples.configured.initializeSystem Examples.pairRates = (none, Examples.pairs) ∧
    ∃ s1, Examples.configured.initializeSystem Examples.pairRates = (none, s1) ∧
      (∀ x, registered s1 x ↔
        x ∈ Table.keys Examples.pairRates ∨ isDestination Examples.pairRates x) ∧
      (∀ x, (Table.find s1.sites_ x).isSome ↔
        x ∈ Table.keys Examples.pairRates ∨ isDestination Examples.pairRates x) ∧
      (∀ x, x ∈ Table.keys Examples.pairRates ∨ isDestination Examples.pairRates x →
        Table.find s1.topology_features_ x = some (Feature.site x)) ∧
      (∀ x r, Table.find Examples.pairRates x = some r →
        ∃ site, Table.find s1.sites_ x = some site ∧ site.id = x ∧ site.neighbors = r) ∧
      (∀ x, x ∉ Table.keys Examples.pairRates → isDestination Examples.pairRates x →
        ∃ site, Table.find s1.sites_ x = some site ∧ site.id = x ∧ site.neighbors = []) ∧
      (∀ x site, Table.find s1.sites_ x = some site →
        site.cluster_id = constants.unassignedId) ∧
      s1.clusters_ = [] :=
  ⟨by decide!, by decide!, by decide!, by decide!,
    initializeSystem_registers Examples.configured Examples.pairRates (by decide!) (by decide!)
      (by decide!)⟩

/-! ### The settings before initialisation -/

theorem setTimeResolutions_failed :
    ∀ (attempts : List ℚ) (s : CoarseGrainSystem), (∀ t ∈ attempts, t ≤ 0) →
      s.setTimeResolutions attempts = s := by
  intro attempts
  induction attempts with
  | nil => intro s _; rfl
  | cons a rest ih =>
    intro s h
    have ha : a ≤ 0 := h a (List.mem_cons_self _ _)
    simp only [setTimeResolutions, setTimeResolution, ha, if_true]
    exact ih s (fun t ht => h t (List.mem_cons_of_mem _ ht))

/-- C17: when no time resolution has been set (the flag is not set and every call of
`setTimeResolution` made since was rejected), `initializeSystem` throws `runtime_error`
and the state it leaves is the state from before: no site is stored and no dispatch
entry is written. -/
theorem initializeSystem_requires_time_resolution (s : CoarseGrainSystem)
    (attempts : List ℚ) (rates : List (Int × List (Int × ℚ)))
    (hunset : s.time_resolution_set_ = false) (hfailed : ∀ t ∈ attempts, t ≤ 0) :
    (s.setTimeResolutions attempts).initializeSystem rates = (some .runtime_error, s) ∧
    ((s.setTimeResolutions attempts).initializeSystem rates).2.sites_ = s.sites_ ∧
    ((s.setTimeResolutions attempts).initializeSystem rates).2.topology_features_
      = s.topology_features_ := by
  rw [setTimeResolutions_failed attempts s hfailed]
  have h : s.initializeSystem rates = (some .runtime_error, s) := by
    unfold initializeSystem
    simp [hunset]
  rw [h]
  exact ⟨rfl, rfl, rfl⟩

theorem initializeSystem_requires_time_resolution_witness :
    CoarseGrainSystem.new.time_resolution_set_ = false ∧
    (∀ t ∈ [(0 : ℚ), -1], t ≤ 0) ∧
    Uninitialized ((CoarseGrainSystem.new.setTimeResolutions [0, -1]).initializeSystem
      Examples.pairRates).2 ∧
    ((CoarseGrainSystem.new.setTimeResolutions [0, -1]).initializeSystem Examples.pairRates
        = (some .runtime_error, CoarseGrainSystem.new) ∧
      ((CoarseGrainSystem.new.setTimeResolutions [0, -1]).initializeSystem
        Examples.pairRates).2.sites_ = CoarseGrainSystem.new.sites_ ∧
      ((CoarseGrainSystem.new.setTimeResolutions [0, -1]).initializeSystem
        Examples.pairRates).2.topology_features_ = CoarseGrainSystem.new.topology_features_) :=
  ⟨by decide, by decide!, by decide!,
    initializeSystem_requires_time_resolution CoarseGrainSystem.new [0, -1] Examples.pairRates
      (by decide) (by decide!)⟩

/-- C19, as stated, fails: after `initializeSystem` has been called with an empty rates
map and has returned, `setRandomSeed(7)` returns and changes the seed from 0 to 7; and
after `initializeSystem` has been called on a new engine and has thrown for want of a
time resolution, `setRandomSeed(7)` returns as well. -/
theorem setRandomSeed_after_initializeSystem_succeeds :
    (∃ s1 s2, Examples.configured.initializeSystem [] = (none, s1) ∧
      s1.setRandomSeed 7 = (none, s2) ∧ s1.seed_ = 0 ∧ s2.seed_ = 7 ∧ s2.seed_set_ = true) ∧
    (∃ s1 s2, CoarseGrainSystem.new.initializeSystem Examples.pairRates
        = (some .runtime_error, s1) ∧
      s1.setRandomSeed 7 = (none, s2) ∧ s1.seed_ = 0 ∧ s2.seed_ = 7 ∧ s2.seed_set_ = true) :=
  ⟨⟨(Examples.configured.initializeSystem []).2,
      ((Examples.configured.initializeSystem []).2.setRandomSeed 7).2,
      by decide!, by decide!, by decide!, by decide!, by decide!⟩,
    ⟨(CoarseGrainSystem.new.initializeSystem Examples.pairRates).2,
      ((CoarseGrainSystem.new.initializeSystem Examples.pairRates).2.setRandomSeed 7).2,
      by decide!, by decide!, by decide!, by decide!, by decide!⟩⟩

/-- C19 (amended): `setRandomSeed` returns and stores the seed when the dispatch table is
empty, as it is before `initializeSystem`; it throws `runtime_error` and leaves the state
unchanged when the dispatch table is not empty, as it is after an `initializeSystem` that
has returned for a rates map that is not empty. -/
theorem setRandomSeed_spec (s : CoarseGrainSystem) (seed : Nat)
    (rates : List (Int × List (Int × ℚ))) :
    (s.topology_features_ = [] →
      s.setRandomSeed seed = (none, { s with seed_ := seed, seed_set_ := true })) ∧
    (s.topology_features_ ≠ [] → s.setRandomSeed seed = (some .runtime_error, s)) ∧
    (s.time_resolution_set_ = true → (Table.keys rates).Nodup → Uninitialized s →
      rates ≠ [] →
      ∃ s1, s.initializeSystem rates = (none, s1) ∧
        s1.setRandomSeed seed = (some .runtime_error, s1)) := by
  have hfail : ∀ s0 : CoarseGrainSystem, s0.topology_features_ ≠ [] →
      s0.setRandomSeed seed = (some .runtime_error, s0) := by
    intro s0 h
    have hlen : s0.topology_features_.length ≠ 0 := by
      intro e
      exact h (List.length_eq_zero.mp e)
    simp [setRandomSeed, hlen]
  refine ⟨?_, hfail s, ?_⟩
  · intro h
    simp [setRandomSeed, h]
  · intro hset hkeys hfresh hne
    refine ⟨afterInitializeSystem s rates,
      initializeSystem_eq s rates hset hkeys hfresh.1, hfail _ ?_⟩
    cases rates with
    | nil => exact absurd rfl hne
    | cons p rest =>
      intro hempty
      have hfind := (afterInitializeSystem_find s (p :: rest) hfresh.1 hfresh.2.2 p.1).2.2.2
      rw [hempty] at hfind
      simp [Table.find, Table.keys] at hfind

theorem setRandomSeed_spec_witness :
    (Examples.configured.setRandomSeed 7).2.seed_ = 7 ∧
    Examples.pairs.setRandomSeed 7 = (some .runtime_error, Examples.pairs) ∧
    ∃ s1, Examples.configured.initializeSystem Examples.pairRates = (none, s1) ∧
      s1.setRandomSeed 7 = (some .runtime_error, s1) :=
  ⟨by decide!,
    (setRandomSeed_spec Examples.pairs 7 []).2.1 (by decide!),
    (setRandomSeed_spec Examples.configured 7 Examples.pairRates).2.2 (by decide!) (by decide!)
      (by decide!) (by decide!)⟩

/-! ### The seeds handed out -/

theorem wrapULong_of_lt {x : Nat} (h : x < 18446744073709551616) : wrapULong x = x :=
  Nat.mod_eq_of_lt h

theorem seedAfter_set (seed : Nat) :
    ∀ n : Nat, seed + n < 18446744073709551616 → seedAfter true seed n = seed + n := by
  intro n
  induction n generalizing seed with
  | zero => intro _; rfl
  | succ k ih =>
    intro h
    have hw : wrapULong (seed + 1) = seed + 1 := wrapULong_of_lt (by omega)
    simp only [seedAfter, if_true, hw]
    rw [ih (seed + 1) (by omega)]
    omega

theorem seedAfter_unset (seed : Nat) : ∀ n : Nat, seedAfter false seed n = seed := by
  intro n
  induction n with
  | zero => rfl
  | succ k ih => simpa [seedAfter] using ih

/-- Without a seed the sites the first loop builds carry no seed. -/
theorem initialSites_unseeded :
    ∀ (rates : List (Int × List (Int × ℚ))) (seed : Nat) (x : Int) (site : Site),
      Table.find (initialSites false seed rates) x = some site → site.seed = none := by
  intro rates
  induction rates with
  | nil => intro _ x site h; simp [initialSites, Table.find] at h
  | cons p rest ih =>
    intro seed x site h
    obtain ⟨id, r⟩ := p
    by_cases hx : id = x
    · simp only [initialSites, Table.find, hx, if_true, Option.some.injEq] at h
      rw [← h]; rfl
    · simp only [initialSites, Table.find, hx, if_false] at h
      exact ih _ x site h

/-- With a seed `S` the `i`-th site the first loop builds carries the seed `S + i`. -/
theorem initialSites_get :
    ∀ (rates : List (Int × List (Int × ℚ))) (seed : Nat), (Table.keys rates).Nodup →
      seed + rates.length < 18446744073709551616 →
      ∀ (i : Nat) (hi : i < rates.length),
        ∃ site, Table.find (initialSites true seed rates) (rates.get ⟨i, hi⟩).1 = some site ∧
          site.seed = some (seed + i) := by
  intro rates
  induction rates with
  | nil => intro _ _ _ i hi; simp at hi
  | cons p rest ih =>
    intro seed hn hlt i hi
    obtain ⟨id, r⟩ := p
    have hn2 : id ∉ Table.keys rest ∧ (Table.keys rest).Nodup := by
      simpa [Table.keys] using hn
    have hw : wrapULong (seed + 1) = seed + 1 :=
      wrapULong_of_lt (by simp only [List.length_cons] at hlt; omega)
    cases i with
    | zero =>
      refine ⟨{ Site.new with id := id, neighbors := r, seed := some seed }, ?_, rfl⟩
      simp [initialSites, Table.find]
    | succ k =>
      have hk : k < rest.length := by simpa using hi
      obtain ⟨site, h1, h2⟩ := ih (seed + 1) hn2.2
        (by simp only [List.length_cons] at hlt; omega) k hk
      have hne : ¬ id = (rest.get ⟨k, hk⟩).1 := by
        intro e
        apply hn2.1
        rw [e]
        exact List.mem_map.mpr ⟨rest.get ⟨k, hk⟩, List.get_mem _ _ _, rfl⟩
      refine ⟨site, ?_, by rw [h2]; congr 1; omega⟩
      simp only [List.get_cons_succ, initialSites, if_true, hw, Table.find, hne, if_false]
      exact h1

/-- With a seed `S` the seeds of the sites the first loop builds lie in `[S, S + n)` and
are pairwise distinct. -/
theorem initialSites_seeds :
    ∀ (rates : List (Int × List (Int × ℚ))) (seed : Nat),
      seed + rates.length < 18446744073709551616 →
      (∀ x site, Table.find (initialSites true seed rates) x = some site →
        ∃ v, site.seed = some v ∧ seed ≤ v ∧ v < seed + rates.length) ∧
      (∀ x y sx sy v, Table.find (initialSites true seed rates) x = some sx →
        Table.find (initialSites true seed rates) y = some sy →
        sx.seed = some v → sy.seed = some v → x = y) := by
  intro rates
  induction rates with
  | nil =>
    intro seed _
    refine ⟨?_, ?_⟩
    · intro x site h; simp [initialSites, Table.find] at h
    · intro x y sx sy v h; simp [initialSites, Table.find] at h
  | cons p rest ih =>
    intro seed hlt
    obtain ⟨id, r⟩ := p
    simp only [List.length_cons] at hlt
    have hw : wrapULong (seed + 1) = seed + 1 := wrapULong_of_lt (by omega)
    obtain ⟨g1, g2⟩ := ih (seed + 1) (by omega)
    have hform : ∀ x site, Table.find (initialSites true seed ((id, r) :: rest)) x = some site →
        (id = x ∧ site.seed = some seed) ∨
        (id ≠ x ∧ Table.find (initialSites true (seed + 1) rest) x = some site) := by
      intro x site h
      by_cases hx : id = x
      · simp only [initialSites, Table.find, hx, if_true, Option.some.injEq] at h
        exact Or.inl ⟨hx, by rw [← h]⟩
      · simp only [initialSites, Table.find, hx, if_false, if_true, hw] at h
        exact Or.inr ⟨hx, h⟩
    refine ⟨?_, ?_⟩
    · intro x site h
      rcases hform x site h with ⟨_, hs⟩ | ⟨_, hs⟩
      · exact ⟨seed, hs, le_refl _, by simp only [List.length_cons]; omega⟩
      · obtain ⟨v, hv, h1, h2⟩ := g1 x site hs
        exact ⟨v, hv, by omega, by simp only [List.length_cons]; omega⟩
    · intro x y sx sy v hx hy hsx hsy
      rcases hform x sx hx with ⟨ex, hs1⟩ | ⟨_, hs1⟩
      · rcases hform y sy hy with ⟨ey, _⟩ | ⟨_, hs2⟩
        · rw [← ex, ← ey]
        · obtain ⟨w, hw1, hw2, _⟩ := g1 y sy hs2
          rw [hsx] at hs1
          rw [hsy] at hw1
          simp only [Option.some.injEq] at hs1 hw1
          omega
      · rcases hform y sy hy with ⟨_, hs2⟩ | ⟨_, hs2⟩
        · obtain ⟨w, hw1, hw2, _⟩ := g1 x sx hs1
          rw [hsy] at hs2
          rw [hsx] at hw1
          simp only [Option.some.injEq] at hs2 hw1
          omega
        · exact g2 x y sx sy v hs1 hs2 hsx hsy

theorem siteSeed_eq_some {s : CoarseGrainSystem} {x : Int} {o : Option Nat} :
    siteSeed s x = some o ↔ ∃ site, Table.find s.sites_ x = some site ∧ site.seed = o := by
  unfold siteSeed
  cases Table.find s.sites_ x with
  | none => simp
  | some site => simp

theorem clusterSeed_eq_some {s : CoarseGrainSystem} {c : Int} {o : Option Nat} :
    clusterSeed s c = some o ↔ ∃ C, Table.find s.clusters_ c = some C ∧ C.seed = o := by
  unfold clusterSeed
  cases Table.find s.clusters_ c with
  | none => simp
  | some C => simp

/-- Writing cluster ids leaves the seeds of the sites as they are. -/
theorem siteSeed_setClusterIds (s s1 : CoarseGrainSystem) (c : Int) (ids : List Int)
    (h : s1.sites_ = setClusterIds s.sites_ c ids) (x : Int) : siteSeed s1 x = siteSeed s x := by
  unfold siteSeed
  rw [h, find_setClusterIds]
  by_cases hx : x ∈ ids
  · cases Table.find s.sites_ x with
    | none => simp [hx]
    | some site => simp [hx]
  · simp [hx]

/-- The migrations erase clusters and keep the seed of every cluster they keep. -/
theorem migrateAll_seeds (env : Collaborators) (sites : List (Int × Site)) (fav : Int) :
    ∀ (cids : List Int) (clusters : List (Int × Cluster)) (c : Int),
      (Table.find (migrateAll env sites fav clusters cids) c).map Cluster.seed = none ∨
      (Table.find (migrateAll env sites fav clusters cids) c).map Cluster.seed
        = (Table.find clusters c).map Cluster.seed := by
  intro cids
  induction cids with
  | nil => intro clusters c; exact Or.inr rfl
  | cons cid rest ih =>
    intro clusters c
    cases hF : Table.find clusters fav with
    | none => simp only [migrateAll, hF]; exact Or.inr trivial
    | some F =>
      cases hO : Table.find clusters cid with
      | none => simp only [migrateAll, hF, hO]; exact Or.inr trivial
      | some O =>
        simp only [migrateAll, hF, hO]
        rcases ih (Table.erase
          (Table.assign
            (Table.assign clusters fav (F.migrateSitesFrom env sites O).1)
            cid (F.migrateSitesFrom env sites O).2) cid) c with h | h
        · exact Or.inl h
        · rw [h, Table.find_erase]
          by_cases hc : c = cid
          · simp [hc]
          · right
            simp only [hc, if_false, Table.find_assign]
            by_cases hcf : c = fav
            · simp [hcf, hF, Cluster.migrateSitesFrom,
                Cluster.updateProbabilitiesAndTimeConstant]
            · simp [hcf]

/-- The step `mergeSitesAndClusters_` leaves the seed counter and the seeds of the sites
as they are, and every cluster it keeps has the seed it had. -/
theorem mergeSitesAndClusters_seeds {env : Collaborators} {s s1 : CoarseGrainSystem}
    {m : List (Int × Int)} {fav : Int} (h : s.mergeSitesAndClusters_ env m fav = .ok s1) :
    s1.seed_ = s.seed_ ∧ s1.seed_set_ = s.seed_set_ ∧
    (∀ x, siteSeed s1 x = siteSeed s x) ∧
    (∀ c, clusterSeed s1 c = none ∨ clusterSeed s1 c = clusterSeed s c) := by
  have hsites := mergeSitesAndClusters_sites h
  unfold mergeSitesAndClusters_ at h
  obtain ⟨⟨s2, iso, cids⟩, hloop, h⟩ := Result.bind_eq_ok.mp h
  obtain ⟨F, hF, h⟩ := Result.bind_eq_ok.mp h
  obtain ⟨F2, hF2, h⟩ := Result.bind_eq_ok.mp h
  obtain ⟨hs2, _, _⟩ := mergeLoop_eq_ok fav m s s2 [] iso [] cids hloop
  have hs1 := migrateLoop_eq_ok env fav _ _ _ h
  have hfindF := getCluster_eq_ok hF
  have hfindF2 := getCluster_eq_ok hF2
  simp only [setCluster, Table.find_assign_same, Option.some.injEq] at hfindF2
  refine ⟨by rw [hs1, hs2]; rfl, by rw [hs1, hs2]; rfl,
    siteSeed_setClusterIds s s1 _ _ hsites, ?_⟩
  intro c
  have hsame : (Table.find (Table.assign (Table.assign s2.clusters_ fav (F.addSites iso)) fav
        (Cluster.updateProbabilitiesAndTimeConstant env
          (s2.setCluster fav (F.addSites iso)).sites_ F2)) c).map Cluster.seed
      = (Table.find s.clusters_ c).map Cluster.seed := by
    simp only [Table.find_assign]
    by_cases hc : c = fav
    · have hold : Table.find s.clusters_ fav = some F := by
        rw [hs2] at hfindF; exact hfindF
      simp [hc, hold, ← hfindF2, Cluster.updateProbabilitiesAndTimeConstant, Cluster.addSites]
    · simp only [hc, if_false]
      rw [hs2]
  unfold clusterSeed
  rw [hs1]
  rcases migrateAll_seeds env
      ((s2.setCluster fav (F.addSites iso)).setCluster fav
        (Cluster.updateProbabilitiesAndTimeConstant env
          (s2.setCluster fav (F.addSites iso)).sites_ F2)).sites_ fav cids
      ((s2.setCluster fav (F.addSites iso)).setCluster fav
        (Cluster.updateProbabilitiesAndTimeConstant env
          (s2.setCluster fav (F.addSites iso)).sites_ F2)).clusters_ c with h1 | h1
  · exact Or.inl h1
  · right
    rw [h1]
    exact hsame

/-- A step that keeps the seeds of the sites, keeps or erases the clusters, and gives at
most the cluster `k` the current value of the seed counter, which it then raises, keeps
the seeds distinct and below the counter. -/
theorem seeds_step {s s1 : CoarseGrainSystem} (k : Int)
    (hsites : ∀ x, siteSeed s1 x = siteSeed s x)
    (hclusters : ∀ c, c ≠ k → clusterSeed s1 c = none ∨ clusterSeed s1 c = clusterSeed s c)
    (hk : clusterSeed s1 k = none ∨ clusterSeed s1 k = clusterSeed s k ∨
      (clusterSeed s1 k = some (some s.seed_) ∧ s.seed_ < s1.seed_))
    (hcount : s.seed_ ≤ s1.seed_)
    (hd : SeedsDistinct s) (hb : SeedsBelowCounter s) (hc : ClustersSeeded s) :
    SeedsDistinct s1 ∧ SeedsBelowCounter s1 ∧ ClustersSeeded s1 := by
  obtain ⟨d1, d2, d3⟩ := hd
  obtain ⟨b1, b2⟩ := hb
  have hclass : ∀ c v, clusterSeed s1 c = some (some v) →
      clusterSeed s c = some (some v) ∨ (c = k ∧ v = s.seed_ ∧ s.seed_ < s1.seed_) := by
    intro c v h
    by_cases hck : c = k
    · subst hck
      rcases hk with h1 | h1 | ⟨h1, h2⟩
      · rw [h1] at h; simp at h
      · rw [h1] at h; exact Or.inl h
      · rw [h1] at h
        simp only [Option.some.injEq] at h
        exact Or.inr ⟨rfl, h.symm, h2⟩
    · rcases hclusters c hck with h1 | h1
      · rw [h1] at h; simp at h
      · rw [h1] at h; exact Or.inl h
  refine ⟨⟨?_, ?_, ?_⟩, ⟨?_, ?_⟩, ?_⟩
  · intro x y v hx hy
    rw [hsites] at hx hy
    exact d1 x y v hx hy
  · intro c d v hcv hdv
    rcases hclass c v hcv with h1 | ⟨h1, h2, _⟩
    · rcases hclass d v hdv with h3 | ⟨_, h4, _⟩
      · exact d2 c d v h1 h3
      · have := b2 c v h1
        omega
    · rcases hclass d v hdv with h3 | ⟨h3, _, _⟩
      · have := b2 d v h3
        omega
      · rw [h1, h3]
  · intro x c v hx hcv
    rw [hsites] at hx
    rcases hclass c v hcv with h1 | ⟨_, h2, _⟩
    · exact d3 x c v hx h1
    · have := b1 x v hx
      omega
  · intro x v hx
    rw [hsites] at hx
    exact lt_of_lt_of_le (b1 x v hx) hcount
  · intro c v hcv
    rcases hclass c v hcv with h1 | ⟨_, h2, h3⟩
    · exact lt_of_lt_of_le (b2 c v h1) hcount
    · omega
  · intro c hnone
    by_cases hck : c = k
    · subst hck
      rcases hk with h1 | h1 | ⟨h1, _⟩
      · rw [h1] at hnone; simp at hnone
      · rw [h1] at hnone; exact hc c hnone
      · rw [h1] at hnone; simp at hnone
    · rcases hclusters c hck with h1 | h1
      · rw [h1] at hnone; simp at hnone
      · rw [h1] at hnone; exact hc c hnone

/-- The seeds in the state `createCluster_` leaves. -/
theorem afterCreateCluster_seeds (env : Collaborators) (s : CoarseGrainSystem)
    (siteIds : List Int) (internal_time_limit : ℚ) :
    (∀ x, siteSeed (afterCreateCluster env s siteIds internal_time_limit) x = siteSeed s x) ∧
    (∀ c, c ≠ s.cluster_id_count_ →
      clusterSeed (afterCreateCluster env s siteIds internal_time_limit) c = clusterSeed s c) ∧
    clusterSeed (afterCreateCluster env s siteIds internal_time_limit) s.cluster_id_count_
      = some (if s.seed_set_ then some s.seed_ else none) ∧
    (afterCreateCluster env s siteIds internal_time_limit).seed_
      = (if s.seed_set_ then wrapULong (s.seed_ + 1) else s.seed_) ∧
    (afterCreateCluster env s siteIds internal_time_limit).seed_set_ = s.seed_set_ := by
  refine ⟨siteSeed_setClusterIds s _ _ _ rfl, ?_, ?_, rfl, rfl⟩
  · intro c hc
    simp [clusterSeed, afterCreateCluster, Table.find_assign, hc]
  · simp [clusterSeed, afterCreateCluster, Table.find_assign, createdCluster]

/-- A coarse-graining step on an engine with a seed keeps the stored sites keyed, the
seeds distinct and below the counter and every cluster seeded, and raises the counter by
at most one, as long as the counter does not wrap. -/
theorem seeds_applyStep (env : Collaborators) {s s1 : CoarseGrainSystem}
    {step : CoarseGrainingStep} (hstep : applyStep env s step = .ok s1)
    (hkeyed : SitesKeyed s) (hset : s.seed_set_ = true)
    (hlt : s.seed_ + 1 < 18446744073709551616)
    (hd : SeedsDistinct s) (hb : SeedsBelowCounter s) (hc : ClustersSeeded s) :
    SitesKeyed s1 ∧ s1.seed_set_ = true ∧ s.seed_ ≤ s1.seed_ ∧ s1.seed_ ≤ s.seed_ + 1 ∧
    (∀ x, siteSeed s1 x = siteSeed s x) ∧
    SeedsDistinct s1 ∧ SeedsBelowCounter s1 ∧ ClustersSeeded s1 := by
  cases step with
  | create siteIds internal_time_limit =>
    simp only [applyStep] at hstep
    obtain ⟨r, hr, hs1⟩ := Result.bind_eq_ok.mp hstep
    have hreg := createCluster_registered hkeyed hr
    rw [createCluster_eq env s siteIds internal_time_limit hkeyed hreg] at hr
    simp only [Except.ok.injEq] at hr
    subst hr
    simp only [Result.pure_eq, Except.ok.injEq] at hs1
    subst hs1
    obtain ⟨a1, a2, a3, a4, a5⟩ := afterCreateCluster_seeds env s siteIds internal_time_limit
    have hw : wrapULong (s.seed_ + 1) = s.seed_ + 1 := wrapULong_of_lt hlt
    rw [hset] at a3 a4
    simp only [if_true, hw] at a3 a4
    refine ⟨sitesKeyed_setClusterIds _ _ _ hkeyed, by rw [a5, hset], by omega, by omega, a1,
      seeds_step s.cluster_id_count_ a1 (fun c hne => Or.inr (a2 c hne))
        (Or.inr (Or.inr ⟨a3, by omega⟩)) (by omega) hd hb hc⟩
  | merge siteIds =>
    simp only [applyStep] at hstep
    obtain ⟨m, _, hmerge⟩ := Result.bind_eq_ok.mp hstep
    obtain ⟨m1, m2, m3, m4⟩ := mergeSitesAndClusters_seeds hmerge
    have hk1 : SitesKeyed s1 := by
      unfold SitesKeyed
      rw [mergeSitesAndClusters_sites hmerge]
      exact sitesKeyed_setClusterIds _ _ _ hkeyed
    refine ⟨hk1, by rw [m2, hset], by omega, by omega, m3,
      seeds_step 0 m3 (fun c _ => m4 c) ?_ (by omega) hd hb hc⟩
    rcases m4 0 with h | h
    · exact Or.inl h
    · exact Or.inr (Or.inl h)

/-- A sequence of coarse-graining steps on an engine with a seed, as long as the counter
does not wrap. -/
theorem seeds_applySteps (env : Collaborators) :
    ∀ (steps : List CoarseGrainingStep) (s s1 : CoarseGrainSystem),
      applySteps env s steps = .ok s1 → SitesKeyed s → s.seed_set_ = true →
      s.seed_ + steps.length < 18446744073709551616 →
      SeedsDistinct s → SeedsBelowCounter s → ClustersSeeded s →
      s1.seed_ ≤ s.seed_ + steps.length ∧ (∀ x, siteSeed s1 x = siteSeed s x) ∧
      SeedsDistinct s1 ∧ SeedsBelowCounter s1 ∧ ClustersSeeded s1 := by
  intro steps
  induction steps with
  | nil =>
    intro s s1 hrun _ _ _ hd hb hc
    simp only [applySteps, Except.ok.injEq] at hrun
    subst hrun
    exact ⟨by simp, fun _ => rfl, hd, hb, hc⟩
  | cons step rest ih =>
    intro s s1 hrun hkeyed hset hlt hd hb hc
    simp only [List.length_cons] at hlt
    simp only [applySteps] at hrun
    obtain ⟨s2, hs2, hrest⟩ := Result.bind_eq_ok.mp hrun
    obtain ⟨k1, k2, k3, k4, k5, k6, k7, k8⟩ :=
      seeds_applyStep env hs2 hkeyed hset (by omega) hd hb hc
    obtain ⟨j1, j2, j3⟩ := ih s2 s1 hrest k1 k2 (by omega) k6 k7 k8
    refine ⟨by simp only [List.length_cons]; omega, fun x => by rw [j2, k5], j3⟩

theorem initialSites_keyed (seed_set : Bool) :
    ∀ (rates : List (Int × List (Int × ℚ))) (seed : Nat),
      ∀ p ∈ initialSites seed_set seed rates, p.2.id = p.1 := by
  intro rates
  induction rates with
  | nil => intro _ p hp; simp [initialSites] at hp
  | cons q rest ih =>
    intro seed p hp
    obtain ⟨id, r⟩ := q
    simp only [initialSites, List.mem_cons] at hp
    rcases hp with rfl | hp
    · rfl
    · exact ih _ p hp

/-- A site `initializeSystem` stores on an engine without sites is one the first loop has
built, or a drain site. -/
theorem afterInitializeSystem_site (s : CoarseGrainSystem)
    (rates : List (Int × List (Int × ℚ))) (hsites : s.sites_ = []) (x : Int) :
    (∀ site, Table.find (initialSites s.seed_set_ s.seed_ rates) x = some site →
      Table.find (afterInitializeSystem s rates).sites_ x = some site) ∧
    (∀ site, Table.find (afterInitializeSystem s rates).sites_ x = some site →
      Table.find (initialSites s.seed_set_ s.seed_ rates) x = some site ∨
      (x ∉ Table.keys rates ∧ site = Site.new.setId x)) := by
  have hform : (afterInitializeSystem s rates).sites_
      = initialSites s.seed_set_ s.seed_ rates ++
        (collectDrainSites rates [] rates).map (fun id => (id, Site.new.setId id)) := by
    simp [afterInitializeSystem, hsites]
  refine ⟨?_, ?_⟩
  · intro site h
    rw [hform, Table.find_append, h]
  · intro site h
    rw [hform, Table.find_append] at h
    cases hinit : Table.find (initialSites s.seed_set_ s.seed_ rates) x with
    | some v =>
      rw [hinit] at h
      exact Or.inl h
    | none =>
      rw [hinit] at h
      have hx : x ∉ Table.keys rates := by
        rw [← keys_initialSites s.seed_set_ rates s.seed_, ← Table.find_eq_none_iff]
        exact hinit
      have h2 : Table.find ((collectDrainSites rates [] rates).map
          (fun id => (id, Site.new.setId id))) x = some site := h
      rw [find_map_sites] at h2
      by_cases hd : x ∈ collectDrainSites rates [] rates
      · simp only [hd, if_true, Option.some.injEq] at h2
        exact Or.inr ⟨hx, h2.symm⟩
      · simp [hd] at h2

/-- The seeds after `initializeSystem` on an engine with a seed and without sites and
clusters, as long as the counter does not wrap. -/
theorem afterInitializeSystem_seeds (s : CoarseGrainSystem)
    (rates : List (Int × List (Int × ℚ))) (hsites : s.sites_ = []) (hclusters : s.clusters_ = [])
    (hset : s.seed_set_ = true) (hkeys : (Table.keys rates).Nodup)
    (hlt : s.seed_ + rates.length < 18446744073709551616) :
    SitesKeyed (afterInitializeSystem s rates) ∧
    (afterInitializeSystem s rates).seed_set_ = true ∧
    (afterInitializeSystem s rates).seed_ = s.seed_ + rates.length ∧
    (∀ (i : Nat) (hi : i < rates.length),
      siteSeed (afterInitializeSystem s rates) (rates.get ⟨i, hi⟩).1
        = some (some (s.seed_ + i))) ∧
    SeedsDistinct (afterInitializeSystem s rates) ∧
    SeedsBelowCounter (afterInitializeSystem s rates) ∧
    ClustersSeeded (afterInitializeSystem s rates) := by
  have hsite := afterInitializeSystem_site s rates hsites
  rw [hset] at hsite
  obtain ⟨g1, g2⟩ := initialSites_seeds rates s.seed_ hlt
  have hnocluster : ∀ c, clusterSeed (afterInitializeSystem s rates) c = none := by
    intro c
    simp [clusterSeed, afterInitializeSystem, hclusters, Table.find]
  have hseed : (afterInitializeSystem s rates).seed_ = s.seed_ + rates.length := by
    simp only [afterInitializeSystem, hset]
    exact seedAfter_set _ _ hlt
  have hclass : ∀ x v, siteSeed (afterInitializeSystem s rates) x = some (some v) →
      ∃ site, Table.find (initialSites true s.seed_ rates) x = some site ∧
        site.seed = some v := by
    intro x v h
    obtain ⟨site, h1, h2⟩ := siteSeed_eq_some.mp h
    rcases (hsite x).2 site h1 with h3 | ⟨_, h3⟩
    · exact ⟨site, h3, h2⟩
    · rw [h3] at h2
      simp [Site.setId, Site.new] at h2
  refine ⟨?_, hset, hseed, ?_, ⟨?_, ?_, ?_⟩, ⟨?_, ?_⟩, ?_⟩
  · intro p hp
    have hform : (afterInitializeSystem s rates).sites_
        = initialSites s.seed_set_ s.seed_ rates ++
          (collectDrainSites rates [] rates).map (fun id => (id, Site.new.setId id)) := by
      simp [afterInitializeSystem, hsites]
    rw [hform] at hp
    rcases List.mem_append.mp hp with hp | hp
    · exact initialSites_keyed _ _ _ p hp
    · obtain ⟨id, _, rfl⟩ := List.mem_map.mp hp
      rfl
  · intro i hi
    obtain ⟨site, h1, h2⟩ := initialSites_get rates s.seed_ hkeys hlt i hi
    exact siteSeed_eq_some.mpr ⟨site, (hsite _).1 site h1, h2⟩
  · intro x y v hx hy
    obtain ⟨sx, h1, h2⟩ := hclass x v hx
    obtain ⟨sy, h3, h4⟩ := hclass y v hy
    exact g2 x y sx sy v h1 h3 h2 h4
  · intro c d v hc
    rw [hnocluster] at hc
    simp at hc
  · intro x c v _
    rw [hnocluster]
    simp
  · intro x v hx
    obtain ⟨sx, h1, h2⟩ := hclass x v hx
    obtain ⟨w, hw1, _, hw3⟩ := g1 x sx h1
    rw [h2] at hw1
    simp only [Option.some.injEq] at hw1
    rw [hseed]
    omega
  · intro c v hc
    rw [hnocluster] at hc
    simp at hc
  · intro c
    rw [hnocluster]
    simp

/-- C20, as stated, fails: with the seed 7 set, `initializeSystem` over the rates map of
`pairs` gives the sites 0 to 3 the seeds 7 to 10 and leaves the counter at 11, but the
site 4, registered as a drain site, receives no seed. -/
theorem drain_site_receives_no_seed :
    (Examples.configured.setRandomSeed 7).2.initializeSystem Examples.pairRates
      = (none, Examples.seeded) ∧
    registered Examples.seeded 4 ∧
    siteSeed Examples.seeded 4 = some none ∧
    siteSeed Examples.seeded 0 = some (some 7) ∧
    siteSeed Examples.seeded 3 = some (some 10) ∧
    Examples.seeded.seed_ = 11 :=
  ⟨by decide!, by decide!, by decide!, by decide!, by decide!, by decide!⟩

/-- C20 (amended): when a seed `S` has been set, `initializeSystem` over a rates map with
`n` keys gives the sites of the keys, in the order of the map, the seeds `S, ..., S+n-1`
and leaves the counter at `S+n`, the drain sites receive no seed, and `createCluster_`
gives the new cluster the value of the counter and raises it by one; so after any
sequence of coarse-graining steps every site of a key and every stored cluster has a
seed and no two stored sites or clusters have the same one, as long as the counter does
not wrap around. When no seed was set, no site and no new cluster is seeded and the
counter does not change. -/
theorem seeds_handed_out (env : Collaborators) (s : CoarseGrainSystem)
    (rates : List (Int × List (Int × ℚ))) (steps : List CoarseGrainingStep)
    (s2 : CoarseGrainSystem) (siteIds : List Int) (internal_time_limit : ℚ) :
    (s.seed_set_ = true → s.time_resolution_set_ = true → (Table.keys rates).Nodup →
      Uninitialized s → s.seed_ + rates.length + steps.length < 18446744073709551616 →
      ∃ s1, s.initializeSystem rates = (none, s1) ∧ s1.seed_ = s.seed_ + rates.length ∧
        (∀ (i : Nat) (hi : i < rates.length),
          siteSeed s1 (rates.get ⟨i, hi⟩).1 = some (some (s.seed_ + i))) ∧
        (∀ x, x ∉ Table.keys rates → isDestination rates x → siteSeed s1 x = some none) ∧
        (applySteps env s1 steps = .ok s2 →
          s2.seed_ ≤ s1.seed_ + steps.length ∧
          (∀ (i : Nat) (hi : i < rates.length),
            siteSeed s2 (rates.get ⟨i, hi⟩).1 = some (some (s.seed_ + i))) ∧
          ClustersSeeded s2 ∧ SeedsDistinct s2 ∧ SeedsBelowCounter s2)) ∧
    (s.seed_set_ = true → SitesKeyed s →
      (∀ id ∈ siteIds, (Table.find s.sites_ id).isSome) →
      s.seed_ + 1 < 18446744073709551616 →
      ∃ s1, s.createCluster_ env siteIds internal_time_limit = .ok (s.cluster_id_count_, s1) ∧
        clusterSeed s1 s.cluster_id_count_ = some (some s.seed_) ∧
        s1.seed_ = s.seed_ + 1) ∧
    (s.seed_set_ = false →
      (s.time_resolution_set_ = true → (Table.keys rates).Nodup → Uninitialized s →
        ∃ s1, s.initializeSystem rates = (none, s1) ∧ s1.seed_ = s.seed_ ∧
          ∀ x, siteSeed s1 x = none ∨ siteSeed s1 x = some none) ∧
      (SitesKeyed s → (∀ id ∈ siteIds, (Table.find s.sites_ id).isSome) →
        ∃ s1, s.createCluster_ env siteIds internal_time_limit
            = .ok (s.cluster_id_count_, s1) ∧
          clusterSeed s1 s.cluster_id_count_ = some none ∧ s1.seed_ = s.seed_)) := by
  refine ⟨?_, ?_, ?_⟩
  · intro hseed hset hkeys hfresh hlt
    obtain ⟨hsites, hclusters, hfeatures⟩ := hfresh
    obtain ⟨a1, a2, a3, a4, a5, a6, a7⟩ :=
      afterInitializeSystem_seeds s rates hsites hclusters hseed hkeys (by omega)
    refine ⟨afterInitializeSystem s rates, initializeSystem_eq s rates hset hkeys hsites, a3,
      a4, ?_, ?_⟩
    · intro x hx hd
      exact siteSeed_eq_some.mpr
        ⟨_, (afterInitializeSystem_find s rates hsites hfeatures x).2.1 hx hd, rfl⟩
    · intro hrun
      obtain ⟨j1, j2, j3, j4, j5⟩ := seeds_applySteps env steps _ s2 hrun a1 a2
        (by rw [a3]; omega) a5 a6 a7
      exact ⟨j1, fun i hi => by rw [j2]; exact a4 i hi, j5, j3, j4⟩
  · intro hseed hkeyed hreg hlt
    obtain ⟨_, _, c3, c4, _⟩ := afterCreateCluster_seeds env s siteIds internal_time_limit
    rw [hseed] at c3 c4
    simp only [if_true, wrapULong_of_lt hlt] at c3 c4
    exact ⟨_, createCluster_eq env s siteIds internal_time_limit hkeyed hreg, c3, c4⟩
  · intro hseed
    refine ⟨?_, ?_⟩
    · intro hset hkeys hfresh
      refine ⟨afterInitializeSystem s rates, initializeSystem_eq s rates hset hkeys hfresh.1,
        ?_, ?_⟩
      · simp only [afterInitializeSystem, hseed]
        exact seedAfter_unset _ _
      · intro x
        cases hx : Table.find (afterInitializeSystem s rates).sites_ x with
        | none => left; simp [siteSeed, hx]
        | some site =>
          right
          refine siteSeed_eq_some.mpr ⟨site, hx, ?_⟩
          have hsite := (afterInitializeSystem_site s rates hfresh.1 x).2 site hx
          rw [hseed] at hsite
          rcases hsite with h | ⟨_, h⟩
          · exact initialSites_unseeded rates s.seed_ x site h
          · rw [h]; rfl
    · intro hkeyed hreg
      obtain ⟨_, _, c3, c4, _⟩ := afterCreateCluster_seeds env s siteIds internal_time_limit
      rw [hseed] at c3 c4
      simp only [Bool.false_eq_true, if_false] at c3 c4
      exact ⟨_, createCluster_eq env s siteIds internal_time_limit hkeyed hreg, c3, c4⟩

theorem seeds_handed_out_witness :
    (∃ s1, (Examples.configured.setRandomSeed 7).2.initializeSystem Examples.pairRates
        = (none, s1) ∧
      s1.seed_ = (Examples.configured.setRandomSeed 7).2.seed_ + Examples.pairRates.length ∧
      (∀ (i : Nat) (hi : i < Examples.pairRates.length),
        siteSeed s1 (Examples.pairRates.get ⟨i, hi⟩).1
          = some (some ((Examples.configured.setRandomSeed 7).2.seed_ + i))) ∧
      (∀ x, x ∉ Table.keys Examples.pairRates → isDestination Examples.pairRates x →
        siteSeed s1 x = some none) ∧
      (applySteps Examples.env s1 Examples.wholeClusters
          = .ok (Examples.valueOr (applySteps Examples.env Examples.seeded
              Examples.wholeClusters) Examples.seeded) →
        (Examples.valueOr (applySteps Examples.env Examples.seeded
            Examples.wholeClusters) Examples.seeded).seed_
          ≤ s1.seed_ + Examples.wholeClusters.length ∧
        (∀ (i : Nat) (hi : i < Examples.pairRates.length),
          siteSeed (Examples.valueOr (applySteps Examples.env Examples.seeded
              Examples.wholeClusters) Examples.seeded) (Examples.pairRates.get ⟨i, hi⟩).1
            = some (some ((Examples.configured.setRandomSeed 7).2.seed_ + i))) ∧
        ClustersSeeded (Examples.valueOr (applySteps Examples.env Examples.seeded
          Examples.wholeClusters) Examples.seeded) ∧
        SeedsDistinct (Examples.valueOr (applySteps Examples.env Examples.seeded
          Examples.wholeClusters) Examples.seeded) ∧
        SeedsBelowCounter (Examples.valueOr (applySteps Examples.env Examples.seeded
          Examples.wholeClusters) Examples.seeded))) ∧
    applySteps Examples.env Examples.seeded Examples.wholeClusters
      = .ok (Examples.valueOr (applySteps Examples.env Examples.seeded
          Examples.wholeClusters) Examples.seeded) ∧
    clusterSeed (Examples.valueOr (applySteps Examples.env Examples.seeded
      Examples.wholeClusters) Examples.seeded) 0 = some (some 11) ∧
    (Examples.valueOr (applySteps Examples.env Examples.seeded
      Examples.wholeClusters) Examples.seeded).seed_ = 13 ∧
    (∃ s1, Examples.seeded.createCluster_ Examples.env [0, 1] (1 / 100)
        = .ok (Examples.seeded.cluster_id_count_, s1) ∧
      clusterSeed s1 Examples.seeded.cluster_id_count_ = some (some Examples.seeded.seed_) ∧
      s1.seed_ = Examples.seeded.seed_ + 1) ∧
    (∃ s1, Examples.pairs.createCluster_ Examples.env [0, 1] (1 / 100)
        = .ok (Examples.pairs.cluster_id_count_, s1) ∧
      clusterSeed s1 Examples.pairs.cluster_id_count_ = some none ∧
      s1.seed_ = Examples.pairs.seed_) :=
  ⟨(seeds_handed_out Examples.env (Examples.configured.setRandomSeed 7).2 Examples.pairRates
      Examples.wholeClusters _ [] 0).1 (by decide!) (by decide!) (by decide!) (by decide!)
      (by decide!),
    by decide!, by decide!, by decide!,
    (seeds_handed_out Examples.env Examples.seeded [] [] Examples.seeded [0, 1] (1 / 100)).2.1
      (by decide!) (by decide!) (by decide!) (by decide!),
    ((seeds_handed_out Examples.env Examples.pairs [] [] Examples.pairs [0, 1]
      (1 / 100)).2.2 (by decide!)).2 (by decide!) (by decide!)⟩

/-! ### The walker's getters and the visit frequency -/

/-- C25: a newly constructed walker has the unassigned sentinel as current and as potential
site, so both getters throw on it; `getIdOfSiteCurrentlyOccupying` throws `runtime_error`
exactly when the current site is the sentinel and returns the current site otherwise, and
`getPotentialSite` does the same for the potential site. The getters are `const`: they
are functions of the walker and return nothing but the value. -/
theorem walker_getters (w : Walker) :
    Walker.new.current_site_ = constants.unassignedId ∧
    Walker.new.potential_site_ = constants.unassignedId ∧
    Walker.new.getIdOfSiteCurrentlyOccupying = .error .runtime_error ∧
    Walker.new.getPotentialSite = .error .runtime_error ∧
    (w.getIdOfSiteCurrentlyOccupying = .error .runtime_error ↔
      w.current_site_ = constants.unassignedId) ∧
    (w.current_site_ ≠ constants.unassignedId →
      w.getIdOfSiteCurrentlyOccupying = .ok w.current_site_) ∧
    (w.getPotentialSite = .error .runtime_error ↔
      w.potential_site_ = constants.unassignedId) ∧
    (w.potential_site_ ≠ constants.unassignedId → w.getPotentialSite = .ok w.potential_site_) := by
  refine ⟨rfl, rfl, rfl, rfl, ?_, ?_, ?_, ?_⟩
  · by_cases h : w.current_site_ = constants.unassignedId
    · simp [Walker.getIdOfSiteCurrentlyOccupying, h]
    · simp [Walker.getIdOfSiteCurrentlyOccupying, h]
  · intro h
    simp [Walker.getIdOfSiteCurrentlyOccupying, h]
  · by_cases h : w.potential_site_ = constants.unassignedId
    · simp [Walker.getPotentialSite, h]
    · simp [Walker.getPotentialSite, h]
  · intro h
    simp [Walker.getPotentialSite, h]

theorem walker_getters_witness :
    Examples.walker01.getIdOfSiteCurrentlyOccupying = .ok 0 ∧
    Examples.walker01.getPotentialSite = .ok 1 :=
  ⟨(walker_getters Examples.walker01).2.2.2.2.2.1 (by decide),
    (walker_getters Examples.walker01).2.2.2.2.2.2.2 (by decide)⟩

/-- C24 (amended): `getVisitFrequencyOfSite` throws `invalid_argument` exactly when the
site is not stored; for a stored site without a cluster it returns the site's own visit
count; and for a stored site whose cluster is stored it returns the sum of the site's own
count and the count the cluster holds for the site as an `int` holds it, which is the
sum itself whenever the sum is within the range of an `int`. -/
theorem getVisitFrequencyOfSite_spec (s : CoarseGrainSystem) (siteId : Int) :
    (s.getVisitFrequencyOfSite siteId = .error .invalid_argument ↔
      Table.find s.sites_ siteId = none) ∧
    (∀ site, Table.find s.sites_ siteId = some site →
      site.cluster_id = constants.unassignedId →
      s.getVisitFrequencyOfSite siteId = .ok site.visit_frequency) ∧
    (∀ site cluster, Table.find s.sites_ siteId = some site →
      site.cluster_id ≠ constants.unassignedId →
      Table.find s.clusters_ site.cluster_id = some cluster →
      s.getVisitFrequencyOfSite siteId
        = .ok (wrapInt (site.visit_frequency + (Table.find cluster.visits siteId).getD 0)) ∧
      (INT_MIN ≤ site.visit_frequency + (Table.find cluster.visits siteId).getD 0 →
        site.visit_frequency + (Table.find cluster.visits siteId).getD 0 ≤ INT_MAX →
        s.getVisitFrequencyOfSite siteId
          = .ok (site.visit_frequency + (Table.find cluster.visits siteId).getD 0))) := by
  refine ⟨?_, ?_, ?_⟩
  · cases hsite : Table.find s.sites_ siteId with
    | none => simp [getVisitFrequencyOfSite, hsite]
    | some site =>
      simp only [getVisitFrequencyOfSite, hsite, Option.isNone_some, Bool.false_eq_true,
        if_false, getSite, partOfCluster, getClusterIdOfSite, Result.ok_bind, Result.pure_eq,
        reduceCtorEq, iff_false]
      by_cases hc : site.cluster_id = constants.unassignedId
      · simp [hc]
      · cases hcl : Table.find s.clusters_ site.cluster_id with
        | none => simp [hc, getCluster, hcl]
        | some cluster => simp [hc, getCluster, hcl]
  · intro site hsite hc
    simp [getVisitFrequencyOfSite, hsite, getSite, partOfCluster, hc]
  · intro site cluster hsite hc hcl
    have hsum : s.getVisitFrequencyOfSite siteId
        = .ok (wrapInt (site.visit_frequency + (Table.find cluster.visits siteId).getD 0)) := by
      simp [getVisitFrequencyOfSite, hsite, getSite, partOfCluster, hc, getClusterIdOfSite,
        getCluster, hcl, Cluster.getVisitFrequency]
    refine ⟨hsum, fun hlow hhigh => ?_⟩
    rw [hsum, wrapInt_of_range _ hlow hhigh]

/-- C24 (amended) on the example systems: no site 7 is stored; the site 0 of `pairs` is in
no cluster; the site 2 of `twoClusters` is in the cluster 1. -/
theorem getVisitFrequencyOfSite_spec_witness :
    Examples.pairs.getVisitFrequencyOfSite 7 = .error .invalid_argument ∧
    Examples.pairs.getVisitFrequencyOfSite 0 = .ok 0 ∧
    Examples.twoClusters.getVisitFrequencyOfSite 2 = .ok 0 ∧
    (∀ site cluster, Table.find Examples.twoClusters.sites_ 2 = some site →
      site.cluster_id ≠ constants.unassignedId →
      Table.find Examples.twoClusters.clusters_ site.cluster_id = some cluster →
      Examples.twoClusters.getVisitFrequencyOfSite 2
        = .ok (wrapInt (site.visit_frequency + (Table.find cluster.visits 2).getD 0)) ∧
      (INT_MIN ≤ site.visit_frequency + (Table.find cluster.visits 2).getD 0 →
        site.visit_frequency + (Table.find cluster.visits 2).getD 0 ≤ INT_MAX →
        Examples.twoClusters.getVisitFrequencyOfSite 2
          = .ok (site.visit_frequency + (Table.find cluster.visits 2).getD 0))) :=
  ⟨(getVisitFrequencyOfSite_spec Examples.pairs 7).1.mpr (by decide!),
    by decide!, by decide!,
    (getVisitFrequencyOfSite_spec Examples.twoClusters 2).2.2⟩

/-- C24 as stated fails: the site 2 has been visited 2^31 - 1 times on its own and once
more through its cluster; the sum of the two counts, 2^31, does not fit an `int`, and
`getVisitFrequencyOfSite` returns -2^31. -/
theorem visit_frequency_sum_overflows :
    (Table.find Examples.manyVisits.sites_ 2).map Site.visit_frequency = some 2147483647 ∧
    (Table.find Examples.manyVisits.sites_ 2).map Site.cluster_id = some 1 ∧
    (Table.find Examples.manyVisits.clusters_ 1).map (fun c => c.getVisitFrequency 2)
      = some 1 ∧
    Examples.manyVisits.getVisitFrequencyOfSite 2 = .ok (-2147483648) ∧
    Examples.manyVisits.getVisitFrequencyOfSite 2 ≠ .ok (2147483647 + 1) :=
  ⟨by decide!, by decide!, by decide!, by decide!, by decide!⟩

end CoarseGrainSystem

namespace Rate_Container

/-! ### `addRate` and `getRate` -/

theorem rateAt_assign (rates_ : Rate_Map) (siteId neighId : Int) (rate : RatePtr) (a b : Int) :
    rateAt (Table.assign rates_ siteId (Table.assign (inner rates_ siteId) neighId rate)) a b
      = if a = siteId ∧ b = neighId then some rate else rateAt rates_ a b := by
  unfold rateAt
  rw [Table.find_assign]
  by_cases ha : a = siteId
  · subst ha
    rw [if_pos rfl]
    show Table.find (Table.assign (inner rates_ a) neighId rate) b = _
    rw [Table.find_assign]
    by_cases hb : b = neighId
    · simp [hb]
    · simp only [hb, if_false, and_false, inner]
      cases Table.find rates_ a with
      | none => simp [Table.find]
      | some neighs => simp
  · simp [ha]

/-- C26: for a pair the table holds, `addRate` throws `invalid_argument` and leaves the
table unchanged; for a pair it does not hold, `addRate` returns, and the table then holds
what it held before, every pair with the rate it had, and the pair `(from, to)` with the
rate `r`; the sites with an entry are those from before and `from`. -/
theorem addRate_spec (rates_ : Rate_Map) (siteId neighId : Int) (rate : RatePtr) :
    ((rateAt rates_ siteId neighId).isSome →
      addRate rates_ siteId neighId rate = (some .invalid_argument, rates_)) ∧
    (rateAt rates_ siteId neighId = none →
      (addRate rates_ siteId neighId rate).1 = none ∧
      (∀ a b, rateAt (addRate rates_ siteId neighId rate).2 a b
        = if a = siteId ∧ b = neighId then some rate else rateAt rates_ a b) ∧
      (∀ a, (Table.find (addRate rates_ siteId neighId rate).2 a).isSome ↔
        (Table.find rates_ a).isSome ∨ a = siteId)) := by
  refine ⟨?_, ?_⟩
  · intro h
    cases hsite : Table.find rates_ siteId with
    | none => simp [rateAt, hsite] at h
    | some neighs =>
      have h2 : (Table.find neighs neighId).isSome := by
        simpa [rateAt, hsite] using h
      simp [addRate, hsite, inner, h2]
  · intro h
    have hcond : ¬ ((Table.find rates_ siteId).isSome ∧
        (Table.find (inner rates_ siteId) neighId).isSome) := by
      rintro ⟨h1, h2⟩
      cases hsite : Table.find rates_ siteId with
      | none => simp [hsite] at h1
      | some neighs =>
        have h3 : Table.find neighs neighId = none := by
          simpa [rateAt, hsite] using h
        simp [inner, hsite, h3] at h2
    simp only [addRate, hcond, if_false]
    refine ⟨trivial, fun a b => rateAt_assign rates_ siteId neighId rate a b, ?_⟩
    intro a
    rw [Table.find_assign]
    by_cases ha : a = siteId
    · simp [ha]
    · simp [ha]

theorem addRate_spec_witness :
    addRate [(0, [(1, some 100)])] 0 1 (some 5) = (some .invalid_argument, [(0, [(1, some 100)])]) ∧
    (addRate [(0, [(1, some 100)])] 0 2 (some 5)).1 = none ∧
    (addRate [(0, [(1, some 100)])] 0 2 (some 5)).2 = [(0, [(1, some 100), (2, some 5)])] ∧
    (∀ a b, rateAt (addRate [(0, [(1, some 100)])] 0 2 (some 5)).2 a b
      = if a = 0 ∧ b = 2 then some (some 5) else rateAt [(0, [(1, some 100)])] a b) :=
  ⟨(addRate_spec [(0, [(1, some 100)])] 0 1 (some 5)).1 (by decide!),
    ((addRate_spec [(0, [(1, some 100)])] 0 2 (some 5)).2 (by decide!)).1,
    by decide!,
    ((addRate_spec [(0, [(1, some 100)])] 0 2 (some 5)).2 (by decide!)).2.1⟩

/-- C27, evaluated on the table that holds the one rate from site 0 to site 1: `getRate(0,
2)` does not throw; it returns the null pointer and leaves a null entry for the pair
`(0, 2)` in the table. `getRate(5, 2)`, on a site without an entry, throws and leaves an
empty entry for the site 5. -/
theorem getRate_missing_neighbor_returns_null :
    rateAt [(0, [(1, some 100)])] 0 2 = none ∧
    getRate [(0, [(1, some 100)])] 0 2 = (.ok none, [(0, [(1, some 100), (2, none)])]) ∧
    getRate [(0, [(1, some 100)])] 0 1 = (.ok (some 100), [(0, [(1, some 100)])]) ∧
    getRate [(0, [(1, some 100)])] 5 2
      = (.error .invalid_argument, [(0, [(1, some 100)]), (5, [])]) :=
  ⟨by decide!, by decide!, by decide!, by decide!⟩

/-! ### Sources and sinks -/

theorem insertId_spec (siteIds : List Int) (id : Int) (h : siteIds.Nodup) :
    (insertId siteIds id).Nodup ∧ ∀ x, x ∈ insertId siteIds id ↔ x ∈ siteIds ∨ x = id := by
  unfold insertId
  by_cases hid : id ∈ siteIds
  · simp only [hid, if_true]
    refine ⟨h, fun x => ⟨Or.inl, ?_⟩⟩
    rintro (hx | rfl)
    · exact hx
    · exact hid
  · simp only [hid, if_false]
    refine ⟨?_, fun x => by simp⟩
    rw [List.nodup_append]
    refine ⟨h, List.nodup_singleton _, ?_⟩
    intro a ha hb
    simp only [List.mem_singleton] at hb
    exact hid (hb ▸ ha)

theorem insertSiteIds_spec :
    ∀ (rates_ : Rate_Map) (siteIds : List Int), siteIds.Nodup →
      (insertSiteIds siteIds rates_).Nodup ∧
      ∀ x, x ∈ insertSiteIds siteIds rates_ ↔ x ∈ siteIds ∨ x ∈ Table.keys rates_ := by
  intro rates_
  induction rates_ with
  | nil => intro acc h; simp [insertSiteIds, Table.keys, h]
  | cons site rest ih =>
    intro acc h
    obtain ⟨g1, g2⟩ := insertId_spec acc site.1 h
    obtain ⟨h1, h2⟩ := ih _ g1
    simp only [insertSiteIds]
    refine ⟨h1, fun x => ?_⟩
    rw [h2, g2]
    simp only [Table.keys, List.map_cons, List.mem_cons]
    tauto

theorem insertNeighIds_spec :
    ∀ (neighs : List (Int × RatePtr)) (siteIds : List Int), siteIds.Nodup →
      (insertNeighIds siteIds neighs).Nodup ∧
      ∀ x, x ∈ insertNeighIds siteIds neighs ↔ x ∈ siteIds ∨ x ∈ Table.keys neighs := by
  intro neighs
  induction neighs with
  | nil => intro acc h; simp [insertNeighIds, Table.keys, h]
  | cons neigh rest ih =>
    intro acc h
    obtain ⟨g1, g2⟩ := insertId_spec acc neigh.1 h
    obtain ⟨h1, h2⟩ := ih _ g1
    simp only [insertNeighIds]
    refine ⟨h1, fun x => ?_⟩
    rw [h2, g2]
    simp only [Table.keys, List.map_cons, List.mem_cons]
    tauto

theorem insertAllNeighIds_spec :
    ∀ (rates_ : Rate_Map) (siteIds : List Int), siteIds.Nodup →
      (insertAllNeighIds siteIds rates_).Nodup ∧
      ∀ x, x ∈ insertAllNeighIds siteIds rates_ ↔ x ∈ siteIds ∨ hasIncoming rates_ x := by
  intro rates_
  induction rates_ with
  | nil => intro acc h; simp [insertAllNeighIds, hasIncoming, h]
  | cons site rest ih =>
    intro acc h
    obtain ⟨g1, g2⟩ := insertNeighIds_spec site.2 acc h
    obtain ⟨h1, h2⟩ := ih _ g1
    simp only [insertAllNeighIds]
    refine ⟨h1, fun x => ?_⟩
    rw [h2, g2]
    simp only [hasIncoming, List.mem_cons, exists_eq_or_imp]
    tauto

/-- The ids `getSourceSiteIds` returns: each once, and exactly the sites with an entry
that are not a destination. -/
theorem getSourceSiteIds_mem (rates_ : Rate_Map) :
    (getSourceSiteIds rates_).Nodup ∧
    ∀ x, x ∈ getSourceSiteIds rates_ ↔ x ∈ Table.keys rates_ ∧ ¬ hasIncoming rates_ x := by
  obtain ⟨o1, o2⟩ := insertSiteIds_spec rates_ [] List.nodup_nil
  obtain ⟨_, i2⟩ := insertAllNeighIds_spec rates_ [] List.nodup_nil
  unfold getSourceSiteIds getSiteIdsWithOutgoingRates_ getSiteIdsWithIncomingRates_
  refine ⟨o1.filter _, fun x => ?_⟩
  rw [List.mem_filter, o2, decide_eq_true_eq, i2]
  simp

/-- The ids `getSinkSiteIds` returns: each once, and exactly the destinations without an
entry. -/
theorem getSinkSiteIds_mem (rates_ : Rate_Map) :
    (getSinkSiteIds rates_).Nodup ∧
    ∀ x, x ∈ getSinkSiteIds rates_ ↔ hasIncoming rates_ x ∧ x ∉ Table.keys rates_ := by
  obtain ⟨_, o2⟩ := insertSiteIds_spec rates_ [] List.nodup_nil
  obtain ⟨i1, i2⟩ := insertAllNeighIds_spec rates_ [] List.nodup_nil
  unfold getSinkSiteIds getSiteIdsWithOutgoingRates_ getSiteIdsWithIncomingRates_
  refine ⟨i1.filter _, fun x => ?_⟩
  rw [List.mem_filter, i2, decide_eq_true_eq, o2]
  simp

/-- When every entry of the table holds a rate, the sites with an entry are the sites
with an outgoing rate. -/
theorem mem_keys_iff_hasOutgoing (rates_ : Rate_Map) (hentries : ∀ p ∈ rates_, p.2 ≠ [])
    (x : Int) : x ∈ Table.keys rates_ ↔ hasOutgoing rates_ x := by
  unfold hasOutgoing
  constructor
  · intro hx
    obtain ⟨p, hp, rfl⟩ := List.mem_map.mp hx
    exact ⟨p, hp, rfl, hentries p hp⟩
  · rintro ⟨p, hp, rfl, _⟩
    exact List.mem_map.mpr ⟨p, hp, rfl⟩

theorem Table.assign_ne_nil {β : Type} (m : List (Int × β)) (key : Int) (v : β) :
    Table.assign m key v ≠ [] := by
  cases m with
  | nil => simp [Table.assign]
  | cons p rest =>
    obtain ⟨a, w⟩ := p
    by_cases h : a = key
    · simp [Table.assign, h]
    · simp [Table.assign, h]

/-- The table after an `addRate` call that returns. -/
theorem addRate_returns (rates_ t : Rate_Map) (siteId neighId : Int) (rate : RatePtr)
    (h : addRate rates_ siteId neighId rate = (none, t)) :
    t = Table.assign rates_ siteId (Table.assign (inner rates_ siteId) neighId rate) := by
  unfold addRate at h
  by_cases hcond : (Table.find rates_ siteId).isSome ∧
      (Table.find (inner rates_ siteId) neighId).isSome
  · rw [if_pos hcond] at h
    simp at h
  · rw [if_neg hcond] at h
    exact (Prod.mk.inj h).2.symm

/-- A table built by `addRate` calls that all return holds a rate in every entry. -/
theorem addRateCalls_entries :
    ∀ (calls : List (Int × Int × RatePtr)) (rates_ t : Rate_Map),
      (∀ p ∈ rates_, p.2 ≠ []) → addRateCalls rates_ calls = some t → ∀ p ∈ t, p.2 ≠ [] := by
  intro calls
  induction calls with
  | nil =>
    intro rates_ t h hcalls
    simp only [addRateCalls, Option.some.injEq] at hcalls
    exact hcalls ▸ h
  | cons call rest ih =>
    intro rates_ t h hcalls
    obtain ⟨siteId, neighId, rate⟩ := call
    simp only [addRateCalls] at hcalls
    cases hadd : addRate rates_ siteId neighId rate with
    | mk thrown t1 =>
      rw [hadd] at hcalls
      cases thrown with
      | some e => simp at hcalls
      | none =>
        simp only at hcalls
        refine ih t1 t ?_ hcalls
        intro p hp
        rw [addRate_returns _ _ _ _ _ hadd] at hp
        rcases CoarseGrainSystem.Table.mem_assign _ _ _ _ hp with hq | hq
        · rw [hq]
          exact Table.assign_ne_nil _ _ _
        · exact h p hq

/-- C28, in the tables where every stored site entry holds a rate, such as every table
that `addRate` calls build from one: `getSourceSiteIds` returns, each once, exactly the
site ids with at least one outgoing rate and no incoming rate. -/
theorem getSourceSiteIds_spec (rates0 rates_ : Rate_Map) (calls : List (Int × Int × RatePtr))
    (hentries : ∀ p ∈ rates0, p.2 ≠ [])
    (hbuilt : addRateCalls rates0 calls = some rates_) :
    (getSourceSiteIds rates_).Nodup ∧
    ∀ x, x ∈ getSourceSiteIds rates_ ↔ hasOutgoing rates_ x ∧ ¬ hasIncoming rates_ x := by
  have hne := addRateCalls_entries calls rates0 rates_ hentries hbuilt
  obtain ⟨h1, h2⟩ := getSourceSiteIds_mem rates_
  refine ⟨h1, fun x => ?_⟩
  rw [h2, mem_keys_iff_hasOutgoing rates_ hne]

theorem getSourceSiteIds_spec_witness :
    (∀ p ∈ ([] : Rate_Map), p.2 ≠ []) ∧
    addRateCalls [] [(0, 1, some 100), (1, 2, some 5), (3, 2, none)]
      = some [(0, [(1, some 100)]), (1, [(2, some 5)]), (3, [(2, none)])] ∧
    getSourceSiteIds [(0, [(1, some 100)]), (1, [(2, some 5)]), (3, [(2, none)])] = [0, 3] ∧
    (getSourceSiteIds [(0, [(1, some 100)]), (1, [(2, some 5)]), (3, [(2, none)])]).Nodup ∧
    ∀ x, x ∈ getSourceSiteIds [(0, [(1, some 100)]), (1, [(2, some 5)]), (3, [(2, none)])] ↔
      hasOutgoing [(0, [(1, some 100)]), (1, [(2, some 5)]), (3, [(2, none)])] x ∧
      ¬ hasIncoming [(0, [(1, some 100)]), (1, [(2, some 5)]), (3, [(2, none)])] x :=
  ⟨by simp, by decide!, by decide!,
    getSourceSiteIds_spec [] _ [(0, 1, some 100), (1, 2, some 5), (3, 2, none)] (by simp)
      (by decide!)⟩

/-- C28 as stated fails: `addRates` on an empty table copies its argument, so a site whose
inner map is empty gets an entry, and `getSourceSiteIds` returns that site although it
has no outgoing rate. -/
theorem getSourceSiteIds_returns_site_without_rate :
    addRates [] [(5, []), (0, [(1, some 100)])] = (none, [(5, []), (0, [(1, some 100)])]) ∧
    getSourceSiteIds [(5, []), (0, [(1, some 100)])] = [5, 0] ∧
    ¬ hasOutgoing [(5, []), (0, [(1, some 100)])] 5 ∧
    ¬ hasIncoming [(5, []), (0, [(1, some 100)])] 5 :=
  ⟨by decide!, by decide!, by decide!, by decide!⟩

/-- C29: in a table built from the empty one by `addRate` calls that all return,
`getSinkSiteIds` returns, each once, exactly the site ids that are the destination of at
least one rate and the origin of none; and in every table no site id is returned by both
`getSourceSiteIds` and `getSinkSiteIds`. -/
theorem getSinkSiteIds_spec (calls : List (Int × Int × RatePtr)) (rates_ : Rate_Map)
    (hbuilt : addRateCalls [] calls = some rates_) :
    (getSinkSiteIds rates_).Nodup ∧
    (∀ x, x ∈ getSinkSiteIds rates_ ↔ hasIncoming rates_ x ∧ ¬ hasOutgoing rates_ x) ∧
    ∀ (t : Rate_Map) (x : Int), ¬ (x ∈ getSourceSiteIds t ∧ x ∈ getSinkSiteIds t) := by
  have hne := addRateCalls_entries calls [] rates_ (by simp) hbuilt
  obtain ⟨h1, h2⟩ := getSinkSiteIds_mem rates_
  refine ⟨h1, fun x => ?_, ?_⟩
  · rw [h2, mem_keys_iff_hasOutgoing rates_ hne]
  · rintro t x ⟨hsrc, hsink⟩
    exact ((getSinkSiteIds_mem t).2 x).mp hsink |>.2
      (((getSourceSiteIds_mem t).2 x).mp hsrc).1

theorem getSinkSiteIds_spec_witness :
    addRateCalls [] [(0, 1, some 100), (1, 2, some 5), (1, 0, some 7), (3, 4, none)]
      = some [(0, [(1, some 100)]), (1, [(2, some 5), (0, some 7)]), (3, [(4, none)])] ∧
    getSinkSiteIds [(0, [(1, some 100)]), (1, [(2, some 5), (0, some 7)]), (3, [(4, none)])]
      = [2, 4] ∧
    (getSinkSiteIds
      [(0, [(1, some 100)]), (1, [(2, some 5), (0, some 7)]), (3, [(4, none)])]).Nodup ∧
    (∀ x, x ∈ getSinkSiteIds
        [(0, [(1, some 100)]), (1, [(2, some 5), (0, some 7)]), (3, [(4, none)])] ↔
      hasIncoming [(0, [(1, some 100)]), (1, [(2, some 5), (0, some 7)]), (3, [(4, none)])] x ∧
      ¬ hasOutgoing
        [(0, [(1, some 100)]), (1, [(2, some 5), (0, some 7)]), (3, [(4, none)])] x) ∧
    ∀ (t : Rate_Map) (x : Int), ¬ (x ∈ getSourceSiteIds t ∧ x ∈ getSinkSiteIds t) :=
  ⟨by decide!, by decide!,
    getSinkSiteIds_spec [(0, 1, some 100), (1, 2, some 5), (1, 0, some 7), (3, 4, none)] _
      (by decide!)⟩

/-! ### `addRates` and the queries -/

/-- The call `addRate` returns exactly when the table does not hold the pair. -/
theorem addRate_eq (rates_ : Rate_Map) (siteId neighId : Int) (rate : RatePtr) :
    addRate rates_ siteId neighId rate
      = if (rateAt rates_ siteId neighId).isSome then (some .invalid_argument, rates_)
        else (none, Table.assign rates_ siteId
          (Table.assign (inner rates_ siteId) neighId rate)) := by
  unfold addRate rateAt inner
  cases hsite : Table.find rates_ siteId with
  | none => simp [Table.find]
  | some neighs => simp

theorem rateAt_cons (siteId : Int) (neighs : List (Int × RatePtr)) (rest : Rate_Map)
    (a b : Int) :
    rateAt ((siteId, neighs) :: rest) a b
      = if siteId = a then Table.find neighs b else rateAt rest a b := by
  unfold rateAt
  by_cases h : siteId = a
  · simp [Table.find, h]
  · simp [Table.find, h]

/-- The inner loop of `addRates` over the rates of one site: it returns exactly when the
table holds none of the pairs, and then the table holds them in addition. -/
theorem addRatesOfSite_spec (siteId : Int) :
    ∀ (neighs : List (Int × RatePtr)) (rates_ : Rate_Map), (Table.keys neighs).Nodup →
      ((addRatesOfSite rates_ siteId neighs).1 = none ↔
        ∀ n ∈ Table.keys neighs, rateAt rates_ siteId n = none) ∧
      ((addRatesOfSite rates_ siteId neighs).1 = none →
        (∀ a b, rateAt (addRatesOfSite rates_ siteId neighs).2 a b
          = if siteId = a then
              (match Table.find neighs b with
                | some r => some r
                | none => rateAt rates_ a b)
            else rateAt rates_ a b) ∧
        (∀ a, (Table.find (addRatesOfSite rates_ siteId neighs).2 a).isSome ↔
          (Table.find rates_ a).isSome ∨ (siteId = a ∧ neighs ≠ []))) := by
  intro neighs
  induction neighs with
  | nil =>
    intro rates_ _
    refine ⟨by simp [addRatesOfSite, Table.keys], fun _ => ⟨fun a b => ?_, fun a => ?_⟩⟩
    · by_cases h : siteId = a
      · simp [addRatesOfSite, Table.find, h]
      · simp [addRatesOfSite, h]
    · simp [addRatesOfSite]
  | cons neigh rest ih =>
    intro rates_ hn
    obtain ⟨n, r⟩ := neigh
    have hn2 : n ∉ Table.keys rest ∧ (Table.keys rest).Nodup := by
      simpa [Table.keys] using hn
    have hfind : Table.find rest n = none := (Table.find_eq_none_iff _ _).mpr hn2.1
    cases hat : rateAt rates_ siteId n with
    | some v =>
      have hrun : addRatesOfSite rates_ siteId ((n, r) :: rest)
          = (some .invalid_argument, rates_) := by
        simp [addRatesOfSite, addRate_eq, hat]
      rw [hrun]
      refine ⟨⟨fun h => by simp at h, fun h => ?_⟩, fun h => by simp at h⟩
      have := h n (by simp [Table.keys])
      rw [hat] at this
      simp at this
    | none =>
      have hrun : addRatesOfSite rates_ siteId ((n, r) :: rest)
          = addRatesOfSite
              (Table.assign rates_ siteId (Table.assign (inner rates_ siteId) n r))
              siteId rest := by
        simp [addRatesOfSite, addRate_eq, hat]
      rw [hrun]
      obtain ⟨ih1, ih2⟩ :=
        ih (Table.assign rates_ siteId (Table.assign (inner rates_ siteId) n r)) hn2.2
      have hstep : ∀ a b,
          rateAt (Table.assign rates_ siteId (Table.assign (inner rates_ siteId) n r)) a b
            = if a = siteId ∧ b = n then some r else rateAt rates_ a b :=
        fun a b => rateAt_assign rates_ siteId n r a b
      refine ⟨?_, ?_⟩
      · rw [ih1]
        constructor
        · intro h m hm
          simp only [Table.keys, List.map_cons, List.mem_cons] at hm
          rcases hm with rfl | hm
          · exact hat
          · have hne : m ≠ n := fun e => hn2.1 (e ▸ hm)
            have := h m hm
            rw [hstep] at this
            simpa [hne] using this
        · intro h m hm
          have hne : m ≠ n := fun e => hn2.1 (e ▸ hm)
          rw [hstep]
          simp only [hne, and_false, if_false]
          exact h m (by simp only [Table.keys, List.map_cons, List.mem_cons]; exact Or.inr hm)
      · intro hok
        obtain ⟨g1, g2⟩ := ih2 hok
        refine ⟨fun a b => ?_, fun a => ?_⟩
        · rw [g1, hstep]
          by_cases ha : siteId = a
          · subst ha
            by_cases hb : n = b
            · subst hb
              simp [Table.find, hfind]
            · have hb2 : ¬ b = n := fun e => hb e.symm
              simp [Table.find, hb, hb2]
          · have ha2 : ¬ a = siteId := fun e => ha e.symm
            simp [ha, ha2]
        · rw [g2, Table.find_assign]
          by_cases ha : siteId = a
          · subst ha
            simp
          · have ha2 : ¬ a = siteId := fun e => ha e.symm
            simp [ha, ha2]

theorem rateAt_eq_none_of_not_mem (rates : Rate_Map) (a b : Int)
    (h : a ∉ Table.keys rates) : rateAt rates a b = none := by
  unfold rateAt
  rw [(Table.find_eq_none_iff _ _).mpr h]
  rfl

theorem hasOutgoing_cons (site : Int × List (Int × RatePtr)) (rest : Rate_Map) (a : Int) :
    hasOutgoing (site :: rest) a ↔ (site.1 = a ∧ site.2 ≠ []) ∨ hasOutgoing rest a := by
  simp [hasOutgoing]

/-- The loops of `addRates` over a map: they return exactly when the table holds none of
the pairs of the map, and then the table holds them in addition. -/
theorem addRatesLoop_spec :
    ∀ (rates rates_ : Rate_Map), isMap rates →
      ((addRatesLoop rates_ rates).1 = none ↔
        ∀ a b, (rateAt rates a b).isSome → rateAt rates_ a b = none) ∧
      ((addRatesLoop rates_ rates).1 = none →
        (∀ a b, rateAt (addRatesLoop rates_ rates).2 a b
          = match rateAt rates a b with
            | some r => some r
            | none => rateAt rates_ a b) ∧
        (∀ a, (Table.find (addRatesLoop rates_ rates).2 a).isSome ↔
          (Table.find rates_ a).isSome ∨ hasOutgoing rates a)) := by
  intro rates
  induction rates with
  | nil =>
    intro rates_ _
    refine ⟨by simp [addRatesLoop, rateAt, Table.find], fun _ => ⟨fun a b => ?_, fun a => ?_⟩⟩
    · simp [addRatesLoop, rateAt, Table.find]
    · simp [addRatesLoop, hasOutgoing]
  | cons site rest ih =>
    intro rates_ hmap
    obtain ⟨siteId, neighs⟩ := site
    obtain ⟨hkeys, hinner⟩ := hmap
    have hk : siteId ∉ Table.keys rest ∧ (Table.keys rest).Nodup := by
      simpa [Table.keys] using hkeys
    have hneighs : (Table.keys neighs).Nodup := hinner (siteId, neighs) (List.mem_cons_self _ _)
    have hrest : isMap rest := ⟨hk.2, fun p hp => hinner p (List.mem_cons_of_mem _ hp)⟩
    obtain ⟨o1, o2⟩ := addRatesOfSite_spec siteId neighs rates_ hneighs
    cases hrun : addRatesOfSite rates_ siteId neighs with
    | mk thrown t1 =>
      rw [hrun] at o1 o2
      cases thrown with
      | some e =>
        have hloop : addRatesLoop rates_ ((siteId, neighs) :: rest) = (some e, t1) := by
          simp [addRatesLoop, hrun]
        rw [hloop]
        refine ⟨⟨fun h => by simp at h, fun h => ?_⟩, fun h => by simp at h⟩
        have hall : ∀ n ∈ Table.keys neighs, rateAt rates_ siteId n = none := by
          intro n hn
          refine h siteId n ?_
          rw [rateAt_cons, if_pos rfl, Table.find_isSome_iff]
          exact hn
        have := o1.mpr hall
        simp at this
      | none =>
        have hloop : addRatesLoop rates_ ((siteId, neighs) :: rest) = addRatesLoop t1 rest := by
          simp [addRatesLoop, hrun]
        rw [hloop]
        obtain ⟨g1, g2⟩ := o2 rfl
        simp only at g1 g2
        obtain ⟨ih1, ih2⟩ := ih t1 hrest
        have hall := o1.mp rfl
        refine ⟨?_, ?_⟩
        · rw [ih1]
          constructor
          · intro h a b hab
            rw [rateAt_cons] at hab
            by_cases ha : siteId = a
            · subst ha
              rw [if_pos rfl, Table.find_isSome_iff] at hab
              exact hall b hab
            · rw [if_neg ha] at hab
              have := h a b hab
              rw [g1, if_neg ha] at this
              exact this
          · intro h a b hab
            have ha : siteId ≠ a := by
              intro e
              subst e
              rw [rateAt_eq_none_of_not_mem rest siteId b hk.1] at hab
              simp at hab
            rw [g1, if_neg ha]
            refine h a b ?_
            rw [rateAt_cons, if_neg ha]
            exact hab
        · intro hok
          obtain ⟨r1, r2⟩ := ih2 hok
          refine ⟨fun a b => ?_, fun a => ?_⟩
          · rw [r1, g1, rateAt_cons]
            by_cases ha : siteId = a
            · subst ha
              rw [rateAt_eq_none_of_not_mem rest siteId b hk.1, if_pos rfl, if_pos rfl]
            · rw [if_neg ha, if_neg ha]
          · rw [r2, g2, hasOutgoing_cons]
            tauto

theorem addRateEach_append (l1 : List (Int × Int × RatePtr)) :
    ∀ (rates_ : Rate_Map) (l2 : List (Int × Int × RatePtr)),
      addRateEach rates_ (l1 ++ l2)
        = match addRateEach rates_ l1 with
          | (some e, t) => (some e, t)
          | (none, t) => addRateEach t l2 := by
  induction l1 with
  | nil => intro rates_ l2; rfl
  | cons entry rest ih =>
    intro rates_ l2
    obtain ⟨siteId, neighId, rate⟩ := entry
    simp only [List.cons_append, addRateEach]
    cases hadd : addRate rates_ siteId neighId rate with
    | mk thrown t1 =>
      cases thrown with
      | some e => rfl
      | none => exact ih t1 l2

theorem addRatesOfSite_eq_addRateEach (siteId : Int) :
    ∀ (neighs : List (Int × RatePtr)) (rates_ : Rate_Map),
      addRatesOfSite rates_ siteId neighs
        = addRateEach rates_ (neighs.map (fun neigh => (siteId, neigh.1, neigh.2))) := by
  intro neighs
  induction neighs with
  | nil => intro rates_; rfl
  | cons neigh rest ih =>
    intro rates_
    obtain ⟨n, r⟩ := neigh
    simp only [addRatesOfSite, List.map_cons, addRateEach]
    cases hadd : addRate rates_ siteId n r with
    | mk thrown t1 =>
      cases thrown with
      | some e => rfl
      | none => exact ih t1

/-- The loops of `addRates` make the `addRate` calls of the specification. -/
theorem addRatesLoop_eq_addRateEach :
    ∀ (rates rates_ : Rate_Map), addRatesLoop rates_ rates = addRateEach rates_ (entriesOf rates) := by
  intro rates
  induction rates with
  | nil => intro rates_; rfl
  | cons site rest ih =>
    intro rates_
    obtain ⟨siteId, neighs⟩ := site
    simp only [addRatesLoop, entriesOf]
    rw [addRateEach_append, ← addRatesOfSite_eq_addRateEach]
    cases hrun : addRatesOfSite rates_ siteId neighs with
    | mk thrown t1 =>
      cases thrown with
      | some e => rfl
      | none => exact ih t1

theorem assign_append_singleton (siteId : Int) (w v : List (Int × RatePtr)) :
    ∀ (rates_ : Rate_Map), Table.find rates_ siteId = none →
      Table.assign (rates_ ++ [(siteId, w)]) siteId v = rates_ ++ [(siteId, v)] := by
  intro rates_
  induction rates_ with
  | nil => intro _; simp [Table.assign]
  | cons p rest ih =>
    intro h
    obtain ⟨a, x⟩ := p
    by_cases ha : a = siteId
    · simp [Table.find, ha] at h
    · simp only [Table.find, ha, if_false] at h
      have h2 := ih h
      simp only [List.cons_append, Table.assign, ha, if_false]
      exact congrArg _ h2

theorem find_append_singleton (siteId : Int) (w : List (Int × RatePtr)) :
    ∀ (rates_ : Rate_Map), Table.find rates_ siteId = none →
      Table.find (rates_ ++ [(siteId, w)]) siteId = some w := by
  intro rates_
  induction rates_ with
  | nil => intro _; simp [Table.find]
  | cons p rest ih =>
    intro h
    obtain ⟨a, x⟩ := p
    by_cases ha : a = siteId
    · simp [Table.find, ha] at h
    · simp only [Table.find, ha, if_false] at h
      have h2 := ih h
      simp only [List.cons_append, Table.find, ha, if_false]
      exact h2

/-- The inner loop of `addRates` on a site the table has no entry for, once the rates
`done` have been added: the remaining rates are appended in order. -/
theorem addRatesOfSite_fresh (siteId : Int) (rates_ : Rate_Map)
    (hfresh : Table.find rates_ siteId = none) :
    ∀ (rest done : List (Int × RatePtr)), (Table.keys (done ++ rest)).Nodup →
      addRatesOfSite (rates_ ++ [(siteId, done)]) siteId rest
        = (none, rates_ ++ [(siteId, done ++ rest)]) := by
  intro rest
  induction rest with
  | nil => intro done _; simp [addRatesOfSite]
  | cons neigh rest ih =>
    intro done hn
    obtain ⟨n, r⟩ := neigh
    have hn1 : n ∉ Table.keys done := by
      intro hmem
      have hn2 : (Table.keys done ++ n :: Table.keys rest).Nodup := by
        simpa [Table.keys] using hn
      exact (List.nodup_append.mp hn2).2.2 hmem (List.mem_cons_self _ _)
    have hfd : Table.find done n = none := (Table.find_eq_none_iff _ _).mpr hn1
    have hat : rateAt (rates_ ++ [(siteId, done)]) siteId n = none := by
      simp [rateAt, find_append_singleton siteId done rates_ hfresh, hfd]
    have hin : inner (rates_ ++ [(siteId, done)]) siteId = done := by
      simp [inner, find_append_singleton siteId done rates_ hfresh]
    simp only [addRatesOfSite, addRate_eq, hat, Option.isSome_none, Bool.false_eq_true,
      if_false, hin]
    rw [CoarseGrainSystem.Table.assign_of_find_none done n r hfd,
      assign_append_singleton siteId done _ rates_ hfresh]
    have := ih (done ++ [(n, r)]) (by simpa using hn)
    simpa using this

/-- The loops of `addRates` on sites the table has no entry for append the map. -/
theorem addRatesLoop_fresh :
    ∀ (rates rates_ : Rate_Map), isMap rates → (∀ p ∈ rates, p.2 ≠ []) →
      (∀ p ∈ rates, Table.find rates_ p.1 = none) →
      addRatesLoop rates_ rates = (none, rates_ ++ rates) := by
  intro rates
  induction rates with
  | nil => intro rates_ _ _ _; simp [addRatesLoop]
  | cons site rest ih =>
    intro rates_ hmap hentries hfresh
    obtain ⟨siteId, neighs⟩ := site
    obtain ⟨hkeys, hinner⟩ := hmap
    have hk : siteId ∉ Table.keys rest ∧ (Table.keys rest).Nodup := by
      simpa [Table.keys] using hkeys
    have hneighs : (Table.keys neighs).Nodup := hinner (siteId, neighs) (List.mem_cons_self _ _)
    have hf : Table.find rates_ siteId = none := hfresh (siteId, neighs) (List.mem_cons_self _ _)
    have hsite : addRatesOfSite rates_ siteId neighs = (none, rates_ ++ [(siteId, neighs)]) := by
      cases neighs with
      | nil => exact absurd rfl (hentries (siteId, []) (List.mem_cons_self _ _))
      | cons neigh more =>
        obtain ⟨n, r⟩ := neigh
        have hat : rateAt rates_ siteId n = none := by simp [rateAt, hf]
        have hin : inner rates_ siteId = [] := by simp [inner, hf]
        simp only [addRatesOfSite, addRate_eq, hat, Option.isSome_none, Bool.false_eq_true,
          if_false, hin, Table.assign]
        rw [CoarseGrainSystem.Table.assign_of_find_none rates_ siteId _ hf]
        exact addRatesOfSite_fresh siteId rates_ hf more [(n, r)] (by simpa using hneighs)
    simp only [addRatesLoop, hsite]
    rw [ih (rates_ ++ [(siteId, neighs)]) ⟨hk.2, fun p hp => hinner p (List.mem_cons_of_mem _ hp)⟩
      (fun p hp => hentries p (List.mem_cons_of_mem _ hp))]
    · simp
    · intro p hp
      have hne : siteId ≠ p.1 := by
        intro e
        exact hk.1 (e ▸ List.mem_map.mpr ⟨p, hp, rfl⟩)
      rw [CoarseGrainSystem.Table.find_append, hfresh p (List.mem_cons_of_mem _ hp)]
      simp [Table.find, hne]

/-- C38 (amended): for a rate map `m` in which every site holds at least one rate,
`addRates(m)` has the outcome of calling `addRate` for every entry of `m`, in order, up to
the first one that throws; it returns exactly when the table holds no pair of `m`; and
the table then holds the pairs of `m`, with their rates, in addition to what it held, the
sites with an entry being those from before and the sites of `m`. -/
theorem addRates_spec (rates_ rates : Rate_Map) (hmap : isMap rates)
    (hentries : ∀ p ∈ rates, p.2 ≠ []) :
    addRates rates_ rates = addRateEach rates_ (entriesOf rates) ∧
    ((addRates rates_ rates).1 = none ↔
      ∀ a b, (rateAt rates a b).isSome → rateAt rates_ a b = none) ∧
    ((addRates rates_ rates).1 = none →
      (∀ a b, rateAt (addRates rates_ rates).2 a b
        = match rateAt rates a b with
          | some r => some r
          | none => rateAt rates_ a b) ∧
      (∀ a, (Table.find (addRates rates_ rates).2 a).isSome ↔
        (Table.find rates_ a).isSome ∨ hasOutgoing rates a)) := by
  cases rates_ with
  | nil =>
    have hrun : addRates [] rates = (none, rates) := by simp [addRates]
    have hloop := addRatesLoop_fresh rates [] hmap hentries (fun _ _ => rfl)
    rw [hrun]
    refine ⟨?_, ?_, fun _ => ⟨fun a b => ?_, fun a => ?_⟩⟩
    · rw [← addRatesLoop_eq_addRateEach, hloop]
      rfl
    · simp [rateAt, Table.find]
    · cases rateAt rates a b with
      | none => simp [rateAt, Table.find]
      | some r => rfl
    · rw [Table.find_isSome_iff, mem_keys_iff_hasOutgoing rates hentries]
      simp [Table.find]
  | cons site more =>
    have hrun : addRates (site :: more) rates = addRatesLoop (site :: more) rates := by
      simp [addRates]
    rw [hrun]
    exact ⟨addRatesLoop_eq_addRateEach rates _, addRatesLoop_spec rates _ hmap⟩

theorem addRates_spec_witness :
    (isMap [(0, [(2, some 5)]), (3, [(0, none), (1, some 7)])] ∧
      ∀ p ∈ ([(0, [(2, some 5)]), (3, [(0, none), (1, some 7)])] : Rate_Map), p.2 ≠ []) ∧
    addRates [(0, [(1, some 100)])] [(0, [(2, some 5)]), (3, [(0, none), (1, some 7)])]
      = (none, [(0, [(1, some 100), (2, some 5)]), (3, [(0, none), (1, some 7)])]) ∧
    addRates [(0, [(1, some 100)])] [(3, [(0, none)]), (0, [(1, some 5)]), (4, [(0, none)])]
      = (some .invalid_argument, [(0, [(1, some 100)]), (3, [(0, none)])]) ∧
    addRates [(0, [(1, some 100)])] [(0, [(2, some 5)]), (3, [(0, none), (1, some 7)])]
      = addRateEach [(0, [(1, some 100)])]
          (entriesOf [(0, [(2, some 5)]), (3, [(0, none), (1, some 7)])]) ∧
    ((addRates [(0, [(1, some 100)])]
        [(0, [(2, some 5)]), (3, [(0, none), (1, some 7)])]).1 = none ↔
      ∀ a b, (rateAt [(0, [(2, some 5)]), (3, [(0, none), (1, some 7)])] a b).isSome →
        rateAt [(0, [(1, some 100)])] a b = none) :=
  ⟨by decide!, by decide!, by decide!,
    (addRates_spec [(0, [(1, some 100)])] [(0, [(2, some 5)]), (3, [(0, none), (1, some 7)])]
      (by decide!) (by decide!)).1,
    (addRates_spec [(0, [(1, some 100)])] [(0, [(2, some 5)]), (3, [(0, none), (1, some 7)])]
      (by decide!) (by decide!)).2.1⟩

/-- C38 as stated fails: on an empty table `addRates` copies its argument, so a site of
the map without a rate gets an entry and is among the sites with outgoing rates; the
`addRate` calls for the entries of the map leave no entry for it. -/
theorem addRates_copies_site_without_rate :
    addRates [] [(5, []), (0, [(1, some 100)])] = (none, [(5, []), (0, [(1, some 100)])]) ∧
    addRateEach [] (entriesOf [(5, []), (0, [(1, some 100)])]) = (none, [(0, [(1, some 100)])]) ∧
    getSiteIdsWithOutgoingRates_ (addRates [] [(5, []), (0, [(1, some 100)])]).2 = [5, 0] ∧
    getSiteIdsWithOutgoingRates_
      (addRateEach [] (entriesOf [(5, []), (0, [(1, some 100)])])).2 = [0] :=
  ⟨by decide!, by decide!, by decide!, by decide!⟩

/-- C37, evaluated on the table that holds the one rate from site 0 to site 1:
`outgoingRateCount(5)` leaves an empty entry for the site 5, which `getSourceSiteIds` then
returns; `getRate(0, 2)` leaves a null entry for the pair `(0, 2)`, so that
`getSinkSiteIds` then returns 2 and a later `addRate(0, 2, r)` throws. -/
theorem queries_change_the_table :
    outgoingRateCount [(0, [(1, some 100)])] 5 = (0, [(0, [(1, some 100)]), (5, [])]) ∧
    getSourceSiteIds [(0, [(1, some 100)])] = [0] ∧
    getSourceSiteIds (outgoingRateCount [(0, [(1, some 100)])] 5).2 = [0, 5] ∧
    (getRate [(0, [(1, some 100)])] 0 2).2 = [(0, [(1, some 100), (2, none)])] ∧
    getSinkSiteIds [(0, [(1, some 100)])] = [1] ∧
    getSinkSiteIds (getRate [(0, [(1, some 100)])] 0 2).2 = [1, 2] ∧
    (addRate [(0, [(1, some 100)])] 0 2 (some 5)).1 = none ∧
    (addRate (getRate [(0, [(1, some 100)])] 0 2).2 0 2 (some 5)).1 = some .invalid_argument ∧
    (getRate [(0, [(1, some 100)])] 0 1).2 = [(0, [(1, some 100)])] ∧
    (outgoingRateCount [(0, [(1, some 100)])] 0).2 = [(0, [(1, some 100)])] :=
  ⟨by decide!, by decide!, by decide!, by decide!, by decide!, by decide!, by decide!,
    by decide!, by decide!, by decide!⟩

end Rate_Container

namespace Converter

/-! ### The converter of the performance test -/

theorem intDiv_of_pos (a b : Int) (hb : 0 < b) : intDiv a b = some (Int.tdiv a b) := by
  unfold intDiv
  rw [if_neg]
  omega

theorem intMod_of_pos (a b : Int) (hb : 0 < b) : intMod a b = some (Int.tmod a b) := by
  unfold intMod
  rw [if_neg]
  omega

theorem wrapInt_of_bounds (v : Int) (h0 : 0 ≤ v) (h1 : v ≤ 2147483647) : wrapInt v = v :=
  wrapInt_of_range v (by unfold INT_MIN; omega) (by unfold INT_MAX; omega)

/-- The value of `to1D` on a point of the cube, when the cube has at most 2^31 - 1
points. -/
theorem to1D_eq (d x y z : Int) (hd : 1 ≤ d) (hcube : d * d * d ≤ 2147483647)
    (hx : 0 ≤ x ∧ x < d) (hy : 0 ≤ y ∧ y < d) (hz : 0 ≤ z ∧ z < d) :
    to1D d x y z = some (z * d * d + y * d + x) ∧
    0 ≤ z * d * d + y * d + x ∧ z * d * d + y * d + x < d * d * d := by
  have hdd : d ≤ d * d := by nlinarith
  have hddd : d * d ≤ d * d * d := by nlinarith
  have hzd0 : 0 ≤ z * d := mul_nonneg hz.1 (by omega)
  have hzd1 : z * d ≤ (d - 1) * d := by nlinarith
  have hyd0 : 0 ≤ y * d := mul_nonneg hy.1 (by omega)
  have hyd1 : y * d ≤ (d - 1) * d := by nlinarith
  have hzdd0 : 0 ≤ z * d * d := mul_nonneg hzd0 (by omega)
  have hzdd1 : z * d * d ≤ (d - 1) * d * d := by nlinarith
  have e1 : (d - 1) * d = d * d - d := by ring
  have e2 : (d - 1) * d * d = d * d * d - d * d := by ring
  have w1 : wrapInt (z * d) = z * d := wrapInt_of_bounds _ hzd0 (by omega)
  have w2 : wrapInt (z * d * d) = z * d * d := wrapInt_of_bounds _ hzdd0 (by omega)
  have w3 : wrapInt (y * d) = y * d := wrapInt_of_bounds _ hyd0 (by omega)
  have w4 : wrapInt (z * d * d + y * d) = z * d * d + y * d :=
    wrapInt_of_bounds _ (by omega) (by omega)
  have w5 : wrapInt (z * d * d + y * d + x) = z * d * d + y * d + x :=
    wrapInt_of_bounds _ (by omega) (by omega)
  refine ⟨?_, by omega, by omega⟩
  unfold to1D
  rw [if_pos ⟨hx.2, hy.2, hz.2⟩, w1, w2, w3, w4, w5]

/-- The value of `to3D` on the index of a point of the cube. -/
theorem to3D_eq (d x y z : Int) (hd : 1 ≤ d) (hcube : d * d * d ≤ 2147483647)
    (hx : 0 ≤ x ∧ x < d) (hy : 0 ≤ y ∧ y < d) (hz : 0 ≤ z ∧ z < d) :
    to3D d (z * d * d + y * d + x) = some [x, y, z] := by
  have hdd : d ≤ d * d := by nlinarith
  have hddd : d * d ≤ d * d * d := by nlinarith
  have hdd0 : 0 < d * d := by nlinarith
  have hzd0 : 0 ≤ z * d := mul_nonneg hz.1 (by omega)
  have hzd1 : z * d ≤ (d - 1) * d := by nlinarith
  have hyd0 : 0 ≤ y * d := mul_nonneg hy.1 (by omega)
  have hyd1 : y * d ≤ (d - 1) * d := by nlinarith
  have hzdd0 : 0 ≤ z * d * d := mul_nonneg hzd0 (by omega)
  have hzdd1 : z * d * d ≤ (d - 1) * d * d := by nlinarith
  have e1 : (d - 1) * d = d * d - d := by ring
  have e2 : (d - 1) * d * d = d * d * d - d * d := by ring
  have wdd : wrapInt (d * d) = d * d := wrapInt_of_bounds _ (by omega) (by omega)
  have hq : Int.tdiv (z * d * d + y * d + x) (d * d) = z := by
    rw [Int.tdiv_eq_ediv (by omega) (by omega)]
    have hform : z * d * d + y * d + x = (y * d + x) + z * (d * d) := by ring
    rw [hform, Int.add_mul_ediv_right _ _ (by omega),
      Int.ediv_eq_zero_of_lt (by omega) (by omega)]
    ring
  have w1 : wrapInt (z * d) = z * d := wrapInt_of_bounds _ hzd0 (by omega)
  have w2 : wrapInt (z * d * d) = z * d * d := wrapInt_of_bounds _ hzdd0 (by omega)
  have hrem : z * d * d + y * d + x - z * d * d = y * d + x := by ring
  have w3 : wrapInt (y * d + x) = y * d + x := wrapInt_of_bounds _ (by omega) (by omega)
  have hy2 : Int.tdiv (y * d + x) d = y := by
    rw [Int.tdiv_eq_ediv (by omega) (by omega)]
    have hform : y * d + x = x + y * d := by ring
    rw [hform, Int.add_mul_ediv_right _ _ (by omega),
      Int.ediv_eq_zero_of_lt hx.1 hx.2]
    ring
  have hx2 : Int.tmod (y * d + x) d = x := by
    rw [Int.tmod_eq_emod (by omega) (by omega)]
    have hform : y * d + x = x + y * d := by ring
    rw [hform, Int.add_mul_emod_self, Int.emod_eq_of_lt hx.1 hx.2]
  simp only [to3D, wdd, intDiv_of_pos _ _ hdd0, Option.bind_eq_bind, Option.some_bind, hq, w1,
    w2, hrem, w3, intDiv_of_pos _ _ (show 0 < d by omega),
    intMod_of_pos _ _ (show 0 < d by omega), hy2, hx2]
  rfl

/-- The coordinates of an index of the cube: the quotient by `d * d`, and the quotient and
the remainder by `d` of what is left. -/
theorem index_coordinates (d i : Int) (hd : 1 ≤ d) (hi : 0 ≤ i ∧ i < d * d * d) :
    (0 ≤ i % (d * d) % d ∧ i % (d * d) % d < d) ∧
    (0 ≤ i % (d * d) / d ∧ i % (d * d) / d < d) ∧
    (0 ≤ i / (d * d) ∧ i / (d * d) < d) ∧
    i = i / (d * d) * d * d + i % (d * d) / d * d + i % (d * d) % d := by
  have hdd0 : 0 < d * d := by nlinarith
  have hr0 : 0 ≤ i % (d * d) := Int.emod_nonneg _ (by omega)
  have hr1 : i % (d * d) < d * d := Int.emod_lt_of_pos _ hdd0
  refine ⟨⟨Int.emod_nonneg _ (by omega), Int.emod_lt_of_pos _ (by omega)⟩,
    ⟨Int.ediv_nonneg hr0 (by omega), Int.ediv_lt_of_lt_mul (by omega) hr1⟩,
    ⟨Int.ediv_nonneg hi.1 (by omega),
      Int.ediv_lt_of_lt_mul hdd0 (by rw [← mul_assoc]; exact hi.2)⟩, ?_⟩
  have h1 := Int.ediv_add_emod i (d * d)
  have h2 := Int.ediv_add_emod (i % (d * d)) d
  nlinarith

/-- C39 (amended): for a box size `d ≥ 1` whose cube has at most 2^31 - 1 points, the
converter is a bijection between the cube and the index range: `to1D` keeps its
assertions on the cube and maps it into `[0, d^3)`, `to3D(to1D(x,y,z)) = (x,y,z)` on the
cube, and `to3D` maps every index of `[0, d^3)` to a point of the cube that `to1D` maps
back to the index; the divisions of `to3D` have a result there. -/
theorem converter_bijection (d : Int) (hd : 1 ≤ d) (hcube : d * d * d ≤ 2147483647) :
    (∀ x y z, 0 ≤ x ∧ x < d → 0 ≤ y ∧ y < d → 0 ≤ z ∧ z < d →
      ∃ i, to1D d x y z = some i ∧ 0 ≤ i ∧ i < d * d * d ∧ to3D d i = some [x, y, z]) ∧
    (∀ i, 0 ≤ i ∧ i < d * d * d →
      ∃ x y z, to3D d i = some [x, y, z] ∧ (0 ≤ x ∧ x < d) ∧ (0 ≤ y ∧ y < d) ∧ (0 ≤ z ∧ z < d) ∧
        to1D d x y z = some i) := by
  refine ⟨?_, ?_⟩
  · intro x y z hx hy hz
    obtain ⟨h1, h2, h3⟩ := to1D_eq d x y z hd hcube hx hy hz
    exact ⟨_, h1, h2, h3, to3D_eq d x y z hd hcube hx hy hz⟩
  · intro i hi
    obtain ⟨hx, hy, hz, hform⟩ := index_coordinates d i hd hi
    refine ⟨i % (d * d) % d, i % (d * d) / d, i / (d * d), ?_, hx, hy, hz, ?_⟩
    · have h := to3D_eq d _ _ _ hd hcube hx hy hz
      rw [← hform] at h
      exact h
    · have h := (to1D_eq d _ _ _ hd hcube hx hy hz).1
      rw [← hform] at h
      exact h

theorem converter_bijection_witness :
    ((1 : Int) ≤ 3 ∧ (3 : Int) * 3 * 3 ≤ 2147483647) ∧
    to1D 3 2 0 1 = some 11 ∧ to3D 3 11 = some [2, 0, 1] ∧
    (∀ x y z, 0 ≤ x ∧ x < 3 → 0 ≤ y ∧ y < 3 → 0 ≤ z ∧ z < 3 →
      ∃ i, to1D 3 x y z = some i ∧ 0 ≤ i ∧ i < 3 * 3 * 3 ∧ to3D 3 i = some [x, y, z]) ∧
    (∀ i, 0 ≤ i ∧ i < 3 * 3 * 3 →
      ∃ x y z, to3D 3 i = some [x, y, z] ∧ (0 ≤ x ∧ x < 3) ∧ (0 ≤ y ∧ y < 3) ∧ (0 ≤ z ∧ z < 3) ∧
        to1D 3 x y z = some i) :=
  ⟨⟨by decide, by decide⟩, by decide!, by decide!,
    converter_bijection 3 (by decide) (by decide)⟩

/-- C39 as stated fails: for the box size 2048 the product `1024 * 2048 * 2048` is 2^32, so
in 32-bit arithmetic `to1D` maps the points `(0, 0, 1024)` and `(0, 0, 0)` of the cube to
the same index 0, and `to3D(to1D(0, 0, 1024))` is `(0, 0, 0)`. -/
theorem converter_overflows_for_large_box :
    to1D 2048 0 0 1024 = some 0 ∧ to1D 2048 0 0 0 = some 0 ∧
    to3D 2048 0 = some [0, 0, 0] ∧
    (to1D 2048 0 0 1024).bind (to3D 2048) ≠ some [0, 0, 1024] :=
  ⟨by decide!, by decide!, by decide!, by decide!⟩

/-- C40, evaluated for the box size 2: for the site `(1, 1, 1)` every neighbour range is
the single value 1, because `xlow - 1 > 0` is false at `x = 1` and `xhigh + 1 < 2` is
false; the inner loops visit the site itself only, `rates[siteId]` stays empty and the
assertion `rates[siteId].size() != 0` fails. The site `(0, 0, 0)` receives its seven
neighbours, and in the box of size 3 the site `(1, 1, 1)` has neighbours. -/
theorem rate_loop_assertion_fails_for_box_of_two :
    low 1 = 1 ∧ high 2 1 = 1 ∧
    neighborCoordinates 2 1 1 1 = [(1, 1, 1)] ∧
    to1D 2 1 1 1 = some 7 ∧
    ratesOfSite 2 1 1 1 = some [] ∧
    keepsAssertions 2 1 1 1 = false ∧
    ratesOfSite 2 0 0 0 = some [4, 2, 6, 1, 5, 3, 7] ∧
    keepsAssertions 2 0 0 0 = true ∧
    keepsAssertions 3 1 1 1 = true :=
  ⟨by decide!, by decide!, by decide!, by decide!, by decide!, by decide!, by decide!,
    by decide!, by decide!⟩

end Converter


namespace CoarseGrainSystem

/-! ### Seeds and the enumeration order of the rates map -/

/-- The seeds of the sites the first loop builds depend on the keys of the rates map, in
their order, and on nothing else of the map. -/
theorem initialSites_seed_of_keys (seed_set : Bool) :
    ∀ (rates rates' : List (Int × List (Int × ℚ))) (seed : Nat),
      Table.keys rates' = Table.keys rates →
      ∀ x, (Table.find (initialSites seed_set seed rates') x).map Site.seed
        = (Table.find (initialSites seed_set seed rates) x).map Site.seed := by
  intro rates
  induction rates with
  | nil =>
    intro rates' seed h x
    cases rates' with
    | nil => rfl
    | cons q rest' => simp [Table.keys] at h
  | cons p rest ih =>
    intro rates' seed h x
    cases rates' with
    | nil => simp [Table.keys] at h
    | cons q rest' =>
      obtain ⟨id, r⟩ := p
      obtain ⟨id', r'⟩ := q
      simp only [Table.keys, List.map_cons, List.cons.injEq] at h
      obtain ⟨hid, hrest⟩ := h
      subst hid
      by_cases hx : id' = x
      · simp [initialSites, Table.find, hx]
      · simp only [initialSites, Table.find, hx, if_false]
        exact ih rest' _ hrest x

/-- C21 (amended): two runs of `initializeSystem` from the same engine state, hence with
the same seed, over rate maps that enumerate the same keys in the same order and have the
same destinations both return, leave the same seed counter and give every site the same
seed. -/
theorem seeds_follow_enumeration_order (s : CoarseGrainSystem)
    (rates rates' : List (Int × List (Int × ℚ)))
    (htime : s.time_resolution_set_ = true) (hfresh : Uninitialized s)
    (hkeys : (Table.keys rates).Nodup) (horder : Table.keys rates' = Table.keys rates)
    (hdest : ∀ x, isDestination rates' x ↔ isDestination rates x) :
    ∃ s1 s1', s.initializeSystem rates = (none, s1) ∧
      s.initializeSystem rates' = (none, s1') ∧
      s1'.seed_ = s1.seed_ ∧ ∀ x, siteSeed s1' x = siteSeed s1 x := by
  obtain ⟨hsites, _, hfeatures⟩ := hfresh
  have hlen : rates'.length = rates.length := by
    have h := congrArg List.length horder
    simpa [Table.keys] using h
  refine ⟨afterInitializeSystem s rates, afterInitializeSystem s rates',
    initializeSystem_eq s rates htime hkeys hsites,
    initializeSystem_eq s rates' htime (horder ▸ hkeys) hsites, ?_, ?_⟩
  · simp only [afterInitializeSystem, hlen]
  · intro x
    have hinit := initialSites_seed_of_keys s.seed_set_ rates rates' s.seed_ horder x
    have h1 := afterInitializeSystem_site s rates hsites x
    have h2 := afterInitializeSystem_site s rates' hsites x
    have f1 := afterInitializeSystem_find s rates hsites hfeatures x
    have f2 := afterInitializeSystem_find s rates' hsites hfeatures x
    by_cases hx : x ∈ Table.keys rates
    · have hsome : (Table.find (initialSites s.seed_set_ s.seed_ rates) x).isSome := by
        rw [Table.find_isSome_iff, keys_initialSites]
        exact hx
      have hsome' : (Table.find (initialSites s.seed_set_ s.seed_ rates') x).isSome := by
        rw [Table.find_isSome_iff, keys_initialSites, horder]
        exact hx
      obtain ⟨v, hv⟩ := Option.isSome_iff_exists.mp hsome
      obtain ⟨v', hv'⟩ := Option.isSome_iff_exists.mp hsome'
      rw [hv, hv'] at hinit
      simp only [siteSeed, h1.1 v hv, h2.1 v' hv']
      exact hinit
    · have hx' : x ∉ Table.keys rates' := by rw [horder]; exact hx
      by_cases hd : isDestination rates x
      · simp only [siteSeed, f1.2.1 hx hd, f2.2.1 hx' ((hdest x).mpr hd)]
      · have hd' : ¬ isDestination rates' x := fun h => hd ((hdest x).mp h)
        simp only [siteSeed, f1.2.2.1 hx hd, f2.2.2.1 hx' hd']

theorem seeds_follow_enumeration_order_witness :
    ∃ s1 s1', (Examples.configured.setRandomSeed 7).2.initializeSystem Examples.pairRates
        = (none, s1) ∧
      (Examples.configured.setRandomSeed 7).2.initializeSystem
          [(0, [(2, 1), (1, 100)]), (1, [(0, 1), (2, 5)]), (2, [(3, 100), (1, 1)]), (3, [(4, 2)])]
        = (none, s1') ∧
      s1'.seed_ = s1.seed_ ∧ ∀ x, siteSeed s1' x = siteSeed s1 x :=
  seeds_follow_enumeration_order (Examples.configured.setRandomSeed 7).2 Examples.pairRates
    [(0, [(2, 1), (1, 100)]), (1, [(0, 1), (2, 5)]), (2, [(3, 100), (1, 1)]), (3, [(4, 2)])]
    (by decide!) (by decide!) (by decide!) (by decide!)
    (by
      intro x
      simp only [isDestination, Examples.pairRates, Table.keys, List.mem_cons, List.map_cons,
        List.map_nil, List.not_mem_nil, exists_eq_or_imp, or_false, exists_false,
        exists_eq_left]
      omega)

/-- C21 as stated fails: the rate maps `pairRates` and `pairRatesReordered` are equal as
mappings and enumerate the keys 0 and 1 in different orders; from the same engine with
the seed 7, the site 0 receives the seed 7 in one run and the seed 8 in the other. -/
theorem seed_depends_on_enumeration_order :
    (∀ x, Table.find Examples.pairRatesReordered x = Table.find Examples.pairRates x) ∧
    (∃ s1 s1', (Examples.configured.setRandomSeed 7).2.initializeSystem Examples.pairRates
        = (none, s1) ∧
      (Examples.configured.setRandomSeed 7).2.initializeSystem Examples.pairRatesReordered
        = (none, s1') ∧
      siteSeed s1 0 = some (some 7) ∧ siteSeed s1' 0 = some (some 8) ∧
      siteSeed s1 1 = some (some 8) ∧ siteSeed s1' 1 = some (some 7)) := by
  refine ⟨?_, ((Examples.configured.setRandomSeed 7).2.initializeSystem Examples.pairRates).2,
    ((Examples.configured.setRandomSeed 7).2.initializeSystem Examples.pairRatesReordered).2,
    by decide!, by decide!, by decide!, by decide!, by decide!, by decide!⟩
  intro x
  simp only [Examples.pairRatesReordered, Examples.pairRates, Table.find]
  by_cases h0 : (0 : Int) = x
  · subst h0; rfl
  · by_cases h1 : (1 : Int) = x
    · subst h1; rfl
    · simp only [h0, h1, if_false]

/-! ### Placing walkers -/

theorem modifySite_occupiedAt {s s1 : CoarseGrainSystem} {siteId : Int} {f : Site → Site}
    (h : s.modifySite siteId f = .ok s1) :
    ∃ site, Table.find s.sites_ siteId = some site ∧
      ∀ y, occupiedAt s1 y = if y = siteId then some (f site).occupied else occupiedAt s y := by
  obtain ⟨site, hfind, rfl⟩ := modifySite_eq_ok h
  refine ⟨site, hfind, fun y => ?_⟩
  simp only [occupiedAt, Table.find_assign]
  by_cases hy : y = siteId
  · simp [hy]
  · simp [hy]

/-- The call `occupy` marks the site occupied and clears no occupation flag. -/
theorem occupy_occupiedAt {s s1 : CoarseGrainSystem} {feature : Feature} {siteId : Int}
    (h : s.occupy feature siteId = .ok s1) (hown : ownSite feature siteId) :
    occupiedAt s1 siteId = some true ∧
    ∀ y, occupiedAt s y = some true → occupiedAt s1 y = some true := by
  have key : ∀ (k : Int) (f : Site → Site), (∀ site, (f site).occupied = true) →
      s.modifySite k f = .ok s1 →
      occupiedAt s1 k = some true ∧
      ∀ y, occupiedAt s y = some true → occupiedAt s1 y = some true := by
    intro k f hf hm
    obtain ⟨site, _, hocc⟩ := modifySite_occupiedAt hm
    refine ⟨by rw [hocc k, if_pos rfl, hf], fun y hy => ?_⟩
    rw [hocc y]
    by_cases hyk : y = k
    · rw [if_pos hyk, hf]
    · rw [if_neg hyk]; exact hy
  cases feature with
  | site id =>
    have hid : id = siteId := hown
    subst hid
    exact key id _ (fun _ => rfl) h
  | cluster id =>
    simp only [occupy] at h
    obtain ⟨_, _, h2⟩ := Result.bind_eq_ok.mp h
    exact key siteId _ (fun _ => rfl) h2

/-- A draw of a dwell time leaves the occupation flags as they are. -/
theorem getDwellTime_occupiedAt {env : Collaborators} {s s1 : CoarseGrainSystem}
    {feature : Feature} {walker_id : Int} {dwell : Option ℚ}
    (h : s.getDwellTime env feature walker_id = .ok (dwell, s1)) (y : Int) :
    occupiedAt s1 y = occupiedAt s y := by
  cases feature with
  | site id =>
    simp only [getDwellTime] at h
    obtain ⟨site, h1, h2⟩ := Result.bind_eq_ok.mp h
    simp only [Result.pure_eq, Except.ok.injEq, Prod.mk.injEq] at h2
    obtain ⟨_, rfl⟩ := h2
    simp only [occupiedAt, Table.find_assign]
    by_cases hy : y = id
    · simp [hy, getSite_eq_ok h1]
    · simp [hy]
  | cluster id =>
    simp only [getDwellTime] at h
    obtain ⟨cluster, _, h2⟩ := Result.bind_eq_ok.mp h
    simp only [Result.pure_eq, Except.ok.injEq, Prod.mk.injEq] at h2
    obtain ⟨_, rfl⟩ := h2
    rfl

/-- A draw of a potential site leaves the occupation flags as they are. -/
theorem pickNewSiteId_occupiedAt {env : Collaborators} {s s1 : CoarseGrainSystem}
    {feature : Feature} {walker_id : Int} {next : Int}
    (h : s.pickNewSiteId env feature walker_id = .ok (next, s1)) (y : Int) :
    occupiedAt s1 y = occupiedAt s y := by
  cases feature with
  | site id =>
    simp only [pickNewSiteId] at h
    obtain ⟨site, h1, h2⟩ := Result.bind_eq_ok.mp h
    simp only [Result.pure_eq, Except.ok.injEq, Prod.mk.injEq] at h2
    obtain ⟨_, rfl⟩ := h2
    simp only [occupiedAt, Table.find_assign]
    by_cases hy : y = id
    · simp [hy, getSite_eq_ok h1]
    · simp [hy]
  | cluster id =>
    simp only [pickNewSiteId] at h
    obtain ⟨cluster, _, h2⟩ := Result.bind_eq_ok.mp h
    simp only [Result.pure_eq, Except.ok.injEq, Prod.mk.injEq] at h2
    obtain ⟨_, rfl⟩ := h2
    rfl

theorem dispatchLive_of_sameTopology {s s1 : CoarseGrainSystem} (h : SameTopology s s1)
    (hlive : DispatchLive s) : DispatchLive s1 := by
  intro d hd
  rw [h.2.1] at hd
  exact ⟨featureLive_of_sameTopology h (hlive d hd).1, (hlive d hd).2⟩

/-- A walker that cannot be placed makes the loop body throw `runtime_error`. -/
theorem initializeWalker_unplaceable (env : Collaborators) (s : CoarseGrainSystem)
    (walker_id : Int) (walker : Walker) (h : unplaceable s walker) :
    s.initializeWalker env walker_id walker = .error .runtime_error := by
  unfold initializeWalker Walker.getIdOfSiteCurrentlyOccupying
  by_cases hc : walker.current_site_ = constants.unassignedId
  · simp [hc]
  · rcases h with h | h
    · exact absurd h hc
    · simp [hc, h]

/-- The loop body on a walker that can be placed: the site is occupied, then the dwell
time and the potential site are drawn from its feature. -/
theorem initializeWalker_ok (env : Collaborators) (s : CoarseGrainSystem) (walker_id : Int)
    (walker : Walker) (hlive : DispatchLive s) (h : ¬ unplaceable s walker) :
    ∃ (feature : Feature) (sA sB s1 : CoarseGrainSystem) (dwell : Option ℚ) (next : Int),
      Table.find s.topology_features_ walker.current_site_ = some feature ∧
      ownSite feature walker.current_site_ ∧
      s.occupy feature walker.current_site_ = .ok sA ∧
      sA.getDwellTime env feature walker_id = .ok (dwell, sB) ∧
      sB.pickNewSiteId env feature walker_id = .ok (next, s1) ∧
      s.initializeWalker env walker_id walker
        = .ok (s1, { current_site_ := walker.current_site_
                     potential_site_ := next
                     dwell_time_ := dwell }) := by
  unfold unplaceable at h
  have hc : walker.current_site_ ≠ constants.unassignedId := fun hc => h (Or.inl hc)
  cases hF : Table.find s.topology_features_ walker.current_site_ with
  | none => exact absurd (Or.inr hF) h
  | some feature =>
    obtain ⟨hl, hown⟩ := hlive (walker.current_site_, feature) (Table.find_some_mem _ _ _ hF)
    obtain ⟨sA, hA⟩ := occupy_ok hl
    have hlA := featureLive_of_sameTopology (occupy_sameTopology hA) hl
    obtain ⟨⟨dwell, sB⟩, hB⟩ := getDwellTime_ok env walker_id hlA
    have hlB := featureLive_of_sameTopology (getDwellTime_sameTopology hB) hlA
    obtain ⟨⟨next, s1⟩, hC⟩ := pickNewSiteId_ok env walker_id hlB
    refine ⟨feature, sA, sB, s1, dwell, next, rfl, hown, hA, hB, hC, ?_⟩
    simp only [initializeWalker, Walker.getIdOfSiteCurrentlyOccupying, hc, if_false, hF,
      Option.isNone_some, Bool.false_eq_true, getFeature_of_find hF, Result.ok_bind, hA, hB, hC,
      Result.pure_eq, Walker.setDwellTime, Walker.setPotentialSite]

theorem walkerInitialized_of_sameTopology {env : Collaborators} {s s1 : CoarseGrainSystem}
    (h : SameTopology s s1) {p p1 : Int × Walker} (hp : walkerInitialized env s1 p p1) :
    walkerInitialized env s p p1 := by
  obtain ⟨h1, h2, feature, sA, sB, sC, hF, hA, hB, hC⟩ := hp
  exact ⟨h1, h2, feature, sA, sB, sC, by rw [← h.2.1]; exact hF, h.trans hA, hB, hC⟩

/-- The loop of `initializeWalkers`: it throws `runtime_error` when a walker cannot be
placed, and otherwise places every walker. -/
theorem initializeWalkersLoop_spec (env : Collaborators) :
    ∀ (walkers : List (Int × Walker)) (s : CoarseGrainSystem), DispatchLive s →
      ((∃ p ∈ walkers, unplaceable s p.2) →
        initializeWalkersLoop env s walkers = .error .runtime_error) ∧
      ((∀ p ∈ walkers, ¬ unplaceable s p.2) →
        ∃ s1 walkers1, initializeWalkersLoop env s walkers = .ok (s1, walkers1) ∧
          SameTopology s s1 ∧
          (∀ y, occupiedAt s y = some true → occupiedAt s1 y = some true) ∧
          (∀ p ∈ walkers, occupiedAt s1 p.2.current_site_ = some true) ∧
          List.Forall₂ (walkerInitialized env s) walkers walkers1) := by
  intro walkers
  induction walkers with
  | nil =>
    intro s _
    refine ⟨by simp, fun _ => ⟨s, [], rfl, SameTopology.refl s, fun _ h => h, by simp,
      List.Forall₂.nil⟩⟩
  | cons p rest ih =>
    intro s hlive
    obtain ⟨walker_id, walker⟩ := p
    by_cases hbad : unplaceable s walker
    · refine ⟨fun _ => ?_, fun hall => absurd hbad (hall _ (List.mem_cons_self _ _))⟩
      simp only [initializeWalkersLoop, initializeWalker_unplaceable env s walker_id walker hbad,
        Result.error_bind]
    · obtain ⟨feature, sA, sB, s1, dwell, next, hF, hown, hA, hB, hC, hinit⟩ :=
        initializeWalker_ok env s walker_id walker hlive hbad
      have hsame : SameTopology s s1 :=
        (occupy_sameTopology hA).trans
          ((getDwellTime_sameTopology hB).trans (pickNewSiteId_sameTopology hC))
      have hun : ∀ w : Walker, unplaceable s1 w ↔ unplaceable s w := by
        intro w
        simp only [unplaceable, hsame.2.1]
      obtain ⟨ihbad, ihok⟩ := ih s1 (dispatchLive_of_sameTopology hsame hlive)
      obtain ⟨hoccA, hmonoA⟩ := occupy_occupiedAt hA hown
      have hocc1 : ∀ y, occupiedAt s1 y = occupiedAt sA y := by
        intro y
        rw [pickNewSiteId_occupiedAt hC y, getDwellTime_occupiedAt hB y]
      refine ⟨?_, ?_⟩
      · rintro ⟨q, hq, hqbad⟩
        rcases List.mem_cons.mp hq with rfl | hq
        · exact absurd hqbad hbad
        · simp only [initializeWalkersLoop, hinit, Result.ok_bind,
            ihbad ⟨q, hq, (hun q.2).mpr hqbad⟩, Result.error_bind]
      · intro hall
        obtain ⟨s2, walkers1, hloop, hsame2, hmono2, hocc2, hrel⟩ :=
          ihok (fun q hq => fun hb => hall q (List.mem_cons_of_mem _ hq) ((hun q.2).mp hb))
        refine ⟨s2, (walker_id, { current_site_ := walker.current_site_
                                  potential_site_ := next
                                  dwell_time_ := dwell }) :: walkers1,
          ?_, hsame.trans hsame2, ?_, ?_, ?_⟩
        · simp only [initializeWalkersLoop, hinit, Result.ok_bind, hloop, Result.pure_eq]
        · intro y hy
          exact hmono2 y (by rw [hocc1]; exact hmonoA y hy)
        · intro q hq
          rcases List.mem_cons.mp hq with rfl | hq
          · exact hmono2 _ (by rw [hocc1]; exact hoccA)
          · exact hocc2 q hq
        · refine List.Forall₂.cons ?_ (hrel.imp
            (fun _ _ h => walkerInitialized_of_sameTopology hsame h))
          exact ⟨rfl, rfl, feature, sA, sB, s1, hF, occupy_sameTopology hA, hB, hC⟩

/-- C22: on an engine whose dispatch entries are live, `initializeWalkers` throws
`runtime_error` exactly when the dispatch table is empty or some walker of the vector has
no current site or a current site without a dispatch entry; otherwise it returns, the
current site of every walker of the vector is marked occupied, and every walker keeps
its current site and receives a dwell time and then a potential site drawn from the
feature the dispatch table holds for that site. -/
theorem initializeWalkers_spec (env : Collaborators) (s : CoarseGrainSystem)
    (walkers : List (Int × Walker)) (hlive : DispatchLive s) :
    (s.initializeWalkers env walkers = .error .runtime_error ↔
      (s.topology_features_ = [] ∨ ∃ p ∈ walkers, unplaceable s p.2)) ∧
    (¬ (s.topology_features_ = [] ∨ ∃ p ∈ walkers, unplaceable s p.2) →
      ∃ s1 walkers1, s.initializeWalkers env walkers = .ok (s1, walkers1) ∧
        SameTopology s s1 ∧
        (∀ p ∈ walkers, occupiedAt s1 p.2.current_site_ = some true) ∧
        List.Forall₂ (walkerInitialized env s) walkers walkers1) := by
  obtain ⟨hbad, hok⟩ := initializeWalkersLoop_spec env walkers s hlive
  have hgood : ¬ (s.topology_features_ = [] ∨ ∃ p ∈ walkers, unplaceable s p.2) →
      ∃ s1 walkers1, s.initializeWalkers env walkers = .ok (s1, walkers1) ∧
        SameTopology s s1 ∧
        (∀ p ∈ walkers, occupiedAt s1 p.2.current_site_ = some true) ∧
        List.Forall₂ (walkerInitialized env s) walkers walkers1 := by
    intro h
    have hne : s.topology_features_.length ≠ 0 := by
      intro h0
      exact h (Or.inl (List.length_eq_zero.mp h0))
    obtain ⟨s1, walkers1, hloop, hsame, _, hocc, hrel⟩ :=
      hok (fun p hp hb => h (Or.inr ⟨p, hp, hb⟩))
    exact ⟨s1, walkers1, by simp only [initializeWalkers, hne, if_false]; exact hloop,
      hsame, hocc, hrel⟩
  refine ⟨⟨?_, ?_⟩, hgood⟩
  · intro herr
    by_contra h
    obtain ⟨s1, walkers1, hrun, _⟩ := hgood h
    rw [hrun] at herr
    cases herr
  · rintro (h | h)
    · simp [initializeWalkers, h]
    · by_cases h0 : s.topology_features_.length = 0
      · simp [initializeWalkers, h0]
      · simp only [initializeWalkers, h0, if_false]
        exact hbad h

/-- C22 on the example system: a walker on the unknown site 99 and a walker without a
site make `initializeWalkers` throw; walkers on the sites 0 and 2 are placed, and receive
the dwell time 1 and the first neighbours 1 and 3 as potential sites. -/
theorem initializeWalkers_spec_witness :
    DispatchLive Examples.pairs ∧
    Examples.pairs.initializeWalkers Examples.env
      [(0, Walker.new.occupySite 0), (1, Walker.new.occupySite 99)] = .error .runtime_error ∧
    Examples.pairs.initializeWalkers Examples.env [(0, Walker.new)] = .error .runtime_error ∧
    (Examples.valueOr (Examples.pairs.initializeWalkers Examples.env Examples.startingWalkers)
        (Examples.pairs, [])).2
      = [(0, { current_site_ := 0, potential_site_ := 1, dwell_time_ := some 1 }),
         (1, { current_site_ := 2, potential_site_ := 3, dwell_time_ := some 1 })] ∧
    ∃ s1 walkers1,
      Examples.pairs.initializeWalkers Examples.env Examples.startingWalkers
        = .ok (s1, walkers1) ∧
      SameTopology Examples.pairs s1 ∧
      (∀ p ∈ Examples.startingWalkers, occupiedAt s1 p.2.current_site_ = some true) ∧
      List.Forall₂ (walkerInitialized Examples.env Examples.pairs) Examples.startingWalkers
        walkers1 :=
  ⟨by decide!,
    (initializeWalkers_spec Examples.env Examples.pairs
      [(0, Walker.new.occupySite 0), (1, Walker.new.occupySite 99)] (by decide!)).1.mpr
      (by decide!),
    (initializeWalkers_spec Examples.env Examples.pairs [(0, Walker.new)] (by decide!)).1.mpr
      (by decide!),
    by decide!,
    (initializeWalkers_spec Examples.env Examples.pairs Examples.startingWalkers
      (by decide!)).2 (by decide!)⟩

/-- C23, evaluated on the example system, where no site 99 is registered: `hop` of a walker
whose potential or current site is 99, and `removeWalkerFromSystem` of a walker on the
site 99, do not throw; they end in the dereference of the null pointer that
`topology_features_[99]` yields. `initializeWalkers` checks the dispatch table and throws
`runtime_error` for the same walker. -/
theorem hop_unregistered_site_dereferences_null :
    Table.find Examples.pairs.topology_features_ 99 = none ∧
    Examples.pairs.hop Examples.env 0
      { current_site_ := 0, potential_site_ := 99, dwell_time_ := some 1 }
      = .error .null_feature ∧
    Examples.pairs.hop Examples.env 0
      { current_site_ := 99, potential_site_ := 0, dwell_time_ := some 1 }
      = .error .null_feature ∧
    Examples.pairs.removeWalkerFromSystem 0
      { current_site_ := 99, potential_site_ := 0, dwell_time_ := some 1 }
      = .error .null_feature ∧
    Examples.pairs.initializeWalkers Examples.env
      [(0, { current_site_ := 99, potential_site_ := 0, dwell_time_ := some 1 })]
      = .error .runtime_error :=
  ⟨by decide!, by decide!, by decide!, by decide!, by decide!⟩

/-! ### The equilibrium test on closed basins and on created clusters -/

theorem getInternalTimeLimit_nonneg (env : Collaborators) (s : CoarseGrainSystem)
    (siteIds : List Int) : 0 ≤ s.getInternalTimeLimit_ env siteIds := by
  unfold getInternalTimeLimit_
  have key : ∀ (l : List ((Int × Int) × ℚ)) (acc : ℚ), 0 ≤ acc →
      0 ≤ l.foldl (fun maxtime verticesAndTime =>
        if verticesAndTime.2 > maxtime then verticesAndTime.2 else maxtime) acc := by
    intro l
    induction l with
    | nil => intro acc h; exact h
    | cons a rest ih =>
      intro acc h
      simp only [List.foldl_cons]
      apply ih
      by_cases hgt : a.2 > acc
      · rw [if_pos hgt]; exact le_of_lt (lt_of_le_of_lt h hgt)
      · rw [if_neg hgt]; exact h
  exact key _ 0 (le_refl 0)

/-- What a passed equilibrium test says. -/
theorem sitesSatisfyEquilibriumCondition_true {s : CoarseGrainSystem} {siteIds : List Int}
    {maxtime : ℚ} (h : s.sitesSatisfyEquilibriumCondition_ siteIds maxtime = .ok true) :
    ∃ timeConstant, s.getTimeConstantFromSitesToNeighbors_ siteIds = .ok timeConstant ∧
      timeConstant > maxtime * (s.minimum_coarse_graining_resolution_ : ℚ) * s.performance_ratio_ ∧
      maxtime * (s.minimum_coarse_graining_resolution_ : ℚ) < s.time_resolution_ := by
  unfold sitesSatisfyEquilibriumCondition_ at h
  obtain ⟨timeConstant, hT, h⟩ := Result.bind_eq_ok.mp h
  simp only [Result.pure_eq, Except.ok.injEq, Bool.and_eq_true, decide_eq_true_eq] at h
  exact ⟨timeConstant, hT, h.1, h.2⟩

/-- The time constant of a candidate list without a rate from a member to a non-member. -/
theorem getTimeConstant_closed (s : CoarseGrainSystem) (siteIds : List Int)
    (hreg : ∀ id ∈ siteIds, (Table.find s.sites_ id).isSome)
    (hclosed : ∀ id ∈ siteIds, ∀ p ∈ neighborsOf s id, p.1 ∈ siteIds) :
    s.getTimeConstantFromSitesToNeighbors_ siteIds = .ok 0 := by
  have hzero : (siteIds.map (fun i =>
      (((neighborsOf s i).filter (fun p => decide (p.1 ∉ siteIds))).map Prod.snd).sum)).sum
        = 0 := by
    apply List.sum_eq_zero
    intro x hx
    obtain ⟨i, hi, rfl⟩ := List.mem_map.mp hx
    have hnil : (neighborsOf s i).filter (fun p => decide (p.1 ∉ siteIds)) = [] := by
      rw [List.filter_eq_nil_iff]
      intro p hp
      simp only [decide_eq_true_eq, not_not]
      exact hclosed i hi p hp
    rw [hnil]
    rfl
  unfold getTimeConstantFromSitesToNeighbors_
  rw [sumRatesOffSites_eq s siteIds siteIds 0 hreg, hzero]
  simp

/-- The equilibrium test on a candidate list without a rate from a member to a non-member
fails for every internal time limit that is not negative. -/
theorem closed_basin_fails (s : CoarseGrainSystem) (siteIds : List Int)
    (hreg : ∀ id ∈ siteIds, (Table.find s.sites_ id).isSome)
    (hclosed : ∀ id ∈ siteIds, ∀ p ∈ neighborsOf s id, p.1 ∈ siteIds)
    (hratio : 0 ≤ s.performance_ratio_)
    (hminimum : 0 ≤ s.minimum_coarse_graining_resolution_) :
    ∀ t : ℚ, 0 ≤ t → s.sitesSatisfyEquilibriumCondition_ siteIds t = .ok false := by
  have hT := getTimeConstant_closed s siteIds hreg hclosed
  have hmin : (0 : ℚ) ≤ (s.minimum_coarse_graining_resolution_ : ℚ) := by exact_mod_cast hminimum
  intro t ht
  unfold sitesSatisfyEquilibriumCondition_
  simp only [hT, Result.ok_bind, Result.pure_eq, Except.ok.injEq, Bool.and_eq_false_imp,
    decide_eq_true_eq, decide_eq_false_iff_not, not_lt]
  intro hgt
  have : 0 ≤ t * (s.minimum_coarse_graining_resolution_ : ℚ) * s.performance_ratio_ :=
    mul_nonneg (mul_nonneg ht hmin) hratio
  exact absurd hgt (not_lt.mpr this)

/-- C34: for a list of stored candidate sites with no rate from a member to a non-member
(the empty list included), `getTimeConstantFromSitesToNeighbors_` returns 0 and, when the
performance ratio, the minimum coarse-graining resolution and the internal time limit
are not negative, the equilibrium test fails; so `coarseGrain_` on a site for which the
explorer proposes such a list returns false and leaves the state as it is. -/
theorem closed_basin_is_not_coarse_grained (env : Collaborators) (s : CoarseGrainSystem)
    (siteIds : List Int) (maxtime : ℚ)
    (hreg : ∀ id ∈ siteIds, (Table.find s.sites_ id).isSome)
    (hclosed : ∀ id ∈ siteIds, ∀ p ∈ neighborsOf s id, p.1 ∈ siteIds)
    (hratio : 0 ≤ s.performance_ratio_)
    (hminimum : 0 ≤ s.minimum_coarse_graining_resolution_)
    (hlimit : 0 ≤ maxtime) :
    s.getTimeConstantFromSitesToNeighbors_ siteIds = .ok 0 ∧
    s.sitesSatisfyEquilibriumCondition_ siteIds maxtime = .ok false ∧
    ∀ siteId, env.findBasin s.sites_ s.clusters_ siteId = siteIds →
      s.coarseGrain_ env siteId = .ok (false, s) := by
  have hT := getTimeConstant_closed s siteIds hreg hclosed
  have htest := closed_basin_fails s siteIds hreg hclosed hratio hminimum
  refine ⟨hT, htest maxtime hlimit, ?_⟩
  intro siteId hbasin
  apply coarseGrain_of_test_false
  rw [hbasin]
  exact htest _ (getInternalTimeLimit_nonneg env s siteIds)

theorem closed_basin_is_not_coarse_grained_witness :
    ((∀ id ∈ ([0, 1] : List Int), (Table.find Examples.closedPair.sites_ id).isSome) ∧
      (∀ id ∈ ([0, 1] : List Int), ∀ p ∈ neighborsOf Examples.closedPair id,
        p.1 ∈ ([0, 1] : List Int)) ∧
      Examples.env.findBasin Examples.closedPair.sites_ Examples.closedPair.clusters_ 0
        = [0, 1]) ∧
    Examples.closedPair.getTimeConstantFromSitesToNeighbors_ [0, 1] = .ok 0 ∧
    Examples.closedPair.sitesSatisfyEquilibriumCondition_ [0, 1] (1 / 100) = .ok false ∧
    Examples.closedPair.coarseGrain_ Examples.env 0 = .ok (false, Examples.closedPair) :=
  ⟨⟨by decide!, by decide!, by decide!⟩,
    (closed_basin_is_not_coarse_grained Examples.env Examples.closedPair [0, 1] (1 / 100)
      (by decide!) (by decide!) (by decide!) (by decide!) (by decide!)).1,
    (closed_basin_is_not_coarse_grained Examples.env Examples.closedPair [0, 1] (1 / 100)
      (by decide!) (by decide!) (by decide!) (by decide!) (by decide!)).2.1,
    (closed_basin_is_not_coarse_grained Examples.env Examples.closedPair [0, 1] (1 / 100)
      (by decide!) (by decide!) (by decide!) (by decide!) (by decide!)).2.2 0 (by decide!)⟩

/-- C33: when `coarseGrain_` creates a cluster (the candidates are free stored sites that
pass the equilibrium test) with a minimum coarse-graining resolution of at least 2, a
positive internal time limit `T` and a positive escape time constant `tau`, then
`tau / time_resolution < tau / (2 * T)`, the resolution of the new cluster is
`max(2, tau / time_resolution)`, and `tau / resolution` is at most the time
resolution. -/
theorem created_cluster_dwell_scale (env : Collaborators) (s : CoarseGrainSystem) (siteId : Int)
    (hkeyed : SitesKeyed s)
    (hseed : siteId ∈ env.findBasin s.sites_ s.clusters_ siteId)
    (hfree : ∀ id ∈ env.findBasin s.sites_ s.clusters_ siteId,
      ∃ site, Table.find s.sites_ id = some site ∧ site.cluster_id = constants.unassignedId)
    (hpass : s.sitesSatisfyEquilibriumCondition_ (env.findBasin s.sites_ s.clusters_ siteId)
      (s.getInternalTimeLimit_ env (env.findBasin s.sites_ s.clusters_ siteId)) = .ok true)
    (hminimum : 2 ≤ s.minimum_coarse_graining_resolution_)
    (hlimit : 0 < s.getInternalTimeLimit_ env (env.findBasin s.sites_ s.clusters_ siteId))
    (htau : 0 < env.solveMasterEquation s.sites_ (env.findBasin s.sites_ s.clusters_ siteId)) :
    ∃ (s1 : CoarseGrainSystem) (cluster : Cluster),
      s.coarseGrain_ env siteId = .ok (true, s1) ∧
      Table.find s1.clusters_ s.cluster_id_count_ = some cluster ∧
      cluster.members = env.findBasin s.sites_ s.clusters_ siteId ∧
      cluster.time_constant
        = env.solveMasterEquation s.sites_ (env.findBasin s.sites_ s.clusters_ siteId) ∧
      cluster.time_constant / s.time_resolution_
        < cluster.time_constant
          / (2 * s.getInternalTimeLimit_ env (env.findBasin s.sites_ s.clusters_ siteId)) ∧
      cluster.resolution = max 2 (cluster.time_constant / s.time_resolution_) ∧
      cluster.time_constant / cluster.resolution ≤ s.time_resolution_ := by
  have hreg : ∀ id ∈ env.findBasin s.sites_ s.clusters_ siteId,
      (Table.find s.sites_ id).isSome := by
    intro id hid
    obtain ⟨site, hsite, _⟩ := hfree id hid
    simp [hsite]
  have hcid : ∀ id ∈ env.findBasin s.sites_ s.clusters_ siteId,
      clusterIdOf s id = constants.unassignedId := by
    intro id hid
    obtain ⟨site, hsite, hc⟩ := hfree id hid
    rw [clusterIdOf_of_find hsite, hc]
  obtain ⟨m, hm⟩ := getClustersOfSites_ok s _ hreg
  obtain ⟨hcount, hhead⟩ := uniform_map hm hseed hcid
  have hcreate := createCluster_eq env s (env.findBasin s.sites_ s.clusters_ siteId)
    (s.getInternalTimeLimit_ env (env.findBasin s.sites_ s.clusters_ siteId)) hkeyed hreg
  obtain ⟨_, _, _, htrav⟩ := sitesSatisfyEquilibriumCondition_true hpass
  have hcg : s.coarseGrain_ env siteId = .ok (true,
      afterCreateCluster env s (env.findBasin s.sites_ s.clusters_ siteId)
        (s.getInternalTimeLimit_ env (env.findBasin s.sites_ s.clusters_ siteId))) := by
    unfold coarseGrain_
    simp only [hpass, Result.ok_bind, if_true, hm, hcount, hhead, and_self, hcreate,
      Result.pure_eq]
  generalize env.findBasin s.sites_ s.clusters_ siteId = basin at *
  generalize hT : s.getInternalTimeLimit_ env basin = T at *
  generalize htaudef : env.solveMasterEquation s.sites_ basin = tau at *
  have hmin : (2 : ℚ) ≤ (s.minimum_coarse_graining_resolution_ : ℚ) := by exact_mod_cast hminimum
  have h2T : 2 * T < s.time_resolution_ := by
    have : 2 * T ≤ T * (s.minimum_coarse_graining_resolution_ : ℚ) := by nlinarith
    exact lt_of_le_of_lt this htrav
  have htr : 0 < s.time_resolution_ := by linarith
  have hlt : tau / s.time_resolution_ < tau / (2 * T) :=
    div_lt_div_of_pos_left htau (by linarith) h2T
  have hres : chooseResolution tau T s.time_resolution_ = max 2 (tau / s.time_resolution_) := by
    rw [chooseResolution_eq _ _ _ (ne_of_gt hlimit) (ne_of_gt htr), min_eq_right (le_of_lt hlt)]
  refine ⟨afterCreateCluster env s basin T, createdCluster env s basin T, ?_, ?_, rfl, ?_, ?_,
    ?_, ?_⟩
  · exact hcg
  · simp [afterCreateCluster, Table.find_assign]
  · simp only [createdCluster, htaudef]
  · simp only [createdCluster, htaudef]
    exact hlt
  · simp only [createdCluster, htaudef]
    exact hres
  · simp only [createdCluster, htaudef, hres]
    have hpos : 0 < tau / s.time_resolution_ := div_pos htau htr
    have hmax : 0 < max 2 (tau / s.time_resolution_) := lt_of_lt_of_le hpos (le_max_right _ _)
    rw [div_le_iff₀ hmax]
    have h1 : tau / s.time_resolution_ ≤ max 2 (tau / s.time_resolution_) := le_max_right _ _
    have h2 : tau = s.time_resolution_ * (tau / s.time_resolution_) := by
      field_simp
    calc tau = s.time_resolution_ * (tau / s.time_resolution_) := h2
      _ ≤ s.time_resolution_ * max 2 (tau / s.time_resolution_) :=
        mul_le_mul_of_nonneg_left h1 (le_of_lt htr)

/-- C33 on the example system: the cluster of the sites 0 and 1 has the time constant 1/2
and the internal time limit 1/100; with the time resolution 1/10 its resolution is 5 and
its dwell scale is 1/10. -/
theorem created_cluster_dwell_scale_witness :
    (Table.find (Examples.valueOr (Examples.pairs.coarseGrain_ Examples.env 0)
      (false, Examples.pairs)).2.clusters_ 0).map Cluster.resolution = some 5 ∧
    ∃ (s1 : CoarseGrainSystem) (cluster : Cluster),
      Examples.pairs.coarseGrain_ Examples.env 0 = .ok (true, s1) ∧
      Table.find s1.clusters_ Examples.pairs.cluster_id_count_ = some cluster ∧
      cluster.members
        = Examples.env.findBasin Examples.pairs.sites_ Examples.pairs.clusters_ 0 ∧
      cluster.time_constant
        = Examples.env.solveMasterEquation Examples.pairs.sites_
            (Examples.env.findBasin Examples.pairs.sites_ Examples.pairs.clusters_ 0) ∧
      cluster.time_constant / Examples.pairs.time_resolution_
        < cluster.time_constant
          / (2 * Examples.pairs.getInternalTimeLimit_ Examples.env
              (Examples.env.findBasin Examples.pairs.sites_ Examples.pairs.clusters_ 0)) ∧
      cluster.resolution = max 2 (cluster.time_constant / Examples.pairs.time_resolution_) ∧
      cluster.time_constant / cluster.resolution ≤ Examples.pairs.time_resolution_ :=
  ⟨by decide!,
    created_cluster_dwell_scale Examples.env Examples.pairs 0 (by decide!) (by decide!)
      (by
        intro id hid
        have hid2 : id = 0 ∨ id = 1 := by
          have : id ∈ ([0, 1] : List Int) := hid
          simpa using this
        rcases hid2 with rfl | rfl
        · exact ⟨_, rfl, rfl⟩
        · exact ⟨_, rfl, rfl⟩)
      (by decide!) (by decide!) (by decide!) (by decide!)⟩

/-! ### The favoured cluster of a merge -/

/-- C35: whenever `coarseGrain_` reaches `mergeSitesAndClusters_` (the candidates pass the
equilibrium test and the map of their cluster ids does not hold exactly one value), the
favoured cluster id it passes is not the sentinel and is the id of a stored cluster,
provided the cluster id of every candidate in a cluster names a stored cluster and the
performance ratio and the minimum coarse-graining resolution are not negative; the
candidate list is then not empty. -/
theorem merge_receives_stored_cluster (env : Collaborators) (s : CoarseGrainSystem)
    (siteId : Int) (sites_and_clusters : List (Int × Int))
    (hexist : ∀ id ∈ env.findBasin s.sites_ s.clusters_ siteId,
      clusterIdOf s id ≠ constants.unassignedId →
      (Table.find s.clusters_ (clusterIdOf s id)).isSome)
    (hratio : 0 ≤ s.performance_ratio_)
    (hminimum : 0 ≤ s.minimum_coarse_graining_resolution_)
    (hpass : s.sitesSatisfyEquilibriumCondition_ (env.findBasin s.sites_ s.clusters_ siteId)
      (s.getInternalTimeLimit_ env (env.findBasin s.sites_ s.clusters_ siteId)) = .ok true)
    (hmap : s.getClustersOfSites (env.findBasin s.sites_ s.clusters_ siteId)
      = .ok sites_and_clusters)
    (hcount : countUniqueClusters sites_and_clusters ≠ 1) :
    env.findBasin s.sites_ s.clusters_ siteId ≠ [] ∧
    getFavoredClusterId sites_and_clusters ≠ constants.unassignedId ∧
    (Table.find s.clusters_ (getFavoredClusterId sites_and_clusters)).isSome ∧
    s.coarseGrain_ env siteId
      = (s.mergeSitesAndClusters_ env sites_and_clusters
          (getFavoredClusterId sites_and_clusters) >>= fun s1 => pure (true, s1)) := by
  obtain ⟨hreg, _, hkeys, hmem⟩ := getClustersOfSites_spec hmap
  have hne : env.findBasin s.sites_ s.clusters_ siteId ≠ [] := by
    intro hnil
    have hfalse := closed_basin_fails s [] (by simp) (by simp) hratio hminimum
      (s.getInternalTimeLimit_ env []) (getInternalTimeLimit_nonneg env s [])
    rw [hnil, hfalse] at hpass
    cases hpass
  have hassigned : ∃ p ∈ sites_and_clusters, p.2 ≠ constants.unassignedId := by
    by_contra hnone
    have hall : ∀ p ∈ sites_and_clusters, p.2 = constants.unassignedId := by
      intro p hp
      by_contra hp2
      exact hnone ⟨p, hp, hp2⟩
    obtain ⟨x, hx⟩ := List.exists_mem_of_ne_nil _ hne
    have hin : (x, clusterIdOf s x) ∈ sites_and_clusters := (hmem _).mpr ⟨hx, rfl⟩
    exact hcount ((countUniqueClusters_eq_one_iff _).mpr
      ⟨constants.unassignedId, ⟨_, hin, hall _ hin⟩, hall⟩)
  obtain ⟨f1, _, f3⟩ := getFavoredClusterId_spec sites_and_clusters
  have hfav : getFavoredClusterId sites_and_clusters ≠ constants.unassignedId := by
    intro hu
    obtain ⟨p, hp, hp2⟩ := hassigned
    exact hp2 (f1.mp hu p hp)
  refine ⟨hne, hfav, ?_, ?_⟩
  · obtain ⟨p, hp, hpf⟩ := f3 hfav
    obtain ⟨hp1, hp2⟩ := (hmem p).mp hp
    have := hexist p.1 hp1 (by rw [← hp2, hpf]; exact hfav)
    rw [← hp2, hpf] at this
    exact this
  · unfold coarseGrain_
    simp only [hpass, Result.ok_bind, if_true, hmap, hcount, false_and, if_false, ne_eq,
      not_false_eq_true, Result.pure_eq]

/-- C35 on the example system with the two clusters 0 and 1: the explorer proposes the
sites 0 to 3, the map holds the two cluster ids, and the favoured cluster is the stored
cluster 0. -/
theorem merge_receives_stored_cluster_witness :
    Examples.twoClusters.getClustersOfSites
        (Examples.envWide.findBasin Examples.twoClusters.sites_ Examples.twoClusters.clusters_ 1)
      = .ok [(0, 0), (1, 0), (2, 1), (3, 1)] ∧
    getFavoredClusterId [(0, 0), (1, 0), (2, 1), (3, 1)] = 0 ∧
    (Examples.envWide.findBasin Examples.twoClusters.sites_ Examples.twoClusters.clusters_ 1
        ≠ [] ∧
      getFavoredClusterId [(0, 0), (1, 0), (2, 1), (3, 1)] ≠ constants.unassignedId ∧
      (Table.find Examples.twoClusters.clusters_
        (getFavoredClusterId [(0, 0), (1, 0), (2, 1), (3, 1)])).isSome ∧
      Examples.twoClusters.coarseGrain_ Examples.envWide 1
        = (Examples.twoClusters.mergeSitesAndClusters_ Examples.envWide
            [(0, 0), (1, 0), (2, 1), (3, 1)]
            (getFavoredClusterId [(0, 0), (1, 0), (2, 1), (3, 1)])
          >>= fun s1 => pure (true, s1))) :=
  ⟨by decide!, by decide!,
    merge_receives_stored_cluster Examples.envWide Examples.twoClusters 1
      [(0, 0), (1, 0), (2, 1), (3, 1)] (by decide!) (by decide!) (by decide!) (by decide!)
      (by decide!) (by decide!)⟩

/-! ### The threshold and its minimum -/

/-- The views of the site container after one write to a stored site. -/
theorem assign_site_views {s s1 : CoarseGrainSystem} {k : Int} {site v : Site}
    (hfind : Table.find s.sites_ k = some site)
    (hs1 : s1.sites_ = Table.assign s.sites_ k v) :
    (∀ y, occupiedAt s1 y = if y = k then some v.occupied else occupiedAt s y) ∧
    (∀ y, visitsAt s1 y = if y = k then some v.visit_frequency else visitsAt s y) ∧
    totalVisits s1 = totalVisits s - site.visit_frequency + v.visit_frequency := by
  refine ⟨fun y => ?_, fun y => ?_, ?_⟩
  · simp only [occupiedAt, hs1, Table.find_assign]
    by_cases hy : y = k
    · simp [hy]
    · simp [hy]
  · simp only [visitsAt, hs1, Table.find_assign]
    by_cases hy : y = k
    · simp [hy]
    · simp [hy]
  · simp only [totalVisits, hs1]
    have key : ∀ (m : List (Int × Site)), Table.find m k = some site →
        ((Table.assign m k v).map (fun p => p.2.visit_frequency)).sum
          = (m.map (fun p => p.2.visit_frequency)).sum - site.visit_frequency
            + v.visit_frequency := by
      intro m
      induction m with
      | nil => intro h; simp [Table.find] at h
      | cons p rest ih =>
        intro h
        obtain ⟨a, w⟩ := p
        by_cases ha : a = k
        · simp only [Table.find, ha, if_true, Option.some.injEq] at h
          subst h
          simp only [Table.assign, ha, if_true, List.map_cons, List.sum_cons]
          ring
        · simp only [Table.find, ha, if_false] at h
          simp only [Table.assign, ha, if_false, List.map_cons, List.sum_cons, ih h]
          ring
    exact key _ hfind

theorem isOccupied_occupiedAt {s : CoarseGrainSystem} {feature : Feature} {siteId : Int}
    {b : Bool} (h : s.isOccupied feature siteId = .ok b) (hown : ownSite feature siteId) :
    occupiedAt s siteId = some b := by
  cases feature with
  | site id =>
    have hid : id = siteId := hown
    subst hid
    simp only [isOccupied] at h
    obtain ⟨site, h1, h2⟩ := Result.bind_eq_ok.mp h
    simp only [Result.pure_eq, Except.ok.injEq] at h2
    simp [occupiedAt, getSite_eq_ok h1, h2]
  | cluster id =>
    simp only [isOccupied] at h
    obtain ⟨_, _, h⟩ := Result.bind_eq_ok.mp h
    obtain ⟨site, h1, h2⟩ := Result.bind_eq_ok.mp h
    simp only [Result.pure_eq, Except.ok.injEq] at h2
    simp [occupiedAt, getSite_eq_ok h1, h2]

/-- The call `vacate` clears the flag of the site and no other. -/
theorem vacate_occupiedAt {s s1 : CoarseGrainSystem} {feature : Feature} {siteId : Int}
    (h : s.vacate feature siteId = .ok s1) (hown : ownSite feature siteId) (y : Int) :
    occupiedAt s1 y = if y = siteId then some false else occupiedAt s y := by
  have key : ∀ (f : Site → Site), (∀ site, (f site).occupied = false) →
      s.modifySite siteId f = .ok s1 →
      occupiedAt s1 y = if y = siteId then some false else occupiedAt s y := by
    intro f hf hm
    obtain ⟨site, _, hocc⟩ := modifySite_occupiedAt hm
    rw [hocc y, hf]
  cases feature with
  | site id =>
    have hid : id = siteId := hown
    subst hid
    exact key _ (fun _ => rfl) h
  | cluster id =>
    simp only [vacate] at h
    obtain ⟨_, _, h2⟩ := Result.bind_eq_ok.mp h
    exact key _ (fun _ => rfl) h2

/-- The call `occupy` sets the flag of the site and no other. -/
theorem occupy_occupiedAt_eq {s s1 : CoarseGrainSystem} {feature : Feature} {siteId : Int}
    (h : s.occupy feature siteId = .ok s1) (hown : ownSite feature siteId) (y : Int) :
    occupiedAt s1 y = if y = siteId then some true else occupiedAt s y := by
  have key : ∀ (f : Site → Site), (∀ site, (f site).occupied = true) →
      s.modifySite siteId f = .ok s1 →
      occupiedAt s1 y = if y = siteId then some true else occupiedAt s y := by
    intro f hf hm
    obtain ⟨site, _, hocc⟩ := modifySite_occupiedAt hm
    rw [hocc y, hf]
  cases feature with
  | site id =>
    have hid : id = siteId := hown
    subst hid
    exact key _ (fun _ => rfl) h
  | cluster id =>
    simp only [occupy] at h
    obtain ⟨_, _, h2⟩ := Result.bind_eq_ok.mp h
    exact key _ (fun _ => rfl) h2

theorem ownSite_of_getFeature {s : CoarseGrainSystem} {siteId : Int} {feature : Feature}
    (hown : OwnDispatch s) (h : s.getFeature siteId = .ok feature) : ownSite feature siteId := by
  unfold getFeature at h
  cases hf : Table.find s.topology_features_ siteId with
  | none => simp [hf] at h
  | some f =>
    simp only [hf, Except.ok.injEq] at h
    subst h
    exact hown (siteId, f) (Table.find_some_mem _ _ _ hf)

/-- The occupation flags after the move of a hop: the site the walker is on afterwards is
occupied, the site it has left is free, and no other flag has changed. -/
theorem hopMove_occupiedAt {env : Collaborators} {s s1 : CoarseGrainSystem} {walker_id : Int}
    {walker w1 : Walker} {d : Int} (hown : OwnDispatch s)
    (h : s.hopMove env walker_id walker = .ok (s1, w1, d)) :
    ∃ occupied : Bool,
      occupiedAt s walker.potential_site_ = some occupied ∧
      w1.current_site_ = (if occupied then walker.current_site_ else walker.potential_site_) ∧
      ∀ y, occupiedAt s1 y
        = if y = w1.current_site_ then some true
          else if y = walker.current_site_ then some false
          else occupiedAt s y := by
  obtain ⟨feature, feature_to_hop_to, occupied, after, s2, s3, s4, dwell, next, _, _, _, hF, hF2,
    hocc, hafter, hv, ho, hdw, hp, hw1⟩ := hopMove_eq_ok h
  have own1 := ownSite_of_getFeature hown hF
  have own2 := ownSite_of_getFeature hown hF2
  have hcur : w1.current_site_
      = (if occupied then walker.current_site_ else walker.potential_site_) := by
    rw [hw1]
  have ownA : ownSite after
      (if occupied then walker.current_site_ else walker.potential_site_) := by
    rw [hafter]
    cases occupied with
    | true => exact own1
    | false => exact own2
  refine ⟨occupied, isOccupied_occupiedAt hocc own2, hcur, fun y => ?_⟩
  rw [pickNewSiteId_occupiedAt hp y, getDwellTime_occupiedAt hdw y,
    occupy_occupiedAt_eq ho ownA y, vacate_occupiedAt hv own1 y, hcur]

/-- The views of the site container do not depend on the cluster ids of the sites. -/
theorem setClusterIds_views (clusterId : Int) :
    ∀ (ids : List Int) (sites : List (Int × Site)),
      (∀ y, (Table.find (setClusterIds sites clusterId ids) y).map Site.occupied
        = (Table.find sites y).map Site.occupied) ∧
      (∀ y, (Table.find (setClusterIds sites clusterId ids) y).map Site.visit_frequency
        = (Table.find sites y).map Site.visit_frequency) ∧
      ((setClusterIds sites clusterId ids).map (fun p => p.2.visit_frequency)
        = sites.map (fun p => p.2.visit_frequency)) := by
  intro ids
  induction ids with
  | nil => intro sites; exact ⟨fun _ => rfl, fun _ => rfl, rfl⟩
  | cons a rest ih =>
    intro sites
    cases hf : Table.find sites a with
    | none =>
      simp only [setClusterIds, hf]
      exact ih sites
    | some site =>
      simp only [setClusterIds, hf]
      obtain ⟨g1, g2, g3⟩ := ih (Table.assign sites a { site with cluster_id := clusterId })
      refine ⟨fun y => ?_, fun y => ?_, ?_⟩
      · rw [g1, Table.find_assign]
        by_cases hy : y = a
        · simp [hy, hf]
        · simp [hy]
      · rw [g2, Table.find_assign]
        by_cases hy : y = a
        · simp [hy, hf]
        · simp [hy]
      · rw [g3]
        exact Table.map_assign_of_find _ _ _ _ _ hf rfl

theorem createCluster_features {env : Collaborators} {s s1 : CoarseGrainSystem}
    {ids : List Int} {T : ℚ} {cid : Int} (h : s.createCluster_ env ids T = .ok (cid, s1)) :
    s1.topology_features_ = dispatchAll s.topology_features_ s.cluster_id_count_ ids := by
  unfold createCluster_ at h
  obtain ⟨sites, _, h⟩ := Result.bind_eq_ok.mp h
  cases hset : s.seed_set_ with
  | false =>
    simp only [hset, Bool.false_eq_true, if_false] at h
    obtain ⟨s2, h2, h⟩ := Result.bind_eq_ok.mp h
    simp only [Result.pure_eq, Except.ok.injEq, Prod.mk.injEq] at h
    rw [← h.2, assignSitesToCluster_eq_ok _ _ _ _ h2]
    rfl
  | true =>
    simp only [hset, if_true] at h
    obtain ⟨s2, h2, h⟩ := Result.bind_eq_ok.mp h
    simp only [Result.pure_eq, Except.ok.injEq, Prod.mk.injEq] at h
    rw [← h.2, assignSitesToCluster_eq_ok _ _ _ _ h2]
    rfl

theorem mergeSitesAndClusters_features {env : Collaborators} {s s1 : CoarseGrainSystem}
    {m : List (Int × Int)} {fav : Int} (h : s.mergeSitesAndClusters_ env m fav = .ok s1) :
    s1.topology_features_ = dispatchAll s.topology_features_ fav (movedSites m fav) := by
  unfold mergeSitesAndClusters_ at h
  obtain ⟨⟨s2, iso, cids⟩, hloop, h⟩ := Result.bind_eq_ok.mp h
  obtain ⟨F, _, h⟩ := Result.bind_eq_ok.mp h
  obtain ⟨F2, _, h⟩ := Result.bind_eq_ok.mp h
  obtain ⟨hs2, _, _⟩ := mergeLoop_eq_ok fav m s s2 [] iso [] cids hloop
  rw [migrateLoop_eq_ok env fav _ _ _ h, hs2]
  rfl

/-- What `coarseGrain_` does to the site container and to the dispatch table: some sites
get a cluster id and are dispatched to that cluster. -/
theorem coarseGrain_sites_features {env : Collaborators} {s s1 : CoarseGrainSystem}
    {siteId : Int} {b : Bool} (h : s.coarseGrain_ env siteId = .ok (b, s1)) :
    ∃ (c : Int) (ids : List Int),
      s1.sites_ = setClusterIds s.sites_ c ids ∧
      s1.topology_features_ = dispatchAll s.topology_features_ c ids := by
  unfold coarseGrain_ at h
  obtain ⟨pass, _, h⟩ := Result.bind_eq_ok.mp h
  cases pass with
  | false =>
    simp only [Bool.false_eq_true, if_false, Result.pure_eq, Except.ok.injEq, Prod.mk.injEq] at h
    rw [← h.2]
    exact ⟨0, [], rfl, rfl⟩
  | true =>
    simp only [if_true] at h
    obtain ⟨m, _, h⟩ := Result.bind_eq_ok.mp h
    split at h
    · obtain ⟨⟨cid, s2⟩, hc, h⟩ := Result.bind_eq_ok.mp h
      simp only [Result.pure_eq, Except.ok.injEq, Prod.mk.injEq] at h
      rw [← h.2]
      exact ⟨_, _, createCluster_sites hc, createCluster_features hc⟩
    · split at h
      · obtain ⟨s2, hm, h⟩ := Result.bind_eq_ok.mp h
        simp only [Result.pure_eq, Except.ok.injEq, Prod.mk.injEq] at h
        rw [← h.2]
        exact ⟨_, _, mergeSitesAndClusters_sites hm, mergeSitesAndClusters_features hm⟩
      · simp only [Result.pure_eq, Except.ok.injEq, Prod.mk.injEq] at h
        rw [← h.2]
        exact ⟨0, [], rfl, rfl⟩

/-- The second part of `hop` changes neither the occupation flags nor the visit counts of
the sites, and leaves every dispatch entry that points to a site as it is. -/
theorem hopCount_views {env : Collaborators} {s s1 : CoarseGrainSystem} {d : Int}
    (h : s.hopCount env d = .ok s1) :
    (∀ y, occupiedAt s1 y = occupiedAt s y) ∧
    (∀ y, visitsAt s1 y = visitsAt s y) ∧
    totalVisits s1 = totalVisits s ∧
    (OwnDispatch s → OwnDispatch s1) := by
  obtain ⟨_, _, c3, c4⟩ := hopCount_spec h
  have hform : ∃ (c : Int) (ids : List Int),
      s1.sites_ = setClusterIds s.sites_ c ids ∧
      s1.topology_features_ = dispatchAll s.topology_features_ c ids := by
    by_cases hatt : wrapInt (s.iteration_ + 1) > s.iteration_threshold_ ∧
        s.iteration_threshold_min_ ≠ constants.inf_iterations
    · obtain ⟨b, s2, hcg, _, _, hs, _, hf⟩ := c3 hatt
      obtain ⟨c, ids, g1, g2⟩ := coarseGrain_sites_features hcg
      exact ⟨c, ids, hs.trans g1, hf.trans g2⟩
    · obtain ⟨_, _, hs, _, hf, _⟩ := c4 hatt
      exact ⟨0, [], hs, hf⟩
  obtain ⟨c, ids, hs, hf⟩ := hform
  obtain ⟨g1, g2, g3⟩ := setClusterIds_views c ids s.sites_
  refine ⟨fun y => ?_, fun y => ?_, ?_, ?_⟩
  · simp only [occupiedAt, hs, g1]
  · simp only [visitsAt, hs, g2]
  · simp only [totalVisits, hs, g3]
  · intro hown p hp
    rw [hf] at hp
    have key : ∀ (l : List Int) (features : List (Int × Feature)),
        (∀ q ∈ features, ownSite q.2 q.1) →
        ∀ q ∈ dispatchAll features c l, ownSite q.2 q.1 := by
      intro l
      induction l with
      | nil => intro features hq; exact hq
      | cons a rest ih =>
        intro features hq
        apply ih
        intro q hq2
        rcases Table.mem_assign _ _ _ _ hq2 with rfl | hq3
        · trivial
        · exact hq q hq3
    exact key ids _ hown p hp

theorem getDwellTime_site_views {env : Collaborators} {s s1 : CoarseGrainSystem} {id : Int}
    {walker_id : Int} {dwell : Option ℚ}
    (h : s.getDwellTime env (Feature.site id) walker_id = .ok (dwell, s1)) :
    (∀ y, visitsAt s1 y = visitsAt s y) ∧ totalVisits s1 = totalVisits s := by
  simp only [getDwellTime] at h
  obtain ⟨site, h1, h2⟩ := Result.bind_eq_ok.mp h
  simp only [Result.pure_eq, Except.ok.injEq, Prod.mk.injEq] at h2
  obtain ⟨_, rfl⟩ := h2
  have hs1 : ∀ v : Site, ({ s with sites_ := Table.assign s.sites_ id v } : CoarseGrainSystem).sites_
      = Table.assign s.sites_ id v := fun _ => rfl
  obtain ⟨_, g2, g3⟩ := assign_site_views (getSite_eq_ok h1)
    (hs1 { site with draws := site.draws + 1 })
  refine ⟨fun y => ?_, ?_⟩
  · rw [g2]
    by_cases hy : y = id
    · simp [hy, visitsAt, getSite_eq_ok h1]
    · simp [hy]
  · rw [g3]
    simp

theorem pickNewSiteId_site_views {env : Collaborators} {s s1 : CoarseGrainSystem} {id : Int}
    {walker_id : Int} {next : Int}
    (h : s.pickNewSiteId env (Feature.site id) walker_id = .ok (next, s1)) :
    (∀ y, visitsAt s1 y = visitsAt s y) ∧ totalVisits s1 = totalVisits s := by
  simp only [pickNewSiteId] at h
  obtain ⟨site, h1, h2⟩ := Result.bind_eq_ok.mp h
  simp only [Result.pure_eq, Except.ok.injEq, Prod.mk.injEq] at h2
  obtain ⟨_, rfl⟩ := h2
  have hs1 : ∀ v : Site, ({ s with sites_ := Table.assign s.sites_ id v } : CoarseGrainSystem).sites_
      = Table.assign s.sites_ id v := fun _ => rfl
  obtain ⟨_, g2, g3⟩ := assign_site_views (getSite_eq_ok h1)
    (hs1 { site with draws := site.draws + 1 })
  refine ⟨fun y => ?_, ?_⟩
  · rw [g2]
    by_cases hy : y = id
    · simp [hy, visitsAt, getSite_eq_ok h1]
    · simp [hy]
  · rw [g3]
    simp

theorem siteFeature_of_getFeature {s : CoarseGrainSystem} {siteId : Int} {feature : Feature}
    (hsites : SiteFeatures s) (h : s.getFeature siteId = .ok feature) :
    feature = Feature.site siteId := by
  unfold getFeature at h
  cases hf : Table.find s.topology_features_ siteId with
  | none => simp [hf] at h
  | some f =>
    simp only [hf, Except.ok.injEq] at h
    subst h
    exact hsites (siteId, f) (Table.find_some_mem _ _ _ hf)

theorem ownDispatch_of_siteFeatures {s : CoarseGrainSystem} (h : SiteFeatures s) :
    OwnDispatch s := by
  intro d hd
  rw [h d hd]
  rfl

/-- The visit counts after the move of a hop between Sites: the site the walker is on
afterwards has one visit more, and no other count has changed. -/
theorem hopMove_visits {env : Collaborators} {s s1 : CoarseGrainSystem} {walker_id : Int}
    {walker w1 : Walker} {d : Int} (hsites : SiteFeatures s)
    (h : s.hopMove env walker_id walker = .ok (s1, w1, d)) :
    (∀ y, visitsAt s1 y
      = if y = w1.current_site_ then (visitsAt s y).map (fun n => n + 1) else visitsAt s y) ∧
    totalVisits s1 = totalVisits s + 1 := by
  obtain ⟨feature, feature_to_hop_to, occupied, after, s2, s3, s4, dwell, next, _, _, _, hF, hF2,
    hocc, hafter, hv, ho, hdw, hp, hw1⟩ := hopMove_eq_ok h
  have e1 := siteFeature_of_getFeature hsites hF
  have e2 := siteFeature_of_getFeature hsites hF2
  subst e1 e2
  have hcur : w1.current_site_
      = (if occupied then walker.current_site_ else walker.potential_site_) := by
    rw [hw1]
  have eA : after = Feature.site w1.current_site_ := by
    rw [hafter, hcur]
    cases occupied <;> rfl
  rw [← hcur] at ho
  rw [eA] at ho hdw hp
  -- vacate
  have hv2 : s.modifySite walker.current_site_ _ = .ok s2 := hv
  obtain ⟨siteC, hC, hs2⟩ := modifySite_eq_ok hv2
  obtain ⟨_, v2, t2⟩ := assign_site_views hC
    (show s2.sites_ = Table.assign s.sites_ _ _ from by rw [hs2])
  -- occupy
  have ho2 : s2.modifySite w1.current_site_ _ = .ok s3 := ho
  obtain ⟨siteT, hT, hs3⟩ := modifySite_eq_ok ho2
  obtain ⟨_, v3, t3⟩ := assign_site_views hT
    (show s3.sites_ = Table.assign s2.sites_ _ _ from by rw [hs3])
  obtain ⟨v4, t4⟩ := getDwellTime_site_views hdw
  obtain ⟨v5, t5⟩ := pickNewSiteId_site_views hp
  have hv2same : ∀ y, visitsAt s2 y = visitsAt s y := by
    intro y
    rw [v2]
    by_cases hy : y = walker.current_site_
    · simp [hy, visitsAt, hC]
    · simp [hy]
  refine ⟨fun y => ?_, ?_⟩
  · rw [v5, v4, v3]
    by_cases hy : y = w1.current_site_
    · rw [if_pos hy, if_pos hy, hy, ← hv2same, visitsAt, hT]
      rfl
    · rw [if_neg hy, if_neg hy, hv2same]
  · rw [t5, t4, t3, t2]
    simp only
    ring

/-- C32: in a system whose features are all Sites, a call of `hop` that returns raises
the total of the visit counts by exactly one. When the destination is free the walker
moves there: the destination has one visit more and is occupied, and the site the walker
has left is free. When the destination is occupied the walker stays: its site has one
visit more and is occupied. No other site's visit count or occupation flag changes. -/
theorem hop_adds_one_visit (env : Collaborators) (s s1 : CoarseGrainSystem) (walker_id : Int)
    (walker w1 : Walker) (hsites : SiteFeatures s)
    (h : s.hop env walker_id walker = .ok (s1, w1)) :
    ∃ occupied : Bool,
      occupiedAt s walker.potential_site_ = some occupied ∧
      w1.current_site_ = (if occupied then walker.current_site_ else walker.potential_site_) ∧
      totalVisits s1 = totalVisits s + 1 ∧
      (∀ y, visitsAt s1 y
        = if y = w1.current_site_ then (visitsAt s y).map (fun n => n + 1)
          else visitsAt s y) ∧
      (∀ y, occupiedAt s1 y
        = if y = w1.current_site_ then some true
          else if y = walker.current_site_ then some false
          else occupiedAt s y) := by
  obtain ⟨s2, hmove, hcount⟩ := hop_eq_ok h
  obtain ⟨occupied, hocc, hcur, hflags⟩ :=
    hopMove_occupiedAt (ownDispatch_of_siteFeatures hsites) hmove
  obtain ⟨hvisits, htotal⟩ := hopMove_visits hsites hmove
  obtain ⟨c1, c2, c3, _⟩ := hopCount_views hcount
  refine ⟨occupied, hocc, hcur, by rw [c3, htotal], fun y => ?_, fun y => ?_⟩
  · rw [c2, hvisits]
  · rw [c1, hflags]

/-! ### The walkers and the occupied sites -/

theorem hop_occupiedAt {env : Collaborators} {s s1 : CoarseGrainSystem} {walker_id : Int}
    {walker w1 : Walker} (hown : OwnDispatch s)
    (h : s.hop env walker_id walker = .ok (s1, w1)) :
    OwnDispatch s1 ∧
    ∃ occupied : Bool,
      occupiedAt s walker.potential_site_ = some occupied ∧
      w1.current_site_ = (if occupied then walker.current_site_ else walker.potential_site_) ∧
      ∀ y, occupiedAt s1 y
        = if y = w1.current_site_ then some true
          else if y = walker.current_site_ then some false
          else occupiedAt s y := by
  obtain ⟨s2, hmove, hcount⟩ := hop_eq_ok h
  obtain ⟨occupied, hocc, hcur, hflags⟩ := hopMove_occupiedAt hown hmove
  obtain ⟨c1, _, _, c4⟩ := hopCount_views hcount
  have hown2 : OwnDispatch s2 := by
    intro d hd
    rw [(hopMove_sameTopology hmove).1.2.1] at hd
    exact hown d hd
  exact ⟨c4 hown2, occupied, hocc, hcur, fun y => by rw [c1, hflags]⟩

theorem removeWalkerFromSystem_occupiedAt {s s1 : CoarseGrainSystem} {walker_id : Int}
    {walker : Walker} (hown : OwnDispatch s)
    (h : s.removeWalkerFromSystem walker_id walker = .ok s1) :
    OwnDispatch s1 ∧
    ∀ y, occupiedAt s1 y
      = if y = walker.current_site_ then some false else occupiedAt s y := by
  unfold removeWalkerFromSystem at h
  obtain ⟨c, hc, h⟩ := Result.bind_eq_ok.mp h
  obtain ⟨feature, hF, h⟩ := Result.bind_eq_ok.mp h
  have hc1 : c = walker.current_site_ := by
    unfold Walker.getIdOfSiteCurrentlyOccupying at hc
    by_cases hu : walker.current_site_ = constants.unassignedId
    · simp [hu] at hc
    · simp [hu] at hc; exact hc.symm
  subst hc1
  have hv : s.vacate feature walker.current_site_ = .ok s1 := h
  refine ⟨?_, fun y => vacate_occupiedAt hv (ownSite_of_getFeature hown hF) y⟩
  intro d hd
  rw [(vacate_sameTopology hv).2.1] at hd
  exact hown d hd

/-- A `hop` of a walker held keeps the walkers on distinct sites, the occupied ones. -/
theorem walkersOnSites_hop {env : Collaborators} {s s1 : CoarseGrainSystem}
    {walkers : List (Int × Walker)} {walker_id : Int} {walker w1 : Walker}
    (hown : OwnDispatch s) (hinv : WalkersOnSites s walkers)
    (hheld : Table.find walkers walker_id = some walker)
    (h : s.hop env walker_id walker = .ok (s1, w1)) :
    OwnDispatch s1 ∧ WalkersOnSites s1 (Table.assign walkers walker_id w1) := by
  obtain ⟨hown1, occupied, hocc, hcur, hflags⟩ := hop_occupiedAt hown h
  obtain ⟨j1, j2⟩ := hinv
  have hfind : ∀ j, Table.find (Table.assign walkers walker_id w1) j
      = if j = walker_id then some w1 else Table.find walkers j :=
    fun j => Table.find_assign _ _ _ _
  have hcocc : occupiedAt s walker.current_site_ = some true :=
    (j1 _).mpr ⟨walker_id, walker, hheld, rfl⟩
  refine ⟨hown1, ?_, ?_⟩
  · intro y
    rw [hflags]
    cases occupied with
    | true =>
      simp only [if_true] at hcur
      rw [hcur]
      constructor
      · intro hy
        by_cases hyc : y = walker.current_site_
        · exact ⟨walker_id, w1, by rw [hfind, if_pos rfl], by rw [hcur, hyc]⟩
        · rw [if_neg hyc, if_neg hyc] at hy
          obtain ⟨i, w, hi, hw⟩ := (j1 y).mp hy
          have hne : i ≠ walker_id := by
            intro e
            subst e
            rw [hheld] at hi
            exact hyc (by rw [← hw, ← Option.some.inj hi])
          exact ⟨i, w, by rw [hfind, if_neg hne]; exact hi, hw⟩
      · rintro ⟨i, w, hi, hw⟩
        by_cases hyc : y = walker.current_site_
        · rw [if_pos hyc]
        · rw [if_neg hyc, if_neg hyc]
          rw [hfind] at hi
          by_cases hne : i = walker_id
          · rw [if_pos hne] at hi
            exact absurd (by rw [← hw, ← Option.some.inj hi, hcur]) hyc
          · rw [if_neg hne] at hi
            exact (j1 y).mpr ⟨i, w, hi, hw⟩
    | false =>
      simp only [Bool.false_eq_true, if_false] at hcur
      rw [hcur]
      constructor
      · intro hy
        by_cases hyp : y = walker.potential_site_
        · exact ⟨walker_id, w1, by rw [hfind, if_pos rfl], by rw [hcur, hyp]⟩
        · rw [if_neg hyp] at hy
          by_cases hyc : y = walker.current_site_
          · rw [if_pos hyc] at hy
            cases hy
          · rw [if_neg hyc] at hy
            obtain ⟨i, w, hi, hw⟩ := (j1 y).mp hy
            have hne : i ≠ walker_id := by
              intro e
              subst e
              rw [hheld] at hi
              exact hyc (by rw [← hw, ← Option.some.inj hi])
            exact ⟨i, w, by rw [hfind, if_neg hne]; exact hi, hw⟩
      · rintro ⟨i, w, hi, hw⟩
        by_cases hyp : y = walker.potential_site_
        · rw [if_pos hyp]
        · rw [if_neg hyp]
          rw [hfind] at hi
          by_cases hne : i = walker_id
          · rw [if_pos hne] at hi
            exact absurd (by rw [← hw, ← Option.some.inj hi, hcur]) hyp
          · rw [if_neg hne] at hi
            have hyc : y ≠ walker.current_site_ := by
              intro e
              exact j2 i walker_id w walker hi hheld hne (by rw [hw, e])
            rw [if_neg hyc]
            exact (j1 y).mpr ⟨i, w, hi, hw⟩
  · intro i j wi wj hi hj hij
    rw [hfind] at hi hj
    have hother : ∀ (k : Int) (w : Walker), k ≠ walker_id → Table.find walkers k = some w →
        w1.current_site_ ≠ w.current_site_ := by
      intro k w hk hw
      cases occupied with
      | true =>
        simp only [if_true] at hcur
        rw [hcur]
        exact j2 walker_id k walker w hheld hw (fun e => hk e.symm)
      | false =>
        simp only [Bool.false_eq_true, if_false] at hcur
        rw [hcur]
        intro e
        have := (j1 walker.potential_site_).mpr ⟨k, w, hw, e.symm⟩
        rw [hocc] at this
        cases this
    by_cases hi1 : i = walker_id
    · rw [if_pos hi1] at hi
      have hj1 : j ≠ walker_id := fun e => hij (hi1.trans e.symm)
      rw [if_neg hj1] at hj
      rw [← Option.some.inj hi]
      exact hother j wj hj1 hj
    · rw [if_neg hi1] at hi
      by_cases hj1 : j = walker_id
      · rw [if_pos hj1] at hj
        rw [← Option.some.inj hj]
        exact fun e => hother i wi hi1 hi e.symm
      · rw [if_neg hj1] at hj
        exact j2 i j wi wj hi hj hij

/-- The removal of a walker held keeps the other walkers on distinct sites, the occupied
ones. -/
theorem walkersOnSites_remove {s s1 : CoarseGrainSystem}
    {walkers : List (Int × Walker)} {walker_id : Int} {walker : Walker}
    (hown : OwnDispatch s) (hinv : WalkersOnSites s walkers)
    (hheld : Table.find walkers walker_id = some walker)
    (h : s.removeWalkerFromSystem walker_id walker = .ok s1) :
    OwnDispatch s1 ∧ WalkersOnSites s1 (Table.erase walkers walker_id) := by
  obtain ⟨hown1, hflags⟩ := removeWalkerFromSystem_occupiedAt hown h
  obtain ⟨j1, j2⟩ := hinv
  have hfind : ∀ j, Table.find (Table.erase walkers walker_id) j
      = if j = walker_id then none else Table.find walkers j :=
    fun j => Table.find_erase _ _ _
  refine ⟨hown1, ?_, ?_⟩
  · intro y
    rw [hflags]
    constructor
    · intro hy
      by_cases hyc : y = walker.current_site_
      · rw [if_pos hyc] at hy
        cases hy
      · rw [if_neg hyc] at hy
        obtain ⟨i, w, hi, hw⟩ := (j1 y).mp hy
        have hne : i ≠ walker_id := by
          intro e
          subst e
          rw [hheld] at hi
          exact hyc (by rw [← hw, ← Option.some.inj hi])
        exact ⟨i, w, by rw [hfind, if_neg hne]; exact hi, hw⟩
    · rintro ⟨i, w, hi, hw⟩
      rw [hfind] at hi
      by_cases hne : i = walker_id
      · rw [if_pos hne] at hi
        cases hi
      · rw [if_neg hne] at hi
        have hyc : y ≠ walker.current_site_ := by
          intro e
          exact j2 i walker_id w walker hi hheld hne (by rw [hw, e])
        rw [if_neg hyc]
        exact (j1 y).mpr ⟨i, w, hi, hw⟩
  · intro i j wi wj hi hj hij
    rw [hfind] at hi hj
    by_cases hi1 : i = walker_id
    · rw [if_pos hi1] at hi
      cases hi
    · rw [if_neg hi1] at hi
      by_cases hj1 : j = walker_id
      · rw [if_pos hj1] at hj
        cases hj
      · rw [if_neg hj1] at hj
        exact j2 i j wi wj hi hj hij

/-- A sequence of calls keeps the walkers on distinct sites, the occupied ones. -/
theorem walkersOnSites_calls (env : Collaborators) :
    ∀ (calls : List WalkerCall) (s s2 : CoarseGrainSystem) (walkers walkers2 : List (Int × Walker)),
      OwnDispatch s → WalkersOnSites s walkers →
      walkerCalls env s walkers calls = .ok (s2, walkers2) →
      OwnDispatch s2 ∧ WalkersOnSites s2 walkers2 := by
  intro calls
  induction calls with
  | nil =>
    intro s s2 walkers walkers2 hown hinv h
    simp only [walkerCalls, Except.ok.injEq, Prod.mk.injEq] at h
    obtain ⟨rfl, rfl⟩ := h
    exact ⟨hown, hinv⟩
  | cons call rest ih =>
    intro s s2 walkers walkers2 hown hinv h
    simp only [walkerCalls] at h
    obtain ⟨⟨s1, walkers1⟩, hcall, h⟩ := Result.bind_eq_ok.mp h
    have hstep : OwnDispatch s1 ∧ WalkersOnSites s1 walkers1 := by
      cases call with
      | hop walker_id =>
        simp only [walkerCall] at hcall
        cases hheld : Table.find walkers walker_id with
        | none =>
          simp only [hheld, Except.ok.injEq, Prod.mk.injEq] at hcall
          obtain ⟨rfl, rfl⟩ := hcall
          exact ⟨hown, hinv⟩
        | some walker =>
          simp only [hheld] at hcall
          obtain ⟨⟨s3, w1⟩, hhop, hcall⟩ := Result.bind_eq_ok.mp hcall
          simp only [Result.pure_eq, Except.ok.injEq, Prod.mk.injEq] at hcall
          obtain ⟨rfl, rfl⟩ := hcall
          exact walkersOnSites_hop hown hinv hheld hhop
      | remove walker_id =>
        simp only [walkerCall] at hcall
        cases hheld : Table.find walkers walker_id with
        | none =>
          simp only [hheld, Except.ok.injEq, Prod.mk.injEq] at hcall
          obtain ⟨rfl, rfl⟩ := hcall
          exact ⟨hown, hinv⟩
        | some walker =>
          simp only [hheld] at hcall
          obtain ⟨s3, hrem, hcall⟩ := Result.bind_eq_ok.mp hcall
          simp only [Result.pure_eq, Except.ok.injEq, Prod.mk.injEq] at hcall
          obtain ⟨rfl, rfl⟩ := hcall
          exact walkersOnSites_remove hown hinv hheld hrem
    exact ih s1 s2 walkers1 walkers2 hstep.1 hstep.2 h

/-- The loop body of `initializeWalkers`, when it returns: the walker keeps its site, which
is then occupied, and no other occupation flag changes. -/
theorem initializeWalker_occupiedAt {env : Collaborators} {s s1 : CoarseGrainSystem}
    {walker_id : Int} {walker w1 : Walker} (hown : OwnDispatch s)
    (h : s.initializeWalker env walker_id walker = .ok (s1, w1)) :
    OwnDispatch s1 ∧ w1.current_site_ = walker.current_site_ ∧
    ∀ y, occupiedAt s1 y
      = if y = walker.current_site_ then some true else occupiedAt s y := by
  unfold initializeWalker Walker.getIdOfSiteCurrentlyOccupying at h
  by_cases hu : walker.current_site_ = constants.unassignedId
  · simp [hu] at h
  · simp only [hu, if_false] at h
    by_cases hnone : (Table.find s.topology_features_ walker.current_site_).isNone
    · simp [hnone] at h
    · simp only [hnone, Bool.false_eq_true, if_false] at h
      obtain ⟨feature, hF, h⟩ := Result.bind_eq_ok.mp h
      obtain ⟨sA, hA, h⟩ := Result.bind_eq_ok.mp h
      obtain ⟨⟨dwell, sB⟩, hB, h⟩ := Result.bind_eq_ok.mp h
      obtain ⟨⟨next, sC⟩, hC, h⟩ := Result.bind_eq_ok.mp h
      simp only [Result.pure_eq, Except.ok.injEq, Prod.mk.injEq] at h
      obtain ⟨rfl, rfl⟩ := h
      have hsame : SameTopology s sC :=
        (occupy_sameTopology hA).trans
          ((getDwellTime_sameTopology hB).trans (pickNewSiteId_sameTopology hC))
      refine ⟨?_, rfl, fun y => ?_⟩
      · intro d hd
        rw [hsame.2.1] at hd
        exact hown d hd
      · rw [pickNewSiteId_occupiedAt hC y, getDwellTime_occupiedAt hB y,
          occupy_occupiedAt_eq hA (ownSite_of_getFeature hown hF) y]

/-- The loop of `initializeWalkers`, when it returns: the walkers keep their ids and
sites, and the occupied sites are those from before and the sites of the walkers. -/
theorem initializeWalkersLoop_occupiedAt (env : Collaborators) :
    ∀ (placed : List (Int × Walker)) (s s1 : CoarseGrainSystem)
      (walkers1 : List (Int × Walker)),
      OwnDispatch s → initializeWalkersLoop env s placed = .ok (s1, walkers1) →
      OwnDispatch s1 ∧
      walkers1.map (fun p => (p.1, p.2.current_site_))
        = placed.map (fun p => (p.1, p.2.current_site_)) ∧
      ∀ y, occupiedAt s1 y = some true ↔
        (occupiedAt s y = some true ∨ ∃ p ∈ placed, p.2.current_site_ = y) := by
  intro placed
  induction placed with
  | nil =>
    intro s s1 walkers1 hown h
    simp only [initializeWalkersLoop, Except.ok.injEq, Prod.mk.injEq] at h
    obtain ⟨rfl, rfl⟩ := h
    exact ⟨hown, rfl, fun y => by simp⟩
  | cons p rest ih =>
    intro s s1 walkers1 hown h
    obtain ⟨walker_id, walker⟩ := p
    simp only [initializeWalkersLoop] at h
    obtain ⟨⟨sA, wA⟩, hinit, h⟩ := Result.bind_eq_ok.mp h
    obtain ⟨⟨sB, wsB⟩, hloop, h⟩ := Result.bind_eq_ok.mp h
    simp only [Result.pure_eq, Except.ok.injEq, Prod.mk.injEq] at h
    obtain ⟨rfl, rfl⟩ := h
    obtain ⟨hownA, hcur, hflags⟩ := initializeWalker_occupiedAt hown hinit
    obtain ⟨hownB, hmap, hocc⟩ := ih sA sB wsB hownA hloop
    refine ⟨hownB, by simp only [List.map_cons, hmap, hcur], fun y => ?_⟩
    rw [hocc, hflags]
    by_cases hy : y = walker.current_site_
    · simp [hy]
    · have hy2 : ¬ walker.current_site_ = y := fun e => hy e.symm
      simp [hy, hy2]

/-- Walkers placed by `initializeWalkers` on pairwise distinct sites of a system without
an occupied site are on distinct sites, the occupied ones. -/
theorem walkersOnSites_initializeWalkers {env : Collaborators} {s s1 : CoarseGrainSystem}
    {placed walkers1 : List (Int × Walker)} (hown : OwnDispatch s)
    (hfree : ∀ y, occupiedAt s y ≠ some true)
    (hids : (Table.keys placed).Nodup)
    (hdistinct : (placed.map (fun p => p.2.current_site_)).Nodup)
    (h : s.initializeWalkers env placed = .ok (s1, walkers1)) :
    OwnDispatch s1 ∧ WalkersOnSites s1 walkers1 := by
  unfold initializeWalkers at h
  by_cases h0 : s.topology_features_.length = 0
  · simp [h0] at h
  · simp only [h0, if_false] at h
    obtain ⟨hown1, hmap, hocc⟩ := initializeWalkersLoop_occupiedAt env placed s s1 walkers1 hown h
    have hkeys1 : Table.keys walkers1 = Table.keys placed := by
      have := congrArg (List.map Prod.fst) hmap
      simpa [Table.keys, List.map_map, Function.comp] using this
    have hcur1 : walkers1.map (fun p => p.2.current_site_)
        = placed.map (fun p => p.2.current_site_) := by
      have := congrArg (List.map Prod.snd) hmap
      simpa [List.map_map, Function.comp] using this
    refine ⟨hown1, fun y => ?_, ?_⟩
    · rw [hocc]
      constructor
      · rintro (hy | ⟨p, hp, hpy⟩)
        · exact absurd hy (hfree y)
        · have hin : (p.1, p.2.current_site_) ∈ walkers1.map (fun p => (p.1, p.2.current_site_)) := by
            rw [hmap]
            exact List.mem_map.mpr ⟨p, hp, rfl⟩
          obtain ⟨q, hq, hqp⟩ := List.mem_map.mp hin
          simp only [Prod.mk.injEq] at hqp
          refine ⟨q.1, q.2, ?_, hqp.2.trans hpy⟩
          exact Table.mem_find_of_nodup walkers1 (hkeys1 ▸ hids) q.1 q.2 hq
      · rintro ⟨i, w, hi, hw⟩
        have hin : (i, w.current_site_) ∈ placed.map (fun p => (p.1, p.2.current_site_)) := by
          rw [← hmap]
          exact List.mem_map.mpr ⟨(i, w), Table.find_some_mem _ _ _ hi, rfl⟩
        obtain ⟨p, hp, hpq⟩ := List.mem_map.mp hin
        simp only [Prod.mk.injEq] at hpq
        exact Or.inr ⟨p, hp, hpq.2.trans hw⟩
    · intro i j wi wj hi hj hij hsame
      have hnodup : (walkers1.map (fun p => p.2.current_site_)).Nodup := hcur1 ▸ hdistinct
      have := List.inj_on_of_nodup_map hnodup (Table.find_some_mem _ _ _ hi)
        (Table.find_some_mem _ _ _ hj) hsame
      exact hij (congrArg Prod.fst this)

/-- C31: in a system whose features are all Sites and in which no site is occupied,
walkers placed by `initializeWalkers` on pairwise distinct sites, followed by any sequence
of `hop` and `removeWalkerFromSystem` calls that return, leave the occupied sites exactly
the current sites of the walkers still in the system, and no two of these walkers on the
same site. -/
theorem walkers_occupy_distinct_sites (env : Collaborators) (s s1 s2 : CoarseGrainSystem)
    (placed walkers1 walkers2 : List (Int × Walker)) (calls : List WalkerCall)
    (hsites : SiteFeatures s)
    (hfree : ∀ y, occupiedAt s y ≠ some true)
    (hids : (Table.keys placed).Nodup)
    (hdistinct : (placed.map (fun p => p.2.current_site_)).Nodup)
    (hinit : s.initializeWalkers env placed = .ok (s1, walkers1))
    (hcalls : walkerCalls env s1 walkers1 calls = .ok (s2, walkers2)) :
    (∀ y, occupiedAt s2 y = some true ↔
      ∃ i w, Table.find walkers2 i = some w ∧ w.current_site_ = y) ∧
    (∀ i j wi wj, Table.find walkers2 i = some wi → Table.find walkers2 j = some wj → i ≠ j →
      wi.current_site_ ≠ wj.current_site_) := by
  obtain ⟨hown1, hinv1⟩ := walkersOnSites_initializeWalkers
    (ownDispatch_of_siteFeatures hsites) hfree hids hdistinct hinit
  exact (walkersOnSites_calls env calls s1 s2 walkers1 walkers2 hown1 hinv1 hcalls).2

/-- C32 on the example system: the hop of walker 0 from site 0 to the free site 1 and its
hop to the occupied site 1 both return and add one visit. -/
theorem hop_adds_one_visit_witness :
    (SiteFeatures Examples.pairs ∧
      Examples.pairs.hop Examples.env 0 Examples.walker01
        = .ok (Examples.freeHop.1, Examples.freeHop.2) ∧
      SiteFeatures Examples.placedNeighbours.1 ∧
      Examples.placedNeighbours.1.hop Examples.env 0 Examples.walker01
        = .ok (Examples.blockedHop.1, Examples.blockedHop.2)) ∧
    (totalVisits Examples.pairs = 0 ∧ totalVisits Examples.freeHop.1 = 1 ∧
      visitsAt Examples.freeHop.1 1 = some 1 ∧
      totalVisits Examples.placedNeighbours.1 = 2 ∧ totalVisits Examples.blockedHop.1 = 3 ∧
      visitsAt Examples.blockedHop.1 0 = some 2) ∧
    (∃ occupied : Bool,
      occupiedAt Examples.pairs Examples.walker01.potential_site_ = some occupied ∧
      Examples.freeHop.2.current_site_
        = (if occupied then Examples.walker01.current_site_
            else Examples.walker01.potential_site_) ∧
      totalVisits Examples.freeHop.1 = totalVisits Examples.pairs + 1 ∧
      (∀ y, visitsAt Examples.freeHop.1 y
        = if y = Examples.freeHop.2.current_site_
          then (visitsAt Examples.pairs y).map (fun n => n + 1)
          else visitsAt Examples.pairs y) ∧
      (∀ y, occupiedAt Examples.freeHop.1 y
        = if y = Examples.freeHop.2.current_site_ then some true
          else if y = Examples.walker01.current_site_ then some false
          else occupiedAt Examples.pairs y)) ∧
    (∃ occupied : Bool,
      occupiedAt Examples.placedNeighbours.1 Examples.walker01.potential_site_
        = some occupied ∧
      Examples.blockedHop.2.current_site_
        = (if occupied then Examples.walker01.current_site_
            else Examples.walker01.potential_site_) ∧
      totalVisits Examples.blockedHop.1 = totalVisits Examples.placedNeighbours.1 + 1 ∧
      (∀ y, visitsAt Examples.blockedHop.1 y
        = if y = Examples.blockedHop.2.current_site_
          then (visitsAt Examples.placedNeighbours.1 y).map (fun n => n + 1)
          else visitsAt Examples.placedNeighbours.1 y) ∧
      (∀ y, occupiedAt Examples.blockedHop.1 y
        = if y = Examples.blockedHop.2.current_site_ then some true
          else if y = Examples.walker01.current_site_ then some false
          else occupiedAt Examples.placedNeighbours.1 y)) :=
  ⟨⟨by decide!, by decide!, by decide!, by decide!⟩,
    ⟨by decide!, by decide!, by decide!, by decide!, by decide!, by decide!⟩,
    hop_adds_one_visit Examples.env Examples.pairs Examples.freeHop.1 0 Examples.walker01
      Examples.freeHop.2 (by decide!) (by decide!),
    hop_adds_one_visit Examples.env Examples.placedNeighbours.1 Examples.blockedHop.1 0
      Examples.walker01 Examples.blockedHop.2 (by decide!) (by decide!)⟩

/-- C31 on the example system: two walkers are placed on the sites 0 and 2 of `pairs`;
after hops of both, the removal of walker 0 and further hops of walker 1, walker 1 is the
one walker held and its site the one occupied site. -/
theorem walkers_occupy_distinct_sites_witness :
    (SiteFeatures Examples.pairs ∧
      (∀ y, occupiedAt Examples.pairs y ≠ some true) ∧
      (Table.keys Examples.startingWalkers).Nodup ∧
      (Examples.startingWalkers.map (fun p => p.2.current_site_)).Nodup ∧
      Examples.pairs.initializeWalkers Examples.env Examples.startingWalkers
        = .ok (Examples.placedStarting.1, Examples.placedStarting.2) ∧
      walkerCalls Examples.env Examples.placedStarting.1 Examples.placedStarting.2
          Examples.someCalls
        = .ok (Examples.afterSomeCalls.1, Examples.afterSomeCalls.2)) ∧
    (Table.keys Examples.afterSomeCalls.2 = [1] ∧
      (Examples.afterSomeCalls.1.sites_.filter (fun p => p.2.occupied)).map Prod.fst
        = (Examples.afterSomeCalls.2.map (fun p => p.2.current_site_))) ∧
    (∀ y, occupiedAt Examples.afterSomeCalls.1 y = some true ↔
      ∃ i w, Table.find Examples.afterSomeCalls.2 i = some w ∧ w.current_site_ = y) ∧
    (∀ i j wi wj, Table.find Examples.afterSomeCalls.2 i = some wi →
      Table.find Examples.afterSomeCalls.2 j = some wj → i ≠ j →
      wi.current_site_ ≠ wj.current_site_) :=
  have hfree : ∀ y, occupiedAt Examples.pairs y ≠ some true := by
    intro y hy
    unfold occupiedAt at hy
    cases hfind : Table.find Examples.pairs.sites_ y with
    | none => simp [hfind] at hy
    | some site =>
      have hmem := Table.find_some_mem _ _ _ hfind
      have hall : ∀ p ∈ Examples.pairs.sites_, p.2.occupied = false := by decide!
      have hsite : site.occupied = false := hall _ hmem
      simp [hfind] at hy
      simp [hsite] at hy
  ⟨⟨by decide!, hfree, by decide!, by decide!, by decide!, by decide!⟩,
    ⟨by decide!, by decide!⟩,
    walkers_occupy_distinct_sites Examples.env Examples.pairs Examples.placedStarting.1
      Examples.afterSomeCalls.1 Examples.startingWalkers Examples.placedStarting.2
      Examples.afterSomeCalls.2 Examples.someCalls (by decide!) hfree (by decide!)
      (by decide!) (by decide!) (by decide!)⟩

end CoarseGrainSystem

end mythical
